import Mathlib

/-! If-conversion (`src/coreclr/jit/ifconversion.cpp`).

A shallow embedding of the JIT's if-conversion phase.  Basic blocks are
addressed by natural numbers (a nullable `BasicBlock*` is an `Option Nat`),
statements are the root trees of a block's statement list, and the members of
`OptIfConversionDsc` are carried in a record that the member functions read and
update.  A result of `none` stands for a run that does not return normally
(a null dereference, a `noway_assert`, or a walk that never ends).

Host code that the phase calls but that is not part of `ifconversion.cpp` (block
and tree queries, tree construction, edge removal) is modelled from its
description and marked as such.  Debug-only `assert`s do not change what a
release build computes and are not part of the functions below.  Evaluation
order, statement sequencing and edge profile weights (`gtSetEvalOrder`,
`fgSetStmtSeq`, `fgRepairProfileCondToUncond`) are not represented; the cost model
and the reachability query are parameters.
-/

namespace IfConversion

/-! ## Host IR: operators, types, trees -/

/-- Node operators (`genTreeOps`), restricted to those the phase inspects plus a few others. -/
inductive genTreeOps where
  | GT_NONE | GT_COUNT | GT_NOP
  | GT_LCL_VAR | GT_LCL_FLD | GT_LCL_ADDR | GT_STORE_LCL_VAR | GT_STORE_LCL_FLD
  | GT_CNS_INT | GT_CNS_DBL | GT_PHI
  | GT_RETURN | GT_JTRUE | GT_CALL | GT_IND | GT_NEG | GT_NOT
  | GT_ADD | GT_SUB | GT_MUL | GT_OR | GT_XOR | GT_AND
  | GT_LSH | GT_RSH | GT_RSZ | GT_ROL | GT_ROR
  | GT_EQ | GT_NE | GT_LT | GT_LE | GT_GE | GT_GT | GT_TEST_EQ | GT_TEST_NE
  | GT_SELECT
  deriving DecidableEq, Repr

/-- Value types (`var_types`). -/
inductive var_types where
  | TYP_UNDEF | TYP_VOID | TYP_BYTE | TYP_UBYTE | TYP_SHORT | TYP_USHORT
  | TYP_INT | TYP_UINT | TYP_LONG | TYP_ULONG
  | TYP_FLOAT | TYP_DOUBLE | TYP_REF | TYP_BYREF | TYP_STRUCT
  deriving DecidableEq, Repr

open genTreeOps var_types

/-- Expression trees (`GenTree`).  `leaf` carries the local number (for local
nodes) and the integer value (for `GT_CNS_INT`); `unary` carries the local
number stored to (for `GT_STORE_LCL_VAR`); `ternary` is a conditional node. -/
inductive GenTree where
  | leaf (oper : genTreeOps) (type : var_types) (gtFlags : Nat) (lclNum : Nat) (iconValue : Int)
  | unary (oper : genTreeOps) (type : var_types) (gtFlags : Nat) (lclNum : Nat) (op1 : GenTree)
  | binary (oper : genTreeOps) (type : var_types) (gtFlags : Nat) (op1 op2 : GenTree)
  | ternary (oper : genTreeOps) (type : var_types) (gtFlags : Nat) (cond op1 op2 : GenTree)
  deriving DecidableEq, Repr

namespace GenTree

instance : Inhabited GenTree := ⟨.leaf GT_NOP TYP_VOID 0 0 0⟩

def OperGet : GenTree → genTreeOps
  | leaf o _ _ _ _ => o
  | unary o _ _ _ _ => o
  | binary o _ _ _ _ => o
  | ternary o _ _ _ _ _ => o

def TypeGet : GenTree → var_types
  | leaf _ t _ _ _ => t
  | unary _ t _ _ _ => t
  | binary _ t _ _ _ => t
  | ternary _ t _ _ _ _ => t

def gtFlags : GenTree → Nat
  | leaf _ _ f _ _ => f
  | unary _ _ f _ _ => f
  | binary _ _ f _ _ => f
  | ternary _ _ f _ _ _ => f

/-- First operand (`gtGetOp1`, `AsLclVar()->Data()`, `GetReturnValue()`); null on a leaf. -/
def gtGetOp1 : GenTree → Option GenTree
  | leaf _ _ _ _ _ => none
  | unary _ _ _ _ a => some a
  | binary _ _ _ a _ => some a
  | ternary _ _ _ _ a _ => some a

/-- Second operand (`gtGetOp2`). -/
def gtGetOp2 : GenTree → Option GenTree
  | binary _ _ _ _ b => some b
  | ternary _ _ _ _ _ b => some b
  | _ => none

def GetLclNum : GenTree → Nat
  | leaf _ _ _ n _ => n
  | unary _ _ _ n _ => n
  | _ => 0

def IntegralValue : GenTree → Int
  | leaf _ _ _ _ v => v
  | _ => 0

def OperIs (t : GenTree) (o : genTreeOps) : Bool := t.OperGet == o

def TypeIs (t : GenTree) (ty : var_types) : Bool := t.TypeGet == ty

end GenTree

/-! ### Effect flags (`gentree.h`) -/

def GTF_ASG : Nat := 0x1
def GTF_CALL : Nat := 0x2
def GTF_EXCEPT : Nat := 0x4
def GTF_GLOB_REF : Nat := 0x8
def GTF_ORDER_SIDEEFF : Nat := 0x10
def GTF_SIDE_EFFECT : Nat := GTF_ASG ||| GTF_CALL ||| GTF_EXCEPT
def GTF_ALL_EFFECT : Nat := GTF_SIDE_EFFECT ||| GTF_GLOB_REF ||| GTF_ORDER_SIDEEFF

/-! ### Operator and type predicates of the host -/

/-- Modelled from the spec: `GenTree::OperIsCompare` (host header, not in the
sources): the relational operators, "compare" in the spec's operator list. -/
def OperIsCompare (o : genTreeOps) : Bool :=
  o == GT_EQ || o == GT_NE || o == GT_LT || o == GT_LE || o == GT_GE || o == GT_GT ||
  o == GT_TEST_EQ || o == GT_TEST_NE

/-- Modelled from the spec: `GenTree::OperIsLocal` (host header): reads and stores of a local. -/
def OperIsLocal (o : genTreeOps) : Bool :=
  o == GT_LCL_VAR || o == GT_LCL_FLD || o == GT_STORE_LCL_VAR || o == GT_STORE_LCL_FLD

/-- Modelled from the spec: `GenTree::OperIsAnyLocal` (host header): `OperIsLocal` or a local's address. -/
def OperIsAnyLocal (o : genTreeOps) : Bool := OperIsLocal o || o == GT_LCL_ADDR

/-- Modelled from the spec: `GenTree::OperIsShift` (host header). -/
def OperIsShift (o : genTreeOps) : Bool := o == GT_LSH || o == GT_RSH || o == GT_RSZ

/-- Modelled from the spec: `GenTree::OperIsCommutative` (host header). -/
def OperIsCommutative (o : genTreeOps) : Bool :=
  o == GT_ADD || o == GT_MUL || o == GT_OR || o == GT_XOR || o == GT_AND

/-- Modelled from the spec: `GenTree::IsIntegralConst()` (host header): an integer constant node. -/
def GenTree.IsIntegralConst (t : GenTree) : Bool := t.OperGet == GT_CNS_INT

/-- Modelled from the spec: `GenTree::IsIntegralConst(value)` (host header). -/
def GenTree.IsIntegralConstVal (t : GenTree) (v : Int) : Bool :=
  t.IsIntegralConst && t.IntegralValue == v

/-- Modelled from the spec: `GenTree::IsInvariant` (host header): "compile-time constant"
(a constant node or the address of a local). -/
def GenTree.IsInvariant (t : GenTree) : Bool :=
  t.OperGet == GT_CNS_INT || t.OperGet == GT_CNS_DBL || t.OperGet == GT_LCL_ADDR

/-- Modelled from the spec: `varTypeIsIntegralOrI` (host header): "integral-or-pointer-sized
type (explicitly excludes floating point)". -/
def varTypeIsIntegralOrI (t : var_types) : Bool :=
  t == TYP_BYTE || t == TYP_UBYTE || t == TYP_SHORT || t == TYP_USHORT ||
  t == TYP_INT || t == TYP_UINT || t == TYP_LONG || t == TYP_ULONG ||
  t == TYP_REF || t == TYP_BYREF

/-- Modelled from the spec: `varTypeIsLong` (host header): the "wide integer types". -/
def varTypeIsLong (t : var_types) : Bool := t == TYP_LONG || t == TYP_ULONG

/-- Modelled from the spec: `genActualType` (host header): the "actual (promoted) type";
small integer types widen to `TYP_INT`. -/
def genActualType (t : var_types) : var_types :=
  if t == TYP_BYTE || t == TYP_UBYTE || t == TYP_SHORT || t == TYP_USHORT || t == TYP_UINT
  then TYP_INT else if t == TYP_ULONG then TYP_LONG else t

/-! ## Host IR: blocks and the flow graph -/

inductive BBKinds where
  | BBJ_COND | BBJ_ALWAYS | BBJ_RETURN | BBJ_THROW | BBJ_SWITCH
  deriving DecidableEq, Repr

open BBKinds

/-- A basic block.  `bbPreds` lists the source block of every predecessor edge;
`bbStmtList` lists the root node of every statement, first to last. -/
structure BasicBlock where
  bbKind : BBKinds
  bbTrueTarget : Option Nat
  bbFalseTarget : Option Nat
  bbTarget : Option Nat
  bbPreds : List Nat
  bbStmtList : List GenTree
  bbTryIndex : Nat
  bbHndIndex : Nat
  bbWeight : Rat
  bbPrev : Option Nat
  deriving DecidableEq

instance : Inhabited BasicBlock :=
  ⟨⟨BBJ_THROW, none, none, none, [], [], 0, 0, 0, none⟩⟩

/-- The flow graph: every block pointer is an index into it. -/
abbrev Graph := Nat → BasicBlock

namespace BasicBlock

def KindIs (b : BasicBlock) (k : BBKinds) : Bool := b.bbKind == k

/-- Modelled from the spec: `BasicBlock::GetUniqueSucc` (host, not in the sources):
the "unique-successor query"; only an unconditional branch has one. -/
def GetUniqueSucc (b : BasicBlock) : Option Nat :=
  if b.bbKind = BBJ_ALWAYS then b.bbTarget else none

/-- Modelled from the spec: `BasicBlock::GetUniquePred` (host, not in the sources):
the "unique-predecessor query"; the source of the only predecessor edge, if there is exactly one. -/
def GetUniquePred (b : BasicBlock) : Option Nat :=
  match b.bbPreds with
  | [p] => some p
  | _ => none

/-- Modelled from the spec: `BasicBlock::NumSucc` (host, not in the sources) on a
conditional block: two successors unless both edges lead to the same block. -/
def NumSucc (b : BasicBlock) : Nat :=
  match b.bbKind with
  | BBJ_COND => if b.bbTrueTarget = b.bbFalseTarget then 1 else 2
  | BBJ_ALWAYS => 1
  | _ => 0

/-- Modelled from the spec: `BasicBlock::sameEHRegion` (host, not in the sources):
the "exception-region-equality test". -/
def sameEHRegion (a b : BasicBlock) : Bool :=
  a.bbTryIndex == b.bbTryIndex && a.bbHndIndex == b.bbHndIndex

end BasicBlock

/-! ## The conversion descriptor (`OptIfConversionDsc`) -/

/-- The node, statement and block of an operation.  A statement is named by its
position in its block's statement list. -/
structure IfConvertOperation where
  block : Option Nat := none
  stmt : Option Nat := none
  node : Option GenTree := none
  deriving DecidableEq

/-- The members of `OptIfConversionDsc`. -/
structure OptIfConversionDsc where
  m_startBlock : Nat
  m_finalBlock : Option Nat := none
  m_cond : GenTree := default
  m_thenOperation : IfConvertOperation := {}
  m_elseOperation : IfConvertOperation := {}
  m_checkLimit : Nat := 4
  m_mainOper : genTreeOps := GT_COUNT
  m_doElseConversion : Bool := false
  m_flowFound : Bool := false
  deriving DecidableEq

/-! ## Flow matcher -/

/-- `OptIfConversionDsc::IfConvertCheckInnerBlockFlow`. -/
def IfConvertCheckInnerBlockFlow (g : Graph) (d : OptIfConversionDsc) (block : Nat) : Bool :=
  if !(((g block).GetUniqueSucc != none) ||
        (d.m_doElseConversion && (g block).KindIs BBJ_RETURN)) then false
  else if (g block).GetUniquePred == none then false
  else if !BasicBlock.sameEHRegion (g block) (g d.m_startBlock) then false
  else true

/-- The `for` loop of `IfConvertCheckThenFlow`; the first argument counts the
iterations that remain. -/
def IfConvertCheckThenFlow.loop (g : Graph) (d : OptIfConversionDsc) :
    Nat → Nat → Bool × OptIfConversionDsc
  | 0, _ => (true, d)
  | n + 1, thenBlock =>
    if !IfConvertCheckInnerBlockFlow g d thenBlock then (true, d)
    else
      let thenBlockNext := (g thenBlock).GetUniqueSucc
      if thenBlockNext = d.m_finalBlock then
        (true, { d with
          m_flowFound := true
          m_mainOper := if (g thenBlock).KindIs BBJ_RETURN then GT_RETURN else GT_STORE_LCL_VAR })
      else
        match thenBlockNext with
        | none => (false, d)
        | some nb => IfConvertCheckThenFlow.loop g d n nb

/-- `OptIfConversionDsc::IfConvertCheckThenFlow`. -/
def IfConvertCheckThenFlow (g : Graph) (d : OptIfConversionDsc) :
    Option (Bool × OptIfConversionDsc) :=
  let d1 := { d with m_flowFound := false }
  match (g d.m_startBlock).bbFalseTarget with
  | none => none
  | some thenBlock => some (IfConvertCheckThenFlow.loop g d1 d1.m_checkLimit thenBlock)

/-- The `for` loop of `IfConvertFindFlow`; the first argument counts the
iterations that remain. -/
def IfConvertFindFlow.loop (g : Graph) : Nat → OptIfConversionDsc → Option OptIfConversionDsc
  | 0, d => some d
  | n + 1, d =>
    match d.m_finalBlock with
    | none => some d
    | some elseBlock =>
      if !IfConvertCheckInnerBlockFlow g d elseBlock then some d
      else
        match IfConvertCheckThenFlow g { d with m_finalBlock := (g elseBlock).GetUniqueSucc } with
        | none => none
        | some (ok, d2) =>
          if !ok || d2.m_flowFound then some d2 else IfConvertFindFlow.loop g n d2

/-- `OptIfConversionDsc::IfConvertFindFlow`. -/
def IfConvertFindFlow (g : Graph) (d : OptIfConversionDsc) : Option OptIfConversionDsc :=
  match IfConvertCheckThenFlow g
      { d with m_doElseConversion := false, m_finalBlock := (g d.m_startBlock).bbTrueTarget } with
  | none => none
  | some (ok, d1) =>
    if !ok || d1.m_flowFound then some d1
    else IfConvertFindFlow.loop g d1.m_checkLimit { d1 with m_doElseConversion := true }

/-! ## Host services -/

/-- The parts of `Compiler` and of the build configuration the phase consults.
`GetCostEx` and `gtIsLikelyRegVar` are the cost model, `optReachable` the
reachability query, the two `stress` fields the answers of `compStressCompile`
for `STRESS_IF_CONVERSION_COST` and `STRESS_IF_CONVERSION_INNER_LOOPS`. -/
structure Compiler where
  TARGET_64BIT : Bool
  TARGET_RISCV64 : Bool
  stressCost : Bool
  stressInnerLoops : Bool
  GetCostEx : GenTree → Int
  gtIsLikelyRegVar : GenTree → Bool
  optReachable : Graph → Option Nat → Nat → Bool

/-- `BB_UNITY_WEIGHT` (host header). -/
def BB_UNITY_WEIGHT : Rat := 100

/-- The value of `BB_UNITY_WEIGHT * 1.05`, the weight above which a block counts as
being inside a loop. -/
def loopWeightLimit : Rat := 105

/-! ## Statement validator -/

/-- Outcome of one step of a loop whose body may `return false`. -/
inductive Step (α : Type) where
  | fault
  | stop (a : α)
  | next (a : α)
  deriving DecidableEq

/-- The `switch` of `IfConvertCheckStmts` on one statement `stmt` (position
`idx` of `block`): `stop` is `return false`, `next` carries `found` and
`*foundOperation` into the following statement. -/
def IfConvertCheckStmts.stmt (comp : Compiler) (d : OptIfConversionDsc) (block idx : Nat)
    (tree : GenTree) (st : Bool × IfConvertOperation) : Step (Bool × IfConvertOperation) :=
  match tree.OperGet with
  | GT_STORE_LCL_VAR =>
    if st.1 then .stop st
    else if !varTypeIsIntegralOrI tree.TypeGet then .stop st
    else if !comp.TARGET_64BIT && varTypeIsLong tree.TypeGet then .stop st
    else
      match tree.gtGetOp1 with
      | none => .fault
      | some op1 =>
        if (op1.gtFlags &&& (GTF_SIDE_EFFECT ||| GTF_ORDER_SIDEEFF)) != 0 then .stop st
        else if op1.OperIs GT_PHI then .stop st
        else if ((d.m_cond.gtFlags &&& GTF_ORDER_SIDEEFF) != 0) && !op1.IsInvariant &&
            !OperIsLocal op1.OperGet then .stop st
        else .next (true, { block := some block, stmt := some idx, node := some tree })
  | GT_RETURN =>
    if !d.m_doElseConversion then .stop st
    else
      match tree.gtGetOp1 with
      | none => .stop st
      | some retVal =>
        if st.1 then .stop st
        else if !varTypeIsIntegralOrI tree.TypeGet then .stop st
        else if !comp.TARGET_64BIT && varTypeIsLong tree.TypeGet then .stop st
        else if (retVal.gtFlags &&& (GTF_SIDE_EFFECT ||| GTF_ORDER_SIDEEFF)) != 0 then .stop st
        else if ((d.m_cond.gtFlags &&& GTF_ORDER_SIDEEFF) != 0) && !retVal.IsInvariant &&
            !OperIsLocal retVal.OperGet then .stop st
        else .next (true, { block := some block, stmt := some idx, node := some tree })
  | GT_NOP => .next st
  | _ => .stop st

/-- The inner `for` of `IfConvertCheckStmts` over the statements of `block`, from position `idx`. -/
def IfConvertCheckStmts.stmts (comp : Compiler) (d : OptIfConversionDsc) (block : Nat) :
    List GenTree → Nat → Bool × IfConvertOperation → Step (Bool × IfConvertOperation)
  | [], _, st => .next st
  | tree :: rest, idx, st =>
    match IfConvertCheckStmts.stmt comp d block idx tree st with
    | .next st1 => IfConvertCheckStmts.stmts comp d block rest (idx + 1) st1
    | .stop st1 => .stop st1
    | .fault => .fault

/-- The outer `for` of `IfConvertCheckStmts` over the blocks of the chain.  The
source loop has no bound; `fuel` bounds the number of blocks visited, and the
walk faults when it is used up before `m_finalBlock` is reached, as it does on
a null block. -/
def IfConvertCheckStmts.blocks (comp : Compiler) (g : Graph) (d : OptIfConversionDsc) :
    Nat → Option Nat → Bool × IfConvertOperation → Step (Bool × IfConvertOperation)
  | 0, block, st => if block = d.m_finalBlock then .next st else .fault
  | fuel + 1, block, st =>
    if block = d.m_finalBlock then .next st
    else
      match block with
      | none => .fault
      | some b =>
        match IfConvertCheckStmts.stmts comp d b (g b).bbStmtList 0 st with
        | .next st1 => IfConvertCheckStmts.blocks comp g d fuel (g b).GetUniqueSucc st1
        | .stop st1 => .stop st1
        | .fault => .fault

/-- `OptIfConversionDsc::IfConvertCheckStmts`: the returned pair is the `bool`
result and the final `*foundOperation`. -/
def IfConvertCheckStmts (comp : Compiler) (g : Graph) (d : OptIfConversionDsc) (fuel : Nat)
    (fromBlock : Option Nat) (foundOperation : IfConvertOperation) :
    Option (Bool × IfConvertOperation) :=
  match IfConvertCheckStmts.blocks comp g d fuel fromBlock (false, foundOperation) with
  | .next (found, op) => some (found, op)
  | .stop (_, op) => some (false, op)
  | .fault => none

/-! ## Tree construction and mutation services of the host -/

/-- Modelled from the spec: `GenTree::ReverseRelop` (host, not in the sources): the
operator of the "logically-negated condition". -/
def ReverseRelop : genTreeOps → genTreeOps
  | GT_EQ => GT_NE
  | GT_NE => GT_EQ
  | GT_LT => GT_GE
  | GT_GE => GT_LT
  | GT_LE => GT_GT
  | GT_GT => GT_LE
  | GT_TEST_EQ => GT_TEST_NE
  | GT_TEST_NE => GT_TEST_EQ
  | o => o

def GenTree.SetOper : GenTree → genTreeOps → GenTree
  | .leaf _ t f n v, o => .leaf o t f n v
  | .unary _ t f n a, o => .unary o t f n a
  | .binary _ t f a b, o => .binary o t f a b
  | .ternary _ t f c a b, o => .ternary o t f c a b

def GenTree.SetFlags : GenTree → Nat → GenTree
  | .leaf o t _ n v, f => .leaf o t f n v
  | .unary o t _ n a, f => .unary o t f n a
  | .binary o t _ a b, f => .binary o t f a b
  | .ternary o t _ c a b, f => .ternary o t f c a b

/-- Modelled from the spec: `Compiler::gtReverseCond` (host, not in the sources):
"logically-negated condition"; a relational operator is replaced by its reverse. -/
def gtReverseCond (tree : GenTree) : GenTree :=
  if OperIsCompare tree.OperGet then tree.SetOper (ReverseRelop tree.OperGet)
  else .unary GT_NOT TYP_INT (tree.gtFlags &&& GTF_ALL_EFFECT) 0 tree

/-- Modelled from the spec: `Compiler::gtNewOperNode` (host): "build binary nodes"; the
node carries its operands' effect flags. -/
def gtNewOperNode (oper : genTreeOps) (type : var_types) (op1 op2 : GenTree) : GenTree :=
  .binary oper type ((op1.gtFlags &&& GTF_ALL_EFFECT) ||| (op2.gtFlags &&& GTF_ALL_EFFECT)) op1 op2

/-- Modelled from the spec: `Compiler::gtNewConditionalNode` (host): "generic ternary select
node", carrying its operands' effect flags. -/
def gtNewConditionalNode (oper : genTreeOps) (cond op1 op2 : GenTree) (type : var_types) :
    GenTree :=
  .ternary oper type ((cond.gtFlags &&& GTF_ALL_EFFECT) ||| (op1.gtFlags &&& GTF_ALL_EFFECT) |||
    (op2.gtFlags &&& GTF_ALL_EFFECT)) cond op1 op2

/-- Modelled from the spec: `Compiler::gtNewLclVarNode` (host): "a read of the same local slot". -/
def gtNewLclVarNode (lclNum : Nat) (type : var_types) : GenTree :=
  .leaf GT_LCL_VAR type 0 lclNum 0

/-- Modelled from the spec: `GenTree::gtBashToNOP` (host): "convert a node to no-op". -/
def gtBashToNOP (_tree : GenTree) : GenTree := .leaf GT_NOP TYP_VOID 0 0 0

/-- Replace both operands of a binary node (`AsOp()->gtOp1 = …; AsOp()->gtOp2 = …`). -/
def GenTree.setOps : GenTree → GenTree → GenTree → GenTree
  | .binary o t f _ _, a, b => .binary o t f a b
  | t, _, _ => t

/-- Replace the first operand of a store or return (`Data() = …`, `SetReturnValue`). -/
def GenTree.setOp1 : GenTree → GenTree → GenTree
  | .unary o t f n _, a => .unary o t f n a
  | .binary o t f _ b, a => .binary o t f a b
  | .ternary o t f c _ b, a => .ternary o t f c a b
  | .leaf o t f n _, a => .unary o t f n a

/-- `GenTree::AddAllEffectsFlags`. -/
def GenTree.AddAllEffectsFlags (t source : GenTree) : GenTree :=
  t.SetFlags (t.gtFlags ||| (source.gtFlags &&& GTF_ALL_EFFECT))

/-- `SetIntegralValue` on an integer constant. -/
def GenTree.SetIntegralValue : GenTree → Int → GenTree
  | .leaf o t f n _, v => .leaf o t f n v
  | t, _ => t

/-! ## Fixed-width integers -/

/-- Reduce to the signed 64-bit range (two's complement). -/
def wrap64 (x : Int) : Int := (x + 2 ^ 63) % 2 ^ 64 - 2 ^ 63

/-- Reduce to the signed 32-bit range (two's complement): `int64_t(int32_t(x))`. -/
def wrap32 (x : Int) : Int := (x + 2 ^ 31) % 2 ^ 32 - 2 ^ 31

/-- `BitOperations::Log2` of an unsigned value (0 for 0). -/
def Log2 (x : Int) : Nat := Nat.log2 x.toNat

/-! ## Peephole rewriter -/

structure IntConstSelectOper where
  oper : genTreeOps
  type : var_types := TYP_UNDEF
  bitIndex : Nat := 0
  deriving DecidableEq, Repr

def IntConstSelectOper.isMatched (s : IntConstSelectOper) : Bool := s.oper != GT_NONE

/-- `MatchIntConstSelectValues` on two `int64_t` values. -/
def MatchIntConstSelectValues (trueVal falseVal : Int) : IntConstSelectOper :=
  if trueVal = wrap64 (falseVal + 1) then { oper := GT_ADD, type := TYP_LONG }
  else if trueVal = wrap32 (wrap32 falseVal + 1) then { oper := GT_ADD, type := TYP_INT }
  else if falseVal = 0 ∧ trueVal = wrap64 (2 ^ Log2 (trueVal % 2 ^ 64)) then
    { oper := GT_LSH, type := TYP_LONG, bitIndex := Log2 (trueVal % 2 ^ 64) }
  else if falseVal = 0 ∧ trueVal = wrap32 (2 ^ Log2 (trueVal % 2 ^ 32)) then
    { oper := GT_LSH, type := TYP_INT, bitIndex := Log2 (trueVal % 2 ^ 32) }
  else if trueVal = wrap64 (falseVal * 2) then { oper := GT_LSH, type := TYP_LONG }
  else if trueVal = wrap32 (wrap32 falseVal * 2) then { oper := GT_LSH, type := TYP_INT }
  else if trueVal = falseVal / 2 then { oper := GT_RSH, type := TYP_LONG }
  else if trueVal = wrap32 falseVal / 2 then { oper := GT_RSH, type := TYP_INT }
  else if trueVal = wrap64 (falseVal % 2 ^ 64 / 2) then { oper := GT_RSZ, type := TYP_LONG }
  else if trueVal = falseVal % 2 ^ 32 / 2 then { oper := GT_RSZ, type := TYP_INT }
  else { oper := GT_NONE }

/-- `OptIfConversionDsc::TryTransformSelectOperOrLocal`.  The outer `none` is a
dereference of a missing operand; `some none` is the null result. -/
def TryTransformSelectOperOrLocal (d : OptIfConversionDsc) (trueInput falseInput : GenTree) :
    Option (Option GenTree) :=
  let isCondReversed := !OperIsAnyLocal falseInput.OperGet
  let oper := if isCondReversed then falseInput else trueInput
  let lcl := if isCondReversed then trueInput else falseInput
  if OperIsAnyLocal lcl.OperGet &&
      (oper.OperIs GT_ADD || oper.OperIs GT_OR || oper.OperIs GT_XOR || OperIsShift oper.OperGet) then
    match oper.gtGetOp1, oper.gtGetOp2 with
    | some a, some b =>
      let swapped := OperIsCommutative oper.OperGet && !b.IsIntegralConst
      let lcl2 := if swapped then b else a
      let one := if swapped then a else b
      let isDecrement := oper.OperIs GT_ADD && one.IsIntegralConstVal (-1)
      if one.IsIntegralConstVal 1 || isDecrement then
        let lclNum := lcl.GetLclNum
        if lcl2.OperIs GT_LCL_VAR && lcl2.GetLclNum == lclNum then
          let oper1 := oper.setOps lcl2 (if isCondReversed then gtReverseCond d.m_cond else d.m_cond)
          let oper2 := if isDecrement then oper1.SetOper GT_SUB else oper1
          some (some (oper2.SetFlags (oper2.gtFlags ||| (d.m_cond.gtFlags &&& GTF_ALL_EFFECT))))
        else some none
      else some none
    | _, _ => none
  else some none

/-- `OptIfConversionDsc::TryTransformSelectOperOrZero`. -/
def TryTransformSelectOperOrZero (d : OptIfConversionDsc) (trueInput falseInput : GenTree) :
    Option (Option GenTree) :=
  let isCondReversed := !falseInput.IsIntegralConst
  let oper := if isCondReversed then falseInput else trueInput
  let zero := if isCondReversed then trueInput else falseInput
  if zero.IsIntegralConstVal 0 && (oper.OperIs GT_AND || oper.OperIs GT_LSH) then
    match oper.gtGetOp1, oper.gtGetOp2 with
    | some a, some b =>
      let swapped := OperIsCommutative oper.OperGet && !a.IsIntegralConst
      let one := if swapped then b else a
      let expr := if swapped then a else b
      if one.IsIntegralConstVal 1 then
        let oper1 := oper.setOps (if isCondReversed then gtReverseCond d.m_cond else d.m_cond) expr
        some (some (oper1.SetFlags (oper1.gtFlags ||| (d.m_cond.gtFlags &&& GTF_ALL_EFFECT))))
      else some none
    | _, _ => none
  else some none

/-- `OptIfConversionDsc::TryTransformSelectToOrdinaryOps`; `trueInput` is null
when there is no else expression. -/
def TryTransformSelectToOrdinaryOps (comp : Compiler) (d : OptIfConversionDsc)
    (trueInput : Option GenTree) (falseInput : GenTree) : Option (Option GenTree) :=
  match trueInput with
  | some ti =>
    if ti.IsIntegralConst && falseInput.IsIntegralConst then
      let trueVal := ti.IntegralValue
      let falseVal := falseInput.IntegralValue
      if ti.TypeIs TYP_INT && falseInput.TypeIs TYP_INT && trueVal == 1 && falseVal == 0 then
        some (some d.m_cond)
      else if ti.TypeIs TYP_INT && falseInput.TypeIs TYP_INT && trueVal == 0 && falseVal == 1 then
        some (some (gtReverseCond d.m_cond))
      else if comp.TARGET_RISCV64 then
        let first := MatchIntConstSelectValues trueVal falseVal
        let isCondReversed := !first.isMatched
        let selectOper := if isCondReversed then MatchIntConstSelectValues falseVal trueVal else first
        if selectOper.isMatched then
          let left := if isCondReversed then ti else falseInput
          let right := if isCondReversed then gtReverseCond d.m_cond else d.m_cond
          if selectOper.bitIndex > 0 then
            some (some (gtNewOperNode selectOper.oper selectOper.type right
              (left.SetIntegralValue selectOper.bitIndex)))
          else some (some (gtNewOperNode selectOper.oper selectOper.type left right))
        else some none
      else some none
    else if comp.TARGET_RISCV64 then
      match TryTransformSelectOperOrLocal d ti falseInput with
      | none => none
      | some (some transformed) => some (some transformed)
      | some none => TryTransformSelectOperOrZero d ti falseInput
    else some none
  | none =>
    if comp.TARGET_RISCV64 then
      match d.m_thenOperation.node with
      | none => none
      | some ti =>
        match TryTransformSelectOperOrLocal d ti falseInput with
        | none => none
        | some (some transformed) => some (some transformed)
        | some none => TryTransformSelectOperOrZero d ti falseInput
    else some none

/-! ## The conversion -/

/-- Replace statement `idx` of block `b` by `tree`. -/
def setStmt (g : Graph) (b idx : Nat) (tree : GenTree) : Graph :=
  Function.update g b { g b with bbStmtList := (g b).bbStmtList.set idx tree }

/-- `OptIfConversionDsc::IfConvertJoinStmts`: the statements of `fromBlock` are
linked behind those of the start block; either list being empty is a null
dereference. -/
def IfConvertJoinStmts (g : Graph) (d : OptIfConversionDsc) (fromBlock : Nat) : Option Graph :=
  match (g d.m_startBlock).bbStmtList, (g fromBlock).bbStmtList with
  | [], _ => none
  | _, [] => none
  | l1, l2 =>
    let g1 := Function.update g d.m_startBlock { g d.m_startBlock with bbStmtList := l1 ++ l2 }
    some (Function.update g1 fromBlock { g1 fromBlock with bbStmtList := [] })

/-- Modelled from the spec: `Compiler::fgRemoveAllRefPreds` (host): "remove the flow
edge from the start block to its discarded successor". -/
def fgRemoveAllRefPreds (g : Graph) (block blockPred : Nat) : Graph :=
  Function.update g block { g block with bbPreds := (g block).bbPreds.filter (· != blockPred) }

/-- Modelled from the spec: `BasicBlock::SetKindAndTargetEdge` (host) with `BBJ_ALWAYS`: "change
the start block's kind from conditional-branch to unconditional-branch targeting the retained
successor". -/
def SetKindAndTargetEdge (g : Graph) (block : Nat) (target : Option Nat) : Graph :=
  Function.update g block
    { g block with bbKind := BBJ_ALWAYS, bbTarget := target, bbTrueTarget := none,
                   bbFalseTarget := none }

/-- Lines 554-576 of `optIfConvert`: the block-kind test, the condition and the
flow matcher.  `none` is a run that does not return, `some none` is
`return false`, and `some (some d)` carries the descriptor on. -/
def optIfConvert.flow (g : Graph) (startBlock : Nat) : Option (Option OptIfConversionDsc) :=
  if !(g startBlock).KindIs BBJ_COND || (g startBlock).NumSucc != 2 then some none
  else
    match (g startBlock).bbStmtList.getLast? with
    | none => none
    | some last =>
      if !last.OperIs GT_JTRUE then none
      else
        match last.gtGetOp1 with
        | none => none
        | some cond =>
          if !OperIsCompare cond.OperGet then some none
          else
            match IfConvertFindFlow g { m_startBlock := startBlock, m_cond := cond } with
            | none => none
            | some d => if !d.m_flowFound then some none else some (some d)

/-- Lines 578-607 of `optIfConvert`: the statement validator on both arms and
the kind and slot rules.  The walks of `IfConvertCheckStmts` are given
`m_checkLimit` blocks, which is as far as a found flow reaches. -/
def optIfConvert.validate (comp : Compiler) (g : Graph) (d : OptIfConversionDsc) :
    Option (Option OptIfConversionDsc) :=
  match IfConvertCheckStmts comp g d d.m_checkLimit (g d.m_startBlock).bbFalseTarget
      d.m_thenOperation with
  | none => none
  | some (false, _) => some none
  | some (true, thenOp) =>
    let d1 := { d with m_thenOperation := thenOp }
    if d1.m_doElseConversion then
      match IfConvertCheckStmts comp g d1 d1.m_checkLimit
          (g d.m_startBlock).bbTrueTarget d1.m_elseOperation with
      | none => none
      | some (false, _) => some none
      | some (true, elseOp) =>
        match thenOp.node, elseOp.node with
        | some thenNode, some elseNode =>
          if thenNode.OperGet != elseNode.OperGet then some none
          else if thenNode.OperIs GT_STORE_LCL_VAR &&
              thenNode.GetLclNum != elseNode.GetLclNum then some none
          else some (some { d1 with m_elseOperation := elseOp })
        | _, _ => none
    else some (some d1)

/-- Lines 554-607 of `optIfConvert`: everything before the cost gate. -/
def optIfConvert.checks (comp : Compiler) (g : Graph) (startBlock : Nat) :
    Option (Option OptIfConversionDsc) :=
  match optIfConvert.flow g startBlock with
  | none => none
  | some none => some none
  | some (some d) => optIfConvert.validate comp g d

/-- The value operand of an operation record (`AsLclVar()->Data()`, `GetReturnValue()`). -/
def IfConvertOperation.value (op : IfConvertOperation) : Option GenTree :=
  match op.node with
  | some n => n.gtGetOp1
  | none => none

/-- Lines 622-656 of `optIfConvert`: the costs compared with the limit; `none`
is a dereference of a missing node. -/
def optIfConvert.costs (comp : Compiler) (d : OptIfConversionDsc) : Option (Int × Int) :=
  match d.m_thenOperation.node, d.m_thenOperation.value with
  | some thenNode, some thenVal =>
    let thenCost :=
      if d.m_mainOper = GT_STORE_LCL_VAR then
        comp.GetCostEx thenVal + (if comp.gtIsLikelyRegVar thenNode then 0 else 2)
      else comp.GetCostEx thenVal
    if d.m_doElseConversion then
      match d.m_elseOperation.node, d.m_elseOperation.value with
      | some elseNode, some elseVal =>
        let elseCost :=
          if d.m_mainOper = GT_STORE_LCL_VAR then
            comp.GetCostEx elseVal + (if comp.gtIsLikelyRegVar elseNode then 0 else 2)
          else comp.GetCostEx elseVal
        some (thenCost, elseCost)
      | _, _ => none
    else some (thenCost, 0)
  | _, _ => none

/-- Lines 622-656 of `optIfConvert`: the cost veto; `some false` is `return false`. -/
def optIfConvert.costOk (comp : Compiler) (d : OptIfConversionDsc) : Option Bool :=
  if !comp.stressCost then
    match optIfConvert.costs comp d with
    | none => none
    | some (thenCost, elseCost) => some (!(decide (thenCost > 7) || decide (elseCost > 7)))
  else some true

/-- Lines 658-676 of `optIfConvert`: the loop-exposure veto; `false` is `return false`. -/
def optIfConvert.loopOk (comp : Compiler) (g : Graph) (d : OptIfConversionDsc) : Bool :=
  if !comp.stressInnerLoops then
    if (g d.m_startBlock).bbWeight > loopWeightLimit then false
    else if comp.optReachable g d.m_finalBlock d.m_startBlock then false
    else true
  else true

/-- Lines 622-676 of `optIfConvert`: the cost veto, then the loop-exposure veto.
`some false` is `return false`. -/
def optIfConvert.profitable (comp : Compiler) (g : Graph) (d : OptIfConversionDsc) :
    Option Bool :=
  match optIfConvert.costOk comp d with
  | none => none
  | some false => some false
  | some true => some (optIfConvert.loopOk comp g d)

/-- Lines 678-699 of `optIfConvert`: the select type and the true and false
inputs (the true input is null for a store without an else arm). -/
def optIfConvert.selectInputs (d : OptIfConversionDsc) :
    Option (var_types × Option GenTree × GenTree) :=
  match d.m_thenOperation.node, d.m_thenOperation.value with
  | some thenNode, some thenVal =>
    if d.m_mainOper = GT_STORE_LCL_VAR then
      if d.m_doElseConversion then
        match d.m_elseOperation.value with
        | some elseVal => some (genActualType thenNode.TypeGet, some elseVal, thenVal)
        | none => none
      else some (genActualType thenNode.TypeGet, none, thenVal)
    else
      match d.m_elseOperation.value with
      | some elseVal => some (genActualType thenNode.TypeGet, some elseVal, thenVal)
      | none => none
  | _, _ => none

/-- Lines 678-717 of `optIfConvert`: the expression that becomes the value of
the Then operation; `some none` is the `return false` of the RISC-V build. -/
def optIfConvert.select (comp : Compiler) (d : OptIfConversionDsc) : Option (Option GenTree) :=
  match optIfConvert.selectInputs d, d.m_thenOperation.node with
  | some (selectType, selectTrueInput, selectFalseInput), some store =>
    match TryTransformSelectToOrdinaryOps comp d selectTrueInput selectFalseInput with
    | none => none
    | some (some select) => some (some select)
    | some none =>
      if comp.TARGET_RISCV64 then some none
      else
        let trueInput :=
          match selectTrueInput with
          | some t => t
          | none => gtNewLclVarNode store.GetLclNum store.TypeGet
        some (some (gtNewConditionalNode GT_SELECT d.m_cond trueInput selectFalseInput selectType))
  | _, _ => none

/-- Lines 719-755 of `optIfConvert`: install `select`, turn the branch and the
Else operation into no-ops, join the statement lists and rewire the start block. -/
def optIfConvert.commit (g : Graph) (d : OptIfConversionDsc) (select : GenTree) : Option Graph :=
  match d.m_thenOperation.block, d.m_thenOperation.stmt, d.m_thenOperation.node,
      (g d.m_startBlock).bbStmtList.getLast? with
  | some thenBlock, some thenStmt, some thenNode, some last =>
    let g1 := setStmt g thenBlock thenStmt ((thenNode.AddAllEffectsFlags select).setOp1 select)
    let g2 := setStmt g1 d.m_startBlock ((g1 d.m_startBlock).bbStmtList.length - 1) (gtBashToNOP last)
    let g3 : Option Graph :=
      if d.m_doElseConversion then
        match d.m_elseOperation.block, d.m_elseOperation.stmt, d.m_elseOperation.node with
        | some elseBlock, some elseStmt, some elseNode =>
          some (setStmt g2 elseBlock elseStmt (gtBashToNOP elseNode))
        | _, _, _ => none
      else some g2
    match g3 with
    | none => none
    | some g3 =>
      match IfConvertJoinStmts g3 d thenBlock with
      | none => none
      | some g4 =>
        let g5 : Option Graph :=
          if d.m_doElseConversion then
            match d.m_elseOperation.block with
            | some elseBlock => IfConvertJoinStmts g4 d elseBlock
            | none => none
          else some g4
        match g5, (g d.m_startBlock).bbFalseTarget with
        | some g5, some falseTarget =>
          let g6 := fgRemoveAllRefPreds g5 falseTarget d.m_startBlock
          some (SetKindAndTargetEdge g6 d.m_startBlock (g d.m_startBlock).bbTrueTarget)
        | _, _ => none
  | _, _, _, _ => none

/-- `OptIfConversionDsc::optIfConvert` on the descriptor of `startBlock`: the
`bool` result and the graph it leaves.  `none` is a run that does not return
normally. -/
def optIfConvert (comp : Compiler) (g : Graph) (startBlock : Nat) : Option (Bool × Graph) :=
  match optIfConvert.checks comp g startBlock with
  | none => none
  | some none => some (false, g)
  | some (some d) =>
    match optIfConvert.profitable comp g d with
    | none => none
    | some false => some (false, g)
    | some true =>
      match optIfConvert.select comp d with
      | none => none
      | some none => some (false, g)
      | some (some select) =>
        match optIfConvert.commit g d select with
        | none => none
        | some g1 => some (true, g1)

/-! ## Value semantics of side-effect-free integer trees

The phase itself never evaluates a tree; this is the meaning of the integer
fragment of the IR against which the rewrites are judged.  A node of a 32-bit
type computes in 32 bits and its value is kept sign-extended; `none` marks a
tree outside the fragment. -/

/-- Values of the local variables. -/
abbrev Env := Nat → Int

/-- Bits of a value type as held in a register. -/
def typeBits (t : var_types) : Nat :=
  if t == TYP_LONG || t == TYP_ULONG || t == TYP_REF || t == TYP_BYREF then 64 else 32

/-- Reduce to the signed range of `bits` bits. -/
def wrapBits (bits : Nat) (x : Int) : Int :=
  (x + 2 ^ (bits - 1)) % 2 ^ bits - 2 ^ (bits - 1)

/-- The unsigned reading of a value in `bits` bits. -/
def toUnsigned (bits : Nat) (x : Int) : Nat := (x % 2 ^ bits).toNat

/-- A binary operator at a type, on sign-extended operands. -/
def evalBinop (oper : genTreeOps) (type : var_types) (a b : Int) : Option Int :=
  let w := typeBits type
  let sh := toUnsigned w b % w
  match oper with
  | GT_ADD => some (wrapBits w (a + b))
  | GT_SUB => some (wrapBits w (a - b))
  | GT_MUL => some (wrapBits w (a * b))
  | GT_OR => some (wrapBits w (toUnsigned w a ||| toUnsigned w b : Nat))
  | GT_XOR => some (wrapBits w (toUnsigned w a ^^^ toUnsigned w b : Nat))
  | GT_AND => some (wrapBits w (toUnsigned w a &&& toUnsigned w b : Nat))
  | GT_LSH => some (wrapBits w (a * 2 ^ sh))
  | GT_RSH => some (wrapBits w a / 2 ^ sh)
  | GT_RSZ => some (wrapBits w (toUnsigned w a / 2 ^ sh : Nat))
  | GT_EQ => some (if a = b then 1 else 0)
  | GT_NE => some (if a = b then 0 else 1)
  | GT_LT => some (if a < b then 1 else 0)
  | GT_GE => some (if a < b then 0 else 1)
  | GT_LE => some (if a ≤ b then 1 else 0)
  | GT_GT => some (if a ≤ b then 0 else 1)
  | _ => none

/-- The value of a tree under `env`. -/
def eval (env : Env) : GenTree → Option Int
  | .leaf GT_CNS_INT _ _ _ v => some v
  | .leaf GT_LCL_VAR _ _ n _ => some (env n)
  | .leaf _ _ _ _ _ => none
  | .unary _ _ _ _ _ => none
  | .binary o t _ a b =>
    match eval env a, eval env b with
    | some x, some y => evalBinop o t x y
    | _, _ => none
  | .ternary GT_SELECT _ _ c a b =>
    match eval env c, eval env a, eval env b with
    | some x, some y, some z => some (if x ≠ 0 then y else z)
    | _, _, _ => none
  | .ternary _ _ _ _ _ _ => none

/-! ## Arms of a diamond, in the words of the specification -/

/-- The tests of the inner-block flow check as a function of the start block and
the else flag. -/
def innerFlowOk (g : Graph) (start : Nat) (doElse : Bool) (b : Nat) : Bool :=
  ((g b).GetUniqueSucc != none || (doElse && (g b).KindIs BBJ_RETURN)) &&
  (g b).GetUniquePred != none && BasicBlock.sameEHRegion (g b) (g start)

/-- A chain of blocks, each passing the inner-block flow check and each linked to
the next by its unique successor, whose last block leads to `final`. -/
def ArmChain (g : Graph) (start : Nat) (doElse : Bool) (final : Option Nat) : List Nat → Prop
  | [] => False
  | [b] => innerFlowOk g start doElse b = true ∧ (g b).GetUniqueSucc = final
  | b :: b1 :: rest =>
    innerFlowOk g start doElse b = true ∧ (g b).GetUniqueSucc = some b1 ∧
      ArmChain g start doElse final (b1 :: rest)

/-- The specification's arm: a chain in which every block has a unique
predecessor, a unique successor and the exception-handling region of the start
block, the unique successor being the next block of the chain and, for the last
block, the merge block. -/
def IsArm (g : Graph) (start final : Nat) : List Nat → Prop
  | [] => False
  | [b] =>
    (g b).GetUniquePred ≠ none ∧ BasicBlock.sameEHRegion (g b) (g start) = true ∧
      (g b).GetUniqueSucc = some final
  | b :: b1 :: rest =>
    (g b).GetUniquePred ≠ none ∧ BasicBlock.sameEHRegion (g b) (g start) = true ∧
      (g b).GetUniqueSucc = some b1 ∧ IsArm g start final (b1 :: rest)

/-- The links of an arm, without the region test: every block has a unique
predecessor and its unique successor is the next block, the last one leading to
`final`. -/
def Linked (g : Graph) (final : Nat) : List Nat → Prop
  | [] => False
  | [b] => (g b).GetUniquePred ≠ none ∧ (g b).GetUniqueSucc = some final
  | b :: b1 :: rest =>
    (g b).GetUniquePred ≠ none ∧ (g b).GetUniqueSucc = some b1 ∧ Linked g final (b1 :: rest)

/-- Every block of the list lies in the exception-handling region of `start`. -/
def AllSameRegion (g : Graph) (start : Nat) (bs : List Nat) : Prop :=
  ∀ b ∈ bs, BasicBlock.sameEHRegion (g b) (g start) = true

/-- The specification's diamond with a merge block: the false target heads the
Then chain `ts`, the true target heads the Else chain `es` (or is the merge block
`M` itself when there is no Else arm), both chains are linear and lead to `M`,
the chains share no block, and `M`, where the two arms join, belongs to neither
chain and has no unique predecessor. -/
structure Diamond (g : Graph) (start M : Nat) (ts es : List Nat) : Prop where
  falseTarget : (g start).bbFalseTarget = ts.head?
  thenLinked : Linked g M ts
  trueTarget : (g start).bbTrueTarget = some (es.headD M)
  elseLinked : es = [] ∨ Linked g M es
  mergeJoins : (g M).GetUniquePred = none
  mergeNotInThen : M ∉ ts
  mergeNotInElse : M ∉ es
  disjoint : ∀ b ∈ ts, b ∉ es

/-! ## Arms and eligible statements, in the words of the specification -/

/-- The blocks of an arm: from `block` along unique successors up to, and
excluding, the merge block `final`; `none` when `final` is not reached within
`fuel` blocks. -/
def chainBlocks (g : Graph) (final : Option Nat) : Nat → Option Nat → Option (List Nat)
  | 0, block => if block = final then some [] else none
  | fuel + 1, block =>
    if block = final then some []
    else
      match block with
      | none => none
      | some b => (chainBlocks g final fuel (g b).GetUniqueSucc).map (b :: ·)

/-- The statements of a list of blocks, in order. -/
def chainStmts (g : Graph) : List Nat → List GenTree
  | [] => []
  | b :: bs => (g b).bbStmtList ++ chainStmts g bs

/-- A no-op statement. -/
def isNop (t : GenTree) : Bool := t.OperGet == GT_NOP

/-- The specification's eligible statement: a store-to-local, or a return with a
value when an else arm is in play, of integral-or-pointer type (not a wide
integer on a 32-bit target), whose value carries neither the side-effect nor the
order-side-effect flag, is not a phi when stored, and is a constant or a local
read when the condition carries an order-dependent side effect. -/
def isEligible (comp : Compiler) (d : OptIfConversionDsc) (t : GenTree) : Bool :=
  match t.gtGetOp1 with
  | none => false
  | some v =>
    (t.OperGet == GT_STORE_LCL_VAR || (t.OperGet == GT_RETURN && d.m_doElseConversion)) &&
    varTypeIsIntegralOrI t.TypeGet &&
    (comp.TARGET_64BIT || !varTypeIsLong t.TypeGet) &&
    ((v.gtFlags &&& (GTF_SIDE_EFFECT ||| GTF_ORDER_SIDEEFF)) == 0) &&
    (t.OperGet != GT_STORE_LCL_VAR || v.OperGet != GT_PHI) &&
    (((d.m_cond.gtFlags &&& GTF_ORDER_SIDEEFF) == 0) || v.IsInvariant || OperIsLocal v.OperGet)

/-- The specification's arm rule: exactly one eligible statement, every other
statement a no-op. -/
def OneEligible (comp : Compiler) (d : OptIfConversionDsc) (ss : List GenTree) : Prop :=
  ∃ pre e post, ss = pre ++ e :: post ∧ (∀ t ∈ pre, isNop t = true) ∧
    (∀ t ∈ post, isNop t = true) ∧ isEligible comp d e = true

/-- Every store among the statements has its value operand. -/
def StoresHaveData (ss : List GenTree) : Prop :=
  ∀ t ∈ ss, t.OperGet = GT_STORE_LCL_VAR → t.gtGetOp1 ≠ none

/-- The effect of a statement list on the validator's `found` flag: `none` when
some statement makes the validator return false. -/
def scanFound (comp : Compiler) (d : OptIfConversionDsc) : List GenTree → Bool → Option Bool
  | [], found => some found
  | t :: ts, found =>
    if isNop t then scanFound comp d ts found
    else if isEligible comp d t && !found then scanFound comp d ts true
    else none

/-- An operation record that names an eligible statement of one of the blocks `bs`:
block, position in the block's statement list, and root node. -/
def GoodRecord (comp : Compiler) (g : Graph) (d : OptIfConversionDsc) (bs : List Nat)
    (op : IfConvertOperation) : Prop :=
  ∃ b i e, op = { block := some b, stmt := some i, node := some e } ∧ b ∈ bs ∧
    (g b).bbStmtList[i]? = some e ∧ isEligible comp d e = true

/-- A store or return whose value carries the side-effect flag or the
order-dependent-side-effect flag. -/
def hasFlaggedValue (t : GenTree) : Bool :=
  (t.OperGet == GT_STORE_LCL_VAR || t.OperGet == GT_RETURN) &&
  match t.gtGetOp1 with
  | some v => (v.gtFlags &&& (GTF_SIDE_EFFECT ||| GTF_ORDER_SIDEEFF)) != 0
  | none => false

/-- The members the flow matcher leaves alone. -/
def SameAttempt (d d1 : OptIfConversionDsc) : Prop :=
  d1.m_startBlock = d.m_startBlock ∧ d1.m_cond = d.m_cond ∧ d1.m_checkLimit = d.m_checkLimit ∧
  d1.m_thenOperation = d.m_thenOperation ∧ d1.m_elseOperation = d.m_elseOperation

/-! ## Example inputs -/

/-- The branch condition `V02 >= 7`. -/
def exCond : GenTree :=
  .binary GT_GE TYP_INT 0 (.leaf GT_LCL_VAR TYP_INT 0 2 0) (.leaf GT_CNS_INT TYP_INT 0 0 7)

/-- The statement `JTRUE (V02 >= 7)`. -/
def exJtrue : GenTree := .unary GT_JTRUE TYP_VOID 0 0 exCond

/-- An integer constant node. -/
def exCns (type : var_types) (v : Int) : GenTree := .leaf GT_CNS_INT type 0 0 v

/-- The statement `STORE_LCL_VAR V<lclNum> = value`. -/
def exStore (lclNum : Nat) (type : var_types) (value : GenTree) : GenTree :=
  .unary GT_STORE_LCL_VAR type 0 lclNum value

/-- A block in the main method region with unit weight. -/
def exBlock (kind : BBKinds) (trueTarget falseTarget target : Option Nat) (preds : List Nat)
    (stmts : List GenTree) : BasicBlock :=
  ⟨kind, trueTarget, falseTarget, target, preds, stmts, 0, 0, 100, none⟩

/-- The diamond `if (V02 >= 7) { elseStmt } else { thenStmt }` in branch form: block 0
ends in the branch, block 1 is the fall-through (Then) arm, block 2 the jump
target (Else) arm, block 3 the merge point. -/
def exDiamond (thenStmt elseStmt : GenTree) : Graph := fun i =>
  match i with
  | 0 => exBlock BBJ_COND (some 2) (some 1) none [] [exJtrue]
  | 1 => exBlock BBJ_ALWAYS none none (some 3) [0] [thenStmt]
  | 2 => exBlock BBJ_ALWAYS none none (some 3) [0] [elseStmt]
  | 3 => exBlock BBJ_RETURN none none none [1, 2] []
  | _ => default

/-- A host with unit costs, no stress modes and no back edges; `riscv` selects the
RISC-V 64 build. -/
def exComp (riscv : Bool) : Compiler :=
  ⟨true, riscv, false, false, fun _ => 1, fun _ => true, fun _ _ _ => false⟩

/-- A descriptor whose condition is `exCond`. -/
def exDsc : OptIfConversionDsc := { m_startBlock := 0, m_cond := exCond }

/-- The descriptor after the flow matcher has run on `exDiamond`: merge block 3, Else arm in play. -/
def exDscFound : OptIfConversionDsc :=
  { m_startBlock := 0, m_cond := exCond, m_finalBlock := some 3, m_doElseConversion := true,
    m_flowFound := true, m_mainOper := GT_STORE_LCL_VAR }

/-- The diamond `if (V02 >= 7) V00 = 9; else V00 = 5;` in branch form. -/
def exStoreDiamond : Graph :=
  exDiamond (exStore 0 TYP_INT (exCns TYP_INT 5)) (exStore 0 TYP_INT (exCns TYP_INT 9))

/-- As `exStoreDiamond`, but the Then store's value is a call (flag `GTF_CALL`). -/
def exCallDiamond : Graph :=
  exDiamond (exStore 0 TYP_INT (.leaf GT_CALL TYP_INT GTF_CALL 0 0))
    (exStore 0 TYP_INT (exCns TYP_INT 9))

/-- Every rule of eligibility except the width rule for wide integers. -/
def eligibleApartFromWidth (d : OptIfConversionDsc) (t : GenTree) : Bool :=
  match t.gtGetOp1 with
  | none => false
  | some v =>
    (t.OperGet == GT_STORE_LCL_VAR || (t.OperGet == GT_RETURN && d.m_doElseConversion)) &&
    varTypeIsIntegralOrI t.TypeGet &&
    ((v.gtFlags &&& (GTF_SIDE_EFFECT ||| GTF_ORDER_SIDEEFF)) == 0) &&
    (t.OperGet != GT_STORE_LCL_VAR || v.OperGet != GT_PHI) &&
    (((d.m_cond.gtFlags &&& GTF_ORDER_SIDEEFF) == 0) || v.IsInvariant || OperIsLocal v.OperGet)

/-- As `exStoreDiamond` with 64-bit stores. -/
def exLongDiamond : Graph :=
  exDiamond (exStore 0 TYP_LONG (exCns TYP_LONG 5)) (exStore 0 TYP_LONG (exCns TYP_LONG 9))

/-- A branch over a Then chain of `n` blocks (blocks 1 to `n`, one store in the
first) that falls into merge block `n + 1`, the branch's true target. -/
def exChain (n : Nat) : Graph := fun i =>
  if i = 0 then exBlock BBJ_COND (some (n + 1)) (some 1) none [] [exJtrue]
  else if i = 1 then
    exBlock BBJ_ALWAYS none none (some 2) [0] [exStore 0 TYP_INT (exCns TYP_INT 5)]
  else if i ≤ n then exBlock BBJ_ALWAYS none none (some (i + 1)) [i - 1] []
  else if i = n + 1 then exBlock BBJ_RETURN none none none [0, n] []
  else default

/-- As `exStoreDiamond`, with the Else block inside a try region. -/
def exRegionDiamond : Graph := fun i =>
  if i = 2 then { exStoreDiamond 2 with bbTryIndex := 1 } else exStoreDiamond i

/-- The descriptor of `exStoreDiamond` after the flow and statement checks. -/
def exDscChecked : OptIfConversionDsc :=
  { exDscFound with
    m_thenOperation :=
      { block := some 1, stmt := some 0, node := some (exStore 0 TYP_INT (exCns TYP_INT 5)) }
    m_elseOperation :=
      { block := some 2, stmt := some 0, node := some (exStore 0 TYP_INT (exCns TYP_INT 9)) } }

/-- The statement `e` is the eligible operation of an arm whose statements are `ss`:
every other statement of the arm is a no-op. -/
def ArmOp (comp : Compiler) (d : OptIfConversionDsc) (ss : List GenTree) (e : GenTree) : Prop :=
  ∃ pre post, ss = pre ++ e :: post ∧ (∀ t ∈ pre, isNop t = true) ∧
    (∀ t ∈ post, isNop t = true) ∧ isEligible comp d e = true

/-- As `exStoreDiamond`, but the Else arm stores to local 1. -/
def exSlotDiamond : Graph :=
  exDiamond (exStore 0 TYP_INT (exCns TYP_INT 5)) (exStore 1 TYP_INT (exCns TYP_INT 9))

/-- The statement `RETURN value`. -/
def exReturn (type : var_types) (value : GenTree) : GenTree :=
  .unary GT_RETURN type 0 0 value

/-- As `exStoreDiamond`, but the Else block holds a return statement (while still
jumping to the merge block). -/
def exMixedDiamond : Graph :=
  exDiamond (exStore 0 TYP_INT (exCns TYP_INT 5)) (exReturn TYP_INT (exCns TYP_INT 9))

/-- The branch `if (V02 >= 7) goto merge; thenStmt; merge:` without an Else arm:
block 0 ends in the branch, block 1 is the Then block, block 2 the merge block and
the branch's true target. -/
def exIfThen (thenStmt : GenTree) : Graph := fun i =>
  match i with
  | 0 => exBlock BBJ_COND (some 2) (some 1) none [] [exJtrue]
  | 1 => exBlock BBJ_ALWAYS none none (some 2) [0] [thenStmt]
  | 2 => exBlock BBJ_RETURN none none none [0, 1] []
  | _ => default

/-- The descriptor of `exIfThen thenStmt` after the flow and statement checks. -/
def exDscIfThen (thenStmt : GenTree) : OptIfConversionDsc :=
  { m_startBlock := 0, m_cond := exCond, m_finalBlock := some 2, m_doElseConversion := false,
    m_flowFound := true, m_mainOper := GT_STORE_LCL_VAR,
    m_thenOperation := { block := some 1, stmt := some 0, node := some thenStmt } }

/-- Scenario A: `if (V02 >= 7) goto merge; V00 = 5; merge:`, i.e. `if (x < 7) { a = 5; }`. -/
def exScenarioA : Graph := exIfThen (exStore 0 TYP_INT (exCns TYP_INT 5))

/-- The descriptor of scenario A after the flow and statement checks. -/
def exDscA : OptIfConversionDsc := exDscIfThen (exStore 0 TYP_INT (exCns TYP_INT 5))

/-- An operation record that names an eligible statement `e` at position `i` of a
block `b` all of whose statements are no-ops or eligible. -/
def OpAt (comp : Compiler) (g : Graph) (d : OptIfConversionDsc) (op : IfConvertOperation)
    (b i : Nat) (e : GenTree) : Prop :=
  op = { block := some b, stmt := some i, node := some e } ∧
    (g b).bbStmtList[i]? = some e ∧ isEligible comp d e = true ∧
    ∀ t ∈ (g b).bbStmtList, isNop t = true ∨ isEligible comp d t = true

/-- The graph `g1` differs from `g` in statement lists only. -/
def StmtsOnly (g g1 : Graph) : Prop :=
  ∀ x, g1 x = { g x with bbStmtList := (g1 x).bbStmtList }

/-- The generic select `SELECT(V02 >= 7, trueInput, falseInput)` at type `int`. -/
def exSelect (trueInput falseInput : GenTree) : GenTree :=
  .ternary GT_SELECT TYP_INT 0 exCond trueInput falseInput

/-- The no-op a statement is turned into. -/
def exNop : GenTree := .leaf GT_NOP TYP_VOID 0 0 0

/-- The graph `exStoreDiamond` after its conversion: the start block holds
`V00 = SELECT(V02 >= 7, 9, 5)` between two no-ops and jumps to block 2. -/
def exStoreDiamondConverted : Graph := fun i =>
  match i with
  | 0 => exBlock BBJ_ALWAYS none none (some 2) []
      [exNop, exStore 0 TYP_INT (exSelect (exCns TYP_INT 9) (exCns TYP_INT 5)), exNop]
  | 1 => exBlock BBJ_ALWAYS none none (some 3) [] []
  | 2 => exBlock BBJ_ALWAYS none none (some 3) [0] []
  | 3 => exBlock BBJ_RETURN none none none [1, 2] []
  | _ => default

/-- The graph `exScenarioA` after its conversion: the start block holds
`V00 = SELECT(V02 >= 7, V00, 5)` behind a no-op and jumps to the merge block 2. -/
def exScenarioAConverted : Graph := fun i =>
  match i with
  | 0 => exBlock BBJ_ALWAYS none none (some 2) []
      [exNop, exStore 0 TYP_INT (exSelect (.leaf GT_LCL_VAR TYP_INT 0 0 0) (exCns TYP_INT 5))]
  | 1 => exBlock BBJ_ALWAYS none none (some 2) [] []
  | 2 => exBlock BBJ_RETURN none none none [0, 1] []
  | _ => default

/-- Every rule of eligibility except the one tied to an order-dependent side
effect of the condition. -/
def eligibleApartFromOrder (comp : Compiler) (d : OptIfConversionDsc) (t : GenTree) : Bool :=
  match t.gtGetOp1 with
  | none => false
  | some v =>
    (t.OperGet == GT_STORE_LCL_VAR || (t.OperGet == GT_RETURN && d.m_doElseConversion)) &&
    varTypeIsIntegralOrI t.TypeGet &&
    (comp.TARGET_64BIT || !varTypeIsLong t.TypeGet) &&
    ((v.gtFlags &&& (GTF_SIDE_EFFECT ||| GTF_ORDER_SIDEEFF)) == 0) &&
    (t.OperGet != GT_STORE_LCL_VAR || v.OperGet != GT_PHI)

/-- A descriptor whose condition `V02 >= 7` carries the order-dependent-side-effect
flag, with merge block 2 and no Else arm. -/
def exDscOrdered : OptIfConversionDsc :=
  { m_startBlock := 0, m_finalBlock := some 2,
    m_cond := .binary GT_GE TYP_INT GTF_ORDER_SIDEEFF (.leaf GT_LCL_VAR TYP_INT 0 2 0)
      (.leaf GT_CNS_INT TYP_INT 0 0 7) }

/-- The expression `V01 + 1`. -/
def exAddOne : GenTree :=
  .binary GT_ADD TYP_INT 0 (.leaf GT_LCL_VAR TYP_INT 0 1 0) (exCns TYP_INT 1)

/-- A read of local `V01`. -/
def exLclX : GenTree := .leaf GT_LCL_VAR TYP_INT 0 1 0

/-- Scenario D: `if (V02 >= 7) goto merge; V01 = V01 + 1; merge:`, i.e.
`if (x2 < 7) { x = x + 1; }`. -/
def exScenarioD : Graph := exIfThen (exStore 1 TYP_INT (.binary GT_ADD TYP_INT 0 exLclX (exCns TYP_INT 1)))

/-- Scenario C: `if (V02 >= 7) return 9; return 5;`, i.e. `return (x < 7) ? 5 : 9;`:
the false target (block 1) returns 5 and the true target (block 2) returns 9. -/
def exScenarioC : Graph := fun i =>
  match i with
  | 0 => exBlock BBJ_COND (some 2) (some 1) none [] [exJtrue]
  | 1 => exBlock BBJ_RETURN none none none [0] [exReturn TYP_INT (exCns TYP_INT 5)]
  | 2 => exBlock BBJ_RETURN none none none [0] [exReturn TYP_INT (exCns TYP_INT 9)]
  | _ => default

/-- The descriptor the flow matcher leaves on scenario C. -/
def exDscCFlow : OptIfConversionDsc :=
  { m_startBlock := 0, m_cond := exCond, m_finalBlock := none, m_doElseConversion := true,
    m_flowFound := true, m_mainOper := GT_RETURN }

/-- The descriptor of scenario C after the flow and statement checks. -/
def exDscC : OptIfConversionDsc :=
  { exDscCFlow with
    m_thenOperation :=
      { block := some 1, stmt := some 0, node := some (exReturn TYP_INT (exCns TYP_INT 5)) }
    m_elseOperation :=
      { block := some 2, stmt := some 0, node := some (exReturn TYP_INT (exCns TYP_INT 9)) } }

/-- The graph `exScenarioC` after its conversion. -/
def exScenarioCConverted : Graph := fun i =>
  match i with
  | 0 => exBlock BBJ_ALWAYS none none (some 2) []
      [exNop, exReturn TYP_INT (exSelect (exCns TYP_INT 9) (exCns TYP_INT 5)), exNop]
  | 1 => exBlock BBJ_RETURN none none none [] []
  | 2 => exBlock BBJ_RETURN none none none [0] []
  | _ => default

/-- The branch `if (V02 >= 7) goto merge; ; V00 = 5; merge:` whose Then chain has
two blocks: block 1 holds a no-op, block 2 the store; block 3 is the merge block. -/
def exNopChain : Graph := fun i =>
  match i with
  | 0 => exBlock BBJ_COND (some 3) (some 1) none [] [exJtrue]
  | 1 => exBlock BBJ_ALWAYS none none (some 2) [0] [exNop]
  | 2 => exBlock BBJ_ALWAYS none none (some 3) [1] [exStore 0 TYP_INT (exCns TYP_INT 5)]
  | 3 => exBlock BBJ_RETURN none none none [0, 2] []
  | _ => default

/-- The graph `exNopChain` after its conversion: the store's block 2 is emptied
into the start block; block 1 keeps its no-op. -/
def exNopChainConverted : Graph := fun i =>
  match i with
  | 0 => exBlock BBJ_ALWAYS none none (some 3) []
      [exNop, exStore 0 TYP_INT (exSelect (.leaf GT_LCL_VAR TYP_INT 0 0 0) (exCns TYP_INT 5))]
  | 1 => exBlock BBJ_ALWAYS none none (some 2) [] [exNop]
  | 2 => exBlock BBJ_ALWAYS none none (some 3) [1] []
  | 3 => exBlock BBJ_RETURN none none none [0, 2] []
  | _ => default

/-- The inputs are the pair of `TYP_INT` integer constants `(trueVal, falseVal)`. -/
def isIntConstPair (trueInput : Option GenTree) (falseInput : GenTree) (trueVal falseVal : Int) :
    Bool :=
  match trueInput with
  | some ti =>
    ti.IsIntegralConst && falseInput.IsIntegralConst && ti.TypeIs TYP_INT &&
      falseInput.TypeIs TYP_INT && ti.IntegralValue == trueVal &&
      falseInput.IntegralValue == falseVal
  | none => false

/-- The tree `oper` is `AND(1, expr)`, `AND(expr, 1)` or `LSH(1, expr)`. -/
def IsOneOpExpr (oper expr : GenTree) : Prop :=
  (oper.OperIs GT_AND = true ∨ oper.OperIs GT_LSH = true) ∧
  ∃ one, one.IsIntegralConstVal 1 = true ∧
    ((oper.gtGetOp1 = some one ∧ oper.gtGetOp2 = some expr) ∨
     (oper.OperIs GT_AND = true ∧ oper.gtGetOp1 = some expr ∧ oper.gtGetOp2 = some one))

/-- The read `LCL_FLD<ubyte> V01`: one byte of the local `V01`. -/
def exFldX : GenTree := .leaf GT_LCL_FLD TYP_UBYTE 0 1 0

/-- The diamond `if (V02 >= 7) V00 = V01 + 1; else V00 = (a byte of V01);` in
branch form: the Then store takes a field of `V01`, the Else store `V01 + 1`. -/
def exFieldDiamond : Graph :=
  exDiamond (exStore 0 TYP_INT exFldX) (exStore 0 TYP_INT exAddOne)

/-- A return diamond with a one-block Then arm (block 1 returns 5) and a two-block
Else arm (block 2 falls into block 3, which returns 9). -/
def exReturnElse2 : Graph := fun i =>
  match i with
  | 0 => exBlock BBJ_COND (some 2) (some 1) none [] [exJtrue]
  | 1 => exBlock BBJ_RETURN none none none [0] [exReturn TYP_INT (exCns TYP_INT 5)]
  | 2 => exBlock BBJ_ALWAYS none none (some 3) [0] [exNop]
  | 3 => exBlock BBJ_RETURN none none none [2] [exReturn TYP_INT (exCns TYP_INT 9)]
  | _ => default

/-! ## The driver (`Compiler::optIfConversion`) -/

/-- `PhaseStatus` (host header), the two values the driver returns. -/
inductive PhaseStatus where
  | MODIFIED_NOTHING
  | MODIFIED_EVERYTHING
  deriving DecidableEq, Repr

/-- What the driver consults besides the `Compiler` parts of the attempts:
`opts.OptimizationEnabled()`, whether the build is a `DEBUG` build and, there,
the switch `JitConfig.JitDoIfConversion()`, the target macros of its `#if`
other than `TARGET_RISCV64`, and the last block of the layout. -/
structure DriverOptions where
  OptimizationEnabled : Bool
  DEBUG : Bool
  JitDoIfConversion : Int
  TARGET_ARM64 : Bool
  TARGET_XARCH : Bool
  fgLastBB : Option Nat

/-- The `while (block != nullptr)` loop of `optIfConversion`.  `fuel` bounds the
number of blocks visited: the source loop has no bound, and a `Prev` chain
that does not end within `fuel` blocks gives `none`, as does an attempt that
does not return. -/
def optIfConversion.loop (comp : Compiler) :
    Nat → Graph → Option Nat → Bool → Option (Bool × Graph)
  | _, g, none, madeChanges => some (madeChanges, g)
  | 0, _, some _, _ => none
  | fuel + 1, g, some block, madeChanges =>
    match optIfConvert comp g block with
    | none => none
    | some (r, g1) => optIfConversion.loop comp fuel g1 (g1 block).bbPrev (madeChanges || r)

/-- `Compiler::optIfConversion`: the phase status and the graph it leaves.  The
`assert(!fgSsaValid)` and the reset of `optReachableBitVecTraits` have no
counterpart here. -/
def optIfConversion (comp : Compiler) (opts : DriverOptions) (fuel : Nat) (g : Graph) :
    Option (PhaseStatus × Graph) :=
  if !opts.OptimizationEnabled then some (.MODIFIED_NOTHING, g)
  else if opts.DEBUG && opts.JitDoIfConversion == 0 then some (.MODIFIED_NOTHING, g)
  else if opts.TARGET_ARM64 || opts.TARGET_XARCH || comp.TARGET_RISCV64 then
    match optIfConversion.loop comp fuel g opts.fgLastBB false with
    | none => none
    | some (madeChanges, g1) =>
      some (if madeChanges then .MODIFIED_EVERYTHING else .MODIFIED_NOTHING, g1)
  else some (.MODIFIED_NOTHING, g)

/-- The blocks of the layout from `block` back to the first, by the `Prev` links;
`none` when the chain does not end within `fuel` blocks. -/
def layoutOrder (g : Graph) : Nat → Option Nat → Option (List Nat)
  | _, none => some []
  | 0, some _ => none
  | fuel + 1, some block => (layoutOrder g fuel (g block).bbPrev).map (block :: ·)

/-- One attempt per block of `blocks`, in order, each on the graph the attempts
before it left: the results and the final graph; `none` when an attempt does
not return. -/
def attempts (comp : Compiler) : List Nat → Graph → Option (List Bool × Graph)
  | [], g => some ([], g)
  | block :: rest, g =>
    match optIfConvert comp g block with
    | none => none
    | some (r, g1) =>
      match attempts comp rest g1 with
      | none => none
      | some (rs, g2) => some (r :: rs, g2)

/-- The graph `exStoreDiamond` with its layout links: blocks 0, 1, 2, 3 in this order. -/
def exLayout : Graph := fun i =>
  match i with
  | 0 => exStoreDiamond 0
  | i + 1 => { exStoreDiamond (i + 1) with bbPrev := some i }

/-- An optimising release build for x64 whose layout ends in block 3. -/
def exOpts : DriverOptions :=
  { OptimizationEnabled := true, DEBUG := false, JitDoIfConversion := 1,
    TARGET_ARM64 := false, TARGET_XARCH := true, fgLastBB := some 3 }

/-! ## Statement lists as linked statements

`IfConvertJoinStmts` works on the links of the statements.  Here a statement is
an index into a store of `Statement`s; the list-level `IfConvertJoinStmts` above
is the same operation seen through the sequence of each block's statements. -/

namespace StmtLinks

/-- The links of a `Statement` (host header): `m_next` is null on the last
statement of a list, `m_prev` of the first statement points at the last one. -/
structure Statement where
  m_next : Option Nat
  m_prev : Option Nat
  deriving DecidableEq, Repr

/-- The statements and, for every block, its `bbStmtList`. -/
structure Store where
  stmts : Nat → Statement
  bbStmtList : Nat → Option Nat

/-- Modelled from the spec: `BasicBlock::firstStmt` (host): the head of the block's
"ordered list of owned Statements". -/
def firstStmt (σ : Store) (block : Nat) : Option Nat := σ.bbStmtList block

/-- Modelled from the spec: `BasicBlock::lastStmt` (host): the last statement of the
list, reached through the "first-to-last back link" of the first statement; null
for an empty list. -/
def lastStmt (σ : Store) (block : Nat) : Option Nat :=
  match σ.bbStmtList block with
  | none => none
  | some first => (σ.stmts first).m_prev

/-- `OptIfConversionDsc::IfConvertJoinStmts` on the links; `none` is a null
dereference (of `stmtLast1`, `stmtList2` or `stmtList1`). -/
def IfConvertJoinStmts (σ : Store) (m_startBlock fromBlock : Nat) : Option Store :=
  let stmtList1 := firstStmt σ m_startBlock
  let stmtList2 := firstStmt σ fromBlock
  let stmtLast1 := lastStmt σ m_startBlock
  let stmtLast2 := lastStmt σ fromBlock
  match stmtLast1, stmtList2, stmtList1 with
  | some last1, some list2, some list1 =>
    let h1 := Function.update σ.stmts last1 { σ.stmts last1 with m_next := some list2 }
    let h2 := Function.update h1 list2 { h1 list2 with m_prev := some last1 }
    let h3 := Function.update h2 list1 { h2 list1 with m_prev := stmtLast2 }
    some { stmts := h3, bbStmtList := Function.update σ.bbStmtList fromBlock none }
  | _, _, _ => none

/-- The `m_next` links lead from `p` through exactly the statements `xs` to `q`. -/
def Seg (h : Nat → Statement) : Option Nat → List Nat → Option Nat → Prop
  | p, [], q => p = q
  | p, x :: xs, q => p = some x ∧ Seg h (h x).m_next xs q

/-- The `m_prev` link of every statement of `xs` points at the statement before
it, that of the first at `q`. -/
def PrevLinked (h : Nat → Statement) : Option Nat → List Nat → Prop
  | _, [] => True
  | q, x :: xs => (h x).m_prev = q ∧ PrevLinked h (some x) xs

/-- The list that starts at `first` is the sequence `xs`: the `m_next` links run
through `xs` to null, no statement occurs twice, and the `m_prev` links run
backwards, that of the first statement pointing at the last. -/
def IsStmtList (h : Nat → Statement) (first : Option Nat) (xs : List Nat) : Prop :=
  Seg h first xs none ∧ xs.Nodup ∧ PrevLinked h xs.getLast? xs

end StmtLinks

/-- A start block 1 holding statements 10 and 11 and a donor block 2 holding
statement 20, in the circular-back-link layout of the statement lists. -/
def exJoinStore : StmtLinks.Store where
  stmts := fun i =>
    if i = 10 then ⟨some 11, some 11⟩
    else if i = 11 then ⟨none, some 10⟩
    else if i = 20 then ⟨none, some 20⟩
    else ⟨none, none⟩
  bbStmtList := fun b => if b = 1 then some 10 else if b = 2 then some 20 else none

/-- The descriptor with which the with-else search starts on `exReturnElse2`: the
merge candidate is the true target, block 2. -/
def exDscElseSearch : OptIfConversionDsc :=
  { exDsc with m_finalBlock := some 2, m_doElseConversion := true }

/-- The host `exComp false` with a reachability query that answers true exactly
when its source block is absent. -/
def exCompNullQuery : Compiler :=
  { exComp false with optReachable := fun _ src _ => src.isNone }

/-- The two `assert(bitIndex > 0)` of `MatchIntConstSelectValues` (lines 801 and
806): false when the call reaches an assertion that does not hold. -/
def MatchIntConstSelectValues.asserts (trueVal falseVal : Int) : Bool :=
  if trueVal = wrap64 (falseVal + 1) then true
  else if trueVal = wrap32 (wrap32 falseVal + 1) then true
  else if falseVal = 0 then
    if Log2 (trueVal % 2 ^ 64) > 0 then
      if trueVal = wrap64 (2 ^ Log2 (trueVal % 2 ^ 64)) then true
      else decide (Log2 (trueVal % 2 ^ 32) > 0)
    else false
  else true

/-- The expression `TryTransformSelectToOrdinaryOps` builds from a match `m` of the
constants `(trueVal, falseVal)` is `trueVal` when the condition is 1 and
`falseVal` when it is 0: the expression is `oper(condition, bitIndex)` for a
non-zero `bitIndex` and `oper(falseVal, condition)` otherwise. -/
def BuildsValue (m : IntConstSelectOper) (trueVal falseVal : Int) : Prop :=
  if m.bitIndex > 0 then
    evalBinop m.oper m.type 1 m.bitIndex = some trueVal ∧
      evalBinop m.oper m.type 0 m.bitIndex = some falseVal
  else
    evalBinop m.oper m.type falseVal 1 = some trueVal ∧
      evalBinop m.oper m.type falseVal 0 = some falseVal

/-- The host `exComp false` with every value costing 6 and no local a likely
register candidate. -/
def exCompPenalty : Compiler :=
  { exComp false with GetCostEx := fun _ => 6, gtIsLikelyRegVar := fun _ => false }

/-! ## The select synthesis on the nodes of the graph

The peephole rewriter and the select synthesis are given above on trees as
values.  The source works on the nodes themselves: `gtReverseCond` reverses a
relational operator in its node, the two `TryTransformSelectOper…` functions
overwrite the operands, the operator and the flags of `oper`, and
`SetIntegralValue` overwrites a constant.  Here the same functions take the graph
and return, with their result, the graph they leave.  A node is named by the
statement that holds it and the operand positions that lead to it from the root
of the statement. -/

namespace InPlace

/-- A pointer to a node: block, position of the statement in the block's list,
and operand positions from the statement's root (0 for `gtOp1`, 1 for `gtOp2`). -/
structure NodeRef where
  block : Nat
  stmt : Nat
  path : List Nat
  deriving DecidableEq, Repr

/-- The first operand of the node `r` points to. -/
def NodeRef.op1 (r : NodeRef) : NodeRef := { r with path := r.path ++ [0] }

/-- The node reached from `t` by the operand positions `path`. -/
def subtree : GenTree → List Nat → Option GenTree
  | t, [] => some t
  | t, 0 :: p =>
    match t.gtGetOp1 with
    | some a => subtree a p
    | none => none
  | t, 1 :: p =>
    match t.gtGetOp2 with
    | some b => subtree b p
    | none => none
  | _, _ :: _ => none

/-- The tree `t` with the node at `path` overwritten by `new`. -/
def replace : GenTree → List Nat → GenTree → GenTree
  | _, [], new => new
  | .unary o t f n a, 0 :: p, new => .unary o t f n (replace a p new)
  | .binary o t f a b, 0 :: p, new => .binary o t f (replace a p new) b
  | .binary o t f a b, 1 :: p, new => .binary o t f a (replace b p new)
  | .ternary o t f c a b, 0 :: p, new => .ternary o t f c (replace a p new) b
  | .ternary o t f c a b, 1 :: p, new => .ternary o t f c a (replace b p new)
  | t, _ :: _, _ => t

/-- Read the node a pointer names; `none` is a null or dangling pointer. -/
def load (g : Graph) (r : NodeRef) : Option GenTree :=
  match (g r.block).bbStmtList[r.stmt]? with
  | some root => subtree root r.path
  | none => none

/-- Overwrite the node a pointer names. -/
def store (g : Graph) (r : NodeRef) (t : GenTree) : Graph :=
  match (g r.block).bbStmtList[r.stmt]? with
  | some root => setStmt g r.block r.stmt (replace root r.path t)
  | none => g

/-- Modelled from the spec: `Compiler::gtReverseCond` (host, not in the sources) on
a node of the graph: the "logically-negated condition"; a relational operator is
reversed in the node itself, for any other node a new node is built. -/
def gtReverseCond (g : Graph) (tree : NodeRef) : Option (GenTree × Graph) :=
  match load g tree with
  | none => none
  | some t =>
    if OperIsCompare t.OperGet then
      some (IfConversion.gtReverseCond t, store g tree (IfConversion.gtReverseCond t))
    else some (IfConversion.gtReverseCond t, g)

/-- `OptIfConversionDsc::TryTransformSelectOperOrLocal` on the nodes: the returned
pair is the result (null when no transformation took place) and the graph the
call leaves. -/
def TryTransformSelectOperOrLocal (g : Graph) (m_cond trueInput falseInput : NodeRef) :
    Option (Option GenTree × Graph) :=
  match load g trueInput, load g falseInput, load g m_cond with
  | some ti, some fi, some cond =>
    let isCondReversed := !OperIsAnyLocal fi.OperGet
    let operRef := if isCondReversed then falseInput else trueInput
    let oper := if isCondReversed then fi else ti
    let lcl := if isCondReversed then ti else fi
    if OperIsAnyLocal lcl.OperGet &&
        (oper.OperIs GT_ADD || oper.OperIs GT_OR || oper.OperIs GT_XOR ||
          OperIsShift oper.OperGet) then
      match oper.gtGetOp1, oper.gtGetOp2 with
      | some a, some b =>
        let swapped := OperIsCommutative oper.OperGet && !b.IsIntegralConst
        let lcl2 := if swapped then b else a
        let one := if swapped then a else b
        let isDecrement := oper.OperIs GT_ADD && one.IsIntegralConstVal (-1)
        if one.IsIntegralConstVal 1 || isDecrement then
          let lclNum := lcl.GetLclNum
          if lcl2.OperIs GT_LCL_VAR && lcl2.GetLclNum == lclNum then
            match (if isCondReversed then gtReverseCond g m_cond else some (cond, g)) with
            | none => none
            | some (c, g1) =>
              let oper1 := oper.setOps lcl2 c
              let oper2 := if isDecrement then oper1.SetOper GT_SUB else oper1
              let oper3 := oper2.SetFlags (oper2.gtFlags ||| (cond.gtFlags &&& GTF_ALL_EFFECT))
              some (some oper3, store g1 operRef oper3)
          else some (none, g)
        else some (none, g)
      | _, _ => none
    else some (none, g)
  | _, _, _ => none

/-- `OptIfConversionDsc::TryTransformSelectOperOrZero` on the nodes. -/
def TryTransformSelectOperOrZero (g : Graph) (m_cond trueInput falseInput : NodeRef) :
    Option (Option GenTree × Graph) :=
  match load g trueInput, load g falseInput, load g m_cond with
  | some ti, some fi, some cond =>
    let isCondReversed := !fi.IsIntegralConst
    let operRef := if isCondReversed then falseInput else trueInput
    let oper := if isCondReversed then fi else ti
    let zero := if isCondReversed then ti else fi
    if zero.IsIntegralConstVal 0 && (oper.OperIs GT_AND || oper.OperIs GT_LSH) then
      match oper.gtGetOp1, oper.gtGetOp2 with
      | some a, some b =>
        let swapped := OperIsCommutative oper.OperGet && !a.IsIntegralConst
        let one := if swapped then b else a
        let expr := if swapped then a else b
        if one.IsIntegralConstVal 1 then
          match (if isCondReversed then gtReverseCond g m_cond else some (cond, g)) with
          | none => none
          | some (c, g1) =>
            let oper1 := oper.setOps c expr
            let oper2 := oper1.SetFlags (oper1.gtFlags ||| (cond.gtFlags &&& GTF_ALL_EFFECT))
            some (some oper2, store g1 operRef oper2)
        else some (none, g)
      | _, _ => none
    else some (none, g)
  | _, _, _ => none

/-- The `else` branch of `TryTransformSelectToOrdinaryOps` (lines 977-992), compiled
for RISC-V 64 only: the two operation rewrites, one after the other. -/
def TryTransformSelectToOrdinaryOps.opers (g : Graph) (m_cond trueInput falseInput : NodeRef) :
    Option (Option GenTree × Graph) :=
  match TryTransformSelectOperOrLocal g m_cond trueInput falseInput with
  | none => none
  | some (some transformed, g1) => some (some transformed, g1)
  | some (none, g1) => TryTransformSelectOperOrZero g1 m_cond trueInput falseInput

/-- `OptIfConversionDsc::TryTransformSelectToOrdinaryOps` on the nodes; `thenNode`
is `m_thenOperation.node`, and `trueInput` is null when there is no else
expression. -/
def TryTransformSelectToOrdinaryOps (comp : Compiler) (g : Graph)
    (m_cond thenNode : NodeRef) (trueInput : Option NodeRef) (falseInput : NodeRef) :
    Option (Option GenTree × Graph) :=
  match trueInput with
  | some tr =>
    match load g tr, load g falseInput, load g m_cond with
    | some ti, some fi, some cond =>
      if ti.IsIntegralConst && fi.IsIntegralConst then
        let trueVal := ti.IntegralValue
        let falseVal := fi.IntegralValue
        if ti.TypeIs TYP_INT && fi.TypeIs TYP_INT && trueVal == 1 && falseVal == 0 then
          some (some cond, g)
        else if ti.TypeIs TYP_INT && fi.TypeIs TYP_INT && trueVal == 0 && falseVal == 1 then
          match gtReverseCond g m_cond with
          | none => none
          | some (c, g1) => some (some c, g1)
        else if comp.TARGET_RISCV64 then
          let first := MatchIntConstSelectValues trueVal falseVal
          let isCondReversed := !first.isMatched
          let selectOper :=
            if isCondReversed then MatchIntConstSelectValues falseVal trueVal else first
          if selectOper.isMatched then
            let leftRef := if isCondReversed then tr else falseInput
            let left := if isCondReversed then ti else fi
            match (if isCondReversed then gtReverseCond g m_cond else some (cond, g)) with
            | none => none
            | some (right, g1) =>
              if selectOper.bitIndex > 0 then
                let left1 := left.SetIntegralValue selectOper.bitIndex
                some (some (gtNewOperNode selectOper.oper selectOper.type right left1),
                  store g1 leftRef left1)
              else some (some (gtNewOperNode selectOper.oper selectOper.type left right), g1)
          else some (none, g)
        else some (none, g)
      else if comp.TARGET_RISCV64 then
        TryTransformSelectToOrdinaryOps.opers g m_cond tr falseInput
      else some (none, g)
    | _, _, _ => none
  | none =>
    if comp.TARGET_RISCV64 then TryTransformSelectToOrdinaryOps.opers g m_cond thenNode falseInput
    else some (none, g)

/-- Lines 678-717 of `optIfConvert` on the nodes: the expression that becomes the
value of the Then operation, null for the `return false` of the RISC-V 64
build, and the graph as it is then. -/
def select (comp : Compiler) (g : Graph) (d : OptIfConversionDsc) :
    Option (Option GenTree × Graph) :=
  match d.m_thenOperation.block, d.m_thenOperation.stmt with
  | some thenBlock, some thenStmt =>
    let thenNode : NodeRef := ⟨thenBlock, thenStmt, []⟩
    let m_cond : NodeRef := ⟨d.m_startBlock, (g d.m_startBlock).bbStmtList.length - 1, [0]⟩
    let selectFalseInput := thenNode.op1
    let selectTrueInput : Option (Option NodeRef) :=
      if d.m_mainOper = GT_STORE_LCL_VAR ∧ d.m_doElseConversion = false then some none
      else
        match d.m_elseOperation.block, d.m_elseOperation.stmt with
        | some elseBlock, some elseStmt => some (some ⟨elseBlock, elseStmt, [0]⟩)
        | _, _ => none
    match selectTrueInput, load g thenNode with
    | some selectTrueInput, some store =>
      match TryTransformSelectToOrdinaryOps comp g m_cond thenNode selectTrueInput
          selectFalseInput with
      | none => none
      | some (some select, g1) => some (some select, g1)
      | some (none, g1) =>
        if comp.TARGET_RISCV64 then some (none, g1)
        else
          let trueInput :=
            match selectTrueInput with
            | some r => load g1 r
            | none => some (gtNewLclVarNode store.GetLclNum store.TypeGet)
          match load g1 m_cond, trueInput, load g1 selectFalseInput with
          | some cond, some t, some f =>
            some (some (gtNewConditionalNode GT_SELECT cond t f (genActualType store.TypeGet)),
              g1)
          | _, _, _ => none
    | _, _ => none
  | _, _ => none

/-- `OptIfConversionDsc::optIfConvert` with the select synthesis on the nodes: the
`bool` result and the graph as the call leaves it.  The checks and the two
vetoes only read the graph; the synthesis hands on the graph it leaves, and the
rewrite starts from that graph. -/
def optIfConvert (comp : Compiler) (g : Graph) (startBlock : Nat) : Option (Bool × Graph) :=
  match optIfConvert.checks comp g startBlock with
  | none => none
  | some none => some (false, g)
  | some (some d) =>
    match optIfConvert.profitable comp g d with
    | none => none
    | some false => some (false, g)
    | some true =>
      match select comp g d with
      | none => none
      | some (none, g1) => some (false, g1)
      | some (some sel, g1) =>
        match optIfConvert.commit g1 d sel with
        | none => none
        | some g2 => some (true, g2)

end InPlace

/-! ## Theorems -/

/-- C3, evaluated at the pair (trueVal, falseVal) = (6, 0x100000005): the matcher
reports a 32-bit ADD, the rewriter builds `ADD<int>(0x100000005, cond)`, and that
expression is 6 when the condition is 1 but 5, not falseVal, when the condition is 0. -/
theorem c3_int_match_truncates_falseVal :
    MatchIntConstSelectValues 6 4294967301 = { oper := GT_ADD, type := TYP_INT } ∧
    TryTransformSelectToOrdinaryOps (exComp true) exDsc (some (exCns TYP_LONG 6))
        (exCns TYP_LONG 4294967301)
      = some (some (.binary GT_ADD TYP_INT 0 (exCns TYP_LONG 4294967301) exCond)) ∧
    eval (fun _ => 7) exCond = some 1 ∧
    eval (fun _ => 7) (.binary GT_ADD TYP_INT 0 (exCns TYP_LONG 4294967301) exCond) = some 6 ∧
    eval (fun _ => 0) exCond = some 0 ∧
    eval (fun _ => 0) (.binary GT_ADD TYP_INT 0 (exCns TYP_LONG 4294967301) exCond) = some 5 := by
  refine ⟨by decide, by decide, by decide, by decide, by decide, by decide⟩

/-- C1, evaluated on the RISC-V 64 build at `V00 = (V02 >= 7) ? 6 : 0x100000005` (64-bit
stores in both arms): the attempt converts and installs `ADD<int>(0x100000005, cond)` as
the value of the Then store; with `V02 = 0` the branch is not taken, the original
program stores the Then value 0x100000005, and the installed expression yields 5. -/
theorem c1_installed_value_differs_riscv64 :
    (optIfConvert (exComp true)
        (exDiamond (exStore 0 TYP_LONG (exCns TYP_LONG 4294967301))
          (exStore 0 TYP_LONG (exCns TYP_LONG 6))) 0).map
        (fun r => (r.1, (r.2 0).bbStmtList))
      = some (true,
          [.leaf GT_NOP TYP_VOID 0 0 0,
           exStore 0 TYP_LONG (.binary GT_ADD TYP_INT 0 (exCns TYP_LONG 4294967301) exCond),
           .leaf GT_NOP TYP_VOID 0 0 0]) ∧
    eval (fun _ => 0) exCond = some 0 ∧
    eval (fun _ => 0) (exCns TYP_LONG 4294967301) = some 4294967301 ∧
    eval (fun _ => 0) (.binary GT_ADD TYP_INT 0 (exCns TYP_LONG 4294967301) exCond) = some 5 := by
  refine ⟨by decide, by decide, by decide, by decide⟩

/-! ### The statement validator -/

theorem stmt_of_nop (comp : Compiler) (d : OptIfConversionDsc) (b i : Nat) (t : GenTree)
    (st : Bool × IfConvertOperation) (h : isNop t = true) :
    IfConvertCheckStmts.stmt comp d b i t st = .next st := by
  unfold isNop at h
  have h1 : t.OperGet = GT_NOP := by simpa using h
  unfold IfConvertCheckStmts.stmt
  rw [h1]

theorem stmt_of_eligible (comp : Compiler) (d : OptIfConversionDsc) (b i : Nat) (t : GenTree)
    (st : Bool × IfConvertOperation) (h : isEligible comp d t = true) :
    IfConvertCheckStmts.stmt comp d b i t st =
      if st.1 then .stop st else .next (true, { block := some b, stmt := some i, node := some t }) := by
  unfold isEligible at h
  unfold IfConvertCheckStmts.stmt
  cases hv : t.gtGetOp1 with
  | none => simp [hv] at h
  | some v =>
    simp only [hv] at h
    rcases st with ⟨f, op⟩
    cases ho : t.OperGet <;> simp_all [GenTree.OperIs] <;> cases f <;> simp_all <;>
      (split_ifs <;> first | rfl | simp_all)

theorem stmt_of_other (comp : Compiler) (d : OptIfConversionDsc) (b i : Nat) (t : GenTree)
    (st : Bool × IfConvertOperation) (hn : isNop t = false) (he : isEligible comp d t = false)
    (hw : t.OperGet = GT_STORE_LCL_VAR → t.gtGetOp1 ≠ none) :
    IfConvertCheckStmts.stmt comp d b i t st = .stop st := by
  unfold isEligible at he
  unfold isNop at hn
  unfold IfConvertCheckStmts.stmt
  cases hv : t.gtGetOp1 with
  | none =>
    cases ho : t.OperGet <;> simp_all
  | some v =>
    simp only [hv] at he
    rcases st with ⟨f, op⟩
    cases ho : t.OperGet <;> simp_all [GenTree.OperIs] <;> cases f <;> simp_all <;>
      (intros; cases h64 : comp.TARGET_64BIT <;> simp_all)

theorem not_nop_of_eligible (comp : Compiler) (d : OptIfConversionDsc) (t : GenTree)
    (h : isEligible comp d t = true) : isNop t = false := by
  unfold isEligible at h
  unfold isNop
  cases hv : t.gtGetOp1 with
  | none => simp [hv] at h
  | some v =>
    simp only [hv] at h
    cases ho : t.OperGet <;> simp_all

theorem stmts_stop_of_scan (comp : Compiler) (d : OptIfConversionDsc) (b : Nat) :
    ∀ (ss : List GenTree) (i : Nat) (st : Bool × IfConvertOperation), StoresHaveData ss →
      scanFound comp d ss st.1 = none →
      ∃ st1, IfConvertCheckStmts.stmts comp d b ss i st = .stop st1 := by
  intro ss
  induction ss with
  | nil => intro i st _ h; simp [scanFound] at h
  | cons t ts ih =>
    intro i st hw h
    have hwt : t.OperGet = GT_STORE_LCL_VAR → t.gtGetOp1 ≠ none := hw t (List.mem_cons_self _ _)
    have hwts : StoresHaveData ts := fun x hx => hw x (List.mem_cons_of_mem _ hx)
    unfold IfConvertCheckStmts.stmts
    unfold scanFound at h
    by_cases hn : isNop t = true
    · rw [stmt_of_nop comp d b i t st hn]
      simp only [hn, if_true] at h
      exact ih (i + 1) st hwts h
    · have hn1 : isNop t = false := by simpa using hn
      simp only [hn1] at h
      by_cases he : isEligible comp d t = true
      · rw [stmt_of_eligible comp d b i t st he]
        cases hf : st.1 with
        | true => exact ⟨st, by simp⟩
        | false =>
          simp only [he, hf] at h
          simp only [Bool.false_eq_true, if_false]
          exact ih (i + 1) (true, _) hwts (by simpa using h)
      · have he1 : isEligible comp d t = false := by simpa using he
        rw [stmt_of_other comp d b i t st hn1 he1 hwt]
        exact ⟨st, rfl⟩

theorem stmts_next_of_scan (comp : Compiler) (d : OptIfConversionDsc) (b : Nat) :
    ∀ (ss : List GenTree) (i : Nat) (st : Bool × IfConvertOperation) (f : Bool),
      scanFound comp d ss st.1 = some f →
      ∃ op, IfConvertCheckStmts.stmts comp d b ss i st = .next (f, op) := by
  intro ss
  induction ss with
  | nil =>
    intro i st f h
    simp only [scanFound, Option.some.injEq] at h
    exact ⟨st.2, by simp [IfConvertCheckStmts.stmts, ← h]⟩
  | cons t ts ih =>
    intro i st f h
    unfold IfConvertCheckStmts.stmts
    unfold scanFound at h
    by_cases hn : isNop t = true
    · rw [stmt_of_nop comp d b i t st hn]
      simp only [hn, if_true] at h
      exact ih (i + 1) st f h
    · have hn1 : isNop t = false := by simpa using hn
      simp only [hn1] at h
      by_cases he : isEligible comp d t = true
      · rw [stmt_of_eligible comp d b i t st he]
        cases hf : st.1 with
        | true => simp [he, hf] at h
        | false =>
          simp only [he, hf] at h
          simp only [Bool.false_eq_true, if_false]
          exact ih (i + 1) (true, _) f (by simpa using h)
      · have he1 : isEligible comp d t = false := by simpa using he
        simp [he1] at h

theorem scanFound_append (comp : Compiler) (d : OptIfConversionDsc) :
    ∀ (xs ys : List GenTree) (f : Bool),
      scanFound comp d (xs ++ ys) f = (scanFound comp d xs f).bind (scanFound comp d ys) := by
  intro xs
  induction xs with
  | nil => intro ys f; simp [scanFound]
  | cons t ts ih =>
    intro ys f
    simp only [List.cons_append, scanFound]
    split
    · exact ih ys f
    · split
      · exact ih ys true
      · rfl

theorem storesHaveData_append_left {xs ys : List GenTree} (h : StoresHaveData (xs ++ ys)) :
    StoresHaveData xs := fun t ht => h t (List.mem_append_left _ ht)

theorem storesHaveData_append_right {xs ys : List GenTree} (h : StoresHaveData (xs ++ ys)) :
    StoresHaveData ys := fun t ht => h t (List.mem_append_right _ ht)

theorem chainBlocks_succ_some (g : Graph) (final : Option Nat) (fuel : Nat) (block : Option Nat)
    (bs : List Nat) (h : chainBlocks g final (fuel + 1) block = some bs) (hne : block ≠ final) :
    ∃ b rest, block = some b ∧ bs = b :: rest ∧
      chainBlocks g final fuel (g b).GetUniqueSucc = some rest := by
  unfold chainBlocks at h
  simp only [hne, if_false] at h
  cases block with
  | none => simp at h
  | some b =>
    simp only [Option.map_eq_some'] at h
    obtain ⟨rest, h1, h2⟩ := h
    exact ⟨b, rest, rfl, h2.symm, h1⟩

theorem blocks_stop_of_scan (comp : Compiler) (g : Graph) (d : OptIfConversionDsc) :
    ∀ (fuel : Nat) (block : Option Nat) (bs : List Nat) (st : Bool × IfConvertOperation),
      chainBlocks g d.m_finalBlock fuel block = some bs → StoresHaveData (chainStmts g bs) →
      scanFound comp d (chainStmts g bs) st.1 = none →
      ∃ st1, IfConvertCheckStmts.blocks comp g d fuel block st = .stop st1 := by
  intro fuel
  induction fuel with
  | zero =>
    intro block bs st hc _ hs
    unfold chainBlocks at hc
    split at hc
    · simp only [Option.some.injEq] at hc
      subst hc
      simp [chainStmts, scanFound] at hs
    · simp at hc
  | succ n ih =>
    intro block bs st hc hw hs
    by_cases hne : block = d.m_finalBlock
    · unfold chainBlocks at hc
      simp only [hne, if_true, Option.some.injEq] at hc
      subst hc
      simp [chainStmts, scanFound] at hs
    · obtain ⟨b, rest, hb, hbs, hrest⟩ := chainBlocks_succ_some g _ n block bs hc hne
      subst hb hbs
      unfold IfConvertCheckStmts.blocks
      simp only [hne, if_false]
      simp only [chainStmts] at hw hs
      rw [scanFound_append] at hs
      cases hx : scanFound comp d (g b).bbStmtList st.1 with
      | none =>
        obtain ⟨st1, h1⟩ := stmts_stop_of_scan comp d b _ 0 st (storesHaveData_append_left hw) hx
        exact ⟨st1, by rw [h1]⟩
      | some f1 =>
        obtain ⟨op, h1⟩ := stmts_next_of_scan comp d b _ 0 st f1 hx
        rw [h1]
        rw [hx] at hs
        exact ih _ rest (f1, op) hrest (storesHaveData_append_right hw) hs

theorem blocks_next_of_scan (comp : Compiler) (g : Graph) (d : OptIfConversionDsc) :
    ∀ (fuel : Nat) (block : Option Nat) (bs : List Nat) (st : Bool × IfConvertOperation)
      (f : Bool),
      chainBlocks g d.m_finalBlock fuel block = some bs →
      scanFound comp d (chainStmts g bs) st.1 = some f →
      ∃ op, IfConvertCheckStmts.blocks comp g d fuel block st = .next (f, op) := by
  intro fuel
  induction fuel with
  | zero =>
    intro block bs st f hc hs
    unfold chainBlocks at hc
    split at hc
    · rename_i heq
      simp only [Option.some.injEq] at hc
      subst hc
      simp only [chainStmts, scanFound, Option.some.injEq] at hs
      exact ⟨st.2, by simp [IfConvertCheckStmts.blocks, heq, ← hs]⟩
    · simp at hc
  | succ n ih =>
    intro block bs st f hc hs
    by_cases hne : block = d.m_finalBlock
    · unfold chainBlocks at hc
      simp only [hne, if_true, Option.some.injEq] at hc
      subst hc
      simp only [chainStmts, scanFound, Option.some.injEq] at hs
      exact ⟨st.2, by simp [IfConvertCheckStmts.blocks, hne, ← hs]⟩
    · obtain ⟨b, rest, hb, hbs, hrest⟩ := chainBlocks_succ_some g _ n block bs hc hne
      subst hb hbs
      unfold IfConvertCheckStmts.blocks
      simp only [hne, if_false]
      simp only [chainStmts] at hs
      rw [scanFound_append] at hs
      cases hx : scanFound comp d (g b).bbStmtList st.1 with
      | none => simp [hx] at hs
      | some f1 =>
        obtain ⟨op, h1⟩ := stmts_next_of_scan comp d b _ 0 st f1 hx
        rw [h1]
        rw [hx] at hs
        exact ih _ rest (f1, op) f hrest hs

/-- The validator's result on a well-formed arm is decided by `scanFound`. -/
theorem checkStmts_eq_scan (comp : Compiler) (g : Graph) (d : OptIfConversionDsc) (fuel : Nat)
    (fromBlock : Option Nat) (op0 : IfConvertOperation) (bs : List Nat)
    (hc : chainBlocks g d.m_finalBlock fuel fromBlock = some bs)
    (hw : StoresHaveData (chainStmts g bs)) :
    ∃ op, IfConvertCheckStmts comp g d fuel fromBlock op0 =
      some (scanFound comp d (chainStmts g bs) false == some true, op) := by
  unfold IfConvertCheckStmts
  cases hs : scanFound comp d (chainStmts g bs) false with
  | none =>
    obtain ⟨st1, h1⟩ := blocks_stop_of_scan comp g d fuel fromBlock bs (false, op0) hc hw hs
    rw [h1]
    exact ⟨st1.2, by simp⟩
  | some f =>
    obtain ⟨op, h1⟩ := blocks_next_of_scan comp g d fuel fromBlock bs (false, op0) f hc hs
    rw [h1]
    exact ⟨op, by cases f <;> simp⟩

theorem scanFound_nops (comp : Compiler) (d : OptIfConversionDsc) :
    ∀ (ss : List GenTree) (f : Bool), (∀ t ∈ ss, isNop t = true) →
      scanFound comp d ss f = some f := by
  intro ss
  induction ss with
  | nil => intro f _; rfl
  | cons t ts ih =>
    intro f h
    unfold scanFound
    simp only [h t (List.mem_cons_self _ _), if_true]
    exact ih f (fun x hx => h x (List.mem_cons_of_mem _ hx))

theorem scanFound_true_inv (comp : Compiler) (d : OptIfConversionDsc) :
    ∀ (ss : List GenTree) (r : Bool), scanFound comp d ss true = some r →
      r = true ∧ ∀ t ∈ ss, isNop t = true := by
  intro ss
  induction ss with
  | nil => intro r h; simp only [scanFound, Option.some.injEq] at h; simp [← h]
  | cons t ts ih =>
    intro r h
    unfold scanFound at h
    by_cases hn : isNop t = true
    · simp only [hn, if_true] at h
      obtain ⟨h1, h2⟩ := ih r h
      exact ⟨h1, by
        intro x hx
        rcases List.mem_cons.mp hx with hx | hx
        · rw [hx]; exact hn
        · exact h2 x hx⟩
    · simp [hn] at h

theorem scanFound_false_iff (comp : Compiler) (d : OptIfConversionDsc) :
    ∀ ss : List GenTree, scanFound comp d ss false = some true ↔ OneEligible comp d ss := by
  intro ss
  induction ss with
  | nil =>
    constructor
    · intro h; simp [scanFound] at h
    · rintro ⟨pre, e, post, h, _⟩; simp at h
  | cons t ts ih =>
    unfold scanFound
    by_cases hn : isNop t = true
    · simp only [hn, if_true]
      rw [ih]
      constructor
      · rintro ⟨pre, e, post, h, h1, h2, h3⟩
        refine ⟨t :: pre, e, post, by simp [h], ?_, h2, h3⟩
        intro x hx
        rcases List.mem_cons.mp hx with hx | hx
        · rw [hx]; exact hn
        · exact h1 x hx
      · rintro ⟨pre, e, post, h, h1, h2, h3⟩
        cases pre with
        | nil =>
          simp only [List.nil_append, List.cons.injEq] at h
          rw [not_nop_of_eligible comp d t (h.1 ▸ h3)] at hn
          simp at hn
        | cons p pre1 =>
          simp only [List.cons_append, List.cons.injEq] at h
          exact ⟨pre1, e, post, h.2, fun x hx => h1 x (List.mem_cons_of_mem _ hx), h2, h3⟩
    · have hn1 : isNop t = false := by simpa using hn
      simp only [hn1]
      by_cases he : isEligible comp d t = true
      · simp only [he, Bool.not_false, Bool.and_self, if_true, Bool.false_eq_true, if_false]
        constructor
        · intro h
          exact ⟨[], t, ts, rfl, by simp, (scanFound_true_inv comp d ts true h).2, he⟩
        · rintro ⟨pre, e, post, h, h1, h2, h3⟩
          cases pre with
          | nil =>
            simp only [List.nil_append, List.cons.injEq] at h
            rw [h.2]
            exact scanFound_nops comp d post true h2
          | cons p pre1 =>
            simp only [List.cons_append, List.cons.injEq] at h
            have := h1 p (List.mem_cons_self _ _)
            rw [← h.1, hn1] at this
            simp at this
      · have he1 : isEligible comp d t = false := by simpa using he
        simp only [he1, Bool.false_and, Bool.false_eq_true, if_false]
        constructor
        · intro h; simp at h
        · rintro ⟨pre, e, post, h, h1, h2, h3⟩
          cases pre with
          | nil =>
            simp only [List.nil_append, List.cons.injEq] at h
            rw [← h.1, he1] at h3
            simp at h3
          | cons p pre1 =>
            simp only [List.cons_append, List.cons.injEq] at h
            have := h1 p (List.mem_cons_self _ _)
            rw [← h.1, hn1] at this
            simp at this

theorem stmt_next_cases (comp : Compiler) (d : OptIfConversionDsc) (b i : Nat) (t : GenTree)
    (st st1 : Bool × IfConvertOperation)
    (h : IfConvertCheckStmts.stmt comp d b i t st = .next st1) :
    (isNop t = true ∧ st1 = st) ∨
    (isEligible comp d t = true ∧
      st1 = (true, { block := some b, stmt := some i, node := some t })) := by
  by_cases hn : isNop t = true
  · rw [stmt_of_nop comp d b i t st hn] at h
    exact Or.inl ⟨hn, by simpa using h.symm⟩
  · have hn1 : isNop t = false := by simpa using hn
    by_cases he : isEligible comp d t = true
    · rw [stmt_of_eligible comp d b i t st he] at h
      cases hf : st.1 with
      | true => simp [hf] at h
      | false =>
        simp only [hf, Bool.false_eq_true, if_false, Step.next.injEq] at h
        exact Or.inr ⟨he, h.symm⟩
    · exfalso
      have he1 : isEligible comp d t = false := by simpa using he
      by_cases hw : t.OperGet = GT_STORE_LCL_VAR → t.gtGetOp1 ≠ none
      · rw [stmt_of_other comp d b i t st hn1 he1 hw] at h
        simp at h
      · simp only [ne_eq, Classical.not_imp, Decidable.not_not] at hw
        unfold IfConvertCheckStmts.stmt at h
        rw [hw.1] at h
        simp only [hw.2] at h
        split_ifs at h

theorem drop_eq_cons {α : Type} : ∀ (l : List α) (i : Nat) (t : α) (ts : List α),
    l.drop i = t :: ts → l[i]? = some t ∧ l.drop (i + 1) = ts := by
  intro l
  induction l with
  | nil => intro i t ts h; simp at h
  | cons x xs ih =>
    intro i t ts h
    cases i with
    | zero =>
      simp only [List.drop_zero, List.cons.injEq] at h
      simp [h.1, h.2]
    | succ j =>
      simp only [List.drop_succ_cons] at h
      simpa using ih j t ts h

theorem stmts_record (comp : Compiler) (g : Graph) (d : OptIfConversionDsc) (bs : List Nat)
    (b : Nat) (hb : b ∈ bs) :
    ∀ (ss : List GenTree) (i : Nat) (st st1 : Bool × IfConvertOperation),
      (g b).bbStmtList.drop i = ss →
      (st.1 = true → GoodRecord comp g d bs st.2) →
      IfConvertCheckStmts.stmts comp d b ss i st = .next st1 →
      (st1.1 = true → GoodRecord comp g d bs st1.2) := by
  intro ss
  induction ss with
  | nil =>
    intro i st st1 _ hst h
    simp only [IfConvertCheckStmts.stmts, Step.next.injEq] at h
    rw [← h]; exact hst
  | cons t ts ih =>
    intro i st st1 hd hst h
    obtain ⟨hget, hdrop⟩ := drop_eq_cons _ i t ts hd
    unfold IfConvertCheckStmts.stmts at h
    cases hs : IfConvertCheckStmts.stmt comp d b i t st with
    | fault => simp [hs] at h
    | stop a => simp [hs] at h
    | next st2 =>
      simp only [hs] at h
      refine ih (i + 1) st2 st1 hdrop ?_ h
      rcases stmt_next_cases comp d b i t st st2 hs with ⟨_, h2⟩ | ⟨he, h2⟩
      · rw [h2]; exact hst
      · intro _
        rw [h2]
        exact ⟨b, i, t, rfl, hb, hget, he⟩

theorem blocks_record (comp : Compiler) (g : Graph) (d : OptIfConversionDsc) (S : List Nat) :
    ∀ (fuel : Nat) (block : Option Nat) (bs : List Nat) (st st1 : Bool × IfConvertOperation),
      chainBlocks g d.m_finalBlock fuel block = some bs → (∀ x ∈ bs, x ∈ S) →
      (st.1 = true → GoodRecord comp g d S st.2) →
      IfConvertCheckStmts.blocks comp g d fuel block st = .next st1 →
      (st1.1 = true → GoodRecord comp g d S st1.2) := by
  intro fuel
  induction fuel with
  | zero =>
    intro block bs st st1 _ _ hst h
    unfold IfConvertCheckStmts.blocks at h
    split_ifs at h
    simp only [Step.next.injEq] at h
    rw [← h]; exact hst
  | succ n ih =>
    intro block bs st st1 hc hS hst h
    by_cases hne : block = d.m_finalBlock
    · unfold IfConvertCheckStmts.blocks at h
      simp only [hne, if_true, Step.next.injEq] at h
      rw [← h]; exact hst
    · obtain ⟨b, rest, hb, hbs, hrest⟩ := chainBlocks_succ_some g _ n block bs hc hne
      subst hb hbs
      unfold IfConvertCheckStmts.blocks at h
      simp only [hne, if_false] at h
      cases hs : IfConvertCheckStmts.stmts comp d b (g b).bbStmtList 0 st with
      | fault => simp [hs] at h
      | stop a => simp [hs] at h
      | next st2 =>
        simp only [hs] at h
        refine ih _ rest st2 st1 hrest (fun x hx => hS x (List.mem_cons_of_mem _ hx)) ?_ h
        exact stmts_record comp g d S b (hS b (List.mem_cons_self _ _)) _ 0 st st2
          (by simp) hst hs

theorem scanFound_two_non_nops (comp : Compiler) (d : OptIfConversionDsc)
    (xs ys zs : List GenTree) (a b : GenTree) (ha : isNop a = false) (hb : isNop b = false)
    (f : Bool) : scanFound comp d (xs ++ a :: ys ++ b :: zs) f ≠ some true := by
  intro h
  rw [List.append_assoc, scanFound_append] at h
  cases h1 : scanFound comp d xs f with
  | none => simp [h1] at h
  | some f1 =>
    simp only [h1, Option.some_bind, List.cons_append] at h
    unfold scanFound at h
    simp only [ha, Bool.false_eq_true, if_false] at h
    split_ifs at h
    have h2 := (scanFound_true_inv comp d _ true h).2 b (by simp)
    rw [hb] at h2
    simp at h2

/-- C5: on an arm whose walk reaches the merge block, `IfConvertCheckStmts` returns true
exactly when the arm's statements are one eligible statement among no-ops; the record
it returns names that statement and its block; arms of only no-ops, arms holding any
other statement, and arms holding two stores are rejected. -/
theorem checkStmts_characterisation (comp : Compiler) (g : Graph) (d : OptIfConversionDsc)
    (fuel : Nat) (fromBlock : Option Nat) (op0 : IfConvertOperation) (bs : List Nat)
    (hc : chainBlocks g d.m_finalBlock fuel fromBlock = some bs)
    (hw : StoresHaveData (chainStmts g bs)) :
    ∃ r op, IfConvertCheckStmts comp g d fuel fromBlock op0 = some (r, op) ∧
      (r = true ↔ OneEligible comp d (chainStmts g bs)) ∧
      (r = true → GoodRecord comp g d bs op) ∧
      ((∀ t ∈ chainStmts g bs, isNop t = true) → r = false) ∧
      ((∃ t ∈ chainStmts g bs, isNop t = false ∧ isEligible comp d t = false) → r = false) ∧
      ((∃ xs a ys b zs, chainStmts g bs = xs ++ a :: ys ++ b :: zs ∧
          a.OperGet = GT_STORE_LCL_VAR ∧ b.OperGet = GT_STORE_LCL_VAR) → r = false) := by
  obtain ⟨op, hop⟩ := checkStmts_eq_scan comp g d fuel fromBlock op0 bs hc hw
  refine ⟨_, op, hop, ?_, ?_, ?_, ?_, ?_⟩
  · rw [← scanFound_false_iff]; simp
  · intro hr
    have hs : scanFound comp d (chainStmts g bs) false = some true := by simpa using hr
    obtain ⟨op1, h1⟩ := blocks_next_of_scan comp g d fuel fromBlock bs (false, op0) true hc hs
    have h2 := blocks_record comp g d bs fuel fromBlock bs (false, op0) (true, op1) hc
      (fun _ hx => hx) (by simp) h1 rfl
    unfold IfConvertCheckStmts at hop
    rw [h1] at hop
    simp only [Option.some.injEq, Prod.mk.injEq] at hop
    rw [← hop.2]; exact h2
  · intro hall
    rw [scanFound_nops comp d _ false hall]; simp
  · rintro ⟨t, ht, hn, he⟩
    have : ¬ OneEligible comp d (chainStmts g bs) := by
      rintro ⟨pre, e, post, h, h1, h2, h3⟩
      rw [h] at ht
      rcases List.mem_append.mp ht with ht | ht
      · rw [h1 t ht] at hn; simp at hn
      · rcases List.mem_cons.mp ht with ht | ht
        · rw [ht, h3] at he; simp at he
        · rw [h2 t ht] at hn; simp at hn
    rw [← scanFound_false_iff] at this
    simpa using this
  · rintro ⟨xs, a, ys, b, zs, h, ha, hb⟩
    have := scanFound_two_non_nops comp d xs ys zs a b (by simp [isNop, ha]) (by simp [isNop, hb])
      false
    rw [← h] at this
    simpa using this

theorem exStoreDiamond_then_stores :
    StoresHaveData (chainStmts exStoreDiamond [1]) := by
  intro t ht
  simp only [chainStmts, exStoreDiamond, exDiamond, exBlock, List.append_nil,
    List.mem_singleton] at ht
  subst ht
  simp [exStore, GenTree.gtGetOp1]

/-- C5 on the Then arm of `exStoreDiamond` (block 1, holding one store). -/
theorem checkStmts_characterisation_witness :
    ∃ r op, IfConvertCheckStmts (exComp false) exStoreDiamond exDscFound 4 (some 1) {}
        = some (r, op) ∧
      (r = true ↔ OneEligible (exComp false) exDscFound (chainStmts exStoreDiamond [1])) ∧
      (r = true → GoodRecord (exComp false) exStoreDiamond exDscFound [1] op) ∧
      ((∀ t ∈ chainStmts exStoreDiamond [1], isNop t = true) → r = false) ∧
      ((∃ t ∈ chainStmts exStoreDiamond [1],
          isNop t = false ∧ isEligible (exComp false) exDscFound t = false) → r = false) ∧
      ((∃ xs a ys b zs, chainStmts exStoreDiamond [1] = xs ++ a :: ys ++ b :: zs ∧
          a.OperGet = GT_STORE_LCL_VAR ∧ b.OperGet = GT_STORE_LCL_VAR) → r = false) :=
  checkStmts_characterisation (exComp false) exStoreDiamond exDscFound 4 (some 1) {} [1]
    (by decide) exStoreDiamond_then_stores

/-! ### The flow matcher -/

theorem inner_eq (g : Graph) (d : OptIfConversionDsc) (b : Nat) :
    IfConvertCheckInnerBlockFlow g d b = innerFlowOk g d.m_startBlock d.m_doElseConversion b := by
  unfold IfConvertCheckInnerBlockFlow innerFlowOk
  cases h1 : ((g b).GetUniqueSucc != none || (d.m_doElseConversion && (g b).KindIs BBJ_RETURN)) <;>
    cases h2 : ((g b).GetUniquePred == none) <;>
    cases h3 : BasicBlock.sameEHRegion (g b) (g d.m_startBlock) <;>
    simp_all [bne]

theorem armChain_isArm (g : Graph) (start : Nat) (doElse : Bool) (final : Nat) :
    ∀ ts : List Nat, ArmChain g start doElse (some final) ts → IsArm g start final ts := by
  intro ts
  induction ts with
  | nil => intro h; exact h
  | cons b rest ih =>
    intro h
    cases rest with
    | nil =>
      obtain ⟨h1, h2⟩ := h
      unfold innerFlowOk at h1
      simp only [Bool.and_eq_true, bne_iff_ne, ne_eq] at h1
      exact ⟨h1.1.2, h1.2, h2⟩
    | cons b1 rest1 =>
      obtain ⟨h1, h2, h3⟩ := h
      unfold innerFlowOk at h1
      simp only [Bool.and_eq_true, bne_iff_ne, ne_eq] at h1
      exact ⟨h1.1.2, h1.2, h2, ih h3⟩

theorem thenLoop_found (g : Graph) (d : OptIfConversionDsc) (hd : d.m_flowFound = false) :
    ∀ (n tb : Nat) (ok : Bool) (d1 : OptIfConversionDsc),
      IfConvertCheckThenFlow.loop g d n tb = (ok, d1) → d1.m_flowFound = true →
      ∃ ts, ts.length ≤ n ∧ ts.head? = some tb ∧
        ArmChain g d.m_startBlock d.m_doElseConversion d.m_finalBlock ts ∧
        ∃ k, d1 = { d with m_flowFound := true, m_mainOper := k } := by
  intro n
  induction n with
  | zero =>
    intro tb ok d1 h hf
    simp only [IfConvertCheckThenFlow.loop, Prod.mk.injEq] at h
    rw [← h.2, hd] at hf
    simp at hf
  | succ n ih =>
    intro tb ok d1 h hf
    unfold IfConvertCheckThenFlow.loop at h
    by_cases hin : IfConvertCheckInnerBlockFlow g d tb = true
    · simp only [hin, Bool.not_true, Bool.false_eq_true, if_false] at h
      by_cases hfin : (g tb).GetUniqueSucc = d.m_finalBlock
      · simp only [hfin, if_true, Prod.mk.injEq] at h
        refine ⟨[tb], by simp, rfl, ⟨by rw [← inner_eq]; exact hin, hfin⟩, _, h.2.symm⟩
      · simp only [hfin, if_false] at h
        cases hs : (g tb).GetUniqueSucc with
        | none =>
          simp only [hs, Prod.mk.injEq] at h
          rw [← h.2, hd] at hf
          simp at hf
        | some nb =>
          simp only [hs] at h
          obtain ⟨ts, h1, h2, h3, h4⟩ := ih nb ok d1 h hf
          cases ts with
          | nil => simp at h2
          | cons t0 rest =>
            simp only [List.head?_cons, Option.some.injEq] at h2
            subst h2
            refine ⟨tb :: t0 :: rest, by simpa using h1, rfl, ⟨?_, hs, h3⟩, h4⟩
            rw [← inner_eq]; exact hin
    · simp only [hin, Bool.not_false, if_true, Prod.mk.injEq] at h
      rw [← h.2, hd] at hf
      simp at hf

theorem thenLoop_frame (g : Graph) (d : OptIfConversionDsc) :
    ∀ (n tb : Nat), (IfConvertCheckThenFlow.loop g d n tb).2 = d ∨
      ∃ k, IfConvertCheckThenFlow.loop g d n tb =
        (true, { d with m_flowFound := true, m_mainOper := k }) := by
  intro n
  induction n with
  | zero => intro tb; left; rfl
  | succ n ih =>
    intro tb
    unfold IfConvertCheckThenFlow.loop
    by_cases hin : IfConvertCheckInnerBlockFlow g d tb = true
    · simp only [hin, Bool.not_true, Bool.false_eq_true, if_false]
      by_cases hfin : (g tb).GetUniqueSucc = d.m_finalBlock
      · simp only [hfin, if_true]
        right; exact ⟨_, rfl⟩
      · simp only [hfin, if_false]
        cases hs : (g tb).GetUniqueSucc with
        | none => left; rfl
        | some nb => exact ih nb
    · simp only [hin, Bool.not_false, if_true]
      left; trivial

theorem checkThen_found (g : Graph) (d : OptIfConversionDsc) (ok : Bool)
    (d1 : OptIfConversionDsc) (h : IfConvertCheckThenFlow g d = some (ok, d1))
    (hf : d1.m_flowFound = true) :
    ∃ ts tb, (g d.m_startBlock).bbFalseTarget = some tb ∧ ts.length ≤ d.m_checkLimit ∧
      ts.head? = some tb ∧
      ArmChain g d.m_startBlock d.m_doElseConversion d.m_finalBlock ts ∧
      ∃ k, d1 = { d with m_flowFound := true, m_mainOper := k } := by
  unfold IfConvertCheckThenFlow at h
  cases hft : (g d.m_startBlock).bbFalseTarget with
  | none => simp [hft] at h
  | some tb =>
    simp only [hft, Option.some.injEq] at h
    obtain ⟨ts, h1, h2, h3, k, h4⟩ :=
      thenLoop_found g { d with m_flowFound := false } rfl _ tb ok d1 h hf
    exact ⟨ts, tb, rfl, h1, h2, h3, k, h4⟩

theorem checkThen_notFound (g : Graph) (d : OptIfConversionDsc) (ok : Bool)
    (d1 : OptIfConversionDsc) (h : IfConvertCheckThenFlow g d = some (ok, d1))
    (hf : d1.m_flowFound = false) : d1 = { d with m_flowFound := false } := by
  unfold IfConvertCheckThenFlow at h
  cases hft : (g d.m_startBlock).bbFalseTarget with
  | none => simp [hft] at h
  | some tb =>
    simp only [hft, Option.some.injEq] at h
    rcases thenLoop_frame g { d with m_flowFound := false } d.m_checkLimit tb with h1 | ⟨k, h1⟩
    · rw [h] at h1; exact h1
    · rw [h] at h1
      simp only [Prod.mk.injEq] at h1
      rw [h1.2] at hf
      simp at hf

theorem elseLoop_found (g : Graph) :
    ∀ (n : Nat) (d d1 : OptIfConversionDsc), d.m_flowFound = false →
      IfConvertFindFlow.loop g n d = some d1 → d1.m_flowFound = true →
      ∃ es ts tb, es.length ≤ n ∧ es.head? = d.m_finalBlock ∧ es ≠ [] ∧
        ArmChain g d.m_startBlock d.m_doElseConversion d1.m_finalBlock es ∧
        (g d.m_startBlock).bbFalseTarget = some tb ∧ ts.length ≤ d.m_checkLimit ∧
        ts.head? = some tb ∧
        ArmChain g d.m_startBlock d.m_doElseConversion d1.m_finalBlock ts ∧
        d1.m_doElseConversion = d.m_doElseConversion := by
  intro n
  induction n with
  | zero =>
    intro d d1 hd h hf
    simp only [IfConvertFindFlow.loop, Option.some.injEq] at h
    rw [← h, hd] at hf
    simp at hf
  | succ n ih =>
    intro d d1 hd h hf
    unfold IfConvertFindFlow.loop at h
    cases hfin : d.m_finalBlock with
    | none =>
      simp only [hfin, Option.some.injEq] at h
      rw [← h, hd] at hf
      simp at hf
    | some e =>
      simp only [hfin] at h
      by_cases hin : IfConvertCheckInnerBlockFlow g d e = true
      · simp only [hin, Bool.not_true, Bool.false_eq_true, if_false] at h
        cases hct : IfConvertCheckThenFlow g { d with m_finalBlock := (g e).GetUniqueSucc } with
        | none => simp [hct] at h
        | some r =>
          obtain ⟨ok, d2⟩ := r
          simp only [hct] at h
          have hin1 : innerFlowOk g d.m_startBlock d.m_doElseConversion e = true := by
            rw [← inner_eq]; exact hin
          by_cases hstop : (!ok || d2.m_flowFound) = true
          · simp only [hstop, if_true, Option.some.injEq] at h
            subst h
            obtain ⟨ts, tb, h1, h2, h3, h4, k, h5⟩ := checkThen_found g _ ok d2 hct hf
            subst h5
            exact ⟨[e], ts, tb, by simp, rfl, by simp, ⟨hin1, rfl⟩, h1, h2, h3, h4, rfl⟩
          · simp only [hstop, if_false] at h
            have hnf : d2.m_flowFound = false := by
              cases hx : d2.m_flowFound <;> simp_all
            have hd2 := checkThen_notFound g _ ok d2 hct hnf
            obtain ⟨es, ts, tb, h1, h2, h3, h4, h5, h6, h7, h8, h9⟩ := ih d2 d1 hnf h hf
            subst hd2
            cases es with
            | nil => exact absurd rfl h3
            | cons e1 rest =>
              simp only [List.head?_cons] at h2
              exact ⟨e :: e1 :: rest, ts, tb, by simpa using h1, rfl, by simp,
                ⟨hin1, h2.symm, h4⟩, h5, h6, h7, h8, h9⟩
      · simp only [hin, Bool.not_false, if_true, Option.some.injEq] at h
        rw [← h, hd] at hf
        simp at hf

/-- C6: when the flow matcher ends with a flow found and a merge block `M`, the Then
arm (from the false target) and, with the else flag set, the Else arm (from the
true target) are chains of at most 4 blocks, each block with a unique predecessor,
a unique successor and the start block's region, the last leading to `M`; with
the else flag clear `M` is the true target. -/
theorem findFlow_sound (g : Graph) (d d1 : OptIfConversionDsc) (M : Nat)
    (hlim : d.m_checkLimit = 4) (h : IfConvertFindFlow g d = some d1)
    (hf : d1.m_flowFound = true) (hM : d1.m_finalBlock = some M) :
    ∃ ts tb, (g d.m_startBlock).bbFalseTarget = some tb ∧ ts.head? = some tb ∧
      ts.length ≤ 4 ∧ IsArm g d.m_startBlock M ts ∧
      (d1.m_doElseConversion = true →
        ∃ es, es.head? = (g d.m_startBlock).bbTrueTarget ∧ es ≠ [] ∧ es.length ≤ 4 ∧
          IsArm g d.m_startBlock M es) ∧
      (d1.m_doElseConversion = false → (g d.m_startBlock).bbTrueTarget = some M) := by
  unfold IfConvertFindFlow at h
  cases hct : IfConvertCheckThenFlow g
      { d with m_doElseConversion := false, m_finalBlock := (g d.m_startBlock).bbTrueTarget } with
  | none => simp [hct] at h
  | some r =>
    obtain ⟨ok, d2⟩ := r
    simp only [hct] at h
    by_cases hstop : (!ok || d2.m_flowFound) = true
    · simp only [hstop, if_true, Option.some.injEq] at h
      subst h
      obtain ⟨ts, tb, h1, h2, h3, h4, k, h5⟩ := checkThen_found g _ ok d2 hct hf
      subst h5
      simp only at hM h4 h2 h1
      rw [hM] at h4
      refine ⟨ts, tb, h1, h3, by omega, armChain_isArm g _ _ M ts h4, ?_, fun _ => hM⟩
      intro hx; simp at hx
    · simp only [hstop, if_false] at h
      have hnf : d2.m_flowFound = false := by
        cases hx : d2.m_flowFound <;> simp_all
      have hd2 := checkThen_notFound g _ ok d2 hct hnf
      subst hd2
      obtain ⟨es, ts, tb, h1, h2, h3, h4, h5, h6, h7, h8, h9⟩ :=
        elseLoop_found g _ _ d1 rfl h hf
      simp only at h1 h2 h4 h5 h6 h8 h9
      rw [hM] at h4 h8
      refine ⟨ts, tb, h5, h7, by omega, armChain_isArm g _ _ M ts h8, ?_, ?_⟩
      · intro _
        exact ⟨es, h2, h3, by omega, armChain_isArm g _ _ M es h4⟩
      · intro hx; rw [h9] at hx; simp at hx

/-- C6 on `exStoreDiamond`, where the matcher finds merge block 3 with an Else arm. -/
theorem findFlow_sound_witness :
    ∃ ts tb, (exStoreDiamond exDsc.m_startBlock).bbFalseTarget = some tb ∧ ts.head? = some tb ∧
      ts.length ≤ 4 ∧ IsArm exStoreDiamond exDsc.m_startBlock 3 ts ∧
      (exDscFound.m_doElseConversion = true →
        ∃ es, es.head? = (exStoreDiamond exDsc.m_startBlock).bbTrueTarget ∧ es ≠ [] ∧
          es.length ≤ 4 ∧ IsArm exStoreDiamond exDsc.m_startBlock 3 es) ∧
      (exDscFound.m_doElseConversion = false →
        (exStoreDiamond exDsc.m_startBlock).bbTrueTarget = some 3) :=
  findFlow_sound exStoreDiamond exDsc exDscFound 3 (by decide) (by decide) (by decide)
    (by decide)

theorem checkThen_frame (g : Graph) (d : OptIfConversionDsc) (ok : Bool)
    (d1 : OptIfConversionDsc) (h : IfConvertCheckThenFlow g d = some (ok, d1)) :
    SameAttempt d d1 ∧ d1.m_finalBlock = d.m_finalBlock ∧
      d1.m_doElseConversion = d.m_doElseConversion := by
  unfold IfConvertCheckThenFlow at h
  cases hft : (g d.m_startBlock).bbFalseTarget with
  | none => simp [hft] at h
  | some tb =>
    simp only [hft, Option.some.injEq] at h
    rcases thenLoop_frame g { d with m_flowFound := false } d.m_checkLimit tb with h1 | ⟨k, h1⟩
    · rw [h] at h1
      simp only at h1
      subst h1
      exact ⟨⟨rfl, rfl, rfl, rfl, rfl⟩, rfl, rfl⟩
    · rw [h] at h1
      simp only [Prod.mk.injEq] at h1
      rw [h1.2]
      exact ⟨⟨rfl, rfl, rfl, rfl, rfl⟩, rfl, rfl⟩

theorem elseLoop_frame (g : Graph) :
    ∀ (n : Nat) (d d1 : OptIfConversionDsc), IfConvertFindFlow.loop g n d = some d1 →
      SameAttempt d d1 ∧ d1.m_doElseConversion = d.m_doElseConversion := by
  intro n
  induction n with
  | zero =>
    intro d d1 h
    simp only [IfConvertFindFlow.loop, Option.some.injEq] at h
    subst h
    exact ⟨⟨rfl, rfl, rfl, rfl, rfl⟩, rfl⟩
  | succ n ih =>
    intro d d1 h
    unfold IfConvertFindFlow.loop at h
    cases hfin : d.m_finalBlock with
    | none =>
      simp only [hfin, Option.some.injEq] at h
      subst h
      exact ⟨⟨rfl, rfl, rfl, rfl, rfl⟩, rfl⟩
    | some e =>
      simp only [hfin] at h
      split_ifs at h with hin
      · simp only [Option.some.injEq] at h
        subst h
        exact ⟨⟨rfl, rfl, rfl, rfl, rfl⟩, rfl⟩
      · cases hct : IfConvertCheckThenFlow g { d with m_finalBlock := (g e).GetUniqueSucc } with
        | none => simp [hct] at h
        | some r =>
          obtain ⟨ok, d2⟩ := r
          simp only [hct] at h
          obtain ⟨⟨a1, a2, a3, a4, a5⟩, _, a7⟩ := checkThen_frame g _ ok d2 hct
          simp only at a1 a2 a3 a4 a5 a7
          split_ifs at h with hstop
          · simp only [Option.some.injEq] at h
            subst h
            exact ⟨⟨a1, a2, a3, a4, a5⟩, a7⟩
          · obtain ⟨⟨b1, b2, b3, b4, b5⟩, b7⟩ := ih d2 d1 h
            exact ⟨⟨b1.trans a1, b2.trans a2, b3.trans a3, b4.trans a4, b5.trans a5⟩, b7.trans a7⟩

theorem findFlow_frame (g : Graph) (d d1 : OptIfConversionDsc)
    (h : IfConvertFindFlow g d = some d1) : SameAttempt d d1 := by
  unfold IfConvertFindFlow at h
  cases hct : IfConvertCheckThenFlow g
      { d with m_doElseConversion := false, m_finalBlock := (g d.m_startBlock).bbTrueTarget } with
  | none => simp [hct] at h
  | some r =>
    obtain ⟨ok, d2⟩ := r
    simp only [hct] at h
    obtain ⟨⟨a1, a2, a3, a4, a5⟩, _, _⟩ := checkThen_frame g _ ok d2 hct
    simp only at a1 a2 a3 a4 a5
    split_ifs at h with hstop
    · simp only [Option.some.injEq] at h
      subst h
      exact ⟨a1, a2, a3, a4, a5⟩
    · obtain ⟨⟨b1, b2, b3, b4, b5⟩, _⟩ := elseLoop_frame g _ _ d1 h
      simp only at b1 b2 b3 b4 b5
      exact ⟨b1.trans a1, b2.trans a2, b3.trans a3, b4.trans a4, b5.trans a5⟩

/-- What a successful run of the first phase of `optIfConvert` establishes. -/
theorem flow_spec (g : Graph) (s : Nat) (d : OptIfConversionDsc)
    (h : optIfConvert.flow g s = some (some d)) :
    d.m_startBlock = s ∧ d.m_checkLimit = 4 ∧ d.m_flowFound = true ∧
      d.m_thenOperation = {} ∧ d.m_elseOperation = {} ∧
      (g s).KindIs BBJ_COND = true ∧ (g s).NumSucc = 2 ∧
      ∃ d0 : OptIfConversionDsc, d0.m_startBlock = s ∧ d0.m_checkLimit = 4 ∧
        IfConvertFindFlow g d0 = some d := by
  unfold optIfConvert.flow at h
  split_ifs at h with h1 <;> try (simp at h; done)
  split at h <;> try (simp at h; done)
  split_ifs at h with h2
  split at h <;> try (simp at h; done)
  split_ifs at h with h3 <;> try (simp at h; done)
  split at h <;> try (simp at h; done)
  rename_i d2 hff
  split_ifs at h with h4
  · simp at h
  simp only [Option.some.injEq] at h
  subst h
  obtain ⟨a1, a2, a3, a4, a5⟩ := findFlow_frame g _ d2 hff
  simp only [Bool.or_eq_true, Bool.not_eq_true', bne_iff_ne, ne_eq, not_or,
    Bool.not_eq_false, Decidable.not_not] at h1
  exact ⟨a1, a3, by simpa using h4, a4, a5, h1.1, h1.2, _, rfl, rfl, hff⟩

theorem scanFound_none_of_bad (comp : Compiler) (d : OptIfConversionDsc) :
    ∀ (ss : List GenTree) (f : Bool),
      (∃ t ∈ ss, isNop t = false ∧ isEligible comp d t = false) →
      scanFound comp d ss f = none := by
  intro ss
  induction ss with
  | nil => rintro f ⟨t, ht, _⟩; simp at ht
  | cons x xs ih =>
    rintro f ⟨t, ht, hn, he⟩
    unfold scanFound
    rcases List.mem_cons.mp ht with ht | ht
    · subst ht
      simp [hn, he]
    · split_ifs
      · exact ih f ⟨t, ht, hn, he⟩
      · exact ih true ⟨t, ht, hn, he⟩
      · rfl

theorem checkStmts_false_of_bad (comp : Compiler) (g : Graph) (d : OptIfConversionDsc)
    (fuel : Nat) (fromBlock : Option Nat) (op0 : IfConvertOperation) (bs : List Nat)
    (hc : chainBlocks g d.m_finalBlock fuel fromBlock = some bs)
    (hw : StoresHaveData (chainStmts g bs))
    (hbad : ∃ t ∈ chainStmts g bs, isNop t = false ∧ isEligible comp d t = false) :
    ∃ op, IfConvertCheckStmts comp g d fuel fromBlock op0 = some (false, op) := by
  obtain ⟨op, hop⟩ := checkStmts_eq_scan comp g d fuel fromBlock op0 bs hc hw
  rw [scanFound_none_of_bad comp d _ false hbad] at hop
  exact ⟨op, by simpa using hop⟩

theorem checkStmts_total (comp : Compiler) (g : Graph) (d : OptIfConversionDsc)
    (fuel : Nat) (fromBlock : Option Nat) (op0 : IfConvertOperation) (bs : List Nat)
    (hc : chainBlocks g d.m_finalBlock fuel fromBlock = some bs)
    (hw : StoresHaveData (chainStmts g bs)) :
    ∃ r op, IfConvertCheckStmts comp g d fuel fromBlock op0 = some (r, op) := by
  obtain ⟨op, hop⟩ := checkStmts_eq_scan comp g d fuel fromBlock op0 bs hc hw
  exact ⟨_, op, hop⟩

theorem validate_none_of_then_false (comp : Compiler) (g : Graph) (d : OptIfConversionDsc)
    (op : IfConvertOperation)
    (h : IfConvertCheckStmts comp g d d.m_checkLimit (g d.m_startBlock).bbFalseTarget
      d.m_thenOperation = some (false, op)) :
    optIfConvert.validate comp g d = some none := by
  unfold optIfConvert.validate
  rw [h]

theorem validate_none_of_else_false (comp : Compiler) (g : Graph) (d : OptIfConversionDsc)
    (r : Bool) (thenOp : IfConvertOperation)
    (hthen : IfConvertCheckStmts comp g d d.m_checkLimit (g d.m_startBlock).bbFalseTarget
      d.m_thenOperation = some (r, thenOp))
    (hdo : d.m_doElseConversion = true)
    (helse : ∀ d1 : OptIfConversionDsc, d1.m_finalBlock = d.m_finalBlock →
      d1.m_doElseConversion = d.m_doElseConversion → d1.m_cond = d.m_cond →
      ∃ op, IfConvertCheckStmts comp g d1 d.m_checkLimit (g d.m_startBlock).bbTrueTarget
        d.m_elseOperation = some (false, op)) :
    optIfConvert.validate comp g d = some none := by
  unfold optIfConvert.validate
  rw [hthen]
  cases r with
  | false => rfl
  | true =>
    obtain ⟨op, hop⟩ := helse { d with m_thenOperation := thenOp } rfl rfl rfl
    simp only
    split_ifs
    rw [hop]

theorem optIfConvert_of_validate_none (comp : Compiler) (g : Graph) (s : Nat)
    (d : OptIfConversionDsc) (hflow : optIfConvert.flow g s = some (some d))
    (hv : optIfConvert.validate comp g d = some none) :
    optIfConvert comp g s = some (false, g) := by
  unfold optIfConvert optIfConvert.checks
  rw [hflow]
  simp only [hv]

theorem flagged_is_bad (comp : Compiler) (d : OptIfConversionDsc) (t : GenTree)
    (h : hasFlaggedValue t = true) : isNop t = false ∧ isEligible comp d t = false := by
  unfold hasFlaggedValue at h
  unfold isNop isEligible
  cases hv : t.gtGetOp1 with
  | none => simp [hv] at h
  | some v =>
    simp only [hv, Bool.and_eq_true, Bool.or_eq_true, beq_iff_eq, bne_iff_ne, ne_eq] at h
    obtain ⟨ho, hfl⟩ := h
    constructor
    · rcases ho with ho | ho <;> simp [ho]
    · simp only [Bool.and_eq_false_iff]
      left; left; right
      simpa using hfl

theorem isEligible_congr (comp : Compiler) (d d1 : OptIfConversionDsc) (t : GenTree)
    (h1 : d1.m_doElseConversion = d.m_doElseConversion) (h2 : d1.m_cond = d.m_cond) :
    isEligible comp d1 t = isEligible comp d t := by
  unfold isEligible
  rw [h1, h2]

/-- An attempt whose flow is found and one of whose arms holds a statement that is
neither a no-op nor eligible returns false. -/
theorem optIfConvert_false_of_bad_arm (comp : Compiler) (g : Graph) (s : Nat)
    (d : OptIfConversionDsc) (thenBs elseBs : List Nat)
    (hflow : optIfConvert.flow g s = some (some d))
    (hT : chainBlocks g d.m_finalBlock d.m_checkLimit (g s).bbFalseTarget = some thenBs)
    (hwT : StoresHaveData (chainStmts g thenBs))
    (hE : chainBlocks g d.m_finalBlock d.m_checkLimit (g s).bbTrueTarget = some elseBs)
    (hwE : StoresHaveData (chainStmts g elseBs))
    (hbad : (∃ t ∈ chainStmts g thenBs, isNop t = false ∧ isEligible comp d t = false) ∨
      (d.m_doElseConversion = true ∧
        ∃ t ∈ chainStmts g elseBs, isNop t = false ∧ isEligible comp d t = false)) :
    optIfConvert comp g s = some (false, g) := by
  have hs : d.m_startBlock = s := (flow_spec g s d hflow).1
  apply optIfConvert_of_validate_none comp g s d hflow
  rcases hbad with hb | ⟨hdo, hb⟩
  · obtain ⟨op, hop⟩ := checkStmts_false_of_bad comp g d d.m_checkLimit _ d.m_thenOperation
      thenBs hT hwT hb
    rw [← hs] at hop
    exact validate_none_of_then_false comp g d op hop
  · obtain ⟨r, op, hop⟩ := checkStmts_total comp g d d.m_checkLimit _ d.m_thenOperation
      thenBs hT hwT
    rw [← hs] at hop
    refine validate_none_of_else_false comp g d r op hop hdo ?_
    intro d1 h1 h2 h3
    rw [hs]
    refine checkStmts_false_of_bad comp g d1 d.m_checkLimit _ d.m_elseOperation elseBs
      (by rw [h1]; exact hE) hwE ?_
    obtain ⟨t, ht, hn, he⟩ := hb
    exact ⟨t, ht, hn, by rw [isEligible_congr comp d d1 t h2 h3]; exact he⟩

/-- C4: once a flow is found, if a store or return of the Then arm, or of the Else arm
when one is considered, has a value carrying the side-effect or the
order-dependent-side-effect flag, `optIfConvert` returns false. -/
theorem sideEffect_rejected (comp : Compiler) (g : Graph) (s : Nat)
    (d : OptIfConversionDsc) (thenBs elseBs : List Nat)
    (hflow : optIfConvert.flow g s = some (some d))
    (hT : chainBlocks g d.m_finalBlock d.m_checkLimit (g s).bbFalseTarget = some thenBs)
    (hwT : StoresHaveData (chainStmts g thenBs))
    (hE : chainBlocks g d.m_finalBlock d.m_checkLimit (g s).bbTrueTarget = some elseBs)
    (hwE : StoresHaveData (chainStmts g elseBs))
    (hbad : (∃ t ∈ chainStmts g thenBs, hasFlaggedValue t = true) ∨
      (d.m_doElseConversion = true ∧ ∃ t ∈ chainStmts g elseBs, hasFlaggedValue t = true)) :
    optIfConvert comp g s = some (false, g) := by
  apply optIfConvert_false_of_bad_arm comp g s d thenBs elseBs hflow hT hwT hE hwE
  rcases hbad with ⟨t, ht, hf⟩ | ⟨hdo, t, ht, hf⟩
  · exact Or.inl ⟨t, ht, flagged_is_bad comp d t hf⟩
  · exact Or.inr ⟨hdo, t, ht, flagged_is_bad comp d t hf⟩

theorem exCallDiamond_then_stores : StoresHaveData (chainStmts exCallDiamond [1]) := by
  intro t ht
  simp only [chainStmts, exCallDiamond, exDiamond, exBlock, List.append_nil,
    List.mem_singleton] at ht
  subst ht
  simp [exStore, GenTree.gtGetOp1]

theorem exCallDiamond_else_stores : StoresHaveData (chainStmts exCallDiamond [2]) := by
  intro t ht
  simp only [chainStmts, exCallDiamond, exDiamond, exBlock, List.append_nil,
    List.mem_singleton] at ht
  subst ht
  simp [exStore, GenTree.gtGetOp1]

/-- C4 on `exCallDiamond`, whose Then store has a call as its value. -/
theorem sideEffect_rejected_witness :
    optIfConvert (exComp false) exCallDiamond 0 = some (false, exCallDiamond) :=
  sideEffect_rejected (exComp false) exCallDiamond 0 exDscFound [1] [2] (by decide) (by decide)
    exCallDiamond_then_stores (by decide) exCallDiamond_else_stores
    (Or.inl ⟨exStore 0 TYP_INT (.leaf GT_CALL TYP_INT GTF_CALL 0 0), by
      simp [chainStmts, exCallDiamond, exDiamond, exBlock], by decide⟩)

theorem isEligible_width (comp : Compiler) (d : OptIfConversionDsc) (t : GenTree) :
    isEligible comp d t =
      (eligibleApartFromWidth d t && (comp.TARGET_64BIT || !varTypeIsLong t.TypeGet)) := by
  unfold isEligible eligibleApartFromWidth
  cases t.gtGetOp1 with
  | none => rfl
  | some v =>
    simp only
    cases (t.OperGet == GT_STORE_LCL_VAR || (t.OperGet == GT_RETURN && d.m_doElseConversion)) <;>
      cases varTypeIsIntegralOrI t.TypeGet <;>
      cases (comp.TARGET_64BIT || !varTypeIsLong t.TypeGet) <;>
      cases ((v.gtFlags &&& (GTF_SIDE_EFFECT ||| GTF_ORDER_SIDEEFF)) == 0) <;>
      cases (t.OperGet != GT_STORE_LCL_VAR || v.OperGet != GT_PHI) <;>
      cases (((d.m_cond.gtFlags &&& GTF_ORDER_SIDEEFF) == 0) || v.IsInvariant ||
        OperIsLocal v.OperGet) <;> rfl

theorem not_nop_of_store_or_return (t : GenTree)
    (h : t.OperGet = GT_STORE_LCL_VAR ∨ t.OperGet = GT_RETURN) : isNop t = false := by
  unfold isNop
  rcases h with h | h <;> simp [h]

/-- C9: on an arm whose walk reaches the merge block, (1) a store or return of
non-integral type makes `IfConvertCheckStmts` return false on every target; (2) a
store or return of a 64-bit integer type makes it return false when the target is
not 64-bit; (3) when the arm is no-ops around one statement of a 64-bit integer
type that passes every other rule, the result is true exactly on a 64-bit target. -/
theorem typeWidth_rule (comp : Compiler) (g : Graph) (d : OptIfConversionDsc)
    (fuel : Nat) (fromBlock : Option Nat) (op0 : IfConvertOperation) (bs : List Nat)
    (hc : chainBlocks g d.m_finalBlock fuel fromBlock = some bs)
    (hw : StoresHaveData (chainStmts g bs)) :
    ((∃ t ∈ chainStmts g bs, (t.OperGet = GT_STORE_LCL_VAR ∨ t.OperGet = GT_RETURN) ∧
        varTypeIsIntegralOrI t.TypeGet = false) →
      ∃ op, IfConvertCheckStmts comp g d fuel fromBlock op0 = some (false, op)) ∧
    ((∃ t ∈ chainStmts g bs, (t.OperGet = GT_STORE_LCL_VAR ∨ t.OperGet = GT_RETURN) ∧
        varTypeIsLong t.TypeGet = true) → comp.TARGET_64BIT = false →
      ∃ op, IfConvertCheckStmts comp g d fuel fromBlock op0 = some (false, op)) ∧
    (∀ pre e post, chainStmts g bs = pre ++ e :: post → (∀ t ∈ pre, isNop t = true) →
      (∀ t ∈ post, isNop t = true) → varTypeIsLong e.TypeGet = true →
      eligibleApartFromWidth d e = true →
      ∃ op, IfConvertCheckStmts comp g d fuel fromBlock op0 = some (comp.TARGET_64BIT, op)) := by
  refine ⟨?_, ?_, ?_⟩
  · rintro ⟨t, ht, ho, hty⟩
    refine checkStmts_false_of_bad comp g d fuel fromBlock op0 bs hc hw
      ⟨t, ht, not_nop_of_store_or_return t ho, ?_⟩
    unfold isEligible
    cases t.gtGetOp1 with
    | none => rfl
    | some v => simp [hty]
  · rintro ⟨t, ht, ho, hty⟩ h32
    refine checkStmts_false_of_bad comp g d fuel fromBlock op0 bs hc hw
      ⟨t, ht, not_nop_of_store_or_return t ho, ?_⟩
    rw [isEligible_width]
    simp [hty, h32]
  · intro pre e post hss hpre hpost hlong hel
    obtain ⟨op, hop⟩ := checkStmts_eq_scan comp g d fuel fromBlock op0 bs hc hw
    refine ⟨op, ?_⟩
    rw [hop]
    cases h64 : comp.TARGET_64BIT with
    | true =>
      have h1 : OneEligible comp d (chainStmts g bs) :=
        ⟨pre, e, post, hss, hpre, hpost, by rw [isEligible_width]; simp [hel, h64]⟩
      rw [← scanFound_false_iff] at h1
      simp [h1]
    | false =>
      have hbad : isEligible comp d e = false := by
        rw [isEligible_width]; simp [hlong, h64]
      have hnn : isNop e = false := by
        cases hn : isNop e with
        | false => rfl
        | true =>
          unfold eligibleApartFromWidth at hel
          unfold isNop at hn
          cases hv : e.gtGetOp1 with
          | none => simp [hv] at hel
          | some v =>
            simp only [hv] at hel
            have : e.OperGet = GT_NOP := by simpa using hn
            simp [this] at hel
      rw [scanFound_none_of_bad comp d _ false ⟨e, by rw [hss]; simp, hnn, hbad⟩]
      simp

theorem exLongDiamond_then_stores : StoresHaveData (chainStmts exLongDiamond [1]) := by
  intro t ht
  simp only [chainStmts, exLongDiamond, exDiamond, exBlock, List.append_nil,
    List.mem_singleton] at ht
  subst ht
  simp [exStore, GenTree.gtGetOp1]

/-- C9 on the Then arm of `exLongDiamond` (one 64-bit store), on a 32-bit target. -/
theorem typeWidth_rule_witness :
    ((∃ t ∈ chainStmts exLongDiamond [1],
        (t.OperGet = GT_STORE_LCL_VAR ∨ t.OperGet = GT_RETURN) ∧
        varTypeIsIntegralOrI t.TypeGet = false) →
      ∃ op, IfConvertCheckStmts { exComp false with TARGET_64BIT := false } exLongDiamond
        exDscFound 4 (some 1) {} = some (false, op)) ∧
    ((∃ t ∈ chainStmts exLongDiamond [1],
        (t.OperGet = GT_STORE_LCL_VAR ∨ t.OperGet = GT_RETURN) ∧
        varTypeIsLong t.TypeGet = true) →
      ({ exComp false with TARGET_64BIT := false } : Compiler).TARGET_64BIT = false →
      ∃ op, IfConvertCheckStmts { exComp false with TARGET_64BIT := false } exLongDiamond
        exDscFound 4 (some 1) {} = some (false, op)) ∧
    (∀ pre e post, chainStmts exLongDiamond [1] = pre ++ e :: post →
      (∀ t ∈ pre, isNop t = true) → (∀ t ∈ post, isNop t = true) →
      varTypeIsLong e.TypeGet = true → eligibleApartFromWidth exDscFound e = true →
      ∃ op, IfConvertCheckStmts { exComp false with TARGET_64BIT := false } exLongDiamond
        exDscFound 4 (some 1) {}
        = some (({ exComp false with TARGET_64BIT := false } : Compiler).TARGET_64BIT, op)) :=
  typeWidth_rule { exComp false with TARGET_64BIT := false } exLongDiamond exDscFound 4 (some 1)
    {} [1] (by decide) exLongDiamond_then_stores

/-! ### The flow matcher on a diamond -/

theorem inner_of_linked (g : Graph) (d : OptIfConversionDsc) (b x : Nat)
    (hp : (g b).GetUniquePred ≠ none) (hs : (g b).GetUniqueSucc = some x) :
    IfConvertCheckInnerBlockFlow g d b = BasicBlock.sameEHRegion (g b) (g d.m_startBlock) := by
  unfold IfConvertCheckInnerBlockFlow
  cases hq : (g b).GetUniquePred with
  | none => exact absurd hq hp
  | some q => simp [hs]

theorem inner_of_no_pred (g : Graph) (d : OptIfConversionDsc) (b : Nat)
    (hp : (g b).GetUniquePred = none) : IfConvertCheckInnerBlockFlow g d b = false := by
  unfold IfConvertCheckInnerBlockFlow
  simp [hp]

theorem kind_of_succ (g : Graph) (b x : Nat) (hs : (g b).GetUniqueSucc = some x) :
    (g b).KindIs BBJ_RETURN = false := by
  unfold BasicBlock.GetUniqueSucc at hs
  unfold BasicBlock.KindIs
  split_ifs at hs with hk
  simp [hk]

theorem thenLoop_finds (g : Graph) (d : OptIfConversionDsc) (M : Nat)
    (hfin : d.m_finalBlock = some M) :
    ∀ (ts : List Nat) (n : Nat) (t0 : Nat), ts.head? = some t0 → Linked g M ts →
      ts.length ≤ n → AllSameRegion g d.m_startBlock ts →
      IfConvertCheckThenFlow.loop g d n t0 =
        (true, { d with m_flowFound := true, m_mainOper := GT_STORE_LCL_VAR }) := by
  intro ts
  induction ts with
  | nil => intro n t0 h; simp at h
  | cons b rest ih =>
    intro n t0 h0 hl hn hr
    simp only [List.head?_cons, Option.some.injEq] at h0
    subst h0
    cases n with
    | zero => simp at hn
    | succ n =>
      unfold IfConvertCheckThenFlow.loop
      cases rest with
      | nil =>
        obtain ⟨hp, hs⟩ := hl
        rw [inner_of_linked g d b M hp hs, hr b (List.mem_cons_self _ _)]
        simp [hs, hfin, kind_of_succ g b M hs]
      | cons b1 rest1 =>
        obtain ⟨hp, hs, hl1⟩ := hl
        rw [inner_of_linked g d b b1 hp hs, hr b (List.mem_cons_self _ _)]
        simp only [Bool.not_true, Bool.false_eq_true, if_false, hs]
        by_cases hb1 : some b1 = d.m_finalBlock
        · simp [hb1, kind_of_succ g b b1 hs]
        · simp only [hb1, if_false]
          exact ih n b1 rfl hl1 (by simpa using hn)
            (fun x hx => hr x (List.mem_cons_of_mem _ hx))

theorem thenLoop_misses (g : Graph) (d : OptIfConversionDsc) (M : Nat)
    (hM : (g M).GetUniquePred = none) :
    ∀ (ts : List Nat) (n : Nat) (t0 : Nat), ts.head? = some t0 → Linked g M ts →
      (∀ x ∈ ts.tail, d.m_finalBlock ≠ some x) →
      (d.m_finalBlock = some M → ¬ (ts.length ≤ n ∧ AllSameRegion g d.m_startBlock ts)) →
      IfConvertCheckThenFlow.loop g d n t0 = (true, d) := by
  intro ts
  induction ts with
  | nil => intro n t0 h; simp at h
  | cons b rest ih =>
    intro n t0 h0 hl htail hnot
    simp only [List.head?_cons, Option.some.injEq] at h0
    subst h0
    cases n with
    | zero => rfl
    | succ n =>
      unfold IfConvertCheckThenFlow.loop
      cases rest with
      | nil =>
        obtain ⟨hp, hs⟩ := hl
        rw [inner_of_linked g d b M hp hs]
        cases hreg : BasicBlock.sameEHRegion (g b) (g d.m_startBlock) with
        | false => simp
        | true =>
          simp only [Bool.not_true, Bool.false_eq_true, if_false, hs]
          have hne : ¬ (some M = d.m_finalBlock) := by
            intro h
            apply hnot h.symm
            refine ⟨by simp, ?_⟩
            intro x hx
            simp only [List.mem_singleton] at hx
            rw [hx]; exact hreg
          simp only [hne, if_false]
          cases n with
          | zero => rfl
          | succ n =>
            unfold IfConvertCheckThenFlow.loop
            simp [inner_of_no_pred g d M hM]
      | cons b1 rest1 =>
        obtain ⟨hp, hs, hl1⟩ := hl
        rw [inner_of_linked g d b b1 hp hs]
        cases hreg : BasicBlock.sameEHRegion (g b) (g d.m_startBlock) with
        | false => simp
        | true =>
          simp only [Bool.not_true, Bool.false_eq_true, if_false, hs]
          have hne : ¬ (some b1 = d.m_finalBlock) := by
            intro h
            exact htail b1 (by simp) h.symm
          simp only [hne, if_false]
          refine ih n b1 rfl hl1 (fun x hx => htail x (by simp at hx ⊢; exact Or.inr hx)) ?_
          intro hf hcon
          apply hnot hf
          refine ⟨by simpa using hcon.1, ?_⟩
          intro x hx
          rcases List.mem_cons.mp hx with hx | hx
          · rw [hx]; exact hreg
          · exact hcon.2 x hx

theorem checkThen_finds (g : Graph) (d : OptIfConversionDsc) (M t0 : Nat) (ts : List Nat)
    (hft : (g d.m_startBlock).bbFalseTarget = some t0) (h0 : ts.head? = some t0)
    (hl : Linked g M ts) (hfin : d.m_finalBlock = some M) (hn : ts.length ≤ d.m_checkLimit)
    (hr : AllSameRegion g d.m_startBlock ts) :
    IfConvertCheckThenFlow g d =
      some (true, { d with m_flowFound := true, m_mainOper := GT_STORE_LCL_VAR }) := by
  unfold IfConvertCheckThenFlow
  simp only [hft]
  rw [thenLoop_finds g { d with m_flowFound := false } M hfin ts d.m_checkLimit t0 h0 hl hn hr]

theorem checkThen_misses (g : Graph) (d : OptIfConversionDsc) (M t0 : Nat) (ts : List Nat)
    (hM : (g M).GetUniquePred = none)
    (hft : (g d.m_startBlock).bbFalseTarget = some t0) (h0 : ts.head? = some t0)
    (hl : Linked g M ts) (htail : ∀ x ∈ ts.tail, d.m_finalBlock ≠ some x)
    (hnot : d.m_finalBlock = some M →
      ¬ (ts.length ≤ d.m_checkLimit ∧ AllSameRegion g d.m_startBlock ts)) :
    IfConvertCheckThenFlow g d = some (true, { d with m_flowFound := false }) := by
  unfold IfConvertCheckThenFlow
  simp only [hft]
  rw [thenLoop_misses g { d with m_flowFound := false } M hM ts d.m_checkLimit t0 h0 hl
    htail hnot]

theorem elseLoop_at_merge (g : Graph) (M : Nat) (hM : (g M).GetUniquePred = none)
    (n : Nat) (d : OptIfConversionDsc) (hfin : d.m_finalBlock = some M) :
    IfConvertFindFlow.loop g n d = some d := by
  cases n with
  | zero => rfl
  | succ n =>
    unfold IfConvertFindFlow.loop
    simp [hfin, inner_of_no_pred g d M hM]

theorem elseLoop_diamond (g : Graph) (start M t0 : Nat) (ts : List Nat)
    (hM : (g M).GetUniquePred = none) (hft : (g start).bbFalseTarget = some t0)
    (h0 : ts.head? = some t0) (hl : Linked g M ts) (hMt : M ∉ ts) :
    ∀ (es : List Nat) (n : Nat) (d : OptIfConversionDsc) (e0 : Nat),
      es.head? = some e0 → Linked g M es → M ∉ es → (∀ b ∈ es, b ∉ ts.tail) →
      d.m_finalBlock = some e0 → d.m_flowFound = false → d.m_checkLimit = 4 →
      d.m_startBlock = start →
      ∃ d1, IfConvertFindFlow.loop g n d = some d1 ∧
        (d1.m_flowFound = true ↔
          (es.length ≤ n ∧ AllSameRegion g start es ∧ ts.length ≤ 4 ∧
            AllSameRegion g start ts)) := by
  intro es
  induction es with
  | nil => intro n d e0 h; simp at h
  | cons e rest ih =>
    intro n d e0 he0 hle hMe hdis hfin hnf hlim hst
    simp only [List.head?_cons, Option.some.injEq] at he0
    subst he0
    subst hst
    cases n with
    | zero =>
      refine ⟨d, rfl, ?_⟩
      rw [hnf]; simp
    | succ n =>
      unfold IfConvertFindFlow.loop
      simp only [hfin]
      cases rest with
      | nil =>
        obtain ⟨hp, hs⟩ := hle
        rw [inner_of_linked g d e M hp hs]
        cases hreg : BasicBlock.sameEHRegion (g e) (g d.m_startBlock) with
        | false =>
          refine ⟨d, by simp, ?_⟩
          rw [hnf]
          simp only [Bool.false_eq_true, false_iff, not_and]
          intro _ hall
          have := hall e (List.mem_cons_self _ _)
          rw [hreg] at this
          simp at this
        | true =>
          simp only [Bool.not_true, Bool.false_eq_true, if_false, hs]
          by_cases hgood : ts.length ≤ 4 ∧ AllSameRegion g d.m_startBlock ts
          · rw [checkThen_finds g { d with m_finalBlock := some M } M t0 ts
              hft h0 hl rfl (by simpa [hlim] using hgood.1)
              hgood.2]
            refine ⟨{ d with m_finalBlock := some M, m_flowFound := true,
                             m_mainOper := GT_STORE_LCL_VAR }, by simp, ?_⟩
            simp only [true_iff]
            refine ⟨by simp, ?_, hgood.1, hgood.2⟩
            intro x hx
            simp only [List.mem_singleton] at hx
            rw [hx]; exact hreg
          · rw [checkThen_misses g { d with m_finalBlock := some M } M t0 ts hM
              hft h0 hl
              (by
                intro x hx h
                simp only [Option.some.injEq] at h
                subst h
                exact hMt (List.mem_of_mem_tail hx))
              (by intro _; simpa [hlim] using hgood)]
            simp only [Bool.not_true, Bool.false_or, Bool.false_eq_true, if_false]
            rw [elseLoop_at_merge g M hM n _ rfl]
            refine ⟨_, rfl, ?_⟩
            simp only [Bool.false_eq_true, false_iff, not_and]
            intro _ _ h1 h2
            exact hgood ⟨h1, h2⟩
      | cons e1 rest1 =>
        obtain ⟨hp, hs, hl1⟩ := hle
        rw [inner_of_linked g d e e1 hp hs]
        cases hreg : BasicBlock.sameEHRegion (g e) (g d.m_startBlock) with
        | false =>
          refine ⟨d, by simp, ?_⟩
          rw [hnf]
          simp only [Bool.false_eq_true, false_iff, not_and]
          intro _ hall
          have := hall e (List.mem_cons_self _ _)
          rw [hreg] at this
          simp at this
        | true =>
          simp only [Bool.not_true, Bool.false_eq_true, if_false, hs]
          have he1M : e1 ≠ M := by
            intro h
            apply hMe
            rw [← h]; simp
          rw [checkThen_misses g { d with m_finalBlock := some e1 } M t0 ts hM
            hft h0 hl
            (by
              intro x hx h
              simp only [Option.some.injEq] at h
              subst h
              exact hdis e1 (by simp) hx)
            (by
              intro h
              simp only [Option.some.injEq] at h
              exact absurd h he1M)]
          simp only [Bool.not_true, Bool.false_or, Bool.false_eq_true, if_false]
          obtain ⟨d1, hd1, hiff⟩ := ih n { d with m_finalBlock := some e1, m_flowFound := false }
            e1 rfl hl1 (fun h => hMe (List.mem_cons_of_mem _ h))
            (fun b hb => hdis b (List.mem_cons_of_mem _ hb)) rfl rfl hlim rfl
          refine ⟨d1, hd1, ?_⟩
          rw [hiff]
          constructor
          · rintro ⟨a1, a2, a3, a4⟩
            refine ⟨by simpa using a1, ?_, a3, a4⟩
            intro x hx
            rcases List.mem_cons.mp hx with hx | hx
            · rw [hx]; exact hreg
            · exact a2 x hx
          · rintro ⟨a1, a2, a3, a4⟩
            exact ⟨by simpa using a1, fun x hx => a2 x (List.mem_cons_of_mem _ hx), a3, a4⟩

theorem linked_ne_nil (g : Graph) (M : Nat) (ts : List Nat) (h : Linked g M ts) :
    ∃ t0 rest, ts = t0 :: rest := by
  cases ts with
  | nil => exact h.elim
  | cons t0 rest => exact ⟨t0, rest, rfl⟩

theorem allSameRegion_append (g : Graph) (start : Nat) (xs ys : List Nat) :
    AllSameRegion g start (xs ++ ys) ↔ AllSameRegion g start xs ∧ AllSameRegion g start ys := by
  unfold AllSameRegion
  constructor
  · intro h
    exact ⟨fun b hb => h b (List.mem_append_left _ hb), fun b hb => h b (List.mem_append_right _ hb)⟩
  · rintro ⟨h1, h2⟩ b hb
    rcases List.mem_append.mp hb with hb | hb
    · exact h1 b hb
    · exact h2 b hb

/-- On a diamond the matcher ends normally, and it finds a flow exactly when both
chains have at most 4 blocks and every arm block lies in the start block's region. -/
theorem findFlow_diamond (g : Graph) (start M : Nat) (ts es : List Nat)
    (d : OptIfConversionDsc) (hD : Diamond g start M ts es) (hst : d.m_startBlock = start)
    (hlim : d.m_checkLimit = 4) :
    ∃ d1, IfConvertFindFlow g d = some d1 ∧
      (d1.m_flowFound = true ↔
        (ts.length ≤ 4 ∧ es.length ≤ 4 ∧ AllSameRegion g start (ts ++ es))) := by
  subst hst
  obtain ⟨t0, trest, hts⟩ := linked_ne_nil g M ts hD.thenLinked
  have hft : (g d.m_startBlock).bbFalseTarget = some t0 := by
    rw [hD.falseTarget, hts]; rfl
  have h0 : ts.head? = some t0 := by rw [hts]; rfl
  have hMtail : ∀ x ∈ ts.tail, x ≠ M := by
    intro x hx h
    exact hD.mergeNotInThen (h ▸ List.mem_of_mem_tail hx)
  rw [allSameRegion_append]
  unfold IfConvertFindFlow
  cases es with
  | nil =>
    have htt : (g d.m_startBlock).bbTrueTarget = some M := by rw [hD.trueTarget]; rfl
    by_cases hgood : ts.length ≤ 4 ∧ AllSameRegion g d.m_startBlock ts
    · rw [checkThen_finds g { d with m_doElseConversion := false, m_finalBlock := (g d.m_startBlock).bbTrueTarget } M t0 ts hft h0 hD.thenLinked htt (by simpa [hlim] using hgood.1)
        hgood.2]
      refine ⟨{ d with m_doElseConversion := false, m_finalBlock := (g d.m_startBlock).bbTrueTarget,
                       m_flowFound := true, m_mainOper := GT_STORE_LCL_VAR }, by simp, ?_⟩
      simp only [true_iff]
      exact ⟨hgood.1, by simp, hgood.2, by intro x hx; simp at hx⟩
    · rw [checkThen_misses g { d with m_doElseConversion := false, m_finalBlock := (g d.m_startBlock).bbTrueTarget } M t0 ts hD.mergeJoins hft h0 hD.thenLinked
        (by
          intro x hx h
          simp only at h
          rw [htt] at h
          simp only [Option.some.injEq] at h
          exact hMtail x hx h.symm)
        (by intro _; simpa [hlim] using hgood)]
      simp only [Bool.not_true, Bool.false_or, Bool.false_eq_true, if_false]
      rw [elseLoop_at_merge g M hD.mergeJoins _ _ htt]
      refine ⟨_, rfl, ?_⟩
      simp only [Bool.false_eq_true, false_iff]
      rintro ⟨h1, _, h2, _⟩
      exact hgood ⟨h1, h2⟩
  | cons e erest =>
    have htt : (g d.m_startBlock).bbTrueTarget = some e := by rw [hD.trueTarget]; rfl
    have hle : Linked g M (e :: erest) := by
      rcases hD.elseLinked with h | h
      · simp at h
      · exact h
    rw [checkThen_misses g { d with m_doElseConversion := false, m_finalBlock := (g d.m_startBlock).bbTrueTarget } M t0 ts hD.mergeJoins hft h0 hD.thenLinked
      (by
        intro x hx h
        simp only at h
        rw [htt] at h
        simp only [Option.some.injEq] at h
        exact hD.disjoint x (List.mem_of_mem_tail hx) (h ▸ List.mem_cons_self _ _))
      (by
        intro h
        simp only at h
        rw [htt] at h
        simp only [Option.some.injEq] at h
        exact absurd (h ▸ List.mem_cons_self _ _) hD.mergeNotInElse)]
    simp only [Bool.not_true, Bool.false_or, Bool.false_eq_true, if_false]
    obtain ⟨d1, hd1, hiff⟩ := elseLoop_diamond g d.m_startBlock M t0 ts hD.mergeJoins hft h0
      hD.thenLinked hD.mergeNotInThen (e :: erest) d.m_checkLimit
      { d with m_doElseConversion := true, m_finalBlock := (g d.m_startBlock).bbTrueTarget,
               m_flowFound := false }
      e rfl hle hD.mergeNotInElse
      (fun b hb hbt => hD.disjoint b (List.mem_of_mem_tail hbt) hb) htt rfl hlim rfl
    rw [hlim] at hiff
    refine ⟨d1, hd1, ?_⟩
    rw [hiff]
    constructor
    · rintro ⟨a1, a2, a3, a4⟩; exact ⟨a3, a1, a4, a2⟩
    · rintro ⟨a1, a2, a3, a4⟩; exact ⟨a2, a4, a1, a3⟩

/-- C7: on a diamond with a merge block whose arm blocks all pass the inner-block
flow check, the matcher ends without an error; it sets `m_flowFound` when both
chains have at most 4 blocks, and leaves it false when the Then chain or the Else
chain has 5 blocks. -/
theorem chainLimit_boundary (g : Graph) (start M : Nat) (ts es : List Nat)
    (d : OptIfConversionDsc) (hD : Diamond g start M ts es) (hst : d.m_startBlock = start)
    (hlim : d.m_checkLimit = 4) (hreg : AllSameRegion g start (ts ++ es)) :
    ∃ d1, IfConvertFindFlow g d = some d1 ∧
      (ts.length ≤ 4 ∧ es.length ≤ 4 → d1.m_flowFound = true) ∧
      (ts.length = 5 ∨ es.length = 5 → d1.m_flowFound = false) := by
  obtain ⟨d1, h1, hiff⟩ := findFlow_diamond g start M ts es d hD hst hlim
  refine ⟨d1, h1, ?_, ?_⟩
  · rintro ⟨a, b⟩
    exact hiff.mpr ⟨a, b, hreg⟩
  · intro h5
    cases hf : d1.m_flowFound with
    | false => rfl
    | true =>
      obtain ⟨a, b, _⟩ := hiff.mp hf
      omega

theorem exChain4_diamond : Diamond (exChain 4) 0 5 [1, 2, 3, 4] [] where
  falseTarget := by decide
  thenLinked := ⟨by decide, by decide, by decide, by decide, by decide, by decide, by decide,
    by decide⟩
  trueTarget := by decide
  elseLinked := Or.inl rfl
  mergeJoins := by decide
  mergeNotInThen := by decide
  mergeNotInElse := by decide
  disjoint := by decide

/-- C7 on a Then chain of exactly 4 blocks. -/
theorem chainLimit_boundary_witness :
    ∃ d1, IfConvertFindFlow (exChain 4) exDsc = some d1 ∧
      ([1, 2, 3, 4].length ≤ 4 ∧ ([] : List Nat).length ≤ 4 → d1.m_flowFound = true) ∧
      ([1, 2, 3, 4].length = 5 ∨ ([] : List Nat).length = 5 → d1.m_flowFound = false) :=
  chainLimit_boundary (exChain 4) 0 5 [1, 2, 3, 4] [] exDsc exChain4_diamond (by decide)
    (by decide) (by unfold AllSameRegion; decide)

/-- The matcher at the limit, evaluated: a Then chain of 4 blocks is found, one of 5 is not. -/
theorem exChain_limit :
    (IfConvertFindFlow (exChain 4) exDsc).map (fun d => d.m_flowFound) = some true ∧
    (IfConvertFindFlow (exChain 5) exDsc).map (fun d => d.m_flowFound) = some false := by
  refine ⟨by decide, by decide⟩

/-- C8: on a diamond whose branch block ends in a `JTRUE`, if some block of the Then
chain or of the Else chain lies in an exception-handling region other than the
start block's, `optIfConvert` returns false whatever the arms hold. -/
theorem region_boundary (comp : Compiler) (g : Graph) (start M : Nat) (ts es : List Nat)
    (last cond : GenTree) (hD : Diamond g start M ts es)
    (hlast : (g start).bbStmtList.getLast? = some last) (hj : last.OperIs GT_JTRUE = true)
    (hc : last.gtGetOp1 = some cond)
    (hbad : ∃ b ∈ ts ++ es, BasicBlock.sameEHRegion (g b) (g start) = false) :
    optIfConvert comp g start = some (false, g) := by
  have hflow : optIfConvert.flow g start = some none := by
    unfold optIfConvert.flow
    split_ifs with h1
    · rfl
    · simp only [hlast, hj, Bool.not_true, Bool.false_eq_true, if_false, hc]
      split_ifs with h3
      · rfl
      · obtain ⟨d1, hd1, hiff⟩ := findFlow_diamond g start M ts es
          { m_startBlock := start, m_cond := cond } hD rfl rfl
        rw [hd1]
        have hnf : d1.m_flowFound = false := by
          cases hf : d1.m_flowFound with
          | false => rfl
          | true =>
            obtain ⟨_, _, hall⟩ := hiff.mp hf
            obtain ⟨b, hb, hbr⟩ := hbad
            rw [hall b hb] at hbr
            simp at hbr
        simp [hnf]
  unfold optIfConvert optIfConvert.checks
  rw [hflow]

theorem exRegionDiamond_diamond : Diamond exRegionDiamond 0 3 [1] [2] where
  falseTarget := by decide
  thenLinked := ⟨by decide, by decide⟩
  trueTarget := by decide
  elseLinked := Or.inr ⟨by decide, by decide⟩
  mergeJoins := by decide
  mergeNotInThen := by decide
  mergeNotInElse := by decide
  disjoint := by decide

/-- C8 on `exRegionDiamond`, whose Else block lies in a try region. -/
theorem region_boundary_witness :
    optIfConvert (exComp false) exRegionDiamond 0 = some (false, exRegionDiamond) :=
  region_boundary (exComp false) exRegionDiamond 0 3 [1] [2] exJtrue exCond
    exRegionDiamond_diamond (by decide) (by decide) (by decide) ⟨2, by decide, by decide⟩

/-! ### The cost gate -/

/-- C10 as stated fails in two ways.  On the RISC-V 64 build `exStoreDiamond`
passes the flow and statement checks and the loop-exposure veto, both arm costs
are 1, the cost stress mode is off, and still the attempt returns false, because
no peephole identity applies to the pair (9, 5).  On another target, with every
value costing 6 and no local a likely register candidate, each arm's value
costs at most 7, yet the 2 added for such a store makes both arm costs 8 and the
attempt returns false. -/
theorem cost_boundary_counterexample :
    optIfConvert.checks (exComp true) exStoreDiamond 0 = some (some exDscChecked) ∧
    optIfConvert.loopOk (exComp true) exStoreDiamond exDscChecked = true ∧
    (exComp true).stressCost = false ∧
    optIfConvert.costs (exComp true) exDscChecked = some (1, 1) ∧
    optIfConvert (exComp true) exStoreDiamond 0 = some (false, exStoreDiamond) ∧
    optIfConvert.checks exCompPenalty exStoreDiamond 0 = some (some exDscChecked) ∧
    optIfConvert.loopOk exCompPenalty exStoreDiamond exDscChecked = true ∧
    exCompPenalty.stressCost = false ∧ exCompPenalty.TARGET_RISCV64 = false ∧
    exCompPenalty.GetCostEx (exCns TYP_INT 5) = 6 ∧
    exCompPenalty.GetCostEx (exCns TYP_INT 9) = 6 ∧
    optIfConvert.costs exCompPenalty exDscChecked = some (8, 8) ∧
    optIfConvert exCompPenalty exStoreDiamond 0 = some (false, exStoreDiamond) := by
  refine ⟨by decide, by decide, by decide, by decide, by rfl, by decide, by decide, by decide,
    by decide, by decide, by decide, by decide, by rfl⟩

theorem select_ne_none_of_not_riscv (comp : Compiler) (d : OptIfConversionDsc)
    (h : comp.TARGET_RISCV64 = false) : optIfConvert.select comp d ≠ some none := by
  unfold optIfConvert.select
  split
  · split
    · simp
    · simp
    · simp [h]
  · simp

theorem optIfConvert_of_gates (comp : Compiler) (g : Graph) (s : Nat) (d : OptIfConversionDsc)
    (hchecks : optIfConvert.checks comp g s = some (some d))
    (hcost : optIfConvert.costOk comp d = some true)
    (hloop : optIfConvert.loopOk comp g d = true) (sel : GenTree) (g1 : Graph)
    (hsel : optIfConvert.select comp d = some (some sel))
    (hcommit : optIfConvert.commit g d sel = some g1) :
    optIfConvert comp g s = some (true, g1) := by
  unfold optIfConvert
  simp only [hchecks, optIfConvert.profitable, hcost, hloop, hsel, hcommit]

/-- The cost gate at the limit, evaluated on `exStoreDiamond`: with every value
costing 7 the attempt converts, with every value costing 8 it does not. -/
theorem exCost_limit :
    (optIfConvert { exComp false with GetCostEx := fun _ => 7 } exStoreDiamond 0).map
        (fun r => r.1) = some true ∧
    (optIfConvert { exComp false with GetCostEx := fun _ => 8 } exStoreDiamond 0).map
        (fun r => r.1) = some false := by
  refine ⟨by decide, by decide⟩

/-! ### Value of the generic select -/

theorem evalBinop_compare (o : genTreeOps) (t : var_types) (a b c : Int)
    (ho : OperIsCompare o = true) (h : evalBinop o t a b = some c) :
    (c = 0 ∨ c = 1) ∧ evalBinop (ReverseRelop o) t a b = some (if c = 0 then 1 else 0) := by
  cases o <;> simp [OperIsCompare] at ho <;>
    simp only [evalBinop, Option.some.injEq, ReverseRelop] at h ⊢ <;>
    first
    | (exact absurd h (by simp))
    | (subst h; split_ifs <;> simp_all)

theorem eval_compare (env : Env) (cond : GenTree) (c : Int)
    (ho : OperIsCompare cond.OperGet = true) (h : eval env cond = some c) :
    (c = 0 ∨ c = 1) ∧ eval env (gtReverseCond cond) = some (if c = 0 then 1 else 0) := by
  unfold gtReverseCond
  simp only [ho, if_true]
  cases cond with
  | leaf o t f n v =>
    cases o <;> simp [GenTree.OperGet, OperIsCompare] at ho <;> simp [eval] at h
  | unary o t f n a => simp [eval] at h
  | ternary o t f x a b =>
    cases o <;> simp [GenTree.OperGet, OperIsCompare] at ho <;> simp [eval] at h
  | binary o t f a b =>
    simp only [GenTree.OperGet] at ho
    simp only [eval, GenTree.SetOper, GenTree.OperGet] at h ⊢
    cases ha : eval env a with
    | none => simp [ha] at h
    | some x =>
      cases hb : eval env b with
      | none => simp [ha, hb] at h
      | some y =>
        simp only [ha, hb] at h
        exact evalBinop_compare o t x y c ho h

theorem eval_intConst (env : Env) (t : GenTree) (v : Int) (hc : t.IsIntegralConst = true)
    (h : eval env t = some v) : v = t.IntegralValue := by
  cases t with
  | leaf o ty f n x =>
    simp only [GenTree.IsIntegralConst, GenTree.OperGet, beq_iff_eq] at hc
    subst hc
    simp only [eval, Option.some.injEq] at h
    simp [GenTree.IntegralValue, h]
  | unary o ty f n a => simp [eval] at h
  | binary o ty f a b =>
    simp only [GenTree.IsIntegralConst, GenTree.OperGet, beq_iff_eq] at hc
    subst hc
    simp only [eval] at h
    cases ha : eval env a <;> cases hb : eval env b <;> simp [ha, hb, evalBinop] at h
  | ternary o ty f c a b =>
    simp only [GenTree.IsIntegralConst, GenTree.OperGet, beq_iff_eq] at hc
    subst hc
    simp [eval] at h

theorem eval_select (env : Env) (cond a b : GenTree) (ty : var_types) (c x y : Int)
    (hc : eval env cond = some c) (ha : eval env a = some x) (hb : eval env b = some y) :
    eval env (gtNewConditionalNode GT_SELECT cond a b ty) = some (if c ≠ 0 then x else y) := by
  simp [gtNewConditionalNode, eval, hc, ha, hb]

/-- On a target other than RISC-V 64 the expression installed by `optIfConvert` has
the value of the Else arm (or, without an Else arm, of the stored local) when the
condition holds and the value of the Then arm when it does not. -/
theorem select_value_of_not_riscv (comp : Compiler) (d : OptIfConversionDsc)
    (sel fi store : GenTree) (ty : var_types) (ti : Option GenTree) (env : Env) (c vf vt : Int)
    (hr : comp.TARGET_RISCV64 = false)
    (hin : optIfConvert.selectInputs d = some (ty, ti, fi))
    (hnode : d.m_thenOperation.node = some store)
    (hsel : optIfConvert.select comp d = some (some sel))
    (hcmp : OperIsCompare d.m_cond.OperGet = true)
    (hc : eval env d.m_cond = some c) (hf : eval env fi = some vf)
    (ht : match ti with
      | some t => eval env t = some vt
      | none => vt = env store.GetLclNum) :
    eval env sel = some (if c ≠ 0 then vt else vf) := by
  obtain ⟨hc01, hrev⟩ := eval_compare env d.m_cond c hcmp hc
  unfold optIfConvert.select at hsel
  simp only [hin, hnode] at hsel
  unfold TryTransformSelectToOrdinaryOps at hsel
  cases ti with
  | none =>
    simp only [hr, Bool.false_eq_true, if_false, Option.some.injEq] at hsel
    subst hsel
    simp only at ht
    exact eval_select env _ _ _ ty c vt vf hc (by simp [gtNewLclVarNode, eval, ht]) hf
  | some t =>
    simp only at ht hsel
    by_cases hk : (t.IsIntegralConst && fi.IsIntegralConst) = true
    · simp only [hk, if_true] at hsel
      simp only [Bool.and_eq_true] at hk
      have hvt := eval_intConst env t vt hk.1 ht
      have hvf := eval_intConst env fi vf hk.2 hf
      by_cases h1 : (t.TypeIs TYP_INT && fi.TypeIs TYP_INT && t.IntegralValue == 1 &&
          fi.IntegralValue == 0) = true
      · simp only [h1, if_true, Option.some.injEq] at hsel
        subst hsel
        simp only [Bool.and_eq_true, beq_iff_eq] at h1
        rw [hc, hvt, hvf, h1.1.2, h1.2]
        rcases hc01 with h | h <;> simp [h]
      · by_cases h2 : (t.TypeIs TYP_INT && fi.TypeIs TYP_INT && t.IntegralValue == 0 &&
            fi.IntegralValue == 1) = true
        · simp only [h1, h2, if_true, Bool.false_eq_true, if_false, Option.some.injEq] at hsel
          subst hsel
          simp only [Bool.and_eq_true, beq_iff_eq] at h2
          rw [hrev, hvt, hvf, h2.1.2, h2.2]
          rcases hc01 with h | h <;> simp [h]
        · simp only [h1, h2, hr, Bool.false_eq_true, if_false, Option.some.injEq] at hsel
          subst hsel
          exact eval_select env _ _ _ ty c vt vf hc ht hf
    · simp only [hk, Bool.false_eq_true, if_false, hr, Option.some.injEq] at hsel
      subst hsel
      exact eval_select env _ _ _ ty c vt vf hc ht hf

/-! ### The loop-exposure gate -/

theorem loopWeightLimit_eq : loopWeightLimit = BB_UNITY_WEIGHT * (105 / 100) := by
  norm_num [loopWeightLimit, BB_UNITY_WEIGHT]

/-- C11: for an attempt that passes the flow and statement checks and the cost gate:
with the loop-exposure stress mode off, a start-block weight above 1.05 times
`BB_UNITY_WEIGHT`, or a positive answer of the reachability query from the merge
block to the start block, makes `optIfConvert` return false; with the weight at
or below that limit and a negative answer, or with the stress mode on, the gate
is passed and the attempt goes on to the select synthesis. -/
theorem loop_boundary (comp : Compiler) (g : Graph) (s : Nat) (d : OptIfConversionDsc)
    (hchecks : optIfConvert.checks comp g s = some (some d))
    (hcost : optIfConvert.costOk comp d = some true) :
    (comp.stressInnerLoops = false →
      ((g d.m_startBlock).bbWeight > BB_UNITY_WEIGHT * (105 / 100) ∨
        comp.optReachable g d.m_finalBlock d.m_startBlock = true) →
      optIfConvert comp g s = some (false, g)) ∧
    ((comp.stressInnerLoops = true ∨
      ((g d.m_startBlock).bbWeight ≤ BB_UNITY_WEIGHT * (105 / 100) ∧
        comp.optReachable g d.m_finalBlock d.m_startBlock = false)) →
      optIfConvert.loopOk comp g d = true ∧
      ∀ sel g1, optIfConvert.select comp d = some (some sel) →
        optIfConvert.commit g d sel = some g1 → optIfConvert comp g s = some (true, g1)) := by
  rw [← loopWeightLimit_eq]
  constructor
  · intro hs hbad
    have hloop : optIfConvert.loopOk comp g d = false := by
      unfold optIfConvert.loopOk
      simp only [hs, Bool.not_false, if_true]
      rcases hbad with h | h
      · simp [h]
      · simp [h]
    unfold optIfConvert
    simp only [hchecks, optIfConvert.profitable, hcost, hloop]
  · intro hok
    have hloop : optIfConvert.loopOk comp g d = true := by
      unfold optIfConvert.loopOk
      rcases hok with h | ⟨h1, h2⟩
      · simp [h]
      · simp [h2, not_lt.mpr h1]
    exact ⟨hloop, fun sel g1 hsel hcommit =>
      optIfConvert_of_gates comp g s d hchecks hcost hloop sel g1 hsel hcommit⟩

/-- C11 on `exStoreDiamond`: unit weight, no path back from the merge block. -/
theorem loop_boundary_witness :
    ((exComp false).stressInnerLoops = false →
      ((exStoreDiamond exDscChecked.m_startBlock).bbWeight > BB_UNITY_WEIGHT * (105 / 100) ∨
        (exComp false).optReachable exStoreDiamond exDscChecked.m_finalBlock
          exDscChecked.m_startBlock = true) →
      optIfConvert (exComp false) exStoreDiamond 0 = some (false, exStoreDiamond)) ∧
    (((exComp false).stressInnerLoops = true ∨
      ((exStoreDiamond exDscChecked.m_startBlock).bbWeight ≤ BB_UNITY_WEIGHT * (105 / 100) ∧
        (exComp false).optReachable exStoreDiamond exDscChecked.m_finalBlock
          exDscChecked.m_startBlock = false)) →
      optIfConvert.loopOk (exComp false) exStoreDiamond exDscChecked = true ∧
      ∀ sel g1, optIfConvert.select (exComp false) exDscChecked = some (some sel) →
        optIfConvert.commit exStoreDiamond exDscChecked sel = some g1 →
        optIfConvert (exComp false) exStoreDiamond 0 = some (true, g1)) :=
  loop_boundary (exComp false) exStoreDiamond 0 exDscChecked (by decide) (by decide)

/-- The loop-exposure gate at the limit, evaluated on `exStoreDiamond`: a start block
of weight 105 converts, one of weight 106 does not, and neither does one whose
merge block reaches back. -/
theorem exLoop_limit :
    (optIfConvert (exComp false)
        (Function.update exStoreDiamond 0 { exStoreDiamond 0 with bbWeight := 105 }) 0).map
        (fun r => r.1) = some true ∧
    (optIfConvert (exComp false)
        (Function.update exStoreDiamond 0 { exStoreDiamond 0 with bbWeight := 106 }) 0).map
        (fun r => r.1) = some false ∧
    (optIfConvert { exComp false with optReachable := fun _ _ _ => true } exStoreDiamond 0).map
        (fun r => r.1) = some false := by
  refine ⟨by decide, by decide, by decide⟩

/-! ### The kind and slot rules -/

theorem mem_chainStmts (g : Graph) : ∀ (bs : List Nat) (b : Nat) (t : GenTree),
    b ∈ bs → t ∈ (g b).bbStmtList → t ∈ chainStmts g bs := by
  intro bs
  induction bs with
  | nil => intro b t hb; simp at hb
  | cons x xs ih =>
    intro b t hb ht
    simp only [chainStmts, List.mem_append]
    rcases List.mem_cons.mp hb with hb | hb
    · left; rw [← hb]; exact ht
    · right; exact ih b t hb ht

theorem armOp_unique (comp : Compiler) (d : OptIfConversionDsc) (ss : List GenTree)
    (e t : GenTree) (h : ArmOp comp d ss e) (ht : t ∈ ss) (hn : isNop t = false) : t = e := by
  obtain ⟨pre, post, hss, hpre, hpost, _⟩ := h
  rw [hss] at ht
  rcases List.mem_append.mp ht with ht | ht
  · rw [hpre t ht] at hn; simp at hn
  · rcases List.mem_cons.mp ht with ht | ht
    · exact ht
    · rw [hpost t ht] at hn; simp at hn

/-- On an arm with eligible operation `e` the validator succeeds and its record names `e`. -/
theorem checkStmts_of_armOp (comp : Compiler) (g : Graph) (d : OptIfConversionDsc)
    (fuel : Nat) (fromBlock : Option Nat) (op0 : IfConvertOperation) (bs : List Nat)
    (e : GenTree) (hc : chainBlocks g d.m_finalBlock fuel fromBlock = some bs)
    (ha : ArmOp comp d (chainStmts g bs) e) :
    ∃ op, IfConvertCheckStmts comp g d fuel fromBlock op0 = some (true, op) ∧
      op.node = some e ∧ GoodRecord comp g d bs op := by
  have hs : scanFound comp d (chainStmts g bs) false = some true := by
    rw [scanFound_false_iff]
    obtain ⟨pre, post, h1, h2, h3, h4⟩ := ha
    exact ⟨pre, e, post, h1, h2, h3, h4⟩
  obtain ⟨op, h1⟩ := blocks_next_of_scan comp g d fuel fromBlock bs (false, op0) true hc hs
  have h2 := blocks_record comp g d bs fuel fromBlock bs (false, op0) (true, op) hc
    (fun _ hx => hx) (by simp) h1 rfl
  refine ⟨op, by unfold IfConvertCheckStmts; rw [h1], ?_, h2⟩
  obtain ⟨b, i, e1, hop, hb, hget, hel⟩ := h2
  have hmem : e1 ∈ chainStmts g bs :=
    mem_chainStmts g bs b e1 hb (List.getElem?_mem hget)
  have := armOp_unique comp d _ e e1 ha hmem (not_nop_of_eligible comp d e1 hel)
  simp only at hop
  rw [hop, this]

theorem validate_mismatch (comp : Compiler) (g : Graph) (d : OptIfConversionDsc)
    (thenOp elseOp : IfConvertOperation) (tn en : GenTree)
    (hdo : d.m_doElseConversion = true)
    (hthen : IfConvertCheckStmts comp g d d.m_checkLimit (g d.m_startBlock).bbFalseTarget
      d.m_thenOperation = some (true, thenOp))
    (helse : IfConvertCheckStmts comp g { d with m_thenOperation := thenOp } d.m_checkLimit
      (g d.m_startBlock).bbTrueTarget d.m_elseOperation = some (true, elseOp))
    (htn : thenOp.node = some tn) (hen : elseOp.node = some en)
    (hbad : tn.OperGet ≠ en.OperGet ∨
      (tn.OperGet = GT_STORE_LCL_VAR ∧ tn.GetLclNum ≠ en.GetLclNum)) :
    optIfConvert.validate comp g d = some none := by
  unfold optIfConvert.validate
  rw [hthen]
  simp only
  split_ifs
  rw [helse]
  simp only [htn, hen]
  rcases hbad with h | ⟨h1, h2⟩
  · simp [h]
  · simp [GenTree.OperIs, h1, h2]

theorem armOp_congr (comp : Compiler) (d d1 : OptIfConversionDsc) (ss : List GenTree)
    (e : GenTree) (h1 : d1.m_doElseConversion = d.m_doElseConversion)
    (h2 : d1.m_cond = d.m_cond) (h : ArmOp comp d ss e) : ArmOp comp d1 ss e := by
  obtain ⟨pre, post, a1, a2, a3, a4⟩ := h
  exact ⟨pre, post, a1, a2, a3, by rw [isEligible_congr comp d d1 e h1 h2]; exact a4⟩

/-- C12: on a diamond with an Else arm whose arms have the eligible operations `eT`
and `eE`, `optIfConvert` returns false when both are stores to different locals,
and when one is a store and the other a return. -/
theorem sameSlot_rule (comp : Compiler) (g : Graph) (s : Nat) (d : OptIfConversionDsc)
    (thenBs elseBs : List Nat) (eT eE : GenTree)
    (hflow : optIfConvert.flow g s = some (some d)) (hdo : d.m_doElseConversion = true)
    (hT : chainBlocks g d.m_finalBlock d.m_checkLimit (g s).bbFalseTarget = some thenBs)
    (hE : chainBlocks g d.m_finalBlock d.m_checkLimit (g s).bbTrueTarget = some elseBs)
    (haT : ArmOp comp d (chainStmts g thenBs) eT)
    (haE : ArmOp comp d (chainStmts g elseBs) eE)
    (hbad : (eT.OperGet = GT_STORE_LCL_VAR ∧ eE.OperGet = GT_STORE_LCL_VAR ∧
        eT.GetLclNum ≠ eE.GetLclNum) ∨
      (eT.OperGet = GT_STORE_LCL_VAR ∧ eE.OperGet = GT_RETURN) ∨
      (eT.OperGet = GT_RETURN ∧ eE.OperGet = GT_STORE_LCL_VAR)) :
    optIfConvert comp g s = some (false, g) := by
  have hs : d.m_startBlock = s := (flow_spec g s d hflow).1
  apply optIfConvert_of_validate_none comp g s d hflow
  obtain ⟨opT, h1, h2, _⟩ := checkStmts_of_armOp comp g d d.m_checkLimit _ d.m_thenOperation
    thenBs eT hT haT
  obtain ⟨opE, h3, h4, _⟩ := checkStmts_of_armOp comp g { d with m_thenOperation := opT }
    d.m_checkLimit _ d.m_elseOperation elseBs eE hE
    (armOp_congr comp d _ _ eE rfl rfl haE)
  rw [← hs] at h1 h3
  refine validate_mismatch comp g d opT opE eT eE hdo h1 h3 h2 h4 ?_
  rcases hbad with ⟨a, _, c⟩ | ⟨a, b⟩ | ⟨a, b⟩
  · exact Or.inr ⟨a, c⟩
  · left; rw [a, b]; decide
  · left; rw [a, b]; decide

/-- C12 on `exSlotDiamond`, whose arms store to locals 0 and 1. -/
theorem sameSlot_rule_witness :
    optIfConvert (exComp false) exSlotDiamond 0 = some (false, exSlotDiamond) :=
  sameSlot_rule (exComp false) exSlotDiamond 0 exDscFound [1] [2]
    (exStore 0 TYP_INT (exCns TYP_INT 5)) (exStore 1 TYP_INT (exCns TYP_INT 9))
    (by decide) (by decide) (by decide) (by decide)
    ⟨[], [], by decide, by decide, by decide, by decide⟩
    ⟨[], [], by decide, by decide, by decide, by decide⟩
    (Or.inl ⟨by decide, by decide, by decide⟩)

/-- C20 as stated fails: on `exMixedDiamond` the validator succeeds on both arms, the
Then operation is a store and the Else operation a return, and `optIfConvert`
returns false with the graph as it was; the run ends normally. -/
theorem kindMismatch_counterexample :
    IfConvertCheckStmts (exComp false) exMixedDiamond exDscFound 4 (some 1) {}
      = some (true, { block := some 1, stmt := some 0,
                      node := some (exStore 0 TYP_INT (exCns TYP_INT 5)) }) ∧
    IfConvertCheckStmts (exComp false) exMixedDiamond exDscFound 4 (some 2) {}
      = some (true, { block := some 2, stmt := some 0,
                      node := some (exReturn TYP_INT (exCns TYP_INT 9)) }) ∧
    (exStore 0 TYP_INT (exCns TYP_INT 5)).OperGet ≠ (exReturn TYP_INT (exCns TYP_INT 9)).OperGet ∧
    optIfConvert (exComp false) exMixedDiamond 0 = some (false, exMixedDiamond) := by
  refine ⟨by decide, by decide, by decide, by rfl⟩

/-- C20, amended: when the validator succeeds on both arms and the two operations
differ in kind, `optIfConvert` returns false and leaves the graph as it was. -/
theorem kindMismatch_returns_false (comp : Compiler) (g : Graph) (s : Nat)
    (d : OptIfConversionDsc) (thenOp elseOp : IfConvertOperation) (tn en : GenTree)
    (hflow : optIfConvert.flow g s = some (some d)) (hdo : d.m_doElseConversion = true)
    (hthen : IfConvertCheckStmts comp g d d.m_checkLimit (g s).bbFalseTarget
      d.m_thenOperation = some (true, thenOp))
    (helse : IfConvertCheckStmts comp g { d with m_thenOperation := thenOp } d.m_checkLimit
      (g s).bbTrueTarget d.m_elseOperation = some (true, elseOp))
    (htn : thenOp.node = some tn) (hen : elseOp.node = some en)
    (hk : tn.OperGet ≠ en.OperGet) :
    optIfConvert comp g s = some (false, g) := by
  have hs : d.m_startBlock = s := (flow_spec g s d hflow).1
  apply optIfConvert_of_validate_none comp g s d hflow
  rw [← hs] at hthen helse
  exact validate_mismatch comp g d thenOp elseOp tn en hdo hthen helse htn hen (Or.inl hk)

/-- C20, amended, on `exMixedDiamond`. -/
theorem kindMismatch_returns_false_witness :
    optIfConvert (exComp false) exMixedDiamond 0 = some (false, exMixedDiamond) :=
  kindMismatch_returns_false (exComp false) exMixedDiamond 0 exDscFound
    { block := some 1, stmt := some 0, node := some (exStore 0 TYP_INT (exCns TYP_INT 5)) }
    { block := some 2, stmt := some 0, node := some (exReturn TYP_INT (exCns TYP_INT 9)) }
    (exStore 0 TYP_INT (exCns TYP_INT 5)) (exReturn TYP_INT (exCns TYP_INT 9))
    (by decide) (by decide) (by decide) (by decide) rfl rfl (by decide)

/-! ### What the validator's record holds -/

theorem stmts_node_eligible (comp : Compiler) (d : OptIfConversionDsc) (b : Nat) :
    ∀ (ss : List GenTree) (i : Nat) (st st1 : Bool × IfConvertOperation),
      IfConvertCheckStmts.stmts comp d b ss i st = .next st1 →
      (st.1 = true → ∃ e, st.2.node = some e ∧ isEligible comp d e = true) →
      (st1.1 = true → ∃ e, st1.2.node = some e ∧ isEligible comp d e = true) := by
  intro ss
  induction ss with
  | nil =>
    intro i st st1 h hst
    simp only [IfConvertCheckStmts.stmts, Step.next.injEq] at h
    rw [← h]; exact hst
  | cons t ts ih =>
    intro i st st1 h hst
    unfold IfConvertCheckStmts.stmts at h
    cases hs : IfConvertCheckStmts.stmt comp d b i t st with
    | fault => simp [hs] at h
    | stop a => simp [hs] at h
    | next st2 =>
      simp only [hs] at h
      refine ih (i + 1) st2 st1 h ?_
      rcases stmt_next_cases comp d b i t st st2 hs with ⟨_, h2⟩ | ⟨he, h2⟩
      · rw [h2]; exact hst
      · intro _
        rw [h2]
        exact ⟨t, rfl, he⟩

theorem blocks_node_eligible (comp : Compiler) (g : Graph) (d : OptIfConversionDsc) :
    ∀ (fuel : Nat) (block : Option Nat) (st st1 : Bool × IfConvertOperation),
      IfConvertCheckStmts.blocks comp g d fuel block st = .next st1 →
      (st.1 = true → ∃ e, st.2.node = some e ∧ isEligible comp d e = true) →
      (st1.1 = true → ∃ e, st1.2.node = some e ∧ isEligible comp d e = true) := by
  intro fuel
  induction fuel with
  | zero =>
    intro block st st1 h hst
    unfold IfConvertCheckStmts.blocks at h
    split_ifs at h
    simp only [Step.next.injEq] at h
    rw [← h]; exact hst
  | succ n ih =>
    intro block st st1 h hst
    unfold IfConvertCheckStmts.blocks at h
    split_ifs at h with hfin
    · simp only [Step.next.injEq] at h
      rw [← h]; exact hst
    · cases block with
      | none => simp at h
      | some b =>
        simp only at h
        cases hs : IfConvertCheckStmts.stmts comp d b (g b).bbStmtList 0 st with
        | fault => simp [hs] at h
        | stop a => simp [hs] at h
        | next st2 =>
          simp only [hs] at h
          exact ih _ st2 st1 h (stmts_node_eligible comp d b _ 0 st st2 hs hst)

/-- A successful validator run returns a record whose node is an eligible statement. -/
theorem checkStmts_true_node (comp : Compiler) (g : Graph) (d : OptIfConversionDsc)
    (fuel : Nat) (fromBlock : Option Nat) (op0 op : IfConvertOperation)
    (h : IfConvertCheckStmts comp g d fuel fromBlock op0 = some (true, op)) :
    ∃ e, op.node = some e ∧ isEligible comp d e = true := by
  unfold IfConvertCheckStmts at h
  cases hb : IfConvertCheckStmts.blocks comp g d fuel fromBlock (false, op0) with
  | fault => simp [hb] at h
  | stop a => simp [hb] at h
  | next st1 =>
    obtain ⟨f, op1⟩ := st1
    simp only [hb, Option.some.injEq, Prod.mk.injEq] at h
    obtain ⟨hf, hop⟩ := h
    subst hf hop
    exact blocks_node_eligible comp g d fuel fromBlock (false, op0) (true, op1) hb (by simp) rfl

/-- What a successful run of the second phase of `optIfConvert` establishes. -/
theorem validate_spec (comp : Compiler) (g : Graph) (d d1 : OptIfConversionDsc)
    (h : optIfConvert.validate comp g d = some (some d1)) :
    ∃ thenOp,
      IfConvertCheckStmts comp g d d.m_checkLimit (g d.m_startBlock).bbFalseTarget
        d.m_thenOperation = some (true, thenOp) ∧
      (d.m_doElseConversion = false → d1 = { d with m_thenOperation := thenOp }) ∧
      (d.m_doElseConversion = true →
        ∃ elseOp tn en,
          IfConvertCheckStmts comp g { d with m_thenOperation := thenOp } d.m_checkLimit
            (g d.m_startBlock).bbTrueTarget d.m_elseOperation = some (true, elseOp) ∧
          thenOp.node = some tn ∧ elseOp.node = some en ∧ tn.OperGet = en.OperGet ∧
          (tn.OperGet = GT_STORE_LCL_VAR → tn.GetLclNum = en.GetLclNum) ∧
          d1 = { d with m_thenOperation := thenOp, m_elseOperation := elseOp }) := by
  obtain ⟨sb, fb, c, tOp, eOp, lim, mo, de, ff⟩ := d
  unfold optIfConvert.validate at h
  simp only at h ⊢
  split at h
  · simp at h
  · simp at h
  · rename_i thenOp hthen
    refine ⟨thenOp, hthen, ?_, ?_⟩
    · intro hdo
      subst hdo
      simp only [Bool.false_eq_true, if_false, Option.some.injEq] at h
      exact h.symm
    · intro hdo
      subst hdo
      simp only [if_true] at h
      split at h
      · simp at h
      · simp at h
      · rename_i elseOp helse
        split at h
        · rename_i tn en htn hen
          by_cases h1 : (tn.OperGet != en.OperGet) = true
          · simp [h1] at h
          · by_cases h2 : (tn.OperIs GT_STORE_LCL_VAR && tn.GetLclNum != en.GetLclNum) = true
            · simp [h1, h2] at h
            · simp only [h1, h2, Bool.false_eq_true, if_false, Option.some.injEq] at h
              refine ⟨elseOp, tn, en, helse, htn, hen, by simpa using h1, ?_, h.symm⟩
              intro hst
              simpa [GenTree.OperIs, hst] using h2
        · simp at h

/-- What a conversion went through: the checks gave a descriptor, the gates
passed, a select was built and the rewrite produced the new graph. -/
theorem optIfConvert_true_inv (comp : Compiler) (g : Graph) (s : Nat) (g1 : Graph)
    (h : optIfConvert comp g s = some (true, g1)) :
    ∃ d sel, optIfConvert.checks comp g s = some (some d) ∧
      optIfConvert.profitable comp g d = some true ∧
      optIfConvert.select comp d = some (some sel) ∧
      optIfConvert.commit g d sel = some g1 := by
  unfold optIfConvert at h
  split at h
  · simp at h
  · simp at h
  · rename_i d hd
    split at h
    · simp at h
    · simp at h
    · rename_i hp
      split at h
      · simp at h
      · simp at h
      · rename_i sel hs
        split at h
        · simp at h
        · rename_i g2 hc
          simp only [Option.some.injEq, Prod.mk.injEq, true_and] at h
          subst h
          exact ⟨d, sel, hd, hp, hs, hc⟩

/-- The descriptor that passed the checks without an else arm has a store as its
Then operation. -/
theorem checks_store_of_no_else (comp : Compiler) (g : Graph) (s : Nat)
    (d : OptIfConversionDsc) (h : optIfConvert.checks comp g s = some (some d))
    (hdo : d.m_doElseConversion = false) :
    ∃ n, d.m_thenOperation.node = some n ∧ n.OperGet = GT_STORE_LCL_VAR := by
  unfold optIfConvert.checks at h
  split at h
  · simp at h
  · simp at h
  · rename_i d0 _
    obtain ⟨thenOp, hthen, h0, h1⟩ := validate_spec comp g d0 d h
    cases hd0 : d0.m_doElseConversion with
    | true =>
      obtain ⟨elseOp, tn, en, _, _, _, _, _, hd⟩ := h1 hd0
      rw [hd] at hdo
      simp only at hdo
      rw [hd0] at hdo
      simp at hdo
    | false =>
      have hd := h0 hd0
      obtain ⟨e, he, hel⟩ := checkStmts_true_node comp g d0 _ _ _ _ hthen
      refine ⟨e, by rw [hd]; exact he, ?_⟩
      unfold isEligible at hel
      cases hv : e.gtGetOp1 with
      | none => simp [hv] at hel
      | some v =>
        simp only [hv, hd0, Bool.and_false, Bool.or_false, Bool.and_eq_true,
          beq_iff_eq] at hel
        exact hel.1.1.1.1.1

/-- C13: with the else flag clear, (1) `IfConvertCheckInnerBlockFlow` rejects
every block without a unique successor, (2) `IfConvertCheckStmts` returns false
on every arm that contains a return statement, and (3) every conversion whose
descriptor has the else flag clear has a store-to-local as its Then operation. -/
theorem returns_need_else (comp : Compiler) (g : Graph) :
    (∀ (d : OptIfConversionDsc) (b : Nat), d.m_doElseConversion = false →
      (g b).GetUniqueSucc = none → IfConvertCheckInnerBlockFlow g d b = false) ∧
    (∀ (d : OptIfConversionDsc) (fuel : Nat) (fromBlock : Option Nat)
        (op0 : IfConvertOperation) (bs : List Nat), d.m_doElseConversion = false →
      chainBlocks g d.m_finalBlock fuel fromBlock = some bs →
      StoresHaveData (chainStmts g bs) →
      (∃ t ∈ chainStmts g bs, t.OperGet = GT_RETURN) →
      ∃ op, IfConvertCheckStmts comp g d fuel fromBlock op0 = some (false, op)) ∧
    (∀ (s : Nat) (g1 : Graph), optIfConvert comp g s = some (true, g1) →
      ∃ d, optIfConvert.checks comp g s = some (some d) ∧
        (d.m_doElseConversion = false →
          ∃ n, d.m_thenOperation.node = some n ∧ n.OperGet = GT_STORE_LCL_VAR)) := by
  refine ⟨?_, ?_, ?_⟩
  · intro d b hdo hu
    unfold IfConvertCheckInnerBlockFlow
    simp [hdo, hu]
  · rintro d fuel fromBlock op0 bs hdo hc hw ⟨t, ht, hret⟩
    refine checkStmts_false_of_bad comp g d fuel fromBlock op0 bs hc hw
      ⟨t, ht, not_nop_of_store_or_return t (Or.inr hret), ?_⟩
    unfold isEligible
    cases t.gtGetOp1 with
    | none => rfl
    | some v => simp [hret, hdo]
  · intro s g1 h
    obtain ⟨d, sel, hd, _, _, _⟩ := optIfConvert_true_inv comp g s g1 h
    exact ⟨d, hd, checks_store_of_no_else comp g s d hd⟩

/-! ### Where the validator's record points -/

theorem stmts_all_ok (comp : Compiler) (d : OptIfConversionDsc) (b : Nat) :
    ∀ (ss : List GenTree) (i : Nat) (st st1 : Bool × IfConvertOperation),
      IfConvertCheckStmts.stmts comp d b ss i st = .next st1 →
      ∀ t ∈ ss, isNop t = true ∨ isEligible comp d t = true := by
  intro ss
  induction ss with
  | nil => intro i st st1 _ t ht; simp at ht
  | cons x xs ih =>
    intro i st st1 h t ht
    unfold IfConvertCheckStmts.stmts at h
    cases hs : IfConvertCheckStmts.stmt comp d b i x st with
    | fault => simp [hs] at h
    | stop a => simp [hs] at h
    | next st2 =>
      simp only [hs] at h
      rcases List.mem_cons.mp ht with ht | ht
      · subst ht
        rcases stmt_next_cases comp d b i t st st2 hs with ⟨h1, _⟩ | ⟨h1, _⟩
        · exact Or.inl h1
        · exact Or.inr h1
      · exact ih (i + 1) st2 st1 h t ht

theorem stmts_opAt (comp : Compiler) (g : Graph) (d : OptIfConversionDsc) (b : Nat)
    (hall : ∀ t ∈ (g b).bbStmtList, isNop t = true ∨ isEligible comp d t = true) :
    ∀ (ss : List GenTree) (i : Nat) (st st1 : Bool × IfConvertOperation),
      (g b).bbStmtList.drop i = ss →
      (st.1 = true → ∃ b0 i0 e0, OpAt comp g d st.2 b0 i0 e0) →
      IfConvertCheckStmts.stmts comp d b ss i st = .next st1 →
      (st1.1 = true → ∃ b0 i0 e0, OpAt comp g d st1.2 b0 i0 e0) := by
  intro ss
  induction ss with
  | nil =>
    intro i st st1 _ hst h
    simp only [IfConvertCheckStmts.stmts, Step.next.injEq] at h
    rw [← h]; exact hst
  | cons t ts ih =>
    intro i st st1 hd hst h
    obtain ⟨hget, hdrop⟩ := drop_eq_cons _ i t ts hd
    unfold IfConvertCheckStmts.stmts at h
    cases hs : IfConvertCheckStmts.stmt comp d b i t st with
    | fault => simp [hs] at h
    | stop a => simp [hs] at h
    | next st2 =>
      simp only [hs] at h
      refine ih (i + 1) st2 st1 hdrop ?_ h
      rcases stmt_next_cases comp d b i t st st2 hs with ⟨_, h2⟩ | ⟨he, h2⟩
      · rw [h2]; exact hst
      · intro _
        rw [h2]
        exact ⟨b, i, t, rfl, hget, he, hall⟩

theorem blocks_opAt (comp : Compiler) (g : Graph) (d : OptIfConversionDsc) :
    ∀ (fuel : Nat) (block : Option Nat) (st st1 : Bool × IfConvertOperation),
      (st.1 = true → ∃ b0 i0 e0, OpAt comp g d st.2 b0 i0 e0) →
      IfConvertCheckStmts.blocks comp g d fuel block st = .next st1 →
      (st1.1 = true → ∃ b0 i0 e0, OpAt comp g d st1.2 b0 i0 e0) := by
  intro fuel
  induction fuel with
  | zero =>
    intro block st st1 hst h
    unfold IfConvertCheckStmts.blocks at h
    split_ifs at h
    simp only [Step.next.injEq] at h
    rw [← h]; exact hst
  | succ n ih =>
    intro block st st1 hst h
    unfold IfConvertCheckStmts.blocks at h
    split_ifs at h with hfin
    · simp only [Step.next.injEq] at h
      rw [← h]; exact hst
    · cases block with
      | none => simp at h
      | some b =>
        simp only at h
        cases hs : IfConvertCheckStmts.stmts comp d b (g b).bbStmtList 0 st with
        | fault => simp [hs] at h
        | stop a => simp [hs] at h
        | next st2 =>
          simp only [hs] at h
          exact ih _ st2 st1
            (stmts_opAt comp g d b (stmts_all_ok comp d b _ 0 st st2 hs) _ 0 st st2
              (by simp) hst hs) h

/-- A successful validator run returns a record that names an eligible statement
of a block holding nothing but no-ops and eligible statements. -/
theorem checkStmts_opAt (comp : Compiler) (g : Graph) (d : OptIfConversionDsc)
    (fuel : Nat) (fromBlock : Option Nat) (op0 op : IfConvertOperation)
    (h : IfConvertCheckStmts comp g d fuel fromBlock op0 = some (true, op)) :
    ∃ b i e, OpAt comp g d op b i e := by
  unfold IfConvertCheckStmts at h
  cases hb : IfConvertCheckStmts.blocks comp g d fuel fromBlock (false, op0) with
  | fault => simp [hb] at h
  | stop a => simp [hb] at h
  | next st1 =>
    obtain ⟨f, op1⟩ := st1
    simp only [hb, Option.some.injEq, Prod.mk.injEq] at h
    obtain ⟨hf, hop⟩ := h
    subst hf hop
    exact blocks_opAt comp g d fuel fromBlock (false, op0) (true, op1) (by simp) hb rfl

/-- The condition of a found flow is the operand of the branch statement that
ends the start block. -/
theorem flow_cond (g : Graph) (s : Nat) (d : OptIfConversionDsc)
    (h : optIfConvert.flow g s = some (some d)) :
    ∃ last, (g s).bbStmtList.getLast? = some last ∧ last.OperIs GT_JTRUE = true ∧
      last.gtGetOp1 = some d.m_cond ∧ OperIsCompare d.m_cond.OperGet = true := by
  unfold optIfConvert.flow at h
  split_ifs at h with h1 <;> try (simp at h; done)
  split at h <;> try (simp at h; done)
  rename_i last hlast
  split_ifs at h with h2
  split at h <;> try (simp at h; done)
  rename_i cond hcond
  split_ifs at h with h3 <;> try (simp at h; done)
  split at h <;> try (simp at h; done)
  rename_i d2 hff
  split_ifs at h with h4
  · simp at h
  simp only [Option.some.injEq] at h
  subst h
  obtain ⟨a1, a2, a3, a4, a5⟩ := findFlow_frame g _ d2 hff
  refine ⟨last, hlast, by simpa using h2, ?_, ?_⟩
  · rw [a2]; exact hcond
  · rw [a2]; simpa using h3

theorem jtrue_not_ok (comp : Compiler) (d : OptIfConversionDsc) (t : GenTree)
    (h : t.OperIs GT_JTRUE = true) : ¬ (isNop t = true ∨ isEligible comp d t = true) := by
  have ho : t.OperGet = GT_JTRUE := by simpa [GenTree.OperIs] using h
  rintro (h1 | h1)
  · simp [isNop, ho] at h1
  · unfold isEligible at h1
    cases hv : t.gtGetOp1 with
    | none => simp [hv] at h1
    | some v => simp [hv, ho] at h1

/-- What the flow and statement checks establish about the descriptor they pass on. -/
theorem checks_spec (comp : Compiler) (g : Graph) (s : Nat) (d : OptIfConversionDsc)
    (h : optIfConvert.checks comp g s = some (some d)) :
    d.m_startBlock = s ∧
    (∃ last, (g s).bbStmtList.getLast? = some last ∧ last.OperIs GT_JTRUE = true ∧
      last.gtGetOp1 = some d.m_cond) ∧
    ∃ T i tn, OpAt comp g d d.m_thenOperation T i tn ∧ T ≠ s ∧
      (d.m_doElseConversion = true →
        ∃ E j en, OpAt comp g d d.m_elseOperation E j en ∧ E ≠ s ∧
          tn.OperGet = en.OperGet ∧
          (tn.OperGet = GT_STORE_LCL_VAR → tn.GetLclNum = en.GetLclNum)) := by
  unfold optIfConvert.checks at h
  split at h
  · simp at h
  · simp at h
  · rename_i d0 hflow
    obtain ⟨hs0, _, _, _, _, _, _, _⟩ := flow_spec g s d0 hflow
    obtain ⟨last, hlast, hj, hcond, _⟩ := flow_cond g s d0 hflow
    have hlmem : last ∈ (g s).bbStmtList := List.mem_of_getLast?_eq_some hlast
    obtain ⟨thenOp, hthen, h0, h1⟩ := validate_spec comp g d0 d h
    have hne : ∀ (d2 : OptIfConversionDsc) (op : IfConvertOperation) (b i : Nat) (e : GenTree),
        OpAt comp g d2 op b i e → b ≠ s := by
      intro d2 op b i e hop hb
      subst hb
      exact jtrue_not_ok comp d2 last hj (hop.2.2.2 last hlmem)
    obtain ⟨T, i, tn, hT⟩ := checkStmts_opAt comp g d0 _ _ _ _ hthen
    cases hd0 : d0.m_doElseConversion with
    | false =>
      have hd := h0 hd0
      subst hd
      refine ⟨hs0, ⟨last, hlast, hj, hcond⟩, T, i, tn, hT, hne _ _ _ _ _ hT, ?_⟩
      intro hdo
      simp only at hdo
      rw [hd0] at hdo
      simp at hdo
    | true =>
      obtain ⟨elseOp, tn1, en, helse, htn, hen, hk, hslot, hd⟩ := h1 hd0
      subst hd
      obtain ⟨E, j, en1, hE⟩ := checkStmts_opAt comp g _ _ _ _ _ helse
      have e1 : tn1 = tn := by
        have := hT.1 ▸ htn
        simpa using this.symm
      have e2 : en = en1 := by
        have := hE.1 ▸ hen
        simpa using this.symm
      subst e1 e2
      refine ⟨hs0, ⟨last, hlast, hj, hcond⟩, T, i, tn1, hT, hne _ _ _ _ _ hT, ?_⟩
      intro _
      exact ⟨E, j, en, ⟨hE.1, hE.2.1, hE.2.2.1, hE.2.2.2⟩, hne _ _ _ _ _ hE, hk, hslot⟩

/-! ### The rewrite of the graph -/

theorem stmtsOnly_refl (g : Graph) : StmtsOnly g g := fun _ => rfl

theorem stmtsOnly_trans (g g1 g2 : Graph) (h1 : StmtsOnly g g1) (h2 : StmtsOnly g1 g2) :
    StmtsOnly g g2 := by
  intro x
  rw [h2 x, h1 x]

theorem update_stmtsOnly (g : Graph) (b : Nat) (l : List GenTree) :
    StmtsOnly g (Function.update g b { g b with bbStmtList := l }) := by
  intro x
  by_cases h : x = b
  · subst h
    simp
  · simp [Function.update, h]

theorem setStmt_stmtsOnly (g : Graph) (b i : Nat) (t : GenTree) :
    StmtsOnly g (setStmt g b i t) :=
  update_stmtsOnly g b _

theorem join_stmtsOnly (g : Graph) (d : OptIfConversionDsc) (f : Nat) (g1 : Graph)
    (h : IfConvertJoinStmts g d f = some g1) : StmtsOnly g g1 := by
  unfold IfConvertJoinStmts at h
  split at h
  · simp at h
  · simp at h
  · simp only [Option.some.injEq] at h
    subst h
    exact stmtsOnly_trans _ _ _ (update_stmtsOnly g d.m_startBlock _) (update_stmtsOnly _ f _)

/-- The steps of a successful `optIfConvert.commit`, one by one. -/
theorem commit_inv (g : Graph) (d : OptIfConversionDsc) (sel : GenTree) (g1 : Graph)
    (h : optIfConvert.commit g d sel = some g1) :
    ∃ T i tn last g3 g4 g5 ft,
      d.m_thenOperation.block = some T ∧ d.m_thenOperation.stmt = some i ∧
      d.m_thenOperation.node = some tn ∧ (g d.m_startBlock).bbStmtList.getLast? = some last ∧
      (if d.m_doElseConversion then
        match d.m_elseOperation.block, d.m_elseOperation.stmt, d.m_elseOperation.node with
        | some elseBlock, some elseStmt, some elseNode =>
          some (setStmt (setStmt (setStmt g T i ((tn.AddAllEffectsFlags sel).setOp1 sel))
            d.m_startBlock (((setStmt g T i ((tn.AddAllEffectsFlags sel).setOp1 sel))
              d.m_startBlock).bbStmtList.length - 1) (gtBashToNOP last))
            elseBlock elseStmt (gtBashToNOP elseNode))
        | _, _, _ => none
      else some (setStmt (setStmt g T i ((tn.AddAllEffectsFlags sel).setOp1 sel))
            d.m_startBlock (((setStmt g T i ((tn.AddAllEffectsFlags sel).setOp1 sel))
              d.m_startBlock).bbStmtList.length - 1) (gtBashToNOP last))) = some g3 ∧
      IfConvertJoinStmts g3 d T = some g4 ∧
      (if d.m_doElseConversion then
        match d.m_elseOperation.block with
        | some elseBlock => IfConvertJoinStmts g4 d elseBlock
        | none => none
      else some g4) = some g5 ∧
      (g d.m_startBlock).bbFalseTarget = some ft ∧
      g1 = SetKindAndTargetEdge (fgRemoveAllRefPreds g5 ft d.m_startBlock) d.m_startBlock
        (g d.m_startBlock).bbTrueTarget := by
  unfold optIfConvert.commit at h
  split at h
  · rename_i T i tn last hT hi hn hl
    simp only at h
    split at h
    · simp at h
    · rename_i g3 hg3
      split at h
      · simp at h
      · rename_i g4 hg4
        split at h
        · rename_i g5 ft hg5 hft
          simp only [Option.some.injEq] at h
          exact ⟨T, i, tn, last, g3, g4, g5, ft, hT, hi, hn, hl, hg3, hg4, hg5, hft, h.symm⟩
        · simp at h
  · simp at h

theorem setStmt_stmts (g : Graph) (b i : Nat) (t : GenTree) (x : Nat) :
    ((setStmt g b i t) x).bbStmtList =
      if x = b then (g b).bbStmtList.set i t else (g x).bbStmtList := by
  unfold setStmt
  by_cases h : x = b
  · subst h
    simp
  · simp [Function.update, h]

theorem join_stmts (g : Graph) (d : OptIfConversionDsc) (f : Nat) (g1 : Graph)
    (h : IfConvertJoinStmts g d f = some g1) (hf : f ≠ d.m_startBlock) :
    (g1 d.m_startBlock).bbStmtList = (g d.m_startBlock).bbStmtList ++ (g f).bbStmtList ∧
    (g1 f).bbStmtList = [] ∧ (g f).bbStmtList ≠ [] ∧
    ∀ x, x ≠ d.m_startBlock → x ≠ f → (g1 x).bbStmtList = (g x).bbStmtList := by
  unfold IfConvertJoinStmts at h
  split at h
  · simp at h
  · simp at h
  · rename_i h1 h2
    simp only [Option.some.injEq] at h
    subst h
    have hf1 : d.m_startBlock ≠ f := fun e => hf e.symm
    refine ⟨by simp [Function.update, hf1], by simp [Function.update], ?_, ?_⟩
    · intro e
      exact h2 e
    · intro x hx1 hx2
      simp [Function.update, hx1, hx2]

/-- The flow side of the rewrite: only the edge from the start block to its false
target is removed, and the start block becomes an unconditional jump to its true
target. -/
theorem commit_flow (g : Graph) (d : OptIfConversionDsc) (sel : GenTree) (g1 : Graph)
    (h : optIfConvert.commit g d sel = some g1) :
    ∃ ft, (g d.m_startBlock).bbFalseTarget = some ft ∧
      (∀ b, (g1 b).bbPreds =
        if b = ft then (g b).bbPreds.filter (· != d.m_startBlock) else (g b).bbPreds) ∧
      (g1 d.m_startBlock).bbKind = BBJ_ALWAYS ∧
      (g1 d.m_startBlock).bbTarget = (g d.m_startBlock).bbTrueTarget ∧
      ∀ b, b ≠ d.m_startBlock → (g1 b).bbKind = (g b).bbKind ∧
        (g1 b).bbTarget = (g b).bbTarget ∧ (g1 b).bbTrueTarget = (g b).bbTrueTarget ∧
        (g1 b).bbFalseTarget = (g b).bbFalseTarget := by
  obtain ⟨T, i, tn, last, g3, g4, g5, ft, hT, hi, hn, hl, hg3, hg4, hg5, hft, hg1⟩ :=
    commit_inv g d sel g1 h
  have h3 : StmtsOnly g g3 := by
    split_ifs at hg3
    · split at hg3
      · simp only [Option.some.injEq] at hg3
        subst hg3
        exact stmtsOnly_trans _ _ _ (stmtsOnly_trans _ _ _ (setStmt_stmtsOnly _ _ _ _)
          (setStmt_stmtsOnly _ _ _ _)) (setStmt_stmtsOnly _ _ _ _)
      · simp at hg3
    · simp only [Option.some.injEq] at hg3
      subst hg3
      exact stmtsOnly_trans _ _ _ (setStmt_stmtsOnly _ _ _ _) (setStmt_stmtsOnly _ _ _ _)
  have h4 : StmtsOnly g3 g4 := join_stmtsOnly g3 d T g4 hg4
  have h5 : StmtsOnly g4 g5 := by
    split_ifs at hg5
    · split at hg5
      · exact join_stmtsOnly _ d _ g5 hg5
      · simp at hg5
    · simp only [Option.some.injEq] at hg5
      subst hg5
      exact stmtsOnly_refl _
  have hso : StmtsOnly g g5 := stmtsOnly_trans _ _ _ (stmtsOnly_trans _ _ _ h3 h4) h5
  have hp : ∀ b, (g5 b).bbPreds = (g b).bbPreds := fun b => by rw [hso b]
  have hk : ∀ b, (g5 b).bbKind = (g b).bbKind := fun b => by rw [hso b]
  have ht : ∀ b, (g5 b).bbTarget = (g b).bbTarget := fun b => by rw [hso b]
  have htt : ∀ b, (g5 b).bbTrueTarget = (g b).bbTrueTarget := fun b => by rw [hso b]
  have hff : ∀ b, (g5 b).bbFalseTarget = (g b).bbFalseTarget := fun b => by rw [hso b]
  subst hg1
  refine ⟨ft, hft, ?_, ?_, ?_, ?_⟩
  · intro b
    by_cases hb1 : b = d.m_startBlock
    · subst hb1
      by_cases hb2 : d.m_startBlock = ft
      · simp [SetKindAndTargetEdge, fgRemoveAllRefPreds, Function.update, hb2, hp]
      · simp [SetKindAndTargetEdge, fgRemoveAllRefPreds, Function.update, hb2, hp]
    · by_cases hb2 : b = ft
      · subst hb2
        simp [SetKindAndTargetEdge, fgRemoveAllRefPreds, Function.update, hb1, hp]
      · simp [SetKindAndTargetEdge, fgRemoveAllRefPreds, Function.update, hb1, hb2, hp]
  · simp [SetKindAndTargetEdge]
  · simp [SetKindAndTargetEdge]
  · intro b hb
    by_cases hb2 : b = ft
    · subst hb2
      simp [SetKindAndTargetEdge, fgRemoveAllRefPreds, Function.update, hb, hk, ht, htt, hff]
    · simp [SetKindAndTargetEdge, fgRemoveAllRefPreds, Function.update, hb, hb2, hk, ht, htt, hff]

theorem exStoreDiamond_converts :
    optIfConvert (exComp false) exStoreDiamond 0 = some (true, exStoreDiamondConverted) := by
  have h : ∃ g1, optIfConvert (exComp false) exStoreDiamond 0 = some (true, g1) ∧
      ∀ i, g1 i = exStoreDiamondConverted i :=
    ⟨_, rfl, fun i => by rcases i with _ | _ | _ | _ | i <;> rfl⟩
  obtain ⟨g1, e, hi⟩ := h
  rw [e, funext hi]

/-- C17 as stated fails: the converted `exStoreDiamond` (one block per arm) leaves
the Then block without predecessors, but the Else block, to which the start
block now jumps, still has the start block as its predecessor. -/
theorem armPreds_counterexample :
    ∃ g1, optIfConvert (exComp false) exStoreDiamond 0 = some (true, g1) ∧
      (g1 1).bbPreds = [] ∧ (g1 2).bbPreds = [0] ∧ (g1 0).bbKind = BBJ_ALWAYS ∧
      (g1 0).bbTarget = some 2 ∧ ¬ ((g1 1).bbPreds = [] ∧ (g1 2).bbPreds = []) :=
  ⟨exStoreDiamondConverted, exStoreDiamond_converts, by decide, by decide, by decide, by decide,
    by decide⟩

/-- C17, amended: after a successful conversion, where the start block was the
only predecessor of its false target (the Then block) and of its true target (the
Else block of a diamond with one block per arm), the Then block has no
predecessors, and the Else block keeps the start block as its only predecessor:
the start block has become an unconditional jump to it. -/
theorem armPreds_after_conversion (comp : Compiler) (g : Graph) (s : Nat) (g1 : Graph)
    (T E : Nat) (h : optIfConvert comp g s = some (true, g1))
    (hT : (g s).bbFalseTarget = some T) (hE : (g s).bbTrueTarget = some E) (hTE : T ≠ E)
    (hpT : (g T).bbPreds = [s]) (hpE : (g E).bbPreds = [s]) :
    (g1 T).bbPreds = [] ∧ (g1 E).bbPreds = [s] ∧ (g1 s).bbKind = BBJ_ALWAYS ∧
      (g1 s).bbTarget = some E := by
  obtain ⟨d, sel, hchecks, _, _, hcommit⟩ := optIfConvert_true_inv comp g s g1 h
  obtain ⟨hs, _, _⟩ := checks_spec comp g s d hchecks
  obtain ⟨ft, hft, hp, hk, ht, _⟩ := commit_flow g d sel g1 hcommit
  rw [hs] at hft hp hk ht
  rw [hT] at hft
  simp only [Option.some.injEq] at hft
  subst hft
  refine ⟨?_, ?_, hk, by rw [ht, hE]⟩
  · rw [hp T, hpT]
    simp
  · rw [hp E, hpE]
    have hET : E ≠ T := fun e => hTE e.symm
    simp [hET]

/-- C17 (amended) on `exStoreDiamond`: Then block 1, Else block 2. -/
theorem armPreds_after_conversion_witness :
    (exStoreDiamondConverted 1).bbPreds = [] ∧ (exStoreDiamondConverted 2).bbPreds = [0] ∧
      (exStoreDiamondConverted 0).bbKind = BBJ_ALWAYS ∧
      (exStoreDiamondConverted 0).bbTarget = some 2 :=
  armPreds_after_conversion (exComp false) exStoreDiamond 0 exStoreDiamondConverted 1 2
    exStoreDiamond_converts rfl rfl (by decide) rfl rfl

theorem exMixedDiamond_else_stores : StoresHaveData (chainStmts exMixedDiamond [2]) := by
  intro t ht
  simp only [chainStmts, exMixedDiamond, exDiamond, exBlock, List.append_nil,
    List.mem_singleton] at ht
  subst ht
  simp [exReturn, GenTree.gtGetOp1]

/-! ### Scenario A: a store without an else arm -/

theorem exScenarioA_checks (comp : Compiler) :
    optIfConvert.checks comp exScenarioA 0 = some (some exDscA) := by
  obtain ⟨t64, rv, sc, si, ce, lr, orc⟩ := comp
  cases t64 <;> rfl

theorem exScenarioA_select (comp : Compiler) :
    optIfConvert.select comp exDscA =
      if comp.TARGET_RISCV64 then some none
      else some (some (exSelect (.leaf GT_LCL_VAR TYP_INT 0 0 0) (exCns TYP_INT 5))) := by
  obtain ⟨t64, rv, sc, si, ce, lr, orc⟩ := comp
  cases rv <;> rfl

theorem exScenarioA_commit :
    optIfConvert.commit exScenarioA exDscA
      (exSelect (.leaf GT_LCL_VAR TYP_INT 0 0 0) (exCns TYP_INT 5)) =
        some exScenarioAConverted := by
  have h : ∃ g1, optIfConvert.commit exScenarioA exDscA
      (exSelect (.leaf GT_LCL_VAR TYP_INT 0 0 0) (exCns TYP_INT 5)) = some g1 ∧
      ∀ i, g1 i = exScenarioAConverted i :=
    ⟨_, rfl, fun i => by rcases i with _ | _ | _ | i <;> rfl⟩
  obtain ⟨g1, e, hi⟩ := h
  rw [e, funext hi]

theorem exScenarioA_converts :
    optIfConvert (exComp false) exScenarioA 0 = some (true, exScenarioAConverted) := by
  have h : ∃ g1, optIfConvert (exComp false) exScenarioA 0 = some (true, g1) ∧
      ∀ i, g1 i = exScenarioAConverted i :=
    ⟨_, rfl, fun i => by rcases i with _ | _ | _ | i <;> rfl⟩
  obtain ⟨g1, e, hi⟩ := h
  rw [e, funext hi]

/-- C15 as stated fails: the conversion of scenario A installs
`V00 = SELECT(V02 >= 7, V00, 5)`: the condition is the branch condition itself,
not its inverse, the first value input is the read of the local and the second
is the Then value 5. -/
theorem scenarioA_counterexample :
    ∃ g1, optIfConvert (exComp false) exScenarioA 0 = some (true, g1) ∧
      (g1 0).bbStmtList =
        [exNop, exStore 0 TYP_INT
          (.ternary GT_SELECT TYP_INT 0 exCond (.leaf GT_LCL_VAR TYP_INT 0 0 0) (exCns TYP_INT 5))] ∧
      exCond ≠ gtReverseCond exCond ∧
      GenTree.leaf GT_LCL_VAR TYP_INT 0 0 0 ≠ exCns TYP_INT 5 ∧
      (g1 0).bbStmtList ≠
        [exNop, exStore 0 TYP_INT
          (.ternary GT_SELECT TYP_INT 0 (gtReverseCond exCond) (exCns TYP_INT 5)
            (.leaf GT_LCL_VAR TYP_INT 0 0 0))] :=
  ⟨exScenarioAConverted, exScenarioA_converts, by decide, by decide, by decide, by decide⟩

/-- C15, amended: for `if (x < 7) { a = 5; }` (scenario A, branch condition
`V02 >= 7`), a successful conversion on any target yields a start block whose
statements are a no-op and the store `a = SELECT(cond, a, 5)`, where cond is the
branch (JTRUE) condition unchanged, the first value input is a read of `a` and
the second is the Then value 5; the start block becomes an unconditional jump
to the old merge block; and the Then block has an empty statement list and no
predecessors. -/
theorem scenarioA_conversion (comp : Compiler) (g1 : Graph)
    (h : optIfConvert comp exScenarioA 0 = some (true, g1)) :
    (g1 0).bbStmtList =
      [gtBashToNOP exJtrue, exStore 0 TYP_INT
        (gtNewConditionalNode GT_SELECT exCond (gtNewLclVarNode 0 TYP_INT) (exCns TYP_INT 5)
          TYP_INT)] ∧
    (g1 0).bbKind = BBJ_ALWAYS ∧ (g1 0).bbTarget = (exScenarioA 0).bbTrueTarget ∧
    (g1 1).bbStmtList = [] ∧ (g1 1).bbPreds = [] := by
  obtain ⟨d, sel, hchecks, _, hsel, hcommit⟩ := optIfConvert_true_inv comp exScenarioA 0 g1 h
  rw [exScenarioA_checks] at hchecks
  simp only [Option.some.injEq] at hchecks
  subst hchecks
  rw [exScenarioA_select] at hsel
  split_ifs at hsel
  · simp at hsel
  simp only [Option.some.injEq] at hsel
  subst hsel
  rw [exScenarioA_commit] at hcommit
  simp only [Option.some.injEq] at hcommit
  subst hcommit
  decide

/-- C15 (amended) on a 64-bit target other than RISC-V 64. -/
theorem scenarioA_conversion_witness :
    (exScenarioAConverted 0).bbStmtList =
      [gtBashToNOP exJtrue, exStore 0 TYP_INT
        (gtNewConditionalNode GT_SELECT exCond (gtNewLclVarNode 0 TYP_INT) (exCns TYP_INT 5)
          TYP_INT)] ∧
    (exScenarioAConverted 0).bbKind = BBJ_ALWAYS ∧
    (exScenarioAConverted 0).bbTarget = (exScenarioA 0).bbTrueTarget ∧
    (exScenarioAConverted 1).bbStmtList = [] ∧ (exScenarioAConverted 1).bbPreds = [] :=
  scenarioA_conversion (exComp false) exScenarioAConverted exScenarioA_converts

/-- C13 on `exStoreDiamond` (the merge block 3 has no unique successor), on the
Else arm of `exMixedDiamond`, which holds a return, and on the conversion of
scenario A, which has no else arm. -/
theorem returns_need_else_witness :
    IfConvertCheckInnerBlockFlow exStoreDiamond exDsc 3 = false ∧
    (∃ op, IfConvertCheckStmts (exComp false) exMixedDiamond
      { exDsc with m_finalBlock := some 3 } 4 (some 2) {} = some (false, op)) ∧
    (∃ d, optIfConvert.checks (exComp false) exScenarioA 0 = some (some d) ∧
      (d.m_doElseConversion = false →
        ∃ n, d.m_thenOperation.node = some n ∧ n.OperGet = GT_STORE_LCL_VAR)) :=
  ⟨(returns_need_else (exComp false) exStoreDiamond).1 exDsc 3 rfl (by decide),
   (returns_need_else (exComp false) exMixedDiamond).2.1 { exDsc with m_finalBlock := some 3 }
      4 (some 2) {} [2] rfl (by decide) exMixedDiamond_else_stores
      ⟨exReturn TYP_INT (exCns TYP_INT 9), by
        simp [chainStmts, exMixedDiamond, exDiamond, exBlock], by decide⟩,
   (returns_need_else (exComp false) exScenarioA).2.2 0 exScenarioAConverted
      exScenarioA_converts⟩

/-! ### The rule for a condition with an order-dependent side effect -/

theorem isEligible_order (comp : Compiler) (d : OptIfConversionDsc) (t v : GenTree)
    (hv : t.gtGetOp1 = some v) :
    isEligible comp d t =
      (eligibleApartFromOrder comp d t &&
        (((d.m_cond.gtFlags &&& GTF_ORDER_SIDEEFF) == 0) || v.IsInvariant ||
          OperIsLocal v.OperGet)) := by
  unfold isEligible eligibleApartFromOrder
  simp only [hv]

theorem not_nop_of_apartFromOrder (comp : Compiler) (d : OptIfConversionDsc) (e : GenTree)
    (h : eligibleApartFromOrder comp d e = true) : isNop e = false := by
  unfold eligibleApartFromOrder at h
  cases hv : e.gtGetOp1 with
  | none => simp [hv] at h
  | some v =>
    simp only [hv, Bool.and_eq_true, Bool.or_eq_true, beq_iff_eq] at h
    rcases h.1.1.1.1 with ho | ho
    · exact not_nop_of_store_or_return e (Or.inl ho)
    · exact not_nop_of_store_or_return e (Or.inr ho.1)

/-- C14: on an arm whose walk reaches the merge block, (1) when the condition
carries the order-dependent-side-effect flag, an arm of no-ops around one store
or return that passes every other rule is accepted exactly when the value is
invariant or a local, and any arm holding a store or return whose value is
neither is rejected; (2) when the condition does not carry the flag, an arm of
no-ops around one statement that passes every other rule is accepted whatever
its value. -/
theorem orderRule (comp : Compiler) (g : Graph) (d : OptIfConversionDsc)
    (fuel : Nat) (fromBlock : Option Nat) (op0 : IfConvertOperation) (bs : List Nat)
    (hc : chainBlocks g d.m_finalBlock fuel fromBlock = some bs)
    (hw : StoresHaveData (chainStmts g bs)) :
    ((d.m_cond.gtFlags &&& GTF_ORDER_SIDEEFF) ≠ 0 →
      (∀ pre e post v, chainStmts g bs = pre ++ e :: post → (∀ t ∈ pre, isNop t = true) →
        (∀ t ∈ post, isNop t = true) → eligibleApartFromOrder comp d e = true →
        e.gtGetOp1 = some v →
        ∃ op, IfConvertCheckStmts comp g d fuel fromBlock op0 =
          some (v.IsInvariant || OperIsLocal v.OperGet, op)) ∧
      (∀ t v, t ∈ chainStmts g bs → (t.OperGet = GT_STORE_LCL_VAR ∨ t.OperGet = GT_RETURN) →
        t.gtGetOp1 = some v → v.IsInvariant = false → OperIsLocal v.OperGet = false →
        ∃ op, IfConvertCheckStmts comp g d fuel fromBlock op0 = some (false, op))) ∧
    ((d.m_cond.gtFlags &&& GTF_ORDER_SIDEEFF) = 0 →
      ∀ pre e post, chainStmts g bs = pre ++ e :: post → (∀ t ∈ pre, isNop t = true) →
        (∀ t ∈ post, isNop t = true) → eligibleApartFromOrder comp d e = true →
        ∃ op, IfConvertCheckStmts comp g d fuel fromBlock op0 = some (true, op)) := by
  obtain ⟨op, hop⟩ := checkStmts_eq_scan comp g d fuel fromBlock op0 bs hc hw
  refine ⟨fun hflag => ⟨?_, ?_⟩, ?_⟩
  · intro pre e post v hss hpre hpost hel hv
    have hf : ((d.m_cond.gtFlags &&& GTF_ORDER_SIDEEFF) == 0) = false := by simpa using hflag
    refine ⟨op, ?_⟩
    rw [hop]
    have he : isEligible comp d e = (v.IsInvariant || OperIsLocal v.OperGet) := by
      rw [isEligible_order comp d e v hv, hel, hf]
      simp
    cases hb : (v.IsInvariant || OperIsLocal v.OperGet) with
    | true =>
      have h1 : OneEligible comp d (chainStmts g bs) :=
        ⟨pre, e, post, hss, hpre, hpost, by rw [he, hb]⟩
      rw [← scanFound_false_iff] at h1
      simp [h1]
    | false =>
      rw [scanFound_none_of_bad comp d _ false
        ⟨e, by rw [hss]; simp, not_nop_of_apartFromOrder comp d e hel, by rw [he, hb]⟩]
      simp
  · intro t v ht ho hv hinv hloc
    refine checkStmts_false_of_bad comp g d fuel fromBlock op0 bs hc hw
      ⟨t, ht, not_nop_of_store_or_return t ho, ?_⟩
    have hf : ((d.m_cond.gtFlags &&& GTF_ORDER_SIDEEFF) == 0) = false := by simpa using hflag
    rw [isEligible_order comp d t v hv, hf, hinv, hloc]
    simp
  · intro hflag pre e post hss hpre hpost hel
    refine ⟨op, ?_⟩
    rw [hop]
    have he : isEligible comp d e = true := by
      unfold eligibleApartFromOrder at hel
      cases hv : e.gtGetOp1 with
      | none => simp [hv] at hel
      | some v =>
        rw [isEligible_order comp d e v hv]
        unfold eligibleApartFromOrder
        simp only [hv] at hel ⊢
        rw [hel]
        simp [hflag]
    have h1 : OneEligible comp d (chainStmts g bs) := ⟨pre, e, post, hss, hpre, hpost, he⟩
    rw [← scanFound_false_iff] at h1
    simp [h1]

theorem exIfThen_stmts (t : GenTree) : chainStmts (exIfThen t) [1] = [t] := by
  simp [chainStmts, exIfThen, exBlock]

theorem exIfThen_stores (l : Nat) (ty : var_types) (v : GenTree) :
    StoresHaveData (chainStmts (exIfThen (exStore l ty v)) [1]) := by
  intro t ht
  rw [exIfThen_stmts] at ht
  simp only [List.mem_singleton] at ht
  subst ht
  simp [exStore, GenTree.gtGetOp1]

/-- C14 on the Then arm of `if (V02 >= 7) goto merge; V00 = value`: under the flagged
condition the store of `V01 + 1` is rejected and the store of the constant 5 is
accepted; under the unflagged condition the store of `V01 + 1` is accepted. -/
theorem orderRule_witness :
    (∃ op, IfConvertCheckStmts (exComp false) (exIfThen (exStore 0 TYP_INT exAddOne))
      exDscOrdered 4 (some 1) {} = some (false, op)) ∧
    (∃ op, IfConvertCheckStmts (exComp false) (exIfThen (exStore 0 TYP_INT (exCns TYP_INT 5)))
      exDscOrdered 4 (some 1) {} = some (true, op)) ∧
    (∃ op, IfConvertCheckStmts (exComp false) (exIfThen (exStore 0 TYP_INT exAddOne))
      { exDsc with m_finalBlock := some 2 } 4 (some 1) {} = some (true, op)) :=
  ⟨((orderRule (exComp false) (exIfThen (exStore 0 TYP_INT exAddOne)) exDscOrdered 4 (some 1)
      {} [1] rfl (exIfThen_stores 0 TYP_INT exAddOne)).1 (by decide)).1
      [] (exStore 0 TYP_INT exAddOne) [] exAddOne (exIfThen_stmts _) (by simp) (by simp)
      (by decide) rfl,
   ((orderRule (exComp false) (exIfThen (exStore 0 TYP_INT (exCns TYP_INT 5))) exDscOrdered 4
      (some 1) {} [1] rfl (exIfThen_stores 0 TYP_INT (exCns TYP_INT 5))).1 (by decide)).1
      [] (exStore 0 TYP_INT (exCns TYP_INT 5)) [] (exCns TYP_INT 5) (exIfThen_stmts _) (by simp)
      (by simp) (by decide) rfl,
   (orderRule (exComp false) (exIfThen (exStore 0 TYP_INT exAddOne))
      { exDsc with m_finalBlock := some 2 } 4 (some 1) {} [1] rfl
      (exIfThen_stores 0 TYP_INT exAddOne)).2 (by decide)
      [] (exStore 0 TYP_INT exAddOne) [] (exIfThen_stmts _) (by simp) (by simp) (by decide)⟩

/-! ### Scenario D: increments on a target with the peephole layer -/

/-- A conversion's graph is the one the rewrite produces from the checked
descriptor and the synthesised expression. -/
theorem conversion_eq (comp : Compiler) (g : Graph) (s : Nat) (g1 G : Graph)
    (d : OptIfConversionDsc) (sel : GenTree)
    (hchecks : optIfConvert.checks comp g s = some (some d))
    (hsel : optIfConvert.select comp d = some (some sel))
    (hcommit : optIfConvert.commit g d sel = some G)
    (h : optIfConvert comp g s = some (true, g1)) : g1 = G := by
  obtain ⟨d1, sel1, h1, _, h2, h3⟩ := optIfConvert_true_inv comp g s g1 h
  rw [hchecks] at h1
  simp only [Option.some.injEq] at h1
  subst h1
  rw [hsel] at h2
  simp only [Option.some.injEq] at h2
  subst h2
  rw [hcommit] at h3
  simpa using h3.symm

theorem exScenarioC_checks (comp : Compiler) :
    optIfConvert.checks comp exScenarioC 0 = some (some exDscC) := by
  obtain ⟨t64, rv, sc, si, ce, lr, orc⟩ := comp
  cases t64 <;> rfl

/-- The select synthesis consults the host for the target only. -/
theorem select_congr (comp comp2 : Compiler) (d : OptIfConversionDsc)
    (h : comp.TARGET_RISCV64 = comp2.TARGET_RISCV64) :
    optIfConvert.select comp d = optIfConvert.select comp2 d := by
  unfold optIfConvert.select TryTransformSelectToOrdinaryOps
  simp only [h]

theorem exScenarioC_select (comp : Compiler) :
    optIfConvert.select comp exDscC =
      if comp.TARGET_RISCV64 then some none
      else some (some (exSelect (exCns TYP_INT 9) (exCns TYP_INT 5))) := by
  cases hr : comp.TARGET_RISCV64 with
  | false =>
    rw [select_congr comp (exComp false) exDscC hr]
    rfl
  | true =>
    rw [select_congr comp (exComp true) exDscC hr]
    decide

theorem exScenarioC_commit :
    optIfConvert.commit exScenarioC exDscC (exSelect (exCns TYP_INT 9) (exCns TYP_INT 5)) =
      some exScenarioCConverted := by
  have h : ∃ g1, optIfConvert.commit exScenarioC exDscC
      (exSelect (exCns TYP_INT 9) (exCns TYP_INT 5)) = some g1 ∧
      ∀ i, g1 i = exScenarioCConverted i :=
    ⟨_, rfl, fun i => by rcases i with _ | _ | _ | i <;> rfl⟩
  obtain ⟨g1, e, hi⟩ := h
  rw [e, funext hi]

theorem exScenarioC_converts :
    optIfConvert (exComp false) exScenarioC 0 = some (true, exScenarioCConverted) := by
  have h : ∃ g1, optIfConvert (exComp false) exScenarioC 0 = some (true, g1) ∧
      ∀ i, g1 i = exScenarioCConverted i :=
    ⟨_, rfl, fun i => by rcases i with _ | _ | _ | i <;> rfl⟩
  obtain ⟨g1, e, hi⟩ := h
  rw [e, funext hi]

/-- C18: for `return (x < 7) ? 5 : 9;` (scenario C, branch condition `V02 >= 7`)
the flow matcher finds a flow with no merge block, an else arm and primary
operator `GT_RETURN`, and a successful conversion on any target leaves the start
block holding a no-op (the former branch), `RETURN SELECT(cond, 9, 5)` with the
Else value as true input and the Then value as false input, and a no-op (the
former Else return). -/
theorem scenarioC_conversion (comp : Compiler) (g1 : Graph)
    (h : optIfConvert comp exScenarioC 0 = some (true, g1)) :
    (∃ d, optIfConvert.flow exScenarioC 0 = some (some d) ∧ d.m_flowFound = true ∧
      d.m_finalBlock = none ∧ d.m_doElseConversion = true ∧ d.m_mainOper = GT_RETURN) ∧
    (g1 0).bbStmtList =
      [gtBashToNOP exJtrue,
       exReturn TYP_INT
         (gtNewConditionalNode GT_SELECT exCond (exCns TYP_INT 9) (exCns TYP_INT 5) TYP_INT),
       gtBashToNOP (exReturn TYP_INT (exCns TYP_INT 9))] := by
  refine ⟨⟨exDscCFlow, rfl, rfl, rfl, rfl, rfl⟩, ?_⟩
  have hsel : optIfConvert.select comp exDscC =
      some (some (exSelect (exCns TYP_INT 9) (exCns TYP_INT 5))) := by
    obtain ⟨d, sel, hchecks, _, hsel, _⟩ := optIfConvert_true_inv comp exScenarioC 0 g1 h
    rw [exScenarioC_checks] at hchecks
    simp only [Option.some.injEq] at hchecks
    subst hchecks
    rw [exScenarioC_select] at hsel ⊢
    split_ifs at hsel ⊢
    · simp at hsel
    · rfl
  rw [conversion_eq comp exScenarioC 0 g1 exScenarioCConverted exDscC _
    (exScenarioC_checks comp) hsel exScenarioC_commit h]
  rfl

/-- C18 on a target other than RISC-V 64, where the conversion goes through. -/
theorem scenarioC_conversion_witness :
    (∃ d, optIfConvert.flow exScenarioC 0 = some (some d) ∧ d.m_flowFound = true ∧
      d.m_finalBlock = none ∧ d.m_doElseConversion = true ∧ d.m_mainOper = GT_RETURN) ∧
    (exScenarioCConverted 0).bbStmtList =
      [gtBashToNOP exJtrue,
       exReturn TYP_INT
         (gtNewConditionalNode GT_SELECT exCond (exCns TYP_INT 9) (exCns TYP_INT 5) TYP_INT),
       gtBashToNOP (exReturn TYP_INT (exCns TYP_INT 9))] :=
  scenarioC_conversion (exComp false) exScenarioCConverted exScenarioC_converts

/-! ### The statements after the rewrite -/

theorem rewire_stmts (g : Graph) (ft s : Nat) (tt : Option Nat) (b : Nat) :
    ((SetKindAndTargetEdge (fgRemoveAllRefPreds g ft s) s tt) b).bbStmtList =
      (g b).bbStmtList := by
  by_cases hb1 : b = s
  · subst hb1
    by_cases hb2 : b = ft
    · subst hb2
      simp [SetKindAndTargetEdge, fgRemoveAllRefPreds, Function.update]
    · simp [SetKindAndTargetEdge, fgRemoveAllRefPreds, Function.update, hb2]
  · by_cases hb2 : b = ft
    · subst hb2
      simp [SetKindAndTargetEdge, fgRemoveAllRefPreds, Function.update, hb1]
    · simp [SetKindAndTargetEdge, fgRemoveAllRefPreds, Function.update, hb1, hb2]

/-- The statement lists after a conversion without an else arm: the start block
holds its own statements with the branch turned into a no-op, followed by the
statements of the block of the Then operation with the new value installed. -/
theorem commit_stmts_noElse (g : Graph) (d : OptIfConversionDsc) (sel : GenTree) (g1 : Graph)
    (T i : Nat) (tn : GenTree)
    (hop : d.m_thenOperation = { block := some T, stmt := some i, node := some tn })
    (hT : T ≠ d.m_startBlock) (hdo : d.m_doElseConversion = false)
    (h : optIfConvert.commit g d sel = some g1) :
    ∃ last, (g d.m_startBlock).bbStmtList.getLast? = some last ∧
      (g1 d.m_startBlock).bbStmtList =
        (g d.m_startBlock).bbStmtList.set ((g d.m_startBlock).bbStmtList.length - 1)
            (gtBashToNOP last) ++
          (g T).bbStmtList.set i ((tn.AddAllEffectsFlags sel).setOp1 sel) ∧
      (g1 T).bbStmtList = [] ∧
      ∀ b, b ≠ d.m_startBlock → b ≠ T → (g1 b).bbStmtList = (g b).bbStmtList := by
  obtain ⟨T1, i1, tn1, last, g3, g4, g5, ft, hT1, hi1, hn1, hl, hg3, hg4, hg5, hft, hg1⟩ :=
    commit_inv g d sel g1 h
  rw [hop] at hT1 hi1 hn1
  simp only [Option.some.injEq] at hT1 hi1 hn1
  subst hT1 hi1 hn1
  simp only [hdo, Bool.false_eq_true, if_false, Option.some.injEq] at hg3 hg5
  subst hg5
  obtain ⟨j1, j2, _, j4⟩ := join_stmts g3 d T g4 hg4 hT
  have hs : d.m_startBlock ≠ T := fun e => hT e.symm
  subst hg1
  refine ⟨last, hl, ?_, ?_, ?_⟩
  · rw [rewire_stmts, j1, ← hg3]
    simp [setStmt_stmts, hs, hT]
  · rw [rewire_stmts, j2]
  · intro b hb1 hb2
    rw [rewire_stmts, j4 b hb1 hb2, ← hg3]
    simp [setStmt_stmts, hb1, hb2]

/-- The statement lists after a conversion with an else arm: the start block holds
its own statements with the branch turned into a no-op, then the statements of
the block of the Then operation with the new value installed, then those of the
block of the Else operation with that operation turned into a no-op. -/
theorem commit_stmts_else (g : Graph) (d : OptIfConversionDsc) (sel : GenTree) (g1 : Graph)
    (T i : Nat) (tn : GenTree) (E j : Nat) (en : GenTree)
    (hop : d.m_thenOperation = { block := some T, stmt := some i, node := some tn })
    (hT : T ≠ d.m_startBlock)
    (hopE : d.m_elseOperation = { block := some E, stmt := some j, node := some en })
    (hE : E ≠ d.m_startBlock) (hdo : d.m_doElseConversion = true)
    (h : optIfConvert.commit g d sel = some g1) :
    ∃ last, (g d.m_startBlock).bbStmtList.getLast? = some last ∧ E ≠ T ∧
      (g1 d.m_startBlock).bbStmtList =
        (g d.m_startBlock).bbStmtList.set ((g d.m_startBlock).bbStmtList.length - 1)
            (gtBashToNOP last) ++
          (g T).bbStmtList.set i ((tn.AddAllEffectsFlags sel).setOp1 sel) ++
          (g E).bbStmtList.set j (gtBashToNOP en) ∧
      (g1 T).bbStmtList = [] ∧ (g1 E).bbStmtList = [] ∧
      ∀ b, b ≠ d.m_startBlock → b ≠ T → b ≠ E → (g1 b).bbStmtList = (g b).bbStmtList := by
  obtain ⟨T1, i1, tn1, last, g3, g4, g5, ft, hT1, hi1, hn1, hl, hg3, hg4, hg5, hft, hg1⟩ :=
    commit_inv g d sel g1 h
  rw [hop] at hT1 hi1 hn1
  simp only [Option.some.injEq] at hT1 hi1 hn1
  subst hT1 hi1 hn1
  simp only [hdo, if_true, hopE, Option.some.injEq] at hg3 hg5
  obtain ⟨j1, j2, _, j4⟩ := join_stmts g3 d T g4 hg4 hT
  obtain ⟨k1, k2, k3, k4⟩ := join_stmts g4 d E g5 hg5 hE
  have hET : E ≠ T := by
    intro e
    rw [e] at k3
    exact k3 j2
  have hTE : T ≠ E := fun e => hET e.symm
  have hs : d.m_startBlock ≠ T := fun e => hT e.symm
  have hsE : d.m_startBlock ≠ E := fun e => hE e.symm
  subst hg1
  refine ⟨last, hl, hET, ?_, ?_, ?_, ?_⟩
  · rw [rewire_stmts, k1, j1, j4 E hE hET, ← hg3]
    simp [setStmt_stmts, hs, hT, hE, hsE, hET, hTE]
  · rw [rewire_stmts, k4 T hT hTE, j2]
  · rw [rewire_stmts, k2]
  · intro b hb1 hb2 hb3
    rw [rewire_stmts, k4 b hb1 hb3, j4 b hb1 hb2, ← hg3]
    simp [setStmt_stmts, hb1, hb2, hb3]

theorem eligible_value (comp : Compiler) (d : OptIfConversionDsc) (t : GenTree)
    (h : isEligible comp d t = true) : ∃ v, t.gtGetOp1 = some v := by
  unfold isEligible at h
  cases hv : t.gtGetOp1 with
  | none => simp [hv] at h
  | some v => exact ⟨v, rfl⟩

theorem selectInputs_else (d : OptIfConversionDsc) (T i : Nat) (tn : GenTree) (E j : Nat)
    (en tv ev : GenTree)
    (hop : d.m_thenOperation = { block := some T, stmt := some i, node := some tn })
    (hopE : d.m_elseOperation = { block := some E, stmt := some j, node := some en })
    (htv : tn.gtGetOp1 = some tv) (hev : en.gtGetOp1 = some ev)
    (hdo : d.m_doElseConversion = true) :
    optIfConvert.selectInputs d = some (genActualType tn.TypeGet, some ev, tv) := by
  unfold optIfConvert.selectInputs
  simp only [hop, hopE, IfConvertOperation.value, htv, hev, hdo, if_true]
  split_ifs <;> rfl

/-- C16: every conversion goes through a checked descriptor whose condition is the
operand of the start block's branch statement; when the descriptor has an else
arm and no peephole identity applies to the Else value and the Then value, the
expression installed as the value of the Then operation is the generic select
with that condition, unchanged, as its condition, the Else value as its true
input and the Then value as its false input, and the start block then holds its
own statements (branch turned into a no-op), the Then block's statements with the
select installed, and the Else block's statements with the Else operation turned
into a no-op. -/
theorem select_convention (comp : Compiler) (g : Graph) (s : Nat) (g1 : Graph)
    (h : optIfConvert comp g s = some (true, g1)) :
    ∃ d sel T i tn last, optIfConvert.checks comp g s = some (some d) ∧
      optIfConvert.select comp d = some (some sel) ∧
      OpAt comp g d d.m_thenOperation T i tn ∧
      (g s).bbStmtList.getLast? = some last ∧ last.OperIs GT_JTRUE = true ∧
      last.gtGetOp1 = some d.m_cond ∧
      (d.m_doElseConversion = true →
        ∃ E j en tv ev, OpAt comp g d d.m_elseOperation E j en ∧
          tn.gtGetOp1 = some tv ∧ en.gtGetOp1 = some ev ∧
          (TryTransformSelectToOrdinaryOps comp d (some ev) tv = some none →
            sel = gtNewConditionalNode GT_SELECT d.m_cond ev tv (genActualType tn.TypeGet) ∧
            (g1 s).bbStmtList =
              (g s).bbStmtList.set ((g s).bbStmtList.length - 1) (gtBashToNOP last) ++
                (g T).bbStmtList.set i ((tn.AddAllEffectsFlags sel).setOp1 sel) ++
                (g E).bbStmtList.set j (gtBashToNOP en))) := by
  obtain ⟨d, sel, hchecks, _, hsel, hcommit⟩ := optIfConvert_true_inv comp g s g1 h
  obtain ⟨hs, ⟨last, hlast, hj, hcond⟩, T, i, tn, hT, hTs, helse⟩ :=
    checks_spec comp g s d hchecks
  refine ⟨d, sel, T, i, tn, last, hchecks, hsel, hT, hlast, hj, hcond, ?_⟩
  intro hdo
  obtain ⟨E, j, en, hE, hEs, _, _⟩ := helse hdo
  obtain ⟨tv, htv⟩ := eligible_value comp d tn hT.2.2.1
  obtain ⟨ev, hev⟩ := eligible_value comp d en hE.2.2.1
  refine ⟨E, j, en, tv, ev, hE, htv, hev, ?_⟩
  intro hnone
  have hin := selectInputs_else d T i tn E j en tv ev hT.1 hE.1 htv hev hdo
  have hnode : d.m_thenOperation.node = some tn := by rw [hT.1]
  unfold optIfConvert.select at hsel
  simp only [hin, hnode, hnone] at hsel
  split_ifs at hsel
  · simp at hsel
  simp only [Option.some.injEq] at hsel
  subst hs
  obtain ⟨last1, hl1, _, hst, _⟩ :=
    commit_stmts_else g d sel g1 T i tn E j en hT.1 hTs hE.1 hEs hdo hcommit
  rw [hlast] at hl1
  simp only [Option.some.injEq] at hl1
  subst hl1
  exact ⟨hsel.symm, hst⟩

/-- C16 on `exStoreDiamond` (Then value 5, Else value 9), whose conversion installs
`SELECT(V02 >= 7, 9, 5)`. -/
theorem select_convention_witness :
    (∃ d sel T i tn last,
      optIfConvert.checks (exComp false) exStoreDiamond 0 = some (some d) ∧
      optIfConvert.select (exComp false) d = some (some sel) ∧
      OpAt (exComp false) exStoreDiamond d d.m_thenOperation T i tn ∧
      (exStoreDiamond 0).bbStmtList.getLast? = some last ∧ last.OperIs GT_JTRUE = true ∧
      last.gtGetOp1 = some d.m_cond ∧
      (d.m_doElseConversion = true →
        ∃ E j en tv ev, OpAt (exComp false) exStoreDiamond d d.m_elseOperation E j en ∧
          tn.gtGetOp1 = some tv ∧ en.gtGetOp1 = some ev ∧
          (TryTransformSelectToOrdinaryOps (exComp false) d (some ev) tv = some none →
            sel = gtNewConditionalNode GT_SELECT d.m_cond ev tv (genActualType tn.TypeGet) ∧
            (exStoreDiamondConverted 0).bbStmtList =
              (exStoreDiamond 0).bbStmtList.set ((exStoreDiamond 0).bbStmtList.length - 1)
                  (gtBashToNOP last) ++
                (exStoreDiamond T).bbStmtList.set i ((tn.AddAllEffectsFlags sel).setOp1 sel) ++
                (exStoreDiamond E).bbStmtList.set j (gtBashToNOP en)))) ∧
    optIfConvert.select (exComp false) exDscChecked =
      some (some (gtNewConditionalNode GT_SELECT exCond (exCns TYP_INT 9) (exCns TYP_INT 5)
        TYP_INT)) ∧
    (exStoreDiamondConverted 0).bbStmtList =
      [exNop, exStore 0 TYP_INT (.ternary GT_SELECT TYP_INT 0 exCond (exCns TYP_INT 9)
        (exCns TYP_INT 5)), exNop] :=
  ⟨select_convention (exComp false) exStoreDiamond 0 exStoreDiamondConverted
    exStoreDiamond_converts, rfl, rfl⟩

/-! ### Edges after a conversion -/

theorem checks_flow (comp : Compiler) (g : Graph) (s : Nat) (d : OptIfConversionDsc)
    (h : optIfConvert.checks comp g s = some (some d)) :
    ∃ d0, optIfConvert.flow g s = some (some d0) ∧
      optIfConvert.validate comp g d0 = some (some d) := by
  unfold optIfConvert.checks at h
  split at h
  · simp at h
  · simp at h
  · rename_i d0 hflow
    exact ⟨d0, hflow, h⟩

theorem targets_differ_of_numSucc (b : BasicBlock) (hk : b.KindIs BBJ_COND = true)
    (hn : b.NumSucc = 2) : b.bbTrueTarget ≠ b.bbFalseTarget := by
  have hk1 : b.bbKind = BBJ_COND := by simpa [BasicBlock.KindIs] using hk
  unfold BasicBlock.NumSucc at hn
  rw [hk1] at hn
  intro h
  simp [h] at hn

/-- C22: after every successful conversion the start block is an unconditional
branch whose single target is its former true target; the start block is no
longer among the predecessors of its former false target, and that block's
predecessor list is otherwise as before; every other block's predecessor list
(that of the retained target included), kind and targets are unchanged. -/
theorem edge_retargeting (comp : Compiler) (g : Graph) (s : Nat) (g1 : Graph)
    (h : optIfConvert comp g s = some (true, g1)) :
    (g1 s).bbKind = BBJ_ALWAYS ∧ (g1 s).bbTarget = (g s).bbTrueTarget ∧
    (g1 s).GetUniqueSucc = (g s).bbTrueTarget ∧ (g1 s).NumSucc = 1 ∧
    ∃ ft, (g s).bbFalseTarget = some ft ∧ (g s).bbTrueTarget ≠ some ft ∧
      s ∉ (g1 ft).bbPreds ∧ (g1 ft).bbPreds = (g ft).bbPreds.filter (· != s) ∧
      (∀ b, b ≠ ft → (g1 b).bbPreds = (g b).bbPreds) ∧
      (∀ b, b ≠ s → (g1 b).bbKind = (g b).bbKind ∧ (g1 b).bbTarget = (g b).bbTarget ∧
        (g1 b).bbTrueTarget = (g b).bbTrueTarget ∧
        (g1 b).bbFalseTarget = (g b).bbFalseTarget) := by
  obtain ⟨d, sel, hchecks, _, _, hcommit⟩ := optIfConvert_true_inv comp g s g1 h
  obtain ⟨hs, _, _⟩ := checks_spec comp g s d hchecks
  obtain ⟨d0, hflow, _⟩ := checks_flow comp g s d hchecks
  obtain ⟨_, _, _, _, _, hcond, hnum, _⟩ := flow_spec g s d0 hflow
  obtain ⟨ft, hft, hp, hk, ht, hrest⟩ := commit_flow g d sel g1 hcommit
  rw [hs] at hft hp hk ht hrest
  have hne := targets_differ_of_numSucc (g s) hcond hnum
  refine ⟨hk, ht, ?_, ?_, ft, hft, ?_, ?_, ?_, ?_, hrest⟩
  · simp [BasicBlock.GetUniqueSucc, hk, ht]
  · simp [BasicBlock.NumSucc, hk]
  · rw [hft] at hne
    exact hne
  · rw [hp ft]
    simp
  · rw [hp ft]
    simp
  · intro b hb
    rw [hp b]
    simp [hb]

/-- C22 on `exStoreDiamond` (true target 2, false target 1). -/
theorem edge_retargeting_witness :
    (exStoreDiamondConverted 0).bbKind = BBJ_ALWAYS ∧
    (exStoreDiamondConverted 0).bbTarget = (exStoreDiamond 0).bbTrueTarget ∧
    (exStoreDiamondConverted 0).GetUniqueSucc = (exStoreDiamond 0).bbTrueTarget ∧
    (exStoreDiamondConverted 0).NumSucc = 1 ∧
    ∃ ft, (exStoreDiamond 0).bbFalseTarget = some ft ∧
      (exStoreDiamond 0).bbTrueTarget ≠ some ft ∧
      0 ∉ (exStoreDiamondConverted ft).bbPreds ∧
      (exStoreDiamondConverted ft).bbPreds = (exStoreDiamond ft).bbPreds.filter (· != 0) ∧
      (∀ b, b ≠ ft → (exStoreDiamondConverted b).bbPreds = (exStoreDiamond b).bbPreds) ∧
      (∀ b, b ≠ 0 → (exStoreDiamondConverted b).bbKind = (exStoreDiamond b).bbKind ∧
        (exStoreDiamondConverted b).bbTarget = (exStoreDiamond b).bbTarget ∧
        (exStoreDiamondConverted b).bbTrueTarget = (exStoreDiamond b).bbTrueTarget ∧
        (exStoreDiamondConverted b).bbFalseTarget = (exStoreDiamond b).bbFalseTarget) :=
  edge_retargeting (exComp false) exStoreDiamond 0 exStoreDiamondConverted
    exStoreDiamond_converts

/-! ### Which statement lists are spliced -/

theorem exNopChain_converts :
    optIfConvert (exComp false) exNopChain 0 = some (true, exNopChainConverted) := by
  have h : ∃ g1, optIfConvert (exComp false) exNopChain 0 = some (true, g1) ∧
      ∀ i, g1 i = exNopChainConverted i :=
    ⟨_, rfl, fun i => by rcases i with _ | _ | _ | _ | i <;> rfl⟩
  obtain ⟨g1, e, hi⟩ := h
  rw [e, funext hi]

/-- C21 as stated fails: on `exNopChain` the Then chain is blocks 1 and 2 (the walk
from the false target reaches the merge block 3 through them); after the
conversion block 1 still holds its statement, and the start block holds two
statements: its own and the one statement of block 2. -/
theorem splice_counterexample :
    chainBlocks exNopChain (some 3) 4 (exNopChain 0).bbFalseTarget = some [1, 2] ∧
    ∃ g1, optIfConvert (exComp false) exNopChain 0 = some (true, g1) ∧
      (g1 1).bbStmtList = [exNop] ∧ (g1 1).bbStmtList ≠ [] ∧ (g1 2).bbStmtList = [] ∧
      (g1 0).bbStmtList.length = 2 ∧
      (g1 0).bbStmtList.length ≠
        (exNopChain 0).bbStmtList.length + (chainStmts exNopChain [1, 2]).length :=
  ⟨by decide, exNopChainConverted, exNopChain_converts, by decide, by decide, by decide,
    by decide, by decide⟩

/-- C21, amended: after a successful conversion, the statements of the block that
owns the Then operation and, with an else arm, of the block that owns the Else
operation (not those of every block of the chains) have been moved onto the
tail of the start block's statement list, the Then block's first, with the
select installed in the Then operation and the branch and the Else operation
turned into no-ops; these two blocks have an empty statement list, and every
other block keeps its statement list. -/
theorem splice_operation_blocks (comp : Compiler) (g : Graph) (s : Nat) (g1 : Graph)
    (h : optIfConvert comp g s = some (true, g1)) :
    ∃ d sel T i tn last, optIfConvert.checks comp g s = some (some d) ∧
      OpAt comp g d d.m_thenOperation T i tn ∧ T ≠ s ∧
      (g s).bbStmtList.getLast? = some last ∧
      (d.m_doElseConversion = false →
        (g1 s).bbStmtList =
          (g s).bbStmtList.set ((g s).bbStmtList.length - 1) (gtBashToNOP last) ++
            (g T).bbStmtList.set i ((tn.AddAllEffectsFlags sel).setOp1 sel) ∧
        (g1 T).bbStmtList = [] ∧
        ∀ b, b ≠ s → b ≠ T → (g1 b).bbStmtList = (g b).bbStmtList) ∧
      (d.m_doElseConversion = true →
        ∃ E j en, OpAt comp g d d.m_elseOperation E j en ∧ E ≠ s ∧ E ≠ T ∧
          (g1 s).bbStmtList =
            (g s).bbStmtList.set ((g s).bbStmtList.length - 1) (gtBashToNOP last) ++
              (g T).bbStmtList.set i ((tn.AddAllEffectsFlags sel).setOp1 sel) ++
              (g E).bbStmtList.set j (gtBashToNOP en) ∧
          (g1 T).bbStmtList = [] ∧ (g1 E).bbStmtList = [] ∧
          ∀ b, b ≠ s → b ≠ T → b ≠ E → (g1 b).bbStmtList = (g b).bbStmtList) := by
  obtain ⟨d, sel, hchecks, _, _, hcommit⟩ := optIfConvert_true_inv comp g s g1 h
  obtain ⟨hs, ⟨last, hlast, _, _⟩, T, i, tn, hT, hTs, helse⟩ := checks_spec comp g s d hchecks
  subst hs
  refine ⟨d, sel, T, i, tn, last, hchecks, hT, hTs, hlast, ?_, ?_⟩
  · intro hdo
    obtain ⟨last1, hl1, h1, h2, h3⟩ := commit_stmts_noElse g d sel g1 T i tn hT.1 hTs hdo hcommit
    rw [hlast] at hl1
    simp only [Option.some.injEq] at hl1
    subst hl1
    exact ⟨h1, h2, h3⟩
  · intro hdo
    obtain ⟨E, j, en, hE, hEs, _, _⟩ := helse hdo
    obtain ⟨last1, hl1, hET, h1, h2, h3, h4⟩ :=
      commit_stmts_else g d sel g1 T i tn E j en hT.1 hTs hE.1 hEs hdo hcommit
    rw [hlast] at hl1
    simp only [Option.some.injEq] at hl1
    subst hl1
    exact ⟨E, j, en, hE, hEs, hET, h1, h2, h3, h4⟩

/-- C21 (amended) on `exNopChain`, whose Then operation sits in block 2. -/
theorem splice_operation_blocks_witness :
    (∃ d sel T i tn last, optIfConvert.checks (exComp false) exNopChain 0 = some (some d) ∧
      OpAt (exComp false) exNopChain d d.m_thenOperation T i tn ∧ T ≠ 0 ∧
      (exNopChain 0).bbStmtList.getLast? = some last ∧
      (d.m_doElseConversion = false →
        (exNopChainConverted 0).bbStmtList =
          (exNopChain 0).bbStmtList.set ((exNopChain 0).bbStmtList.length - 1)
              (gtBashToNOP last) ++
            (exNopChain T).bbStmtList.set i ((tn.AddAllEffectsFlags sel).setOp1 sel) ∧
        (exNopChainConverted T).bbStmtList = [] ∧
        ∀ b, b ≠ 0 → b ≠ T → (exNopChainConverted b).bbStmtList = (exNopChain b).bbStmtList) ∧
      (d.m_doElseConversion = true →
        ∃ E j en, OpAt (exComp false) exNopChain d d.m_elseOperation E j en ∧ E ≠ 0 ∧ E ≠ T ∧
          (exNopChainConverted 0).bbStmtList =
            (exNopChain 0).bbStmtList.set ((exNopChain 0).bbStmtList.length - 1)
                (gtBashToNOP last) ++
              (exNopChain T).bbStmtList.set i ((tn.AddAllEffectsFlags sel).setOp1 sel) ++
              (exNopChain E).bbStmtList.set j (gtBashToNOP en) ∧
          (exNopChainConverted T).bbStmtList = [] ∧ (exNopChainConverted E).bbStmtList = [] ∧
          ∀ b, b ≠ 0 → b ≠ T → b ≠ E →
            (exNopChainConverted b).bbStmtList = (exNopChain b).bbStmtList)) ∧
    (exNopChainConverted 0).bbStmtList =
      (exNopChain 0).bbStmtList.set 0 exNop ++
        (exNopChain 2).bbStmtList.set 0
          (exStore 0 TYP_INT (exSelect (.leaf GT_LCL_VAR TYP_INT 0 0 0) (exCns TYP_INT 5))) ∧
    (exNopChainConverted 1).bbStmtList = (exNopChain 1).bbStmtList :=
  ⟨splice_operation_blocks (exComp false) exNopChain 0 exNopChainConverted exNopChain_converts,
    rfl, rfl⟩

/-! ### The identities that hold on every target -/

/-- C23 as stated fails: for the 64-bit integer constants 1 and 0 the result is not
the condition: on a target other than RISC-V 64 there is no match, and on RISC-V 64
the result is `ADD<long>(0, cond)`. -/
theorem boolCollapse_counterexample :
    (exCns TYP_LONG 1).IsIntegralConst = true ∧ (exCns TYP_LONG 0).IsIntegralConst = true ∧
    (exCns TYP_LONG 1).IntegralValue = 1 ∧ (exCns TYP_LONG 0).IntegralValue = 0 ∧
    TryTransformSelectToOrdinaryOps (exComp false) exDsc (some (exCns TYP_LONG 1))
      (exCns TYP_LONG 0) = some none ∧
    TryTransformSelectToOrdinaryOps (exComp true) exDsc (some (exCns TYP_LONG 1))
      (exCns TYP_LONG 0) = some (some (.binary GT_ADD TYP_LONG 0 (exCns TYP_LONG 0) exCond)) ∧
    TryTransformSelectToOrdinaryOps (exComp false) exDsc (some (exCns TYP_LONG 1))
      (exCns TYP_LONG 0) ≠ some (some exDsc.m_cond) ∧
    TryTransformSelectToOrdinaryOps (exComp true) exDsc (some (exCns TYP_LONG 1))
      (exCns TYP_LONG 0) ≠ some (some exDsc.m_cond) := by
  refine ⟨by decide, by decide, by decide, by decide, by decide, by decide, by decide,
    by decide⟩

/-- C23, amended: for every pair of integer-constant inputs of type `TYP_INT`, if
the true input is 1 and the false input is 0 then
`TryTransformSelectToOrdinaryOps` returns the condition expression itself, and if
the true input is 0 and the false input is 1 it returns the negated condition. -/
theorem boolCollapse (comp : Compiler) (d : OptIfConversionDsc) (ti fi : GenTree)
    (h1 : ti.IsIntegralConst = true) (h2 : fi.IsIntegralConst = true)
    (h3 : ti.TypeIs TYP_INT = true) (h4 : fi.TypeIs TYP_INT = true) :
    (ti.IntegralValue = 1 → fi.IntegralValue = 0 →
      TryTransformSelectToOrdinaryOps comp d (some ti) fi = some (some d.m_cond)) ∧
    (ti.IntegralValue = 0 → fi.IntegralValue = 1 →
      TryTransformSelectToOrdinaryOps comp d (some ti) fi =
        some (some (gtReverseCond d.m_cond))) := by
  constructor
  · intro ht hf
    simp [TryTransformSelectToOrdinaryOps, h1, h2, h3, h4, ht, hf]
  · intro ht hf
    simp [TryTransformSelectToOrdinaryOps, h1, h2, h3, h4, ht, hf]

/-- C23 (amended) on the `TYP_INT` constants 1/0 and 0/1, on both kinds of target. -/
theorem boolCollapse_witness :
    TryTransformSelectToOrdinaryOps (exComp true) exDsc (some (exCns TYP_INT 1))
      (exCns TYP_INT 0) = some (some exDsc.m_cond) ∧
    TryTransformSelectToOrdinaryOps (exComp false) exDsc (some (exCns TYP_INT 0))
      (exCns TYP_INT 1) = some (some (gtReverseCond exDsc.m_cond)) :=
  ⟨(boolCollapse (exComp true) exDsc (exCns TYP_INT 1) (exCns TYP_INT 0) rfl rfl rfl rfl).1
      rfl rfl,
   (boolCollapse (exComp false) exDsc (exCns TYP_INT 0) (exCns TYP_INT 1) rfl rfl rfl rfl).2
      rfl rfl⟩

/-- On a target other than RISC-V 64 the peephole layer is the boolean collapse alone. -/
theorem tryTransform_of_not_riscv (comp : Compiler) (d : OptIfConversionDsc)
    (hr : comp.TARGET_RISCV64 = false) (ti : Option GenTree) (fi : GenTree) :
    TryTransformSelectToOrdinaryOps comp d ti fi =
      if isIntConstPair ti fi 1 0 then some (some d.m_cond)
      else if isIntConstPair ti fi 0 1 then some (some (gtReverseCond d.m_cond))
      else some none := by
  unfold TryTransformSelectToOrdinaryOps isIntConstPair
  cases ti with
  | none => simp [hr]
  | some t =>
    simp only [hr, Bool.false_eq_true, if_false]
    by_cases h1 : t.IsIntegralConst = true <;> by_cases h2 : fi.IsIntegralConst = true <;>
      simp [h1, h2]

/-- C28 as stated fails: on a target other than RISC-V 64 the `TYP_INT` constants
1 and 0 are matched (the result is the condition), and the conversion of
`if (V02 >= 7) V00 = 1; else V00 = 0;` installs the condition itself, not a
select node. -/
theorem peepholeGating_counterexample :
    (exComp false).TARGET_RISCV64 = false ∧
    TryTransformSelectToOrdinaryOps (exComp false) exDsc (some (exCns TYP_INT 1))
      (exCns TYP_INT 0) = some (some exCond) ∧
    TryTransformSelectToOrdinaryOps (exComp false) exDsc (some (exCns TYP_INT 1))
      (exCns TYP_INT 0) ≠ some none ∧
    (optIfConvert (exComp false)
        (exDiamond (exStore 0 TYP_INT (exCns TYP_INT 0)) (exStore 0 TYP_INT (exCns TYP_INT 1)))
        0).map (fun r => (r.1, (r.2 0).bbStmtList)) =
      some (true, [exNop, exStore 0 TYP_INT exCond, exNop]) ∧
    exCond.OperGet ≠ GT_SELECT := by
  refine ⟨rfl, by decide, by decide, by decide, by decide⟩

/-- C28, amended: on a target other than RISC-V 64,
`TryTransformSelectToOrdinaryOps` returns "no match" for every pair of inputs
except the `TYP_INT` integer constants 1/0 and 0/1, for which it returns the
condition and the negated condition; so the expression a conversion installs on
such a target is a generic select node on the condition, or the condition, or the
negated condition. -/
theorem peepholeGating (comp : Compiler) (d : OptIfConversionDsc)
    (hr : comp.TARGET_RISCV64 = false) :
    (∀ (ti : Option GenTree) (fi : GenTree),
      (isIntConstPair ti fi 1 0 = true →
        TryTransformSelectToOrdinaryOps comp d ti fi = some (some d.m_cond)) ∧
      (isIntConstPair ti fi 1 0 = false → isIntConstPair ti fi 0 1 = true →
        TryTransformSelectToOrdinaryOps comp d ti fi = some (some (gtReverseCond d.m_cond))) ∧
      (isIntConstPair ti fi 1 0 = false → isIntConstPair ti fi 0 1 = false →
        TryTransformSelectToOrdinaryOps comp d ti fi = some none)) ∧
    (∀ sel, optIfConvert.select comp d = some (some sel) →
      sel = d.m_cond ∨ sel = gtReverseCond d.m_cond ∨
      ∃ a b ty, sel = gtNewConditionalNode GT_SELECT d.m_cond a b ty) := by
  constructor
  · intro ti fi
    rw [tryTransform_of_not_riscv comp d hr]
    refine ⟨?_, ?_, ?_⟩
    · intro h; simp [h]
    · intro h1 h2; simp [h1, h2]
    · intro h1 h2; simp [h1, h2]
  · intro sel hsel
    unfold optIfConvert.select at hsel
    split at hsel
    · rename_i ty ti fi store _ _
      rw [tryTransform_of_not_riscv comp d hr] at hsel
      by_cases h1 : isIntConstPair ti fi 1 0 = true
      · rw [if_pos h1] at hsel
        simp only [Option.some.injEq] at hsel
        exact Or.inl hsel.symm
      · rw [if_neg h1] at hsel
        by_cases h2 : isIntConstPair ti fi 0 1 = true
        · rw [if_pos h2] at hsel
          simp only [Option.some.injEq] at hsel
          exact Or.inr (Or.inl hsel.symm)
        · rw [if_neg h2] at hsel
          simp only [hr, Bool.false_eq_true, if_false, Option.some.injEq] at hsel
          exact Or.inr (Or.inr ⟨_, _, _, hsel.symm⟩)
    · simp at hsel

/-- C28 (amended) on the checked descriptor of `exStoreDiamond` (values 9 and 5): no
match, and the installed expression is one of the three forms. -/
theorem peepholeGating_witness :
    TryTransformSelectToOrdinaryOps (exComp false) exDscChecked (some (exCns TYP_INT 9))
      (exCns TYP_INT 5) = some none ∧
    TryTransformSelectToOrdinaryOps (exComp false) exDscChecked (some (exCns TYP_INT 1))
      (exCns TYP_INT 0) = some (some exDscChecked.m_cond) ∧
    (exSelect (exCns TYP_INT 9) (exCns TYP_INT 5) = exDscChecked.m_cond ∨
      exSelect (exCns TYP_INT 9) (exCns TYP_INT 5) = gtReverseCond exDscChecked.m_cond ∨
      ∃ a b ty, exSelect (exCns TYP_INT 9) (exCns TYP_INT 5) =
        gtNewConditionalNode GT_SELECT exDscChecked.m_cond a b ty) :=
  ⟨((peepholeGating (exComp false) exDscChecked rfl).1 (some (exCns TYP_INT 9))
      (exCns TYP_INT 5)).2.2 (by decide) (by decide),
   ((peepholeGating (exComp false) exDscChecked rfl).1 (some (exCns TYP_INT 1))
      (exCns TYP_INT 0)).1 (by decide),
   (peepholeGating (exComp false) exDscChecked rfl).2 _ (by rfl)⟩

/-! ### The rewrite does not fault -/

theorem findFlow_falseTarget (g : Graph) (d d1 : OptIfConversionDsc)
    (h : IfConvertFindFlow g d = some d1) :
    ∃ ft, (g d.m_startBlock).bbFalseTarget = some ft := by
  unfold IfConvertFindFlow IfConvertCheckThenFlow at h
  cases hft : (g d.m_startBlock).bbFalseTarget with
  | none => simp [hft] at h
  | some ft => exact ⟨ft, rfl⟩

theorem checks_falseTarget (comp : Compiler) (g : Graph) (s : Nat) (d : OptIfConversionDsc)
    (h : optIfConvert.checks comp g s = some (some d)) :
    ∃ ft, (g s).bbFalseTarget = some ft := by
  obtain ⟨d0, hflow, _⟩ := checks_flow comp g s d h
  obtain ⟨_, _, _, _, _, _, _, dI, hI, _, hff⟩ := flow_spec g s d0 hflow
  obtain ⟨ft, hft⟩ := findFlow_falseTarget g dI d0 hff
  rw [hI] at hft
  exact ⟨ft, hft⟩

theorem join_some (g : Graph) (d : OptIfConversionDsc) (f : Nat)
    (h1 : (g d.m_startBlock).bbStmtList ≠ []) (h2 : (g f).bbStmtList ≠ []) :
    ∃ g1, IfConvertJoinStmts g d f = some g1 := by
  unfold IfConvertJoinStmts
  split
  · simp_all
  · simp_all
  · exact ⟨_, rfl⟩

theorem set_ne_nil {α : Type} (l : List α) (i : Nat) (x : α) (h : l ≠ []) :
    l.set i x ≠ [] := by
  intro e
  have := congrArg List.length e
  simp only [List.length_set, List.length_nil] at this
  exact h (List.length_eq_zero.mp this)

/-- The rewrite of a checked descriptor goes through whenever the two operations
sit in different blocks. -/
theorem commit_total (comp : Compiler) (g : Graph) (s : Nat) (d : OptIfConversionDsc)
    (sel : GenTree) (hchecks : optIfConvert.checks comp g s = some (some d))
    (hTE : d.m_doElseConversion = true →
      d.m_elseOperation.block ≠ d.m_thenOperation.block) :
    ∃ g1, optIfConvert.commit g d sel = some g1 := by
  obtain ⟨hs, ⟨last, hlast, _, _⟩, T, i, tn, hT, hTs, helse⟩ := checks_spec comp g s d hchecks
  obtain ⟨ft, hft⟩ := checks_falseTarget comp g s d hchecks
  subst hs
  have hsne : (g d.m_startBlock).bbStmtList ≠ [] := by
    intro e
    rw [e] at hlast
    simp at hlast
  have hTne : (g T).bbStmtList ≠ [] := by
    intro e
    have := hT.2.1
    rw [e] at this
    simp at this
  have hsT : d.m_startBlock ≠ T := fun e => hTs e.symm
  unfold optIfConvert.commit
  simp only [hT.1, hlast, hft]
  cases hdo : d.m_doElseConversion with
  | false =>
    simp only [Bool.false_eq_true, if_false]
    obtain ⟨g4, hg4⟩ := join_some (setStmt (setStmt g T i ((tn.AddAllEffectsFlags sel).setOp1 sel))
      d.m_startBlock (((setStmt g T i ((tn.AddAllEffectsFlags sel).setOp1 sel))
        d.m_startBlock).bbStmtList.length - 1) (gtBashToNOP last)) d T
      (by
        rw [setStmt_stmts, if_pos rfl]
        apply set_ne_nil
        rw [setStmt_stmts, if_neg hsT]
        exact hsne)
      (by
        rw [setStmt_stmts, if_neg hTs, setStmt_stmts, if_pos rfl]
        exact set_ne_nil _ _ _ hTne)
    rw [hg4]
    exact ⟨_, rfl⟩
  | true =>
    obtain ⟨E, j, en, hE, hEs, _, _⟩ := helse hdo
    have hET : E ≠ T := by
      have := hTE hdo
      rw [hE.1, hT.1] at this
      simpa using this
    have hEne : (g E).bbStmtList ≠ [] := by
      intro e
      have := hE.2.1
      rw [e] at this
      simp at this
    have hsE : d.m_startBlock ≠ E := fun e => hEs e.symm
    have hTE1 : T ≠ E := fun e => hET e.symm
    simp only [if_true, hE.1]
    obtain ⟨g4, hg4⟩ := join_some (setStmt (setStmt (setStmt g T i
        ((tn.AddAllEffectsFlags sel).setOp1 sel))
      d.m_startBlock (((setStmt g T i ((tn.AddAllEffectsFlags sel).setOp1 sel))
        d.m_startBlock).bbStmtList.length - 1) (gtBashToNOP last)) E j (gtBashToNOP en)) d T
      (by
        rw [setStmt_stmts, if_neg hsE, setStmt_stmts, if_pos rfl]
        apply set_ne_nil
        rw [setStmt_stmts, if_neg hsT]
        exact hsne)
      (by
        rw [setStmt_stmts, if_neg hTE1, setStmt_stmts, if_neg hTs, setStmt_stmts, if_pos rfl]
        exact set_ne_nil _ _ _ hTne)
    rw [hg4]
    simp only
    obtain ⟨j1, _, _, j4⟩ := join_stmts _ d T g4 hg4 hTs
    obtain ⟨g5, hg5⟩ := join_some g4 d E
      (by
        rw [j1]
        intro e
        have := (List.append_eq_nil.mp e).2
        rw [setStmt_stmts, if_neg hTE1, setStmt_stmts, if_neg hTs, setStmt_stmts, if_pos rfl]
          at this
        exact set_ne_nil _ _ _ hTne this)
      (by
        rw [j4 E hEs hET, setStmt_stmts, if_pos rfl]
        apply set_ne_nil
        rw [setStmt_stmts, if_neg hEs, setStmt_stmts, if_neg hET]
        exact hEne)
    rw [hg5]
    exact ⟨_, rfl⟩

/-! ### The generic select as the fallback -/

/-- C27 as stated fails on RISC-V 64, the target with the peephole layer: scenario A
passes the flow, statement, cost and loop-exposure checks, no peephole identity
matches, and the attempt returns false with the graph as it was. -/
theorem genericFallback_counterexample :
    (exComp true).TARGET_RISCV64 = true ∧
    optIfConvert.checks (exComp true) exScenarioA 0 = some (some exDscA) ∧
    optIfConvert.profitable (exComp true) exScenarioA exDscA = some true ∧
    optIfConvert.selectInputs exDscA = some (TYP_INT, none, exCns TYP_INT 5) ∧
    TryTransformSelectToOrdinaryOps (exComp true) exDscA none (exCns TYP_INT 5) = some none ∧
    optIfConvert (exComp true) exScenarioA 0 = some (false, exScenarioA) := by
  refine ⟨rfl, by decide, by decide, by decide, by decide, by rfl⟩

/-- C27, amended: an attempt that passes the flow, statement, cost and
loop-exposure checks and for whose inputs no peephole identity matches is
converted, with the generic `SELECT(condition, trueValue, falseValue)` as the
installed expression (the true value being a read of the stored local when
there is no else arm), on every target other than RISC-V 64; on RISC-V 64 it
returns false and leaves the graph as it was. -/
theorem genericFallback (comp : Compiler) (g : Graph) (s : Nat) (d : OptIfConversionDsc)
    (ty : var_types) (ti : Option GenTree) (fi tn : GenTree)
    (hchecks : optIfConvert.checks comp g s = some (some d))
    (hprof : optIfConvert.profitable comp g d = some true)
    (hin : optIfConvert.selectInputs d = some (ty, ti, fi))
    (hnode : d.m_thenOperation.node = some tn)
    (hnone : TryTransformSelectToOrdinaryOps comp d ti fi = some none)
    (hTE : d.m_doElseConversion = true →
      d.m_elseOperation.block ≠ d.m_thenOperation.block) :
    (comp.TARGET_RISCV64 = false →
      optIfConvert.select comp d =
        some (some (gtNewConditionalNode GT_SELECT d.m_cond
          (ti.getD (gtNewLclVarNode tn.GetLclNum tn.TypeGet)) fi ty)) ∧
      ∃ g1, optIfConvert.commit g d (gtNewConditionalNode GT_SELECT d.m_cond
          (ti.getD (gtNewLclVarNode tn.GetLclNum tn.TypeGet)) fi ty) = some g1 ∧
        optIfConvert comp g s = some (true, g1)) ∧
    (comp.TARGET_RISCV64 = true → optIfConvert comp g s = some (false, g)) := by
  constructor
  · intro hr
    have hsel : optIfConvert.select comp d =
        some (some (gtNewConditionalNode GT_SELECT d.m_cond
          (ti.getD (gtNewLclVarNode tn.GetLclNum tn.TypeGet)) fi ty)) := by
      unfold optIfConvert.select
      simp only [hin, hnode, hnone, hr, Bool.false_eq_true, if_false]
      cases ti <;> rfl
    refine ⟨hsel, ?_⟩
    obtain ⟨g1, hg1⟩ := commit_total comp g s d (gtNewConditionalNode GT_SELECT d.m_cond
      (ti.getD (gtNewLclVarNode tn.GetLclNum tn.TypeGet)) fi ty) hchecks hTE
    refine ⟨g1, hg1, ?_⟩
    unfold optIfConvert
    simp only [hchecks, hprof, hsel, hg1]
  · intro hr
    have hsel : optIfConvert.select comp d = some none := by
      unfold optIfConvert.select
      simp only [hin, hnode, hnone, hr, if_true]
    unfold optIfConvert
    simp only [hchecks, hprof, hsel]

/-- C27 (amended) on `exStoreDiamond`, converted on a target other than RISC-V 64
and rejected on RISC-V 64. -/
theorem genericFallback_witness :
    (optIfConvert.select (exComp false) exDscChecked =
        some (some (gtNewConditionalNode GT_SELECT exDscChecked.m_cond
          ((some (exCns TYP_INT 9)).getD (gtNewLclVarNode
            (exStore 0 TYP_INT (exCns TYP_INT 5)).GetLclNum
            (exStore 0 TYP_INT (exCns TYP_INT 5)).TypeGet)) (exCns TYP_INT 5) TYP_INT)) ∧
      ∃ g1, optIfConvert.commit exStoreDiamond exDscChecked
          (gtNewConditionalNode GT_SELECT exDscChecked.m_cond
            ((some (exCns TYP_INT 9)).getD (gtNewLclVarNode
              (exStore 0 TYP_INT (exCns TYP_INT 5)).GetLclNum
              (exStore 0 TYP_INT (exCns TYP_INT 5)).TypeGet)) (exCns TYP_INT 5) TYP_INT)
            = some g1 ∧
        optIfConvert (exComp false) exStoreDiamond 0 = some (true, g1)) ∧
    optIfConvert (exComp true) exStoreDiamond 0 = some (false, exStoreDiamond) :=
  ⟨(genericFallback (exComp false) exStoreDiamond 0 exDscChecked TYP_INT
      (some (exCns TYP_INT 9)) (exCns TYP_INT 5) (exStore 0 TYP_INT (exCns TYP_INT 5))
      (by decide) (by decide) (by decide) rfl (by decide) (by decide)).1 rfl,
   (genericFallback (exComp true) exStoreDiamond 0 exDscChecked TYP_INT
      (some (exCns TYP_INT 9)) (exCns TYP_INT 5) (exStore 0 TYP_INT (exCns TYP_INT 5))
      (by decide) (by decide) (by decide) rfl (by decide) (by decide)).2 rfl⟩

/-! ### Arithmetic of the evaluator -/

theorem typeBits_cases (t : var_types) : typeBits t = 64 ∨ typeBits t = 32 := by
  unfold typeBits
  split_ifs
  · exact Or.inl rfl
  · exact Or.inr rfl

theorem wrapBits_zero (t : var_types) : wrapBits (typeBits t) 0 = 0 := by
  rcases typeBits_cases t with h | h <;> rw [h] <;> decide

theorem toUnsigned_zero (w : Nat) : toUnsigned w 0 = 0 := by
  simp [toUnsigned]

theorem evalBinop_and_zero (t : var_types) (y : Int) : evalBinop GT_AND t 0 y = some 0 := by
  simp only [evalBinop, toUnsigned_zero, Nat.zero_and, Nat.cast_zero, wrapBits_zero]

theorem evalBinop_lsh_zero (t : var_types) (y : Int) : evalBinop GT_LSH t 0 y = some 0 := by
  simp only [evalBinop, zero_mul, wrapBits_zero]

theorem evalBinop_and_comm (t : var_types) (x y : Int) :
    evalBinop GT_AND t x y = evalBinop GT_AND t y x := by
  simp only [evalBinop, Nat.and_comm]

/-- A tree that evaluates and carries a binary operator of the evaluator is a
binary node. -/
theorem eval_binary_inv (env : Env) (t : GenTree) (v : Int) (a b : GenTree)
    (h : eval env t = some v) (ha : t.gtGetOp1 = some a) (hb : t.gtGetOp2 = some b)
    (hsel : t.OperGet ≠ GT_SELECT) :
    ∃ x y, t = .binary t.OperGet t.TypeGet t.gtFlags a b ∧ eval env a = some x ∧
      eval env b = some y ∧ evalBinop t.OperGet t.TypeGet x y = some v := by
  cases t with
  | leaf o ty f n x => simp [GenTree.gtGetOp1] at ha
  | unary o ty f n x => simp [eval] at h
  | ternary o ty f c x y =>
    simp only [GenTree.OperGet] at hsel
    cases o <;> simp [eval] at h hsel
  | binary o ty f x y =>
    simp only [GenTree.gtGetOp1, GenTree.gtGetOp2, Option.some.injEq] at ha hb
    subst ha hb
    simp only [eval] at h
    cases hx : eval env x with
    | none => simp [hx] at h
    | some vx =>
      cases hy : eval env y with
      | none => simp [hx, hy] at h
      | some vy =>
        simp only [hx, hy] at h
        exact ⟨vx, vy, rfl, rfl, rfl, h⟩

theorem intConstVal_eval (env : Env) (t : GenTree) (k v : Int)
    (hc : t.IsIntegralConstVal k = true) (h : eval env t = some v) : v = k := by
  simp only [GenTree.IsIntegralConstVal, Bool.and_eq_true, beq_iff_eq] at hc
  rw [eval_intConst env t v hc.1 h, hc.2]

/-! ### The zero-or-operation identity -/

theorem operOrZero_core (d : OptIfConversionDsc) (oper zero c r : GenTree)
    (h : (if zero.IsIntegralConstVal 0 && (oper.OperIs GT_AND || oper.OperIs GT_LSH) then
        match oper.gtGetOp1, oper.gtGetOp2 with
        | some a, some b =>
          if (if OperIsCommutative oper.OperGet && !a.IsIntegralConst then b
              else a).IsIntegralConstVal 1 then
            some (some ((oper.setOps c
                (if OperIsCommutative oper.OperGet && !a.IsIntegralConst then a else b)).SetFlags
              ((oper.setOps c
                (if OperIsCommutative oper.OperGet && !a.IsIntegralConst then a
                  else b)).gtFlags ||| (d.m_cond.gtFlags &&& GTF_ALL_EFFECT))))
          else some none
        | _, _ => none
      else some none) = some (some r)) :
    zero.IsIntegralConstVal 0 = true ∧ ∃ expr, IsOneOpExpr oper expr ∧
      r = (oper.setOps c expr).SetFlags
        ((oper.setOps c expr).gtFlags ||| (d.m_cond.gtFlags &&& GTF_ALL_EFFECT)) := by
  by_cases hz : (zero.IsIntegralConstVal 0 && (oper.OperIs GT_AND || oper.OperIs GT_LSH)) = true
  · rw [if_pos hz] at h
    simp only [Bool.and_eq_true, Bool.or_eq_true] at hz
    refine ⟨hz.1, ?_⟩
    cases ha : oper.gtGetOp1 with
    | none => simp [ha] at h
    | some a =>
      cases hb : oper.gtGetOp2 with
      | none => simp [ha, hb] at h
      | some b =>
        simp only [ha, hb] at h
        by_cases hsw : (OperIsCommutative oper.OperGet && !a.IsIntegralConst) = true
        · simp only [hsw, if_true] at h
          by_cases hone : b.IsIntegralConstVal 1 = true
          · simp only [hone, if_true, Option.some.injEq] at h
            refine ⟨a, ⟨hz.2, b, hone, Or.inr ⟨?_, ha, hb⟩⟩, h.symm⟩
            rcases hz.2 with h1 | h1
            · exact h1
            · simp only [GenTree.OperIs, beq_iff_eq] at h1
              simp [h1, OperIsCommutative] at hsw
          · simp [hone] at h
        · simp only [hsw, Bool.false_eq_true, if_false] at h
          by_cases hone : a.IsIntegralConstVal 1 = true
          · simp only [hone, if_true, Option.some.injEq] at h
            exact ⟨b, ⟨hz.2, a, hone, Or.inl ⟨ha, hb⟩⟩, h.symm⟩
          · simp [hone] at h
  · rw [if_neg hz] at h
    simp at h

/-- The shape of the inputs and of the result when `TryTransformSelectOperOrZero`
returns an expression. -/
theorem operOrZero_inv (d : OptIfConversionDsc) (ti fi r : GenTree)
    (h : TryTransformSelectOperOrZero d ti fi = some (some r)) :
    ∃ oper zero expr c,
      ((zero = fi ∧ oper = ti ∧ c = d.m_cond) ∨
        (zero = ti ∧ oper = fi ∧ c = gtReverseCond d.m_cond)) ∧
      zero.IsIntegralConstVal 0 = true ∧ IsOneOpExpr oper expr ∧
      r = (oper.setOps c expr).SetFlags
        ((oper.setOps c expr).gtFlags ||| (d.m_cond.gtFlags &&& GTF_ALL_EFFECT)) := by
  unfold TryTransformSelectOperOrZero at h
  by_cases hrev : fi.IsIntegralConst = true
  · simp only [hrev, Bool.not_true, Bool.false_eq_true, if_false] at h
    obtain ⟨h1, expr, h2, h3⟩ := operOrZero_core d ti fi d.m_cond r h
    exact ⟨ti, fi, expr, d.m_cond, Or.inl ⟨rfl, rfl, rfl⟩, h1, h2, h3⟩
  · have hrev1 : fi.IsIntegralConst = false := by simpa using hrev
    simp only [hrev1, Bool.not_false, if_true] at h
    obtain ⟨h1, expr, h2, h3⟩ := operOrZero_core d fi ti (gtReverseCond d.m_cond) r h
    exact ⟨fi, ti, expr, gtReverseCond d.m_cond, Or.inr ⟨rfl, rfl, rfl⟩, h1, h2, h3⟩

theorem oper_not_select (oper : GenTree)
    (h : oper.OperIs GT_AND = true ∨ oper.OperIs GT_LSH = true) : oper.OperGet ≠ GT_SELECT := by
  rcases h with h | h <;> simp only [GenTree.OperIs, beq_iff_eq] at h <;> rw [h] <;> decide

/-- The value of `oper` with its constant 1 replaced by a tree of value `cv`. -/
theorem oneOp_eval (env : Env) (oper expr c : GenTree) (F : Nat) (vo cv : Int)
    (hop : IsOneOpExpr oper expr) (hv : eval env oper = some vo)
    (hc : eval env c = some cv) :
    (cv = 1 → eval env ((oper.setOps c expr).SetFlags F) = some vo) ∧
    (cv = 0 → eval env ((oper.setOps c expr).SetFlags F) = some 0) := by
  obtain ⟨hk, one, hone, hshape⟩ := hop
  rcases hshape with ⟨ha, hb⟩ | ⟨hand, ha, hb⟩
  · obtain ⟨x, y, hbin, hx, hy, hval⟩ :=
      eval_binary_inv env oper vo one expr hv ha hb (oper_not_select oper hk)
    have hx1 : x = 1 := intConstVal_eval env one 1 x hone hx
    subst hx1
    rw [hbin]
    simp only [GenTree.setOps, GenTree.SetFlags, eval, hc, hy]
    constructor
    · intro h1
      rw [h1]
      exact hval
    · intro h0
      rw [h0]
      rcases hk with h | h <;> simp only [GenTree.OperIs, beq_iff_eq] at h <;> rw [h]
      · exact evalBinop_and_zero _ _
      · exact evalBinop_lsh_zero _ _
  · obtain ⟨x, y, hbin, hx, hy, hval⟩ :=
      eval_binary_inv env oper vo expr one hv ha hb (oper_not_select oper hk)
    have hy1 : y = 1 := intConstVal_eval env one 1 y hone hy
    subst hy1
    have ho : oper.OperGet = GT_AND := by simpa [GenTree.OperIs] using hand
    rw [ho] at hval hbin
    rw [hbin]
    simp only [GenTree.setOps, GenTree.SetFlags, eval, hc, hx]
    constructor
    · intro h1
      rw [h1, evalBinop_and_comm]
      exact hval
    · intro h0
      rw [h0]
      exact evalBinop_and_zero _ _

/-- C25: whenever `TryTransformSelectOperOrZero` returns an expression, one input
is the integer constant 0 and the other is `AND(1, expr)`, `AND(expr, 1)` or
`LSH(1, expr)`; the result is that operation with the operands `c` and `expr`,
where `c` is the condition, negated when the zero is the true input; and the
result evaluates to the true input's value when the condition is 1 and to the
false input's value when it is 0. -/
theorem operOrZero_value (d : OptIfConversionDsc) (ti fi r : GenTree)
    (h : TryTransformSelectOperOrZero d ti fi = some (some r)) :
    (∃ oper zero expr c,
      ((zero = fi ∧ oper = ti ∧ c = d.m_cond) ∨
        (zero = ti ∧ oper = fi ∧ c = gtReverseCond d.m_cond)) ∧
      zero.IsIntegralConstVal 0 = true ∧ IsOneOpExpr oper expr ∧
      r = (oper.setOps c expr).SetFlags
        ((oper.setOps c expr).gtFlags ||| (d.m_cond.gtFlags &&& GTF_ALL_EFFECT)) ∧
      ∀ o t f a b, oper = .binary o t f a b →
        r = .binary o t (f ||| (d.m_cond.gtFlags &&& GTF_ALL_EFFECT)) c expr) ∧
    (∀ (env : Env) (cv vt vf : Int), OperIsCompare d.m_cond.OperGet = true →
      eval env d.m_cond = some cv → eval env ti = some vt → eval env fi = some vf →
      eval env r = some (if cv ≠ 0 then vt else vf)) := by
  obtain ⟨oper, zero, expr, c, hcase, hzero, hop, hr⟩ := operOrZero_inv d ti fi r h
  constructor
  · refine ⟨oper, zero, expr, c, hcase, hzero, hop, hr, ?_⟩
    intro o t f a b ho
    rw [hr, ho]
    rfl
  · intro env cv vt vf hcmp hc ht hf
    obtain ⟨hc01, hrev⟩ := eval_compare env d.m_cond cv hcmp hc
    rcases hcase with ⟨hz, ho, hcc⟩ | ⟨hz, ho, hcc⟩
    · subst hz ho hcc
      have hvf : vf = 0 := intConstVal_eval env zero 0 vf hzero hf
      obtain ⟨e1, e0⟩ := oneOp_eval env oper expr d.m_cond _ vt cv hop ht hc
      rw [hr]
      rcases hc01 with h0 | h1
      · rw [e0 h0, h0, hvf]; simp
      · rw [e1 h1, h1]; simp
    · subst hz ho hcc
      have hvt : vt = 0 := intConstVal_eval env zero 0 vt hzero ht
      obtain ⟨e1, e0⟩ := oneOp_eval env oper expr (gtReverseCond d.m_cond) _ vf
        (if cv = 0 then 1 else 0) hop hf hrev
      rw [hr]
      rcases hc01 with h0 | h1
      · rw [e1 (by simp [h0]), h0]; simp
      · rw [e0 (by simp [h1]), h1, hvt]; simp

/-- C25 on `cond ? (1 & V01) : 0` with every local holding 7 (condition true), and
on `cond ? 0 : (1 << V01)` with every local holding 3 (condition false). -/
theorem operOrZero_value_witness :
    eval (fun _ => 7) (.binary GT_AND TYP_INT 0 exCond exLclX) =
      some (if (1 : Int) ≠ 0 then 1 else 0) ∧
    eval (fun _ => 3) (.binary GT_LSH TYP_INT 0 (gtReverseCond exCond) exLclX) =
      some (if (0 : Int) ≠ 0 then 0 else 8) :=
  ⟨(operOrZero_value exDsc (.binary GT_AND TYP_INT 0 (exCns TYP_INT 1) exLclX)
      (exCns TYP_INT 0) (.binary GT_AND TYP_INT 0 exCond exLclX) (by decide)).2
      (fun _ => 7) 1 1 0 (by decide) (by decide) (by decide) (by decide),
   (operOrZero_value exDsc (exCns TYP_INT 0)
      (.binary GT_LSH TYP_INT 0 (exCns TYP_INT 1) exLclX)
      (.binary GT_LSH TYP_INT 0 (gtReverseCond exCond) exLclX) (by decide)).2
      (fun _ => 3) 0 0 8 (by decide) (by decide) (by decide) (by decide)⟩

/-! ### The local-or-operation identity -/

/-- C24, evaluated at trueInput = `V01 + 1`, falseInput = `LCL_FLD<ubyte> V01` (one
byte of `V01`): the false input passes the `OperIsAnyLocal` test, only its local
number is compared, and the result is `ADD(V01, cond)`, the same as for the false
input `V01` itself; on RISC-V 64 the diamond `exFieldDiamond` is converted with
that expression.  With `V02 = 0` the condition is 0 and the expression is the
whole of `V01`, 300 when `V01 = 300`, which no unsigned byte equals. -/
theorem c24_field_read_as_local :
    OperIsAnyLocal exFldX.OperGet = true ∧ exFldX.OperIs GT_LCL_VAR = false ∧
    TryTransformSelectOperOrLocal exDsc exAddOne exFldX =
      some (some (.binary GT_ADD TYP_INT 0 exLclX exCond)) ∧
    TryTransformSelectOperOrLocal exDsc exAddOne exLclX =
      some (some (.binary GT_ADD TYP_INT 0 exLclX exCond)) ∧
    (optIfConvert (exComp true) exFieldDiamond 0).map (fun r => (r.1, (r.2 0).bbStmtList)) =
      some (true, [exNop, exStore 0 TYP_INT (.binary GT_ADD TYP_INT 0 exLclX exCond), exNop]) ∧
    eval (fun n => if n = 1 then 300 else 0) exCond = some 0 ∧
    eval (fun n => if n = 1 then 300 else 0) (.binary GT_ADD TYP_INT 0 exLclX exCond) =
      some 300 ∧
    ¬ ((300 : Int) < 2 ^ 8) := by
  refine ⟨by decide, by decide, by decide, by decide, by decide, by decide, by decide,
    by decide⟩

/-! ### Return diamonds -/

theorem innerFlowOk_of_succ (g : Graph) (start : Nat) (b x : Nat) (e1 e2 : Bool)
    (hs : (g b).GetUniqueSucc = some x) :
    innerFlowOk g start e1 b = innerFlowOk g start e2 b := by
  unfold innerFlowOk
  have hx : (some x != (none : Option Nat)) = true := rfl
  rw [hs, hx]
  simp

theorem innerFlowOk_return (g : Graph) (start : Nat) (b : Nat)
    (h : innerFlowOk g start true b = true) (hs : (g b).GetUniqueSucc = none) :
    (g b).KindIs BBJ_RETURN = true ∧ innerFlowOk g start false b = false := by
  unfold innerFlowOk at h ⊢
  simp only [hs, bne_self_eq_false, Bool.true_and, Bool.false_or, Bool.and_eq_true,
    Bool.false_and] at h ⊢
  exact ⟨h.1.1, trivial⟩

/-- With an else arm in play and no merge block, the Then walk finds a chain that
ends in a return block within the limit. -/
theorem thenLoop_return_finds (g : Graph) (d : OptIfConversionDsc)
    (hdo : d.m_doElseConversion = true) (hfin : d.m_finalBlock = none) :
    ∀ (ts : List Nat) (n : Nat) (t0 : Nat), ts.head? = some t0 →
      ArmChain g d.m_startBlock true none ts → ts.length ≤ n →
      IfConvertCheckThenFlow.loop g d n t0 =
        (true, { d with m_flowFound := true, m_mainOper := GT_RETURN }) := by
  obtain ⟨sb, fb, c, tOp, eOp, lim, mo, de, ff⟩ := d
  simp only at hdo hfin
  subst hdo hfin
  intro ts
  induction ts with
  | nil => intro n t0 h; simp at h
  | cons b rest ih =>
    intro n t0 h0 hch hn
    simp only [List.head?_cons, Option.some.injEq] at h0
    subst h0
    cases n with
    | zero => simp at hn
    | succ n =>
      unfold IfConvertCheckThenFlow.loop
      cases rest with
      | nil =>
        obtain ⟨h1, h2⟩ := hch
        have hk := (innerFlowOk_return g _ b h1 h2).1
        rw [inner_eq, h1]
        simp [h2, hk]
      | cons b1 rest1 =>
        obtain ⟨h1, h2, h3⟩ := hch
        rw [inner_eq, h1]
        simp only [Bool.not_true, Bool.false_eq_true, if_false, h2]
        simp only [reduceCtorEq, if_false]
        exact ih n b1 rfl h3 (by simpa using hn)

/-- Without an else arm the Then walk over a chain that ends in a return block
finds nothing and lets the search go on. -/
theorem thenLoop_noElse_passes (g : Graph) (d : OptIfConversionDsc) (e : Nat)
    (hdo : d.m_doElseConversion = false) (hfin : d.m_finalBlock = some e) :
    ∀ (ts : List Nat) (n : Nat) (t0 : Nat), ts.head? = some t0 →
      ArmChain g d.m_startBlock true none ts → e ∉ ts.tail →
      IfConvertCheckThenFlow.loop g d n t0 = (true, d) := by
  obtain ⟨sb, fb, c, tOp, eOp, lim, mo, de, ff⟩ := d
  simp only at hdo hfin
  subst hdo hfin
  intro ts
  induction ts with
  | nil => intro n t0 h; simp at h
  | cons b rest ih =>
    intro n t0 h0 hch he
    simp only [List.head?_cons, Option.some.injEq] at h0
    subst h0
    cases n with
    | zero => rfl
    | succ n =>
      unfold IfConvertCheckThenFlow.loop
      cases rest with
      | nil =>
        obtain ⟨h1, h2⟩ := hch
        rw [inner_eq, (innerFlowOk_return g _ b h1 h2).2]
        simp
      | cons b1 rest1 =>
        obtain ⟨h1, h2, h3⟩ := hch
        rw [inner_eq, innerFlowOk_of_succ g _ b b1 false true h2, h1]
        have hne : b1 ≠ e := by
          intro h
          exact he (by simp [h])
        simp only [Bool.not_true, Bool.false_eq_true, if_false, h2, Option.some.injEq, hne]
        refine ih n b1 rfl h3 ?_
        intro hm
        exact he (List.mem_of_mem_tail hm)

/-- With an else arm in play and a merge block that the Then chain never
reaches, the Then walk ends at the chain's return block and reports an invalid
combination. -/
theorem thenLoop_return_aborts (g : Graph) (d : OptIfConversionDsc) (e : Nat)
    (hdo : d.m_doElseConversion = true) (hfin : d.m_finalBlock = some e) :
    ∀ (ts : List Nat) (n : Nat) (t0 : Nat), ts.head? = some t0 →
      ArmChain g d.m_startBlock true none ts → e ∉ ts.tail → ts.length ≤ n →
      IfConvertCheckThenFlow.loop g d n t0 = (false, d) := by
  obtain ⟨sb, fb, c, tOp, eOp, lim, mo, de, ff⟩ := d
  simp only at hdo hfin
  subst hdo hfin
  intro ts
  induction ts with
  | nil => intro n t0 h; simp at h
  | cons b rest ih =>
    intro n t0 h0 hch he hn
    simp only [List.head?_cons, Option.some.injEq] at h0
    subst h0
    cases n with
    | zero => simp at hn
    | succ n =>
      unfold IfConvertCheckThenFlow.loop
      cases rest with
      | nil =>
        obtain ⟨h1, h2⟩ := hch
        rw [inner_eq, h1]
        simp [h2]
      | cons b1 rest1 =>
        obtain ⟨h1, h2, h3⟩ := hch
        rw [inner_eq, h1]
        have hne : b1 ≠ e := by
          intro h
          exact he (by simp [h])
        simp only [Bool.not_true, Bool.false_eq_true, if_false, h2, Option.some.injEq, hne]
        refine ih n b1 rfl h3 ?_ (by simpa using hn)
        intro hm
        exact he (List.mem_of_mem_tail hm)

theorem checkThen_eq (g : Graph) (d : OptIfConversionDsc) (t0 : Nat) (r : Bool × OptIfConversionDsc)
    (hft : (g d.m_startBlock).bbFalseTarget = some t0)
    (h : IfConvertCheckThenFlow.loop g { d with m_flowFound := false } d.m_checkLimit t0 = r) :
    IfConvertCheckThenFlow g d = some r := by
  unfold IfConvertCheckThenFlow
  simp only [hft]
  rw [h]

/-- C29 as stated fails: in `exReturnElse2` both arms end in a return block, every
arm block passes the inner-block flow check, the Then chain has one block and the
Else chain two, and `IfConvertFindFlow` leaves `m_flowFound` false. -/
theorem returnDiamond_counterexample :
    (exReturnElse2 0).bbFalseTarget = some 1 ∧ (exReturnElse2 0).bbTrueTarget = some 2 ∧
    ArmChain exReturnElse2 0 true none [1] ∧ ArmChain exReturnElse2 0 true none [2, 3] ∧
    [1].length ≤ 4 ∧ [2, 3].length ≤ 4 ∧
    ∃ d1, IfConvertFindFlow exReturnElse2 exDsc = some d1 ∧ d1.m_flowFound = false :=
  ⟨rfl, rfl, ⟨by decide, rfl⟩, ⟨by decide, rfl, by decide, rfl⟩, by decide, by decide,
    _, rfl, rfl⟩

/-- C29, amended: for a diamond whose Then chain (at most 4 blocks, each passing
the inner-block flow check) ends in a return block, `IfConvertFindFlow` sets
`m_flowFound`, with no merge block, the else flag and main operator `GT_RETURN`,
when the Else arm is a single return block; when the first Else block has a
successor, the Then walk meets its return block before that successor and the
flow is not found. -/
theorem returnDiamond_flow (g : Graph) (s : Nat) (d : OptIfConversionDsc) (ts : List Nat)
    (t0 e : Nat) (hs : d.m_startBlock = s) (hlim : d.m_checkLimit = 4)
    (hft : (g s).bbFalseTarget = some t0) (h0 : ts.head? = some t0)
    (hch : ArmChain g s true none ts) (hlen : ts.length ≤ 4)
    (htt : (g s).bbTrueTarget = some e) (he : e ∉ ts.tail)
    (hin : innerFlowOk g s true e = true) :
    ((g e).GetUniqueSucc = none →
      ∃ d1, IfConvertFindFlow g d = some d1 ∧ d1.m_flowFound = true ∧
        d1.m_finalBlock = none ∧ d1.m_doElseConversion = true ∧ d1.m_mainOper = GT_RETURN) ∧
    (∀ e2, (g e).GetUniqueSucc = some e2 → e2 ∉ ts.tail →
      ∃ d1, IfConvertFindFlow g d = some d1 ∧ d1.m_flowFound = false) := by
  obtain ⟨sb, fb, c, tOp, eOp, lim, mo, de, ff⟩ := d
  simp only at hs hlim
  subst hs hlim
  have h1 : IfConvertCheckThenFlow g ⟨sb, some e, c, tOp, eOp, 4, mo, false, ff⟩ =
      some (true, ⟨sb, some e, c, tOp, eOp, 4, mo, false, false⟩) :=
    checkThen_eq g _ t0 _ hft
      (thenLoop_noElse_passes g ⟨sb, some e, c, tOp, eOp, 4, mo, false, false⟩ e rfl rfl ts 4 t0
        h0 hch he)
  have hinner : IfConvertCheckInnerBlockFlow g ⟨sb, some e, c, tOp, eOp, 4, mo, true, false⟩ e
      = true := by
    rw [inner_eq]
    exact hin
  constructor
  · intro hnone
    have h2 : IfConvertCheckThenFlow g ⟨sb, none, c, tOp, eOp, 4, mo, true, false⟩ =
        some (true, ⟨sb, none, c, tOp, eOp, 4, GT_RETURN, true, true⟩) :=
      checkThen_eq g _ t0 _ hft
        (thenLoop_return_finds g ⟨sb, none, c, tOp, eOp, 4, mo, true, false⟩ rfl rfl ts 4 t0
          h0 hch hlen)
    refine ⟨⟨sb, none, c, tOp, eOp, 4, GT_RETURN, true, true⟩, ?_, rfl, rfl, rfl, rfl⟩
    unfold IfConvertFindFlow
    simp only [htt, h1]
    unfold IfConvertFindFlow.loop
    simp only [hinner, hnone, h2]
    simp
  · intro e2 hsome he2
    have h2 : IfConvertCheckThenFlow g ⟨sb, some e2, c, tOp, eOp, 4, mo, true, false⟩ =
        some (false, ⟨sb, some e2, c, tOp, eOp, 4, mo, true, false⟩) :=
      checkThen_eq g _ t0 _ hft
        (thenLoop_return_aborts g ⟨sb, some e2, c, tOp, eOp, 4, mo, true, false⟩ e2 rfl rfl ts 4
          t0 h0 hch he2 hlen)
    refine ⟨⟨sb, some e2, c, tOp, eOp, 4, mo, true, false⟩, ?_, rfl⟩
    unfold IfConvertFindFlow
    simp only [htt, h1]
    unfold IfConvertFindFlow.loop
    simp only [hinner, hsome, h2]
    simp

/-- C29 (amended) on scenario C (both arms one return block) and on
`exReturnElse2` (Else arm of two blocks). -/
theorem returnDiamond_flow_witness :
    (∃ d1, IfConvertFindFlow exScenarioC exDsc = some d1 ∧ d1.m_flowFound = true ∧
      d1.m_finalBlock = none ∧ d1.m_doElseConversion = true ∧ d1.m_mainOper = GT_RETURN) ∧
    (∃ d1, IfConvertFindFlow exReturnElse2 exDsc = some d1 ∧ d1.m_flowFound = false) :=
  ⟨(returnDiamond_flow exScenarioC 0 exDsc [1] 1 2 rfl rfl rfl rfl ⟨by decide, rfl⟩ (by decide)
      rfl (by simp) (by decide)).1 rfl,
   (returnDiamond_flow exReturnElse2 0 exDsc [1] 1 2 rfl rfl rfl rfl ⟨by decide, rfl⟩
      (by decide) rfl (by simp) (by decide)).2 3 rfl (by simp)⟩

/-! ### The driver -/

theorem optIfConvert_false_eq (comp : Compiler) (g g1 : Graph) (b : Nat)
    (h : optIfConvert comp g b = some (false, g1)) : g1 = g := by
  unfold optIfConvert at h
  split at h
  · simp at h
  · simp at h; exact h.symm
  · split at h
    · simp at h
    · simp at h; exact h.symm
    · split at h
      · simp at h
      · simp at h; exact h.symm
      · split at h <;> simp at h

theorem commit_prev (g : Graph) (d : OptIfConversionDsc) (sel : GenTree) (g1 : Graph)
    (h : optIfConvert.commit g d sel = some g1) : ∀ x, (g1 x).bbPrev = (g x).bbPrev := by
  obtain ⟨T, i, tn, last, g3, g4, g5, ft, hT, hi, hn, hl, hg3, hg4, hg5, hft, hg1⟩ :=
    commit_inv g d sel g1 h
  have h3 : StmtsOnly g g3 := by
    split_ifs at hg3
    · split at hg3
      · simp only [Option.some.injEq] at hg3
        subst hg3
        exact stmtsOnly_trans _ _ _ (stmtsOnly_trans _ _ _ (setStmt_stmtsOnly _ _ _ _)
          (setStmt_stmtsOnly _ _ _ _)) (setStmt_stmtsOnly _ _ _ _)
      · simp at hg3
    · simp only [Option.some.injEq] at hg3
      subst hg3
      exact stmtsOnly_trans _ _ _ (setStmt_stmtsOnly _ _ _ _) (setStmt_stmtsOnly _ _ _ _)
  have h4 : StmtsOnly g3 g4 := join_stmtsOnly g3 d T g4 hg4
  have h5 : StmtsOnly g4 g5 := by
    split_ifs at hg5
    · split at hg5
      · exact join_stmtsOnly _ d _ g5 hg5
      · simp at hg5
    · simp only [Option.some.injEq] at hg5
      subst hg5
      exact stmtsOnly_refl _
  have hso : StmtsOnly g g5 := stmtsOnly_trans _ _ _ (stmtsOnly_trans _ _ _ h3 h4) h5
  have hp : ∀ b, (g5 b).bbPrev = (g b).bbPrev := fun b => by rw [hso b]
  subst hg1
  intro x
  by_cases hb1 : x = d.m_startBlock
  · subst hb1
    by_cases hb2 : d.m_startBlock = ft
    · simp [SetKindAndTargetEdge, fgRemoveAllRefPreds, Function.update, hb2, hp]
    · simp [SetKindAndTargetEdge, fgRemoveAllRefPreds, Function.update, hb2, hp]
  · by_cases hb2 : x = ft
    · subst hb2
      simp [SetKindAndTargetEdge, fgRemoveAllRefPreds, Function.update, hb1, hp]
    · simp [SetKindAndTargetEdge, fgRemoveAllRefPreds, Function.update, hb1, hb2, hp]

/-- An attempt leaves the layout links as they were. -/
theorem optIfConvert_prev (comp : Compiler) (g g1 : Graph) (b : Nat) (r : Bool)
    (h : optIfConvert comp g b = some (r, g1)) : ∀ x, (g1 x).bbPrev = (g x).bbPrev := by
  cases r with
  | false =>
    rw [optIfConvert_false_eq comp g g1 b h]
    intro x; rfl
  | true =>
    obtain ⟨d, sel, _, _, _, hcommit⟩ := optIfConvert_true_inv comp g b g1 h
    exact commit_prev g d sel g1 hcommit

theorem layoutOrder_congr (g g1 : Graph) (hp : ∀ x, (g1 x).bbPrev = (g x).bbPrev) :
    ∀ (fuel : Nat) (p : Option Nat), layoutOrder g1 fuel p = layoutOrder g fuel p := by
  intro fuel
  induction fuel with
  | zero => intro p; cases p <;> rfl
  | succ n ih =>
    intro p
    cases p with
    | none => rfl
    | some b =>
      simp only [layoutOrder]
      rw [hp b, ih]

/-- The driver's loop makes one attempt per block of the layout order. -/
theorem loop_eq_attempts (comp : Compiler) :
    ∀ (fuel : Nat) (g : Graph) (p : Option Nat) (made : Bool) (bs : List Nat),
      layoutOrder g fuel p = some bs →
      optIfConversion.loop comp fuel g p made =
        (attempts comp bs g).map (fun r => (made || r.1.any id, r.2)) := by
  intro fuel
  induction fuel with
  | zero =>
    intro g p made bs h
    cases p with
    | none =>
      simp only [layoutOrder, Option.some.injEq] at h
      subst h
      simp [optIfConversion.loop, attempts]
    | some b => simp [layoutOrder] at h
  | succ n ih =>
    intro g p made bs h
    cases p with
    | none =>
      simp only [layoutOrder, Option.some.injEq] at h
      subst h
      simp [optIfConversion.loop, attempts]
    | some b =>
      simp only [layoutOrder, Option.map_eq_some'] at h
      obtain ⟨rest, hrest, hbs⟩ := h
      subst hbs
      simp only [optIfConversion.loop, attempts]
      cases hc : optIfConvert comp g b with
      | none => rfl
      | some res =>
        obtain ⟨r, g1⟩ := res
        simp only
        have hp := optIfConvert_prev comp g g1 b r hc
        have hl : layoutOrder g1 n (g1 b).bbPrev = some rest := by
          rw [layoutOrder_congr g g1 hp, hp b]
          exact hrest
        rw [ih g1 _ (made || r) rest hl]
        cases attempts comp rest g1 with
        | none => rfl
        | some res2 =>
          obtain ⟨rs, g2⟩ := res2
          simp [Bool.or_assoc]

theorem layoutOrder_det (g : Graph) :
    ∀ (f1 f2 : Nat) (p : Option Nat) (l1 l2 : List Nat),
      layoutOrder g f1 p = some l1 → layoutOrder g f2 p = some l2 → l1 = l2 := by
  intro f1
  induction f1 with
  | zero =>
    intro f2 p l1 l2 h1 h2
    cases p with
    | none =>
      cases f2 <;> simp only [layoutOrder, Option.some.injEq] at h1 h2 <;> rw [← h1, ← h2]
    | some b => simp [layoutOrder] at h1
  | succ n ih =>
    intro f2 p l1 l2 h1 h2
    cases p with
    | none =>
      cases f2 <;> simp only [layoutOrder, Option.some.injEq] at h1 h2 <;> rw [← h1, ← h2]
    | some b =>
      cases f2 with
      | zero => simp [layoutOrder] at h2
      | succ m =>
        simp only [layoutOrder, Option.map_eq_some'] at h1 h2
        obtain ⟨r1, hr1, e1⟩ := h1
        obtain ⟨r2, hr2, e2⟩ := h2
        rw [← e1, ← e2, ih m _ r1 r2 hr1 hr2]

theorem layoutOrder_suffix (g : Graph) :
    ∀ (f : Nat) (p : Option Nat) (bs : List Nat) (x : Nat),
      layoutOrder g f p = some bs → x ∈ bs →
      ∃ f1 l, layoutOrder g f1 (some x) = some l ∧ l.length ≤ bs.length := by
  intro f
  induction f with
  | zero =>
    intro p bs x h hx
    cases p with
    | none =>
      simp only [layoutOrder, Option.some.injEq] at h
      subst h
      simp at hx
    | some b => simp [layoutOrder] at h
  | succ n ih =>
    intro p bs x h hx
    cases p with
    | none =>
      simp only [layoutOrder, Option.some.injEq] at h
      subst h
      simp at hx
    | some b =>
      have h0 := h
      simp only [layoutOrder, Option.map_eq_some'] at h
      obtain ⟨rest, hrest, e⟩ := h
      subst e
      rcases List.mem_cons.mp hx with hx | hx
      · subst hx
        exact ⟨n + 1, _, h0, le_refl _⟩
      · obtain ⟨f1, l, hl, hlen⟩ := ih _ rest x hrest hx
        exact ⟨f1, l, hl, by simp only [List.length_cons]; omega⟩

/-- The layout order names every block once. -/
theorem layoutOrder_nodup (g : Graph) :
    ∀ (f : Nat) (p : Option Nat) (bs : List Nat), layoutOrder g f p = some bs → bs.Nodup := by
  intro f
  induction f with
  | zero =>
    intro p bs h
    cases p with
    | none =>
      simp only [layoutOrder, Option.some.injEq] at h
      subst h
      exact List.nodup_nil
    | some b => simp [layoutOrder] at h
  | succ n ih =>
    intro p bs h
    cases p with
    | none =>
      simp only [layoutOrder, Option.some.injEq] at h
      subst h
      exact List.nodup_nil
    | some b =>
      have h0 := h
      simp only [layoutOrder, Option.map_eq_some'] at h
      obtain ⟨rest, hrest, e⟩ := h
      subst e
      refine List.nodup_cons.mpr ⟨?_, ih _ rest hrest⟩
      intro hb
      obtain ⟨f1, l, hl, hlen⟩ := layoutOrder_suffix g n _ rest b hrest hb
      have := layoutOrder_det g f1 (n + 1) (some b) l (b :: rest) hl h0
      rw [this] at hlen
      simp only [List.length_cons] at hlen
      omega

theorem attempts_spec (comp : Compiler) :
    ∀ (bs : List Nat) (g g1 : Graph) (rs : List Bool), attempts comp bs g = some (rs, g1) →
      rs.length = bs.length ∧ (rs.any id = false → g1 = g) := by
  intro bs
  induction bs with
  | nil =>
    intro g g1 rs h
    simp only [attempts, Option.some.injEq, Prod.mk.injEq] at h
    obtain ⟨h1, h2⟩ := h
    subst h1 h2
    exact ⟨rfl, fun _ => rfl⟩
  | cons b rest ih =>
    intro g g1 rs h
    simp only [attempts] at h
    cases hc : optIfConvert comp g b with
    | none => simp [hc] at h
    | some res =>
      obtain ⟨r, g2⟩ := res
      simp only [hc] at h
      cases ha : attempts comp rest g2 with
      | none => simp [ha] at h
      | some res2 =>
        obtain ⟨rs2, g3⟩ := res2
        simp only [ha, Option.some.injEq, Prod.mk.injEq] at h
        obtain ⟨h1, h2⟩ := h
        subst h1 h2
        obtain ⟨i1, i2⟩ := ih g2 g3 rs2 ha
        refine ⟨by simp [i1], ?_⟩
        intro hany
        simp only [List.any_cons, id, Bool.or_eq_false_iff] at hany
        obtain ⟨hr, hrest⟩ := hany
        subst hr
        rw [i2 hrest]
        exact optIfConvert_false_eq comp g g2 b hc

/-- C26: `optIfConversion` returns `MODIFIED_NOTHING` and leaves the graph as it
was when optimisation is disabled, when the pass is switched off (the `DEBUG`
switch `JitDoIfConversion` is 0, or the target is none of ARM64, x86/x64 and
RISC-V 64), and when no attempt returns true; when the pass runs, its result is
that of one attempt per block of the layout, from the last block to the first by
the `Prev` links, every block once, each attempt on the graph the earlier ones
left, and the status is `MODIFIED_EVERYTHING` exactly when some attempt returned
true. -/
theorem driver_result (comp : Compiler) (opts : DriverOptions) (fuel : Nat) (g : Graph) :
    (opts.OptimizationEnabled = false →
      optIfConversion comp opts fuel g = some (.MODIFIED_NOTHING, g)) ∧
    (opts.DEBUG = true → opts.JitDoIfConversion = 0 →
      optIfConversion comp opts fuel g = some (.MODIFIED_NOTHING, g)) ∧
    ((opts.TARGET_ARM64 || opts.TARGET_XARCH || comp.TARGET_RISCV64) = false →
      optIfConversion comp opts fuel g = some (.MODIFIED_NOTHING, g)) ∧
    (opts.OptimizationEnabled = true → (opts.DEBUG && opts.JitDoIfConversion == 0) = false →
      (opts.TARGET_ARM64 || opts.TARGET_XARCH || comp.TARGET_RISCV64) = true →
      ∀ bs, layoutOrder g fuel opts.fgLastBB = some bs →
        bs.Nodup ∧
        optIfConversion comp opts fuel g =
          (attempts comp bs g).map (fun r =>
            (if r.1.any id then PhaseStatus.MODIFIED_EVERYTHING
              else PhaseStatus.MODIFIED_NOTHING, r.2)) ∧
        ∀ rs g1, attempts comp bs g = some (rs, g1) →
          rs.length = bs.length ∧
          (optIfConversion comp opts fuel g = some (.MODIFIED_EVERYTHING, g1) ↔
            true ∈ rs) ∧
          (true ∉ rs → optIfConversion comp opts fuel g = some (.MODIFIED_NOTHING, g))) := by
  refine ⟨?_, ?_, ?_, ?_⟩
  · intro h
    simp [optIfConversion, h]
  · intro h1 h2
    unfold optIfConversion
    split_ifs <;> simp_all
  · intro h
    unfold optIfConversion
    split_ifs <;> simp_all
  · intro h1 h2 h3 bs hbs
    have heq : optIfConversion comp opts fuel g =
        (attempts comp bs g).map (fun r =>
          (if r.1.any id then PhaseStatus.MODIFIED_EVERYTHING
            else PhaseStatus.MODIFIED_NOTHING, r.2)) := by
      unfold optIfConversion
      simp only [h1, Bool.not_true, Bool.false_eq_true, if_false, h2, h3, if_true]
      rw [loop_eq_attempts comp fuel g _ false bs hbs]
      cases attempts comp bs g with
      | none => rfl
      | some r => simp
    refine ⟨layoutOrder_nodup g fuel _ bs hbs, heq, ?_⟩
    intro rs g1 ha
    obtain ⟨hlen, hsame⟩ := attempts_spec comp bs g g1 rs ha
    rw [heq, ha]
    simp only [Option.map_some']
    by_cases hany : rs.any id = true
    · have hmem : true ∈ rs := by
        simp only [List.any_eq_true, id] at hany
        obtain ⟨x, hx, hx1⟩ := hany
        rw [hx1] at hx
        exact hx
      simp [hany, hmem, hlen]
    · have hany1 : rs.any id = false := by simpa using hany
      have hmem : true ∉ rs := by
        intro hm
        have : rs.any id = true := by
          simp only [List.any_eq_true, id]
          exact ⟨true, hm, rfl⟩
        rw [hany1] at this
        simp at this
      simp [hany1, hmem, hlen, hsame hany1]

/-- C26 on `exLayout`: with optimisation disabled nothing happens; in the build
`exOpts` the blocks 3, 2, 1, 0 are attempted in this order, the attempt on block 0
converts, and the status is `MODIFIED_EVERYTHING`. -/
theorem driver_result_witness :
    optIfConversion (exComp false) { exOpts with OptimizationEnabled := false } 4 exLayout =
      some (.MODIFIED_NOTHING, exLayout) ∧
    ([3, 2, 1, 0].Nodup ∧
      optIfConversion (exComp false) exOpts 4 exLayout =
        (attempts (exComp false) [3, 2, 1, 0] exLayout).map (fun r =>
          (if r.1.any id then PhaseStatus.MODIFIED_EVERYTHING
            else PhaseStatus.MODIFIED_NOTHING, r.2)) ∧
      ∀ rs g1, attempts (exComp false) [3, 2, 1, 0] exLayout = some (rs, g1) →
        rs.length = [3, 2, 1, 0].length ∧
        (optIfConversion (exComp false) exOpts 4 exLayout = some (.MODIFIED_EVERYTHING, g1) ↔
          true ∈ rs) ∧
        (true ∉ rs →
          optIfConversion (exComp false) exOpts 4 exLayout =
            some (.MODIFIED_NOTHING, exLayout))) ∧
    (attempts (exComp false) [3, 2, 1, 0] exLayout).map Prod.fst =
      some [false, false, false, true] ∧
    (optIfConversion (exComp false) exOpts 4 exLayout).map Prod.fst =
      some .MODIFIED_EVERYTHING :=
  ⟨(driver_result (exComp false) { exOpts with OptimizationEnabled := false } 4 exLayout).1 rfl,
   (driver_result (exComp false) exOpts 4 exLayout).2.2.2 rfl rfl rfl [3, 2, 1, 0] rfl,
   by decide, by decide⟩

/-! ### `IfConvertJoinStmts` on the links -/

theorem seg_congr (h h1 : Nat → StmtLinks.Statement) :
    ∀ (xs : List Nat) (p q : Option Nat), (∀ x ∈ xs, (h1 x).m_next = (h x).m_next) →
      StmtLinks.Seg h p xs q → StmtLinks.Seg h1 p xs q := by
  intro xs
  induction xs with
  | nil => intro p q _ hs; exact hs
  | cons x rest ih =>
    intro p q hag hs
    obtain ⟨hp, hrest⟩ := hs
    refine ⟨hp, ?_⟩
    rw [hag x (List.mem_cons_self _ _)]
    exact ih _ q (fun y hy => hag y (List.mem_cons_of_mem _ hy)) hrest

theorem seg_append (h : Nat → StmtLinks.Statement) :
    ∀ (xs ys : List Nat) (p q r : Option Nat), StmtLinks.Seg h p xs q →
      StmtLinks.Seg h q ys r → StmtLinks.Seg h p (xs ++ ys) r := by
  intro xs
  induction xs with
  | nil =>
    intro ys p q r h1 h2
    simp only [StmtLinks.Seg] at h1
    subst h1
    exact h2
  | cons x rest ih =>
    intro ys p q r h1 h2
    obtain ⟨hp, hrest⟩ := h1
    exact ⟨hp, ih ys _ q r hrest h2⟩

/-- Redirecting the `m_next` link of the last statement of a list makes the list
a segment that ends at the new target. -/
theorem seg_redirect (h h1 : Nat → StmtLinks.Statement) (last : Nat) (q : Option Nat)
    (hq : (h1 last).m_next = q)
    (hag : ∀ x, x ≠ last → (h1 x).m_next = (h x).m_next) :
    ∀ (xs : List Nat) (p : Option Nat), xs.getLast? = some last → xs.Nodup →
      StmtLinks.Seg h p xs none → StmtLinks.Seg h1 p xs q := by
  intro xs
  induction xs with
  | nil => intro p hl; simp at hl
  | cons x rest ih =>
    intro p hl hnd hs
    obtain ⟨hp, hrest⟩ := hs
    cases rest with
    | nil =>
      simp only [List.getLast?_singleton, Option.some.injEq] at hl
      subst hl
      exact ⟨hp, hq⟩
    | cons y rest1 =>
      have hl1 : (y :: rest1).getLast? = some last := by
        rw [List.getLast?_cons_cons] at hl
        exact hl
      have hmem : last ∈ y :: rest1 := List.mem_of_getLast?_eq_some hl1
      have hx : x ≠ last := by
        intro e
        rw [e] at hnd
        exact (List.nodup_cons.mp hnd).1 hmem
      refine ⟨hp, ?_⟩
      rw [hag x hx]
      exact ih _ hl1 (List.nodup_cons.mp hnd).2 hrest

theorem prevLinked_congr (h h1 : Nat → StmtLinks.Statement) :
    ∀ (xs : List Nat) (q : Option Nat), (∀ x ∈ xs, (h1 x).m_prev = (h x).m_prev) →
      StmtLinks.PrevLinked h q xs → StmtLinks.PrevLinked h1 q xs := by
  intro xs
  induction xs with
  | nil => intro q _ _; trivial
  | cons x rest ih =>
    intro q hag hs
    obtain ⟨hp, hrest⟩ := hs
    refine ⟨?_, ih _ (fun y hy => hag y (List.mem_cons_of_mem _ hy)) hrest⟩
    rw [hag x (List.mem_cons_self _ _)]
    exact hp

theorem prevLinked_append (h : Nat → StmtLinks.Statement) :
    ∀ (xs ys : List Nat) (q : Option Nat), xs ≠ [] → StmtLinks.PrevLinked h q xs →
      StmtLinks.PrevLinked h xs.getLast? ys → StmtLinks.PrevLinked h q (xs ++ ys) := by
  intro xs
  induction xs with
  | nil => intro ys q hne; exact absurd rfl hne
  | cons x rest ih =>
    intro ys q _ h1 h2
    obtain ⟨hp, hrest⟩ := h1
    refine ⟨hp, ?_⟩
    cases rest with
    | nil =>
      simp only [List.getLast?_singleton] at h2
      exact h2
    | cons y rest1 =>
      rw [List.getLast?_cons_cons] at h2
      exact ih ys (some x) (by simp) hrest h2

theorem join_links_next (h : Nat → StmtLinks.Statement) (last1 list2 list1 : Nat)
    (last2 : Option Nat) (x : Nat) :
    ((Function.update
        (Function.update
          (Function.update h last1 { h last1 with m_next := some list2 }) list2
          { (Function.update h last1 { h last1 with m_next := some list2 }) list2 with
            m_prev := some last1 }) list1
        { (Function.update
            (Function.update h last1 { h last1 with m_next := some list2 }) list2
            { (Function.update h last1 { h last1 with m_next := some list2 }) list2 with
              m_prev := some last1 }) list1 with m_prev := last2 }) x).m_next =
      if x = last1 then some list2 else (h x).m_next := by
  by_cases e1 : x = list1
  · subst e1
    by_cases e2 : x = list2
    · subst e2
      by_cases e3 : x = last1
      · subst e3; simp [Function.update]
      · simp [Function.update, e3]
    · by_cases e3 : x = last1
      · subst e3; simp [Function.update, e2]
      · simp [Function.update, e2, e3]
  · by_cases e2 : x = list2
    · subst e2
      by_cases e3 : x = last1
      · subst e3; simp [Function.update, e1]
      · simp [Function.update, e1, e3]
    · by_cases e3 : x = last1
      · subst e3; simp [Function.update, e1, e2]
      · simp [Function.update, e1, e2, e3]

theorem join_links_prev (h : Nat → StmtLinks.Statement) (last1 list2 list1 : Nat)
    (last2 : Option Nat) (x : Nat) :
    ((Function.update
        (Function.update
          (Function.update h last1 { h last1 with m_next := some list2 }) list2
          { (Function.update h last1 { h last1 with m_next := some list2 }) list2 with
            m_prev := some last1 }) list1
        { (Function.update
            (Function.update h last1 { h last1 with m_next := some list2 }) list2
            { (Function.update h last1 { h last1 with m_next := some list2 }) list2 with
              m_prev := some last1 }) list1 with m_prev := last2 }) x).m_prev =
      if x = list1 then last2 else if x = list2 then some last1 else (h x).m_prev := by
  by_cases e1 : x = list1
  · subst e1
    simp [Function.update]
  · by_cases e2 : x = list2
    · subst e2
      by_cases e3 : x = last1
      · subst e3; simp [Function.update, e1]
      · simp [Function.update, e1, e3]
    · by_cases e3 : x = last1
      · subst e3; simp [Function.update, e1, e2]
      · simp [Function.update, e1, e2, e3]

/-- C30: for a start block and a donor block that each hold at least one statement
(no statement in both lists), `IfConvertJoinStmts` returns, the start block's
list is then its old sequence followed by the donor's old sequence, with the
back link of its first statement at the donor's old last statement, the donor's
list is empty, and every other block's list is what it was. -/
theorem joinStmts_is_append (σ : StmtLinks.Store) (s f : Nat) (xs ys : List Nat)
    (hxs : StmtLinks.IsStmtList σ.stmts (σ.bbStmtList s) xs)
    (hys : StmtLinks.IsStmtList σ.stmts (σ.bbStmtList f) ys)
    (hx : xs ≠ []) (hy : ys ≠ []) (hdis : ∀ x ∈ xs, x ∉ ys) :
    ∃ σ1, StmtLinks.IfConvertJoinStmts σ s f = some σ1 ∧
      StmtLinks.IsStmtList σ1.stmts (σ1.bbStmtList s) (xs ++ ys) ∧
      (∀ first, xs.head? = some first → (σ1.stmts first).m_prev = ys.getLast?) ∧
      σ1.bbStmtList f = none ∧ StmtLinks.IsStmtList σ1.stmts (σ1.bbStmtList f) [] ∧
      (∀ b, b ≠ f → σ1.bbStmtList b = σ.bbStmtList b) ∧
      (∀ b zs, b ≠ s → b ≠ f → StmtLinks.IsStmtList σ.stmts (σ.bbStmtList b) zs →
        (∀ z ∈ zs, z ∉ xs ∧ z ∉ ys) →
        StmtLinks.IsStmtList σ1.stmts (σ1.bbStmtList b) zs) := by
  cases xs with
  | nil => exact absurd rfl hx
  | cons l1 xr =>
  cases ys with
  | nil => exact absurd rfl hy
  | cons l2 yr =>
  obtain ⟨⟨hs1, hsx⟩, hndx, hpx, hplx⟩ := hxs
  obtain ⟨⟨hf1, hsy⟩, hndy, hpy, hply⟩ := hys
  have hlast : (l1 :: xr).getLast? = some ((l1 :: xr).getLast (by simp)) :=
    List.getLast?_eq_getLast _ _
  generalize (l1 :: xr).getLast (by simp) = last1 at hlast
  have hlmem : last1 ∈ l1 :: xr := List.mem_of_getLast?_eq_some hlast
  have h12 : l1 ≠ l2 := by
    intro e
    exact hdis l1 (List.mem_cons_self _ _) (by rw [e]; exact List.mem_cons_self _ _)
  have hsf : s ≠ f := by
    intro e
    rw [e, hf1] at hs1
    exact h12 (Option.some.inj hs1).symm
  rw [hlast] at hpx
  have hj : ∃ σ1, StmtLinks.IfConvertJoinStmts σ s f = some σ1 ∧
      (∀ x, (σ1.stmts x).m_next = if x = last1 then some l2 else (σ.stmts x).m_next) ∧
      (∀ x, (σ1.stmts x).m_prev =
        if x = l1 then (l2 :: yr).getLast? else if x = l2 then some last1
        else (σ.stmts x).m_prev) ∧
      σ1.bbStmtList = Function.update σ.bbStmtList f none := by
    unfold StmtLinks.IfConvertJoinStmts StmtLinks.firstStmt StmtLinks.lastStmt
    simp only [hs1, hf1, hpx, hpy]
    exact ⟨_, rfl, fun x => join_links_next σ.stmts last1 l2 l1 _ x,
      fun x => join_links_prev σ.stmts last1 l2 l1 _ x, rfl⟩
  obtain ⟨σ1, hσ1, hnext, hprev, hfirst⟩ := hj
  have hb : ∀ b, b ≠ f → σ1.bbStmtList b = σ.bbStmtList b := by
    intro b hbf
    rw [hfirst]
    simp [Function.update, hbf]
  have hfn : σ1.bbStmtList f = none := by
    rw [hfirst]
    simp
  refine ⟨σ1, hσ1, ⟨?_, ?_, ?_⟩, ?_, hfn, ⟨by rw [hfn]; rfl, List.nodup_nil, trivial⟩, hb, ?_⟩
  · rw [hb s hsf, hs1]
    refine seg_append σ1.stmts (l1 :: xr) (l2 :: yr) (some l1) (some l2) none ?_ ?_
    · refine seg_redirect σ.stmts σ1.stmts last1 (some l2) (by rw [hnext]; simp) ?_
        (l1 :: xr) (some l1) hlast hndx ⟨rfl, hsx⟩
      intro x hxl
      rw [hnext]
      simp [hxl]
    · refine seg_congr σ.stmts σ1.stmts (l2 :: yr) (some l2) none ?_ ⟨rfl, hsy⟩
      intro y hy1
      rw [hnext]
      have : y ≠ last1 := by
        intro e
        rw [e] at hy1
        exact hdis last1 hlmem hy1
      simp [this]
  · refine List.nodup_append.mpr ⟨hndx, hndy, ?_⟩
    intro a ha hb1
    exact hdis a ha hb1
  · have hgl : (l1 :: xr ++ l2 :: yr).getLast? = (l2 :: yr).getLast? := by
      rw [List.getLast?_append, List.getLast?_eq_getLast (l2 :: yr) (by simp)]
      rfl
    rw [hgl]
    refine prevLinked_append σ1.stmts (l1 :: xr) (l2 :: yr) _ (by simp) ⟨?_, ?_⟩ ?_
    · rw [hprev]
      simp
    · refine prevLinked_congr σ.stmts σ1.stmts xr (some l1) ?_ hplx
      intro x hx1
      rw [hprev]
      have e1 : x ≠ l1 := by
        intro e
        rw [e] at hx1
        exact (List.nodup_cons.mp hndx).1 hx1
      have e2 : x ≠ l2 := by
        intro e
        rw [e] at hx1
        exact hdis l2 (List.mem_cons_of_mem _ hx1) (List.mem_cons_self _ _)
      simp [e1, e2]
    · rw [hlast]
      refine ⟨?_, ?_⟩
      · rw [hprev]
        have h21 : l2 ≠ l1 := fun e => h12 e.symm
        simp [h21]
      · refine prevLinked_congr σ.stmts σ1.stmts yr (some l2) ?_ hply
        intro y hy1
        rw [hprev]
        have e1 : y ≠ l1 := by
          intro e
          rw [e] at hy1
          exact hdis l1 (List.mem_cons_self _ _) (List.mem_cons_of_mem _ hy1)
        have e2 : y ≠ l2 := by
          intro e
          rw [e] at hy1
          exact (List.nodup_cons.mp hndy).1 hy1
        simp [e1, e2]
  · intro first hfirst1
    simp only [List.head?_cons, Option.some.injEq] at hfirst1
    subst hfirst1
    rw [hprev]
    simp
  · intro b zs hbs hbf ⟨hz1, hz2, hz3⟩ hzdis
    have hne : ∀ z ∈ zs, z ≠ last1 ∧ z ≠ l1 ∧ z ≠ l2 := by
      intro z hz
      obtain ⟨a1, a2⟩ := hzdis z hz
      refine ⟨?_, ?_, ?_⟩
      · intro e; rw [e] at a1; exact a1 hlmem
      · intro e; rw [e] at a1; exact a1 (List.mem_cons_self _ _)
      · intro e; rw [e] at a2; exact a2 (List.mem_cons_self _ _)
    refine ⟨?_, hz2, ?_⟩
    · rw [hb b hbf]
      refine seg_congr σ.stmts σ1.stmts zs _ none ?_ hz1
      intro z hz
      rw [hnext]
      simp [(hne z hz).1]
    · refine prevLinked_congr σ.stmts σ1.stmts zs _ ?_ hz3
      intro z hz
      rw [hprev]
      simp [(hne z hz).2.1, (hne z hz).2.2]

/-- C30 witness: joining the donor list [20] of block 2 onto the start list [10, 11] of
block 1 gives block 1 the list [10, 11, 20] and leaves block 2 empty. -/
theorem joinStmts_is_append_witness :
    StmtLinks.IsStmtList exJoinStore.stmts (exJoinStore.bbStmtList 1) [10, 11] ∧
    StmtLinks.IsStmtList exJoinStore.stmts (exJoinStore.bbStmtList 2) [20] ∧
    ∃ σ1, StmtLinks.IfConvertJoinStmts exJoinStore 1 2 = some σ1 ∧
      StmtLinks.IsStmtList σ1.stmts (σ1.bbStmtList 1) [10, 11, 20] ∧
      (σ1.stmts 10).m_prev = some 20 ∧
      σ1.bbStmtList 2 = none := by
  have h1 : StmtLinks.IsStmtList exJoinStore.stmts (exJoinStore.bbStmtList 1) [10, 11] :=
    ⟨⟨rfl, rfl, rfl⟩, by decide, rfl, rfl, trivial⟩
  have h2 : StmtLinks.IsStmtList exJoinStore.stmts (exJoinStore.bbStmtList 2) [20] :=
    ⟨⟨rfl, rfl⟩, by decide, rfl, trivial⟩
  obtain ⟨σ1, e, hl, hback, hf, -, -, -⟩ :=
    joinStmts_is_append exJoinStore 1 2 [10, 11] [20] h1 h2 (by decide) (by decide)
      (by decide)
  exact ⟨h1, h2, σ1, e, hl, hback 10 rfl, hf⟩


/-! ### A converted block is not converted again -/

/-- The start block of a conversion is left as an unconditional branch. -/
theorem converted_kind (comp : Compiler) (g : Graph) (s : Nat) (g1 : Graph)
    (h : optIfConvert comp g s = some (true, g1)) : (g1 s).bbKind = BBJ_ALWAYS := by
  obtain ⟨d, sel, hc, -, -, hcm⟩ := optIfConvert_true_inv comp g s g1 h
  obtain ⟨hs, -⟩ := checks_spec comp g s d hc
  obtain ⟨ft, -, -, hk, -⟩ := commit_flow g d sel g1 hcm
  rw [hs] at hk
  exact hk

/-- An attempt on a block that is not a conditional branch returns false at the
first test and leaves the graph as it is. -/
theorem optIfConvert_of_not_cond (comp : Compiler) (g : Graph) (s : Nat)
    (h : (g s).KindIs BBJ_COND = false) : optIfConvert comp g s = some (false, g) := by
  unfold optIfConvert optIfConvert.checks optIfConvert.flow
  simp [h]

/-- C36: after `optIfConvert` has returned true for a start block, that block is
no longer a conditional branch with two successors, and a second attempt on it
returns false and leaves the graph unchanged. -/
theorem no_reconversion (comp comp1 : Compiler) (g : Graph) (s : Nat) (g1 : Graph)
    (h : optIfConvert comp g s = some (true, g1)) :
    (g1 s).KindIs BBJ_COND = false ∧ (g1 s).NumSucc ≠ 2 ∧
      optIfConvert comp1 g1 s = some (false, g1) := by
  have hk := converted_kind comp g s g1 h
  have hc : (g1 s).KindIs BBJ_COND = false := by
    simp [BasicBlock.KindIs, hk]
  refine ⟨hc, ?_, optIfConvert_of_not_cond comp1 g1 s hc⟩
  simp [BasicBlock.NumSucc, hk]

/-- C36 witness: the converted store diamond is not converted again. -/
theorem no_reconversion_witness :
    optIfConvert (exComp false) exStoreDiamond 0 = some (true, exStoreDiamondConverted) ∧
    (exStoreDiamondConverted 0).KindIs BBJ_COND = false ∧
    (exStoreDiamondConverted 0).NumSucc ≠ 2 ∧
    optIfConvert (exComp false) exStoreDiamondConverted 0 =
      some (false, exStoreDiamondConverted) :=
  ⟨exStoreDiamond_converts,
    no_reconversion (exComp false) (exComp false) exStoreDiamond 0 exStoreDiamondConverted
      exStoreDiamond_converts⟩


/-! ### The arms of a found flow and the primary operator -/

/-- A Then walk that finds the flow has walked a chain of blocks, each passing the
inner-block flow check, up to the merge candidate, and has chosen the main
operator by the kind of the last block of that chain. -/
theorem thenLoop_arm (g : Graph) (d : OptIfConversionDsc) (hd : d.m_flowFound = false) :
    ∀ (n tb : Nat) (ok : Bool) (d1 : OptIfConversionDsc),
      IfConvertCheckThenFlow.loop g d n tb = (ok, d1) → d1.m_flowFound = true →
      ∃ ts last, ts.length ≤ n ∧ ts.head? = some tb ∧ ts.getLast? = some last ∧
        ArmChain g d.m_startBlock d.m_doElseConversion d.m_finalBlock ts ∧
        d1 = { d with
          m_flowFound := true
          m_mainOper := if (g last).KindIs BBJ_RETURN then GT_RETURN else GT_STORE_LCL_VAR } := by
  intro n
  induction n with
  | zero =>
    intro tb ok d1 h hf
    simp only [IfConvertCheckThenFlow.loop, Prod.mk.injEq] at h
    rw [← h.2, hd] at hf
    simp at hf
  | succ n ih =>
    intro tb ok d1 h hf
    unfold IfConvertCheckThenFlow.loop at h
    by_cases hin : IfConvertCheckInnerBlockFlow g d tb = true
    · simp only [hin, Bool.not_true, Bool.false_eq_true, if_false] at h
      by_cases hfin : (g tb).GetUniqueSucc = d.m_finalBlock
      · simp only [hfin, if_true, Prod.mk.injEq] at h
        refine ⟨[tb], tb, by simp, rfl, rfl, ⟨by rw [← inner_eq]; exact hin, hfin⟩, h.2.symm⟩
      · simp only [hfin, if_false] at h
        cases hs : (g tb).GetUniqueSucc with
        | none =>
          simp only [hs, Prod.mk.injEq] at h
          rw [← h.2, hd] at hf
          simp at hf
        | some nb =>
          simp only [hs] at h
          obtain ⟨ts, last, h1, h2, hl, h3, h4⟩ := ih nb ok d1 h hf
          cases ts with
          | nil => simp at h2
          | cons t0 rest =>
            simp only [List.head?_cons, Option.some.injEq] at h2
            subst h2
            refine ⟨tb :: t0 :: rest, last, by simpa using h1, rfl, ?_, ⟨?_, hs, h3⟩, h4⟩
            · rw [List.getLast?_cons_cons]; exact hl
            · rw [← inner_eq]; exact hin
    · simp only [hin, Bool.not_false, if_true, Prod.mk.injEq] at h
      rw [← h.2, hd] at hf
      simp at hf

/-- The chain and the main operator of a call of `IfConvertCheckThenFlow` that finds the flow. -/
theorem checkThen_arm (g : Graph) (d : OptIfConversionDsc) (ok : Bool)
    (d1 : OptIfConversionDsc) (h : IfConvertCheckThenFlow g d = some (ok, d1))
    (hf : d1.m_flowFound = true) :
    ∃ ts tb last, (g d.m_startBlock).bbFalseTarget = some tb ∧ ts.length ≤ d.m_checkLimit ∧
      ts.head? = some tb ∧ ts.getLast? = some last ∧
      ArmChain g d.m_startBlock d.m_doElseConversion d.m_finalBlock ts ∧
      d1 = { d with
        m_flowFound := true
        m_mainOper := if (g last).KindIs BBJ_RETURN then GT_RETURN else GT_STORE_LCL_VAR } := by
  unfold IfConvertCheckThenFlow at h
  cases hft : (g d.m_startBlock).bbFalseTarget with
  | none => simp [hft] at h
  | some tb =>
    simp only [hft, Option.some.injEq] at h
    obtain ⟨ts, last, h1, h2, hl, h3, h4⟩ :=
      thenLoop_arm g { d with m_flowFound := false } rfl _ tb ok d1 h hf
    exact ⟨ts, tb, last, rfl, h1, h2, hl, h3, h4⟩

/-- The two chains and the main operator of a with-else search that finds the flow. -/
theorem elseLoop_arm (g : Graph) :
    ∀ (n : Nat) (d d1 : OptIfConversionDsc), d.m_flowFound = false →
      IfConvertFindFlow.loop g n d = some d1 → d1.m_flowFound = true →
      ∃ es ts tb last, es.length ≤ n ∧ es.head? = d.m_finalBlock ∧ es ≠ [] ∧
        ArmChain g d.m_startBlock d.m_doElseConversion d1.m_finalBlock es ∧
        (g d.m_startBlock).bbFalseTarget = some tb ∧ ts.length ≤ d.m_checkLimit ∧
        ts.head? = some tb ∧ ts.getLast? = some last ∧
        ArmChain g d.m_startBlock d.m_doElseConversion d1.m_finalBlock ts ∧
        d1.m_doElseConversion = d.m_doElseConversion ∧
        d1.m_mainOper = if (g last).KindIs BBJ_RETURN then GT_RETURN else GT_STORE_LCL_VAR := by
  intro n
  induction n with
  | zero =>
    intro d d1 hd h hf
    simp only [IfConvertFindFlow.loop, Option.some.injEq] at h
    rw [← h, hd] at hf
    simp at hf
  | succ n ih =>
    intro d d1 hd h hf
    unfold IfConvertFindFlow.loop at h
    cases hfin : d.m_finalBlock with
    | none =>
      simp only [hfin, Option.some.injEq] at h
      rw [← h, hd] at hf
      simp at hf
    | some e =>
      simp only [hfin] at h
      by_cases hin : IfConvertCheckInnerBlockFlow g d e = true
      · simp only [hin, Bool.not_true, Bool.false_eq_true, if_false] at h
        cases hct : IfConvertCheckThenFlow g { d with m_finalBlock := (g e).GetUniqueSucc } with
        | none => simp [hct] at h
        | some r =>
          obtain ⟨ok, d2⟩ := r
          simp only [hct] at h
          have hin1 : innerFlowOk g d.m_startBlock d.m_doElseConversion e = true := by
            rw [← inner_eq]; exact hin
          by_cases hstop : (!ok || d2.m_flowFound) = true
          · simp only [hstop, if_true, Option.some.injEq] at h
            subst h
            obtain ⟨ts, tb, last, h1, h2, h3, hl, h4, h5⟩ := checkThen_arm g _ ok d2 hct hf
            subst h5
            exact ⟨[e], ts, tb, last, by simp, rfl, by simp, ⟨hin1, rfl⟩, h1, h2, h3, hl, h4,
              rfl, rfl⟩
          · simp only [hstop, if_false] at h
            have hnf : d2.m_flowFound = false := by
              cases hx : d2.m_flowFound <;> simp_all
            have hd2 := checkThen_notFound g _ ok d2 hct hnf
            obtain ⟨es, ts, tb, last, h1, h2, h3, h4, h5, h6, h7, hl, h8, h9, h10⟩ :=
              ih d2 d1 hnf h hf
            subst hd2
            cases es with
            | nil => exact absurd rfl h3
            | cons e1 rest =>
              simp only [List.head?_cons] at h2
              exact ⟨e :: e1 :: rest, ts, tb, last, by simpa using h1, rfl, by simp,
                ⟨hin1, h2.symm, h4⟩, h5, h6, h7, hl, h8, h9, h10⟩
      · simp only [hin, Bool.not_false, if_true, Option.some.injEq] at h
        rw [← h, hd] at hf
        simp at hf

/-- Whenever the flow matcher ends with a flow found, the Then arm (from the false
target) and, with the else flag set, the Else arm (from the true target) are
chains of at most 4 blocks leading to the merge candidate, which may be absent,
and the main operator is chosen by the kind of the last Then block. -/
theorem findFlow_arms (g : Graph) (d d1 : OptIfConversionDsc)
    (hlim : d.m_checkLimit = 4) (h : IfConvertFindFlow g d = some d1)
    (hf : d1.m_flowFound = true) :
    ∃ ts tb last, (g d.m_startBlock).bbFalseTarget = some tb ∧ ts.head? = some tb ∧
      ts.getLast? = some last ∧ ts.length ≤ 4 ∧
      ArmChain g d.m_startBlock d1.m_doElseConversion d1.m_finalBlock ts ∧
      d1.m_mainOper = (if (g last).KindIs BBJ_RETURN then GT_RETURN else GT_STORE_LCL_VAR) ∧
      (d1.m_doElseConversion = true →
        ∃ es, es.head? = (g d.m_startBlock).bbTrueTarget ∧ es ≠ [] ∧ es.length ≤ 4 ∧
          ArmChain g d.m_startBlock true d1.m_finalBlock es) ∧
      (d1.m_doElseConversion = false → (g d.m_startBlock).bbTrueTarget = d1.m_finalBlock) := by
  unfold IfConvertFindFlow at h
  cases hct : IfConvertCheckThenFlow g
      { d with m_doElseConversion := false, m_finalBlock := (g d.m_startBlock).bbTrueTarget } with
  | none => simp [hct] at h
  | some r =>
    obtain ⟨ok, d2⟩ := r
    simp only [hct] at h
    by_cases hstop : (!ok || d2.m_flowFound) = true
    · simp only [hstop, if_true, Option.some.injEq] at h
      subst h
      obtain ⟨ts, tb, last, h1, h2, h3, hl, h4, h5⟩ := checkThen_arm g _ ok d2 hct hf
      subst h5
      simp only at h4 h2 h1
      refine ⟨ts, tb, last, h1, h3, hl, by omega, h4, rfl, ?_, fun _ => rfl⟩
      intro hx; simp at hx
    · simp only [hstop, if_false] at h
      have hnf : d2.m_flowFound = false := by
        cases hx : d2.m_flowFound <;> simp_all
      have hd2 := checkThen_notFound g _ ok d2 hct hnf
      subst hd2
      obtain ⟨es, ts, tb, last, h1, h2, h3, h4, h5, h6, h7, hl, h8, h9, h10⟩ :=
        elseLoop_arm g _ _ d1 rfl h hf
      simp only at h1 h2 h4 h5 h6 h8 h9
      rw [h9]
      refine ⟨ts, tb, last, h5, h7, hl, by omega, h8, h10, ?_, ?_⟩
      · intro _
        exact ⟨es, h2, h3, by omega, h4⟩
      · intro hx; simp at hx


/-- The last block of a chain passes the inner-block flow check and leads to the
merge candidate. -/
theorem armChain_last (g : Graph) (start : Nat) (doElse : Bool) (final : Option Nat) :
    ∀ (ts : List Nat) (last : Nat), ArmChain g start doElse final ts →
      ts.getLast? = some last →
      innerFlowOk g start doElse last = true ∧ (g last).GetUniqueSucc = final := by
  intro ts
  induction ts with
  | nil => intro last h; exact absurd h (by simp [ArmChain])
  | cons b rest ih =>
    intro last h hl
    cases rest with
    | nil =>
      simp only [List.getLast?_singleton, Option.some.injEq] at hl
      subst hl
      exact h
    | cons b1 rest1 =>
      rw [List.getLast?_cons_cons] at hl
      exact ih last h.2.2 hl

/-- A return block has no unique successor. -/
theorem succ_none_of_return (g : Graph) (b : Nat) (h : (g b).KindIs BBJ_RETURN = true) :
    (g b).GetUniqueSucc = none := by
  cases hs : (g b).GetUniqueSucc with
  | none => rfl
  | some x =>
    rw [kind_of_succ g b x hs] at h
    exact absurd h (by simp)

/-- A block that passes the inner-block flow check and is not a return block has a
unique successor. -/
theorem succ_some_of_inner (g : Graph) (start : Nat) (doElse : Bool) (b : Nat)
    (h : innerFlowOk g start doElse b = true) (hk : (g b).KindIs BBJ_RETURN = false) :
    (g b).GetUniqueSucc ≠ none := by
  intro hs
  simp [innerFlowOk, hs, hk] at h

/-- C32: whenever `IfConvertFindFlow` ends with `m_flowFound` set, the main operator
is `GT_RETURN` exactly when the merge block is absent and `GT_STORE_LCL_VAR`
exactly when it is present; the last block of the Then chain leads to the merge
block, so when that block is a return block the merge block is absent, which is
the assertion made at that point. -/
theorem mainOper_tracks_merge (g : Graph) (d d1 : OptIfConversionDsc)
    (hlim : d.m_checkLimit = 4) (h : IfConvertFindFlow g d = some d1)
    (hf : d1.m_flowFound = true) :
    (d1.m_mainOper = GT_RETURN ↔ d1.m_finalBlock = none) ∧
    (d1.m_mainOper = GT_STORE_LCL_VAR ↔ d1.m_finalBlock ≠ none) ∧
    ∃ ts last, ts.head? = (g d.m_startBlock).bbFalseTarget ∧ ts.getLast? = some last ∧
      ArmChain g d.m_startBlock d1.m_doElseConversion d1.m_finalBlock ts ∧
      (g last).GetUniqueSucc = d1.m_finalBlock ∧
      (d1.m_mainOper = GT_RETURN ↔ (g last).KindIs BBJ_RETURN = true) ∧
      ((g last).KindIs BBJ_RETURN = true → d1.m_finalBlock = none) := by
  obtain ⟨ts, tb, last, h1, h2, hl, -, h4, h5, -, -⟩ := findFlow_arms g d d1 hlim h hf
  obtain ⟨hin, hsucc⟩ := armChain_last g _ _ _ ts last h4 hl
  cases hk : (g last).KindIs BBJ_RETURN with
  | true =>
    have hn : d1.m_finalBlock = none := by
      rw [← hsucc]; exact succ_none_of_return g last hk
    rw [hk] at h5
    simp only [if_true] at h5
    refine ⟨by simp [h5, hn], by simp [h5, hn], ts, last, by rw [h1, h2], hl, h4, hsucc,
      by simp [h5, hk], fun _ => hn⟩
  | false =>
    have hn : d1.m_finalBlock ≠ none := by
      rw [← hsucc]; exact succ_some_of_inner g _ _ last hin hk
    rw [hk] at h5
    simp only [Bool.false_eq_true, if_false] at h5
    refine ⟨by simp [h5, hn], by simp [h5, hn], ts, last, by rw [h1, h2], hl, h4, hsucc,
      by simp [h5, hk], fun hx => absurd hx (by simp [hk])⟩

/-- C32 on the store diamond (merge block 3, main operator `GT_STORE_LCL_VAR`). -/
theorem mainOper_tracks_merge_witness :
    IfConvertFindFlow exStoreDiamond exDsc = some exDscFound ∧
    exDscFound.m_mainOper = GT_STORE_LCL_VAR ∧ exDscFound.m_finalBlock = some 3 ∧
    (exDscFound.m_mainOper = GT_RETURN ↔ exDscFound.m_finalBlock = none) ∧
    (exDscFound.m_mainOper = GT_STORE_LCL_VAR ↔ exDscFound.m_finalBlock ≠ none) :=
  have h := mainOper_tracks_merge exStoreDiamond exDsc exDscFound (by decide) (by decide)
    (by decide)
  ⟨by decide, by decide, by decide, h.1, h.2.1⟩


/-! ### The validator's walk along a found flow -/

/-- A walk that starts at the merge candidate visits no block. -/
theorem chainBlocks_self (g : Graph) (final : Option Nat) (fuel : Nat) :
    chainBlocks g final fuel final = some [] := by
  cases fuel <;> simp [chainBlocks]

/-- A walk that reaches the merge candidate within `n` blocks is the same walk
under every larger bound. -/
theorem chainBlocks_mono (g : Graph) (final : Option Nat) :
    ∀ (n : Nat) (block : Option Nat) (bs : List Nat),
      chainBlocks g final n block = some bs →
      ∀ m, n ≤ m → chainBlocks g final m block = some bs := by
  intro n
  induction n with
  | zero =>
    intro block bs h m _
    by_cases hb : block = final
    · subst hb
      rw [chainBlocks_self] at h
      rw [chainBlocks_self]
      exact h
    · simp [chainBlocks, hb] at h
  | succ n ih =>
    intro block bs h m hm
    obtain ⟨m1, rfl⟩ : ∃ m1, m = m1 + 1 := ⟨m - 1, by omega⟩
    by_cases hb : block = final
    · subst hb
      rw [chainBlocks_self] at h
      rw [chainBlocks_self]
      exact h
    · cases block with
      | none => simp [chainBlocks, hb] at h
      | some b =>
        simp only [chainBlocks, hb, if_false] at h ⊢
        cases hr : chainBlocks g final n (g b).GetUniqueSucc with
        | none => simp [hr] at h
        | some rest =>
          rw [ih _ rest hr m1 (by omega)]
          rw [hr] at h
          exact h

/-- The walk of the validator along a chain found by the flow matcher: it reaches
the merge candidate after visiting a leading part of the chain, without meeting
an absent block. -/
theorem armChain_chainBlocks (g : Graph) (start : Nat) (doElse : Bool) (final : Option Nat) :
    ∀ (ts : List Nat) (tb fuel : Nat), ArmChain g start doElse final ts →
      ts.head? = some tb → ts.length ≤ fuel →
      ∃ bs, chainBlocks g final fuel (some tb) = some bs ∧ bs <+: ts := by
  intro ts
  induction ts with
  | nil => intro tb fuel h; exact absurd h (by simp [ArmChain])
  | cons b rest ih =>
    intro tb fuel h hh hlen
    simp only [List.head?_cons, Option.some.injEq] at hh
    subst hh
    obtain ⟨f, rfl⟩ : ∃ f, fuel = f + 1 := ⟨fuel - 1, by simp at hlen; omega⟩
    by_cases hb : some b = final
    · exact ⟨[], by simp [chainBlocks, hb], List.nil_prefix⟩
    · cases rest with
      | nil =>
        refine ⟨[b], ?_, List.prefix_refl _⟩
        simp only [chainBlocks, hb, if_false]
        rw [h.2, chainBlocks_self]
        rfl
      | cons b1 rest1 =>
        obtain ⟨bs, h1, h2⟩ := ih b1 f h.2.2 rfl (by simp at hlen ⊢; omega)
        refine ⟨b :: bs, ?_, (List.prefix_cons_inj b).mpr h2⟩
        simp only [chainBlocks, hb, if_false]
        rw [h.2.1, h1]
        rfl


/-- The walk from the head of a chain of at most 4 blocks found by the flow matcher
reaches the merge candidate within 4 blocks, and the validator started there
returns under every bound of at least 4 blocks. -/
theorem walk_of_armChain (comp : Compiler) (g : Graph) (start : Nat) (doElse : Bool)
    (final : Option Nat) (ts : List Nat) (tb : Nat)
    (h : ArmChain g start doElse final ts) (hh : ts.head? = some tb) (hlen : ts.length ≤ 4) :
    ∃ bs, chainBlocks g final 4 (some tb) = some bs ∧ bs.length ≤ 4 ∧ bs <+: ts ∧
      ∀ (fuel : Nat), 4 ≤ fuel →
        chainBlocks g final fuel (some tb) = some bs ∧
        ∀ (d : OptIfConversionDsc) (op0 : IfConvertOperation), d.m_finalBlock = final →
          StoresHaveData (chainStmts g bs) →
          ∃ op, IfConvertCheckStmts comp g d fuel (some tb) op0 =
            some (scanFound comp d (chainStmts g bs) false == some true, op) := by
  obtain ⟨bs, h1, h2⟩ := armChain_chainBlocks g start doElse final ts tb 4 h hh hlen
  refine ⟨bs, h1, le_trans h2.length_le hlen, h2, ?_⟩
  intro fuel hfuel
  have hc := chainBlocks_mono g final 4 (some tb) bs h1 fuel hfuel
  refine ⟨hc, ?_⟩
  intro d op0 hd hw
  subst hd
  exact checkStmts_eq_scan comp g d fuel (some tb) op0 bs hc hw

/-- C33: whenever `IfConvertFindFlow` has set `m_flowFound`, the block walk of
`IfConvertCheckStmts` from the false target and, with the else flag set, from the
true target reaches the merge block after at most 4 blocks without meeting an
absent block, and the validator returns (whatever bound of at least 4 blocks
the walk is given), its stores having their value operands. -/
theorem validator_walk_bounded (comp : Compiler) (g : Graph) (d d1 : OptIfConversionDsc)
    (hlim : d.m_checkLimit = 4) (h : IfConvertFindFlow g d = some d1)
    (hf : d1.m_flowFound = true) :
    (∃ bs, chainBlocks g d1.m_finalBlock 4 (g d.m_startBlock).bbFalseTarget = some bs ∧
      bs.length ≤ 4 ∧
      ∀ (fuel : Nat) (op0 : IfConvertOperation), 4 ≤ fuel →
        chainBlocks g d1.m_finalBlock fuel (g d.m_startBlock).bbFalseTarget = some bs ∧
        (StoresHaveData (chainStmts g bs) →
          ∃ op, IfConvertCheckStmts comp g d1 fuel (g d.m_startBlock).bbFalseTarget op0 =
            some (scanFound comp d1 (chainStmts g bs) false == some true, op))) ∧
    (d1.m_doElseConversion = true →
      ∃ bs, chainBlocks g d1.m_finalBlock 4 (g d.m_startBlock).bbTrueTarget = some bs ∧
        bs.length ≤ 4 ∧
        ∀ (fuel : Nat) (op0 thenOp : IfConvertOperation), 4 ≤ fuel →
          chainBlocks g d1.m_finalBlock fuel (g d.m_startBlock).bbTrueTarget = some bs ∧
          (StoresHaveData (chainStmts g bs) →
            ∃ op, IfConvertCheckStmts comp g { d1 with m_thenOperation := thenOp } fuel
                (g d.m_startBlock).bbTrueTarget op0 =
              some (scanFound comp { d1 with m_thenOperation := thenOp } (chainStmts g bs)
                false == some true, op))) := by
  obtain ⟨ts, tb, last, h1, h2, -, h3, h4, -, h5, -⟩ := findFlow_arms g d d1 hlim h hf
  constructor
  · obtain ⟨bs, a1, a2, -, a3⟩ := walk_of_armChain comp g _ _ _ ts tb h4 h2 h3
    rw [h1]
    refine ⟨bs, a1, a2, ?_⟩
    intro fuel op0 hfuel
    exact ⟨(a3 fuel hfuel).1, (a3 fuel hfuel).2 d1 op0 rfl⟩
  · intro hde
    obtain ⟨es, e1, e2, e3, e4⟩ := h5 hde
    cases es with
    | nil => exact absurd rfl e2
    | cons e rest =>
      simp only [List.head?_cons] at e1
      rw [← e1]
      obtain ⟨bs, a1, a2, -, a3⟩ := walk_of_armChain comp g _ _ _ (e :: rest) e e4 rfl e3
      refine ⟨bs, a1, a2, ?_⟩
      intro fuel op0 thenOp hfuel
      exact ⟨(a3 fuel hfuel).1,
        (a3 fuel hfuel).2 { d1 with m_thenOperation := thenOp } op0 rfl⟩

/-- C33 on the store diamond: both walks of the validator visit one block. -/
theorem validator_walk_bounded_witness :
    IfConvertFindFlow exStoreDiamond exDsc = some exDscFound ∧
    (∃ bs, chainBlocks exStoreDiamond exDscFound.m_finalBlock 4
        (exStoreDiamond exDsc.m_startBlock).bbFalseTarget = some bs ∧ bs.length ≤ 4) ∧
    (∃ bs, chainBlocks exStoreDiamond exDscFound.m_finalBlock 4
        (exStoreDiamond exDsc.m_startBlock).bbTrueTarget = some bs ∧ bs.length ≤ 4) :=
  have h := validator_walk_bounded (exComp false) exStoreDiamond exDsc exDscFound (by decide)
    (by decide) (by decide)
  ⟨by decide,
    (let ⟨bs, a, b, _⟩ := h.1; ⟨bs, a, b⟩),
    (let ⟨bs, a, b, _⟩ := h.2 (by decide); ⟨bs, a, b⟩)⟩


/-! ### The kind of the operations -/

/-- The effect on `found` of a statement list the validator passes. -/
theorem stmts_scan_of_next (comp : Compiler) (d : OptIfConversionDsc) (b : Nat) :
    ∀ (ss : List GenTree) (i : Nat) (st st1 : Bool × IfConvertOperation),
      IfConvertCheckStmts.stmts comp d b ss i st = .next st1 →
      scanFound comp d ss st.1 = some st1.1 := by
  intro ss
  induction ss with
  | nil =>
    intro i st st1 h
    simp only [IfConvertCheckStmts.stmts, Step.next.injEq] at h
    subst h
    rfl
  | cons t ts ih =>
    intro i st st1 h
    unfold IfConvertCheckStmts.stmts at h
    cases hstep : IfConvertCheckStmts.stmt comp d b i t st with
    | fault => simp [hstep] at h
    | stop a => simp [hstep] at h
    | next st2 =>
      simp only [hstep] at h
      have hrec := ih (i + 1) st2 st1 h
      rcases stmt_next_cases comp d b i t st st2 hstep with ⟨hn, he⟩ | ⟨he, hst⟩
      · subst he
        unfold scanFound
        simp only [hn, if_true]
        exact hrec
      · have hn := not_nop_of_eligible comp d t he
        have hf : st.1 = false := by
          cases hx : st.1 with
          | false => rfl
          | true =>
            rw [stmt_of_eligible comp d b i t st he] at hstep
            simp [hx] at hstep
        subst hst
        unfold scanFound
        simp only [hn, he, hf, Bool.false_eq_true, if_false, Bool.not_false, Bool.and_self,
          if_true]
        exact hrec

/-- The effect on `found` of the statements of a chain the validator passes. -/
theorem blocks_scan_of_next (comp : Compiler) (g : Graph) (d : OptIfConversionDsc) :
    ∀ (fuel : Nat) (block : Option Nat) (bs : List Nat) (st st1 : Bool × IfConvertOperation),
      chainBlocks g d.m_finalBlock fuel block = some bs →
      IfConvertCheckStmts.blocks comp g d fuel block st = .next st1 →
      scanFound comp d (chainStmts g bs) st.1 = some st1.1 := by
  intro fuel
  induction fuel with
  | zero =>
    intro block bs st st1 hc h
    unfold chainBlocks at hc
    split at hc
    · rename_i heq
      simp only [Option.some.injEq] at hc
      subst hc
      simp only [IfConvertCheckStmts.blocks, heq, if_true, Step.next.injEq] at h
      subst h
      rfl
    · simp at hc
  | succ n ih =>
    intro block bs st st1 hc h
    by_cases hne : block = d.m_finalBlock
    · unfold chainBlocks at hc
      simp only [hne, if_true, Option.some.injEq] at hc
      subst hc
      simp only [IfConvertCheckStmts.blocks, hne, if_true, Step.next.injEq] at h
      subst h
      rfl
    · obtain ⟨b, rest, hb, hbs, hrest⟩ := chainBlocks_succ_some g _ n block bs hc hne
      subst hb hbs
      unfold IfConvertCheckStmts.blocks at h
      simp only [hne, if_false] at h
      cases hx : IfConvertCheckStmts.stmts comp d b (g b).bbStmtList 0 st with
      | fault => simp [hx] at h
      | stop a => simp [hx] at h
      | next st2 =>
        simp only [hx] at h
        simp only [chainStmts]
        rw [scanFound_append, stmts_scan_of_next comp d b _ 0 st st2 hx]
        exact ih _ rest st2 st1 hrest h

/-- A passing run of the validator over a chain: its statements hold exactly one
eligible statement, and the record names it. -/
theorem checkStmts_true_scan (comp : Compiler) (g : Graph) (d : OptIfConversionDsc)
    (fuel : Nat) (fromBlock : Option Nat) (op0 op : IfConvertOperation) (bs : List Nat)
    (hc : chainBlocks g d.m_finalBlock fuel fromBlock = some bs)
    (h : IfConvertCheckStmts comp g d fuel fromBlock op0 = some (true, op)) :
    scanFound comp d (chainStmts g bs) false = some true ∧ GoodRecord comp g d bs op := by
  unfold IfConvertCheckStmts at h
  cases hx : IfConvertCheckStmts.blocks comp g d fuel fromBlock (false, op0) with
  | fault => simp [hx] at h
  | stop a => simp [hx] at h
  | next st1 =>
    obtain ⟨f, op1⟩ := st1
    simp only [hx, Option.some.injEq, Prod.mk.injEq] at h
    obtain ⟨hf, hop⟩ := h
    subst hf hop
    exact ⟨blocks_scan_of_next comp g d fuel fromBlock bs (false, op0) (true, op1) hc hx,
      blocks_record comp g d bs fuel fromBlock bs (false, op0) (true, op1) hc (fun _ hx => hx)
        (fun hx => absurd hx (by simp)) hx rfl⟩

/-- The walk of the validator covers the whole of a chain that does not contain the
merge candidate. -/
theorem armChain_chainBlocks_all (g : Graph) (start : Nat) (doElse : Bool)
    (final : Option Nat) :
    ∀ (ts : List Nat) (tb fuel : Nat), ArmChain g start doElse final ts →
      ts.head? = some tb → ts.length ≤ fuel → (∀ b ∈ ts, some b ≠ final) →
      chainBlocks g final fuel (some tb) = some ts := by
  intro ts
  induction ts with
  | nil => intro tb fuel h; exact absurd h (by simp [ArmChain])
  | cons b rest ih =>
    intro tb fuel h hh hlen hnot
    simp only [List.head?_cons, Option.some.injEq] at hh
    subst hh
    obtain ⟨f, rfl⟩ : ∃ f, fuel = f + 1 := ⟨fuel - 1, by simp at hlen; omega⟩
    have hb : some b ≠ final := hnot b (List.mem_cons_self _ _)
    cases rest with
    | nil =>
      simp only [chainBlocks, hb, if_false]
      rw [h.2, chainBlocks_self]
      rfl
    | cons b1 rest1 =>
      have h1 := ih b1 f h.2.2 rfl (by simp at hlen ⊢; omega)
        (fun x hx => hnot x (List.mem_cons_of_mem _ hx))
      simp only [chainBlocks, hb, if_false]
      rw [h.2.1, h1]
      rfl

/-- Every block of a chain but the last has a unique successor, so is not a return block. -/
theorem armChain_kinds (g : Graph) (start : Nat) (doElse : Bool) (final : Option Nat) :
    ∀ (ts : List Nat) (last : Nat), ArmChain g start doElse final ts →
      ts.getLast? = some last →
      ∀ b ∈ ts, b = last ∨ (g b).KindIs BBJ_RETURN = false := by
  intro ts
  induction ts with
  | nil => intro last h; exact absurd h (by simp [ArmChain])
  | cons b rest ih =>
    intro last h hl x hx
    cases rest with
    | nil =>
      simp only [List.getLast?_singleton, Option.some.injEq] at hl
      simp only [List.mem_singleton] at hx
      exact Or.inl (hx.trans hl)
    | cons b1 rest1 =>
      rw [List.getLast?_cons_cons] at hl
      rcases List.mem_cons.mp hx with rfl | hx1
      · exact Or.inr (kind_of_succ g x b1 h.2.1)
      · exact ih last h.2.2 hl x hx1


/-- An eligible statement is a store to a local or, with the else flag set, a return. -/
theorem eligible_oper (comp : Compiler) (d : OptIfConversionDsc) (t : GenTree)
    (h : isEligible comp d t = true) :
    t.OperGet = GT_STORE_LCL_VAR ∨ (t.OperGet = GT_RETURN ∧ d.m_doElseConversion = true) := by
  unfold isEligible at h
  cases hv : t.gtGetOp1 with
  | none => simp [hv] at h
  | some v =>
    simp only [hv, Bool.and_eq_true, Bool.or_eq_true, beq_iff_eq] at h
    exact h.1.1.1.1.1

/-- C34: on a graph where return statements occur only in return blocks and every
return block ends in a return statement, whenever `optIfConvert` passes the
flow, statement and kind and slot checks, the operator of the Then operation,
and of the Else operation if there is one, is the main operator chosen by the
flow matcher; the main operator is `GT_STORE_LCL_VAR` or `GT_RETURN`, and in the
second case the else flag is set. -/
theorem operation_kind_agrees (comp : Compiler) (g : Graph) (s : Nat)
    (d : OptIfConversionDsc)
    (hret : ∀ b t, t ∈ (g b).bbStmtList → t.OperGet = GT_RETURN →
      (g b).KindIs BBJ_RETURN = true)
    (hlast : ∀ b, (g b).KindIs BBJ_RETURN = true →
      ∃ t, (g b).bbStmtList.getLast? = some t ∧ t.OperGet = GT_RETURN)
    (h : optIfConvert.checks comp g s = some (some d)) :
    ∃ tn, d.m_thenOperation.node = some tn ∧ tn.OperGet = d.m_mainOper ∧
      (d.m_doElseConversion = true →
        ∃ en, d.m_elseOperation.node = some en ∧ en.OperGet = d.m_mainOper) ∧
      (d.m_mainOper = GT_STORE_LCL_VAR ∨ d.m_mainOper = GT_RETURN) ∧
      (d.m_mainOper ≠ GT_STORE_LCL_VAR →
        d.m_mainOper = GT_RETURN ∧ d.m_doElseConversion = true) := by
  obtain ⟨d0, hflow, hval⟩ := checks_flow comp g s d h
  obtain ⟨hs0, hlim0, hff0, -, -, -, -, dI, hsI, hlimI, hfind⟩ := flow_spec g s d0 hflow
  obtain ⟨ts, tb, last, h1, h2, hl, h3, h4, h5, -, -⟩ := findFlow_arms g dI d0 hlimI hfind hff0
  obtain ⟨thenOp, hchk, hno, helse⟩ := validate_spec comp g d0 d hval
  rw [hsI] at h1 h4
  rw [hs0, hlim0, h1] at hchk
  obtain ⟨bs, hcb, hpre⟩ := armChain_chainBlocks g _ _ d0.m_finalBlock ts tb 4 h4 h2 h3
  obtain ⟨hscan, b, i, e, hop, hb, hei, hel⟩ :=
    checkStmts_true_scan comp g d0 4 (some tb) _ thenOp bs hcb hchk
  have hemem : e ∈ (g b).bbStmtList := List.getElem?_mem hei
  have hbts : b ∈ ts := hpre.subset hb
  obtain ⟨hin, hsucc⟩ := armChain_last g _ _ _ ts last h4 hl
  -- the operator of the Then operation, and the main operator
  have hmain : e.OperGet = d0.m_mainOper ∧
      (d0.m_mainOper = GT_STORE_LCL_VAR ∨
        (d0.m_mainOper = GT_RETURN ∧ d0.m_doElseConversion = true)) := by
    cases hk : (g last).KindIs BBJ_RETURN with
    | false =>
      rw [hk] at h5
      simp only [Bool.false_eq_true, if_false] at h5
      refine ⟨?_, Or.inl h5⟩
      rw [h5]
      rcases eligible_oper comp d0 e hel with ho | ⟨ho, -⟩
      · exact ho
      · exfalso
        have hbk := hret b e hemem ho
        rcases armChain_kinds g _ _ _ ts last h4 hl b hbts with hbl | hbl
        · rw [hbl, hk] at hbk; exact absurd hbk (by simp)
        · rw [hbl] at hbk; exact absurd hbk (by simp)
    | true =>
      rw [hk] at h5
      simp only [if_true] at h5
      have hnone : (g last).GetUniqueSucc = none := succ_none_of_return g last hk
      have hfin : d0.m_finalBlock = none := by rw [← hsucc]; exact hnone
      have hde : d0.m_doElseConversion = true := by
        simp only [innerFlowOk, hnone, hk] at hin
        have hin1 := hin
        simp only [bne_self_eq_false, Bool.false_or, Bool.and_true, Bool.and_eq_true] at hin1
        exact hin1.1.1
      refine ⟨?_, Or.inr ⟨h5, hde⟩⟩
      rw [h5]
      have hall := armChain_chainBlocks_all g _ _ d0.m_finalBlock ts tb 4 h4 h2 h3
        (fun x _ => by rw [hfin]; simp)
      rw [hcb] at hall
      have hbs : bs = ts := Option.some.inj hall
      subst hbs
      obtain ⟨r, hr1, hr2⟩ := hlast last hk
      have hlmem : last ∈ bs := List.mem_of_getLast?_eq_some hl
      have hrmem : r ∈ chainStmts g bs :=
        mem_chainStmts g bs last r hlmem (List.mem_of_getLast?_eq_some hr1)
      have hemem1 : e ∈ chainStmts g bs := mem_chainStmts g bs b e hb hemem
      obtain ⟨pre, e1, post, q1, q2, q3, q4⟩ := (scanFound_false_iff comp d0 _).mp hscan
      have harm : ArmOp comp d0 (chainStmts g bs) e1 := ⟨pre, post, q1, q2, q3, q4⟩
      have hrn : isNop r = false := by simp [isNop, hr2]
      have he1 := armOp_unique comp d0 _ e1 e harm hemem1 (not_nop_of_eligible comp d0 e hel)
      have hr3 := armOp_unique comp d0 _ e1 r harm hrmem hrn
      rw [he1, ← hr3]
      exact hr2
  have hnode : thenOp.node = some e := by rw [hop]
  cases hde : d0.m_doElseConversion with
  | false =>
    have hd := hno hde
    subst hd
    refine ⟨e, hnode, hmain.1, ?_, ?_, ?_⟩
    · intro hx
      simp only at hx
      rw [hde] at hx
      exact absurd hx (by simp)
    · rcases hmain.2 with hm | hm
      · exact Or.inl hm
      · exact Or.inr hm.1
    · intro hx
      rcases hmain.2 with hm | hm
      · exact absurd hm hx
      · exact hm
  | true =>
    obtain ⟨elseOp, tn, en, -, ht, hen, hsame, -, hd⟩ := helse hde
    subst hd
    rw [hnode] at ht
    have hte : e = tn := Option.some.inj ht
    subst hte
    refine ⟨e, hnode, hmain.1, ?_, ?_, ?_⟩
    · intro _
      exact ⟨en, hen, by rw [← hsame]; exact hmain.1⟩
    · rcases hmain.2 with hm | hm
      · exact Or.inl hm
      · exact Or.inr hm.1
    · intro hx
      rcases hmain.2 with hm | hm
      · exact absurd hm hx
      · exact hm


/-- In scenario C return statements occur only in return blocks. -/
theorem exScenarioC_returns (b : Nat) (t : GenTree) (ht : t ∈ (exScenarioC b).bbStmtList)
    (hr : t.OperGet = GT_RETURN) : (exScenarioC b).KindIs BBJ_RETURN = true := by
  rcases b with _ | _ | _ | b
  · simp only [exScenarioC, exBlock, List.mem_singleton] at ht
    subst ht
    exact absurd hr (by decide)
  · rfl
  · rfl
  · simp [exScenarioC] at ht
    exact absurd ht (List.not_mem_nil t)

/-- In scenario C every return block ends in a return statement. -/
theorem exScenarioC_return_blocks (b : Nat) (hk : (exScenarioC b).KindIs BBJ_RETURN = true) :
    ∃ t, (exScenarioC b).bbStmtList.getLast? = some t ∧ t.OperGet = GT_RETURN := by
  rcases b with _ | _ | _ | b
  · exact absurd hk (by decide)
  · exact ⟨_, rfl, rfl⟩
  · exact ⟨_, rfl, rfl⟩
  · have hd : exScenarioC (b + 1 + 1 + 1) = default := rfl
    rw [hd] at hk
    exact absurd hk (by decide)

/-- C34 on scenario C: both operations are returns, as is the main operator. -/
theorem operation_kind_agrees_witness :
    optIfConvert.checks (exComp false) exScenarioC 0 = some (some exDscC) ∧
    exDscC.m_mainOper = GT_RETURN ∧
    ∃ tn, exDscC.m_thenOperation.node = some tn ∧ tn.OperGet = exDscC.m_mainOper ∧
      (exDscC.m_doElseConversion = true →
        ∃ en, exDscC.m_elseOperation.node = some en ∧ en.OperGet = exDscC.m_mainOper) ∧
      (exDscC.m_mainOper = GT_STORE_LCL_VAR ∨ exDscC.m_mainOper = GT_RETURN) ∧
      (exDscC.m_mainOper ≠ GT_STORE_LCL_VAR →
        exDscC.m_mainOper = GT_RETURN ∧ exDscC.m_doElseConversion = true) :=
  ⟨exScenarioC_checks (exComp false), rfl,
    operation_kind_agrees (exComp false) exScenarioC 0 exDscC exScenarioC_returns
      exScenarioC_return_blocks (exScenarioC_checks (exComp false))⟩


/-! ### Aborts of the with-else search -/

/-- A Then walk that reports an invalid combination leaves `m_flowFound` false. -/
theorem checkThen_false (g : Graph) (d d2 : OptIfConversionDsc)
    (h : IfConvertCheckThenFlow g d = some (false, d2)) :
    d2 = { d with m_flowFound := false } := by
  unfold IfConvertCheckThenFlow at h
  cases hft : (g d.m_startBlock).bbFalseTarget with
  | none => simp [hft] at h
  | some tb =>
    simp only [hft, Option.some.injEq] at h
    rcases thenLoop_frame g { d with m_flowFound := false } d.m_checkLimit tb with h1 | ⟨k, h1⟩
    · rw [h] at h1
      exact h1
    · rw [h] at h1
      simp at h1

/-- C31: an iteration of the with-else search of `IfConvertFindFlow`, entered as
always with `m_flowFound` false, ends the search at once with `m_flowFound`
false when the merge candidate is absent, when it fails
`IfConvertCheckInnerBlockFlow` as the next Else block, or when the Then walk
reports an invalid combination; the search is started, and goes on to a further
iteration, only with `m_flowFound` false. -/
theorem elseHead_aborts (g : Graph) (n : Nat) (d : OptIfConversionDsc)
    (hff : d.m_flowFound = false) :
    (d.m_finalBlock = none →
      ∃ r, IfConvertFindFlow.loop g (n + 1) d = some r ∧ r = d ∧ r.m_flowFound = false) ∧
    (∀ e, d.m_finalBlock = some e → IfConvertCheckInnerBlockFlow g d e = false →
      ∃ r, IfConvertFindFlow.loop g (n + 1) d = some r ∧ r = d ∧ r.m_flowFound = false) ∧
    (∀ e d2, d.m_finalBlock = some e → IfConvertCheckInnerBlockFlow g d e = true →
      IfConvertCheckThenFlow g { d with m_finalBlock := (g e).GetUniqueSucc } =
        some (false, d2) →
      IfConvertFindFlow.loop g (n + 1) d = some d2 ∧ d2.m_flowFound = false) ∧
    (∀ e d2, d.m_finalBlock = some e → IfConvertCheckInnerBlockFlow g d e = true →
      IfConvertCheckThenFlow g { d with m_finalBlock := (g e).GetUniqueSucc } =
        some (true, d2) →
      (d2.m_flowFound = true → IfConvertFindFlow.loop g (n + 1) d = some d2) ∧
      (d2.m_flowFound = false →
        IfConvertFindFlow.loop g (n + 1) d = IfConvertFindFlow.loop g n d2)) ∧
    (∀ d0 ok d1,
      IfConvertCheckThenFlow g { d0 with
        m_doElseConversion := false
        m_finalBlock := (g d0.m_startBlock).bbTrueTarget } = some (ok, d1) →
      (ok = false ∨ d1.m_flowFound = true → IfConvertFindFlow g d0 = some d1) ∧
      (ok = true → d1.m_flowFound = false →
        IfConvertFindFlow g d0 =
          IfConvertFindFlow.loop g d1.m_checkLimit { d1 with m_doElseConversion := true })) := by
  refine ⟨?_, ?_, ?_, ?_, ?_⟩
  · intro hfin
    exact ⟨d, by unfold IfConvertFindFlow.loop; simp [hfin], rfl, hff⟩
  · intro e hfin hin
    exact ⟨d, by unfold IfConvertFindFlow.loop; simp [hfin, hin], rfl, hff⟩
  · intro e d2 hfin hin hct
    have hd2 := checkThen_false g _ d2 hct
    refine ⟨?_, by rw [hd2]⟩
    unfold IfConvertFindFlow.loop
    simp [hfin, hin, hct]
  · intro e d2 hfin hin hct
    constructor
    · intro hf2
      unfold IfConvertFindFlow.loop
      simp [hfin, hin, hct, hf2]
    · intro hf2
      conv_lhs => unfold IfConvertFindFlow.loop
      simp [hfin, hin, hct, hf2]
  · intro d0 ok d1 hct
    constructor
    · intro hstop
      unfold IfConvertFindFlow
      rcases hstop with hs | hs <;> simp [hct, hs]
    · intro hok hf1
      unfold IfConvertFindFlow
      simp [hct, hok, hf1]

/-- C31 on `exReturnElse2`: in the first iteration of the with-else search the Then
walk meets the return block 1 while the merge candidate is block 3, and the
search ends with `m_flowFound` false. -/
theorem elseHead_aborts_witness :
    exDscElseSearch.m_flowFound = false ∧
    IfConvertFindFlow exReturnElse2 exDsc = IfConvertFindFlow.loop exReturnElse2 4 exDscElseSearch ∧
    IfConvertFindFlow.loop exReturnElse2 4 exDscElseSearch =
      some { exDscElseSearch with m_finalBlock := some 3 } ∧
    ({ exDscElseSearch with m_finalBlock := some 3 } : OptIfConversionDsc).m_flowFound = false :=
  have h := elseHead_aborts exReturnElse2 3 exDscElseSearch rfl
  ⟨rfl, (h.2.2.2.2 exDsc true { exDscElseSearch with m_doElseConversion := false }
      (by decide)).2 rfl rfl,
    h.2.2.1 2 { exDscElseSearch with m_finalBlock := some 3 } rfl (by decide) (by decide)⟩


/-! ### The source of the reachability query -/

/-- A found flow has main operator `GT_RETURN` and no merge block, or main operator
`GT_STORE_LCL_VAR` and a merge block. -/
theorem mainOper_final (g : Graph) (d d1 : OptIfConversionDsc)
    (hlim : d.m_checkLimit = 4) (h : IfConvertFindFlow g d = some d1)
    (hf : d1.m_flowFound = true) :
    (d1.m_mainOper = GT_RETURN ∧ d1.m_finalBlock = none) ∨
    (d1.m_mainOper = GT_STORE_LCL_VAR ∧ ∃ M, d1.m_finalBlock = some M) := by
  obtain ⟨ts, tb, last, -, -, hl, -, h4, h5, -, -⟩ := findFlow_arms g d d1 hlim h hf
  obtain ⟨hin, hsucc⟩ := armChain_last g _ _ _ ts last h4 hl
  cases hk : (g last).KindIs BBJ_RETURN with
  | true =>
    rw [hk] at h5
    exact Or.inl ⟨by simpa using h5, by rw [← hsucc]; exact succ_none_of_return g last hk⟩
  | false =>
    rw [hk] at h5
    refine Or.inr ⟨by simpa using h5, ?_⟩
    have hn := succ_some_of_inner g _ _ last hin hk
    rw [hsucc] at hn
    cases hx : d1.m_finalBlock with
    | none => exact absurd hx hn
    | some M => exact ⟨M, rfl⟩

/-- The statement validator leaves the start block, the merge block, the main
operator and the else flag as the flow matcher set them. -/
theorem validate_frame (comp : Compiler) (g : Graph) (d d1 : OptIfConversionDsc)
    (h : optIfConvert.validate comp g d = some (some d1)) :
    d1.m_startBlock = d.m_startBlock ∧ d1.m_finalBlock = d.m_finalBlock ∧
      d1.m_mainOper = d.m_mainOper ∧ d1.m_doElseConversion = d.m_doElseConversion := by
  obtain ⟨thenOp, -, hno, helse⟩ := validate_spec comp g d d1 h
  cases hde : d.m_doElseConversion with
  | false =>
    rw [hno hde]
    exact ⟨rfl, rfl, rfl, hde⟩
  | true =>
    obtain ⟨elseOp, tn, en, -, -, -, -, -, hd⟩ := helse hde
    rw [hd]
    exact ⟨rfl, rfl, rfl, hde⟩

/-- C35, as stated, fails on scenario C, a diamond of returns: the attempt passes
the checks and the cost gate with the stress mode off and the weight below the
limit, its merge block is absent, and the reachability query is made with that
absent block as its source: a host that answers true exactly for an absent
source makes the attempt return false, one that answers false lets it convert. -/
theorem reachabilitySource_counterexample :
    optIfConvert.checks (exComp false) exScenarioC 0 = some (some exDscC) ∧
    optIfConvert.costOk (exComp false) exDscC = some true ∧
    (exComp false).stressInnerLoops = false ∧
    ¬ (exScenarioC exDscC.m_startBlock).bbWeight > loopWeightLimit ∧
    exDscC.m_finalBlock = none ∧
    optIfConvert.loopOk exCompNullQuery exScenarioC exDscC = false ∧
    optIfConvert exCompNullQuery exScenarioC 0 = some (false, exScenarioC) ∧
    optIfConvert (exComp false) exScenarioC 0 = some (true, exScenarioCConverted) :=
  ⟨exScenarioC_checks (exComp false), by decide, rfl, by decide, rfl, by decide, rfl,
    exScenarioC_converts⟩

/-- C35, amended: on every path through `optIfConvert` that reaches the
reachability query (checks and cost gate passed, stress mode off, weight at or
below the limit) the query's source is the merge block of the attempt, which is
present exactly when the main operator is `GT_STORE_LCL_VAR` and absent when it
is `GT_RETURN`, the case of a diamond of returns; the answer decides the gate. -/
theorem reachabilitySource (comp : Compiler) (g : Graph) (s : Nat) (d : OptIfConversionDsc)
    (hchecks : optIfConvert.checks comp g s = some (some d))
    (hstress : comp.stressInnerLoops = false)
    (hweight : ¬ (g d.m_startBlock).bbWeight > loopWeightLimit) :
    optIfConvert.loopOk comp g d = !comp.optReachable g d.m_finalBlock d.m_startBlock ∧
    ((d.m_mainOper = GT_STORE_LCL_VAR ∧ ∃ M, d.m_finalBlock = some M) ∨
      (d.m_mainOper = GT_RETURN ∧ d.m_finalBlock = none)) := by
  constructor
  · unfold optIfConvert.loopOk
    simp only [hstress, Bool.not_false, if_true, hweight, if_false]
    cases comp.optReachable g d.m_finalBlock d.m_startBlock <;> rfl
  · obtain ⟨d0, hflow, hval⟩ := checks_flow comp g s d hchecks
    obtain ⟨-, -, hff0, -, -, -, -, dI, -, hlimI, hfind⟩ := flow_spec g s d0 hflow
    obtain ⟨-, hfin, hmain, -⟩ := validate_frame comp g d0 d hval
    rw [hfin, hmain]
    rcases mainOper_final g dI d0 hlimI hfind hff0 with hr | hr
    · exact Or.inr hr
    · exact Or.inl hr

/-- C35, amended, on the store diamond: the query's source is merge block 3. -/
theorem reachabilitySource_witness :
    optIfConvert.checks (exComp false) exStoreDiamond 0 = some (some exDscChecked) ∧
    optIfConvert.loopOk (exComp false) exStoreDiamond exDscChecked =
      !(exComp false).optReachable exStoreDiamond exDscChecked.m_finalBlock
        exDscChecked.m_startBlock ∧
    ((exDscChecked.m_mainOper = GT_STORE_LCL_VAR ∧ ∃ M, exDscChecked.m_finalBlock = some M) ∨
      (exDscChecked.m_mainOper = GT_RETURN ∧ exDscChecked.m_finalBlock = none)) :=
  ⟨by decide,
    reachabilitySource (exComp false) exStoreDiamond 0 exDscChecked (by decide) rfl
      (by decide)⟩


/-! ### Arithmetic of the constant-pair patterns -/

theorem log2_eq_of_bounds (n k : Nat) (h1 : 2 ^ k ≤ n) (h2 : n < 2 ^ (k + 1)) :
    Nat.log2 n = k := by
  rw [Nat.log2_eq_log_two]
  exact Nat.log_eq_of_pow_le_of_lt_pow h1 h2

theorem log2_lt_of_lt (n k : Nat) (hk : 0 < k) (h : n < 2 ^ k) : Nat.log2 n < k := by
  by_cases hn : n = 0
  · subst hn
    have h0 : Nat.log2 0 = 0 := by simp [Nat.log2]
    omega
  · exact (Nat.log2_lt hn).mpr h

theorem Log2_lt_64 (x : Int) : Log2 (x % 2 ^ 64) < 64 := by
  unfold Log2
  apply log2_lt_of_lt _ 64 (by decide)
  omega

theorem Log2_lt_32 (x : Int) : Log2 (x % 2 ^ 32) < 32 := by
  unfold Log2
  apply log2_lt_of_lt _ 32 (by decide)
  omega

theorem wrapBits_64 (x : Int) : wrapBits 64 x = wrap64 x := rfl

theorem wrapBits_32 (x : Int) : wrapBits 32 x = wrap32 x := rfl

theorem typeBits_long : typeBits TYP_LONG = 64 := rfl

theorem typeBits_int : typeBits TYP_INT = 32 := rfl

theorem wrap64_one : wrap64 1 = 1 := by decide

theorem wrap32_one : wrap32 1 = 1 := by decide

/-- The value of `oper(falseVal, condition)` for each pattern without a bit index,
on constants of the signed 32-bit range. -/
theorem pattern_values (t f : Int) (hf1 : -2 ^ 31 ≤ f) (hf2 : f < 2 ^ 31) :
    (t = wrap64 (f + 1) →
      evalBinop GT_ADD TYP_LONG f 1 = some t ∧ evalBinop GT_ADD TYP_LONG f 0 = some f) ∧
    (t = wrap32 (wrap32 f + 1) →
      evalBinop GT_ADD TYP_INT f 1 = some t ∧ evalBinop GT_ADD TYP_INT f 0 = some f) ∧
    (t = wrap64 (f * 2) →
      evalBinop GT_LSH TYP_LONG f 1 = some t ∧ evalBinop GT_LSH TYP_LONG f 0 = some f) ∧
    (t = wrap32 (wrap32 f * 2) →
      evalBinop GT_LSH TYP_INT f 1 = some t ∧ evalBinop GT_LSH TYP_INT f 0 = some f) ∧
    (t = f / 2 →
      evalBinop GT_RSH TYP_LONG f 1 = some t ∧ evalBinop GT_RSH TYP_LONG f 0 = some f) ∧
    (t = wrap32 f / 2 →
      evalBinop GT_RSH TYP_INT f 1 = some t ∧ evalBinop GT_RSH TYP_INT f 0 = some f) ∧
    (t = wrap64 (f % 2 ^ 64 / 2) →
      evalBinop GT_RSZ TYP_LONG f 1 = some t ∧ evalBinop GT_RSZ TYP_LONG f 0 = some f) ∧
    (t = f % 2 ^ 32 / 2 →
      evalBinop GT_RSZ TYP_INT f 1 = some t ∧ evalBinop GT_RSZ TYP_INT f 0 = some f) := by
  have w64 : wrap64 f = f := by unfold wrap64; omega
  have w32 : wrap32 f = f := by unfold wrap32; omega
  refine ⟨?_, ?_, ?_, ?_, ?_, ?_, ?_, ?_⟩ <;> intro h <;>
    simp only [evalBinop, typeBits_long, typeBits_int, wrapBits_64, wrapBits_32, toUnsigned] <;>
    norm_num <;> refine ⟨?_, ?_⟩ <;>
    first
    | exact w64
    | exact w32
    | (rw [h, w32])
    | (rw [h]; unfold wrap64; omega)
    | (rw [h]; unfold wrap32; omega)
    | (unfold wrap64; omega)
    | (unfold wrap32; omega)
    | (rw [h])

/-- The value of `LSH(condition, bitIndex)` for the two power-of-two patterns. -/
theorem bitIndex_values (t : Int) :
    (t = wrap64 (2 ^ Log2 (t % 2 ^ 64)) →
      evalBinop GT_LSH TYP_LONG 1 (Log2 (t % 2 ^ 64) : Nat) = some t ∧
        evalBinop GT_LSH TYP_LONG 0 (Log2 (t % 2 ^ 64) : Nat) = some 0) ∧
    (t = wrap32 (2 ^ Log2 (t % 2 ^ 32)) →
      evalBinop GT_LSH TYP_INT 1 (Log2 (t % 2 ^ 32) : Nat) = some t ∧
        evalBinop GT_LSH TYP_INT 0 (Log2 (t % 2 ^ 32) : Nat) = some 0) := by
  constructor
  · intro h
    have hk := Log2_lt_64 t
    generalize Log2 (t % 2 ^ 64) = k at h hk
    have hsh : ((k : Int) % 2 ^ 64).toNat % 64 = k := by omega
    simp only [evalBinop, typeBits_long, wrapBits_64, toUnsigned, hsh, one_mul, zero_mul]
    exact ⟨by rw [← h], by decide⟩
  · intro h
    have hk := Log2_lt_32 t
    generalize Log2 (t % 2 ^ 32) = k at h hk
    have hsh : ((k : Int) % 2 ^ 32).toNat % 32 = k := by omega
    simp only [evalBinop, typeBits_int, wrapBits_32, toUnsigned, hsh, one_mul, zero_mul]
    exact ⟨by rw [← h], by decide⟩

/-- For constants of the signed 32-bit range every match of
`MatchIntConstSelectValues` builds the value of the select. -/
theorem match_value (t f : Int) (hf1 : -2 ^ 31 ≤ f) (hf2 : f < 2 ^ 31)
    (hm : (MatchIntConstSelectValues t f).isMatched = true) :
    BuildsValue (MatchIntConstSelectValues t f) t f := by
  obtain ⟨p1, p2, p5, p6, p7, p8, p9, p10⟩ := pattern_values t f hf1 hf2
  obtain ⟨p3, p4⟩ := bitIndex_values t
  unfold MatchIntConstSelectValues at hm ⊢
  by_cases h1 : t = wrap64 (f + 1)
  · simp only [if_pos h1, BuildsValue]
    exact p1 h1
  simp only [if_neg h1] at hm ⊢
  by_cases h2 : t = wrap32 (wrap32 f + 1)
  · simp only [if_pos h2, BuildsValue]
    exact p2 h2
  simp only [if_neg h2] at hm ⊢
  by_cases h3 : f = 0 ∧ t = wrap64 (2 ^ Log2 (t % 2 ^ 64))
  · simp only [if_pos h3, BuildsValue]
    have hk : Log2 (t % 2 ^ 64) > 0 := by
      rcases Nat.eq_zero_or_pos (Log2 (t % 2 ^ 64)) with h0 | h0
      · exfalso
        apply h1
        rw [h3.1, h3.2, h0]
        decide
      · exact h0
    simp only [hk, if_true]
    rw [h3.1]
    exact p3 h3.2
  simp only [if_neg h3] at hm ⊢
  by_cases h4 : f = 0 ∧ t = wrap32 (2 ^ Log2 (t % 2 ^ 32))
  · simp only [if_pos h4, BuildsValue]
    have hk : Log2 (t % 2 ^ 32) > 0 := by
      rcases Nat.eq_zero_or_pos (Log2 (t % 2 ^ 32)) with h0 | h0
      · exfalso
        apply h1
        rw [h4.1, h4.2, h0]
        decide
      · exact h0
    simp only [hk, if_true]
    rw [h4.1]
    exact p4 h4.2
  simp only [if_neg h4] at hm ⊢
  by_cases h5 : t = wrap64 (f * 2)
  · simp only [if_pos h5, BuildsValue]
    exact p5 h5
  simp only [if_neg h5] at hm ⊢
  by_cases h6 : t = wrap32 (wrap32 f * 2)
  · simp only [if_pos h6, BuildsValue]
    exact p6 h6
  simp only [if_neg h6] at hm ⊢
  by_cases h7 : t = f / 2
  · simp only [if_pos h7, BuildsValue]
    exact p7 h7
  simp only [if_neg h7] at hm ⊢
  by_cases h8 : t = wrap32 f / 2
  · simp only [if_pos h8, BuildsValue]
    exact p8 h8
  simp only [if_neg h8] at hm ⊢
  by_cases h9 : t = wrap64 (f % 2 ^ 64 / 2)
  · simp only [if_pos h9, BuildsValue]
    exact p9 h9
  simp only [if_neg h9] at hm ⊢
  by_cases h10 : t = f % 2 ^ 32 / 2
  · simp only [if_pos h10, BuildsValue]
    exact p10 h10
  simp only [if_neg h10] at hm
  exact absurd hm (by decide)

/-- The value of an integer constant whose value has been replaced. -/
theorem eval_setIntegralValue (env : Env) (t : GenTree) (v k : Int)
    (hc : t.IsIntegralConst = true) (h : eval env t = some v) :
    eval env (t.SetIntegralValue k) = some k := by
  cases t with
  | leaf o ty f n x =>
    simp only [GenTree.IsIntegralConst, GenTree.OperGet, beq_iff_eq] at hc
    subst hc
    rfl
  | unary o ty f n a => simp [eval] at h
  | binary o ty f a b =>
    simp only [GenTree.IsIntegralConst, GenTree.OperGet, beq_iff_eq] at hc
    subst hc
    simp only [eval] at h
    cases ha : eval env a <;> cases hb : eval env b <;> simp [ha, hb, evalBinop] at h
  | ternary o ty f c a b =>
    simp only [GenTree.IsIntegralConst, GenTree.OperGet, beq_iff_eq] at hc
    subst hc
    simp [eval] at h

/-- The value of a node built by `gtNewOperNode`. -/
theorem eval_newOperNode (env : Env) (o : genTreeOps) (ty : var_types) (a b : GenTree)
    (x y : Int) (ha : eval env a = some x) (hb : eval env b = some y) :
    eval env (gtNewOperNode o ty a b) = evalBinop o ty x y := by
  simp [gtNewOperNode, eval, ha, hb]

/-- The value of the expression built from a match, for a condition of value 0 or 1. -/
theorem built_value (env : Env) (m : IntConstSelectOper) (left right : GenTree)
    (tv fv cv : Int) (hb : BuildsValue m tv fv) (hl : left.IsIntegralConst = true)
    (hlv : eval env left = some fv) (hr : eval env right = some cv) (hc : cv = 0 ∨ cv = 1)
    (r : GenTree)
    (h : (if m.bitIndex > 0 then
        some (some (gtNewOperNode m.oper m.type right (left.SetIntegralValue m.bitIndex)))
      else some (some (gtNewOperNode m.oper m.type left right))) = some (some r)) :
    eval env r = some (if cv ≠ 0 then tv else fv) := by
  unfold BuildsValue at hb
  by_cases hk : m.bitIndex > 0
  · simp only [hk, if_true, Option.some.injEq] at h hb
    subst h
    rw [eval_newOperNode env _ _ _ _ cv m.bitIndex hr
      (eval_setIntegralValue env left fv _ hl hlv)]
    rcases hc with hc | hc <;> subst hc
    · simpa using hb.2
    · simpa using hb.1
  · simp only [hk, if_false, Option.some.injEq] at h hb
    subst h
    rw [eval_newOperNode env _ _ _ _ fv cv hlv hr]
    rcases hc with hc | hc <;> subst hc
    · simpa using hb.2
    · simpa using hb.1

/-- C37: for integer constants that both lie in the signed 32-bit range, every
expression `TryTransformSelectToOrdinaryOps` returns for the pair (the
condition or its reverse for 1/0 and 0/1, and otherwise the expression built from
a match of `MatchIntConstSelectValues` in either order) evaluates to the true
constant when the condition is 1 and to the false constant when it is 0; on
RISC-V 64 an expression is returned whenever the pair matches in either order. -/
theorem constPair_value (comp : Compiler) (d : OptIfConversionDsc) (ti fi : GenTree)
    (hc1 : ti.IsIntegralConst = true) (hc2 : fi.IsIntegralConst = true)
    (ht1 : -2 ^ 31 ≤ ti.IntegralValue) (ht2 : ti.IntegralValue < 2 ^ 31)
    (hf1 : -2 ^ 31 ≤ fi.IntegralValue) (hf2 : fi.IntegralValue < 2 ^ 31) :
    (comp.TARGET_RISCV64 = true →
      ((MatchIntConstSelectValues ti.IntegralValue fi.IntegralValue).isMatched = true ∨
        (MatchIntConstSelectValues fi.IntegralValue ti.IntegralValue).isMatched = true) →
      ∃ r, TryTransformSelectToOrdinaryOps comp d (some ti) fi = some (some r)) ∧
    (∀ (r : GenTree) (env : Env) (cv vt vf : Int),
      TryTransformSelectToOrdinaryOps comp d (some ti) fi = some (some r) →
      OperIsCompare d.m_cond.OperGet = true → eval env d.m_cond = some cv →
      eval env ti = some vt → eval env fi = some vf →
      vt = ti.IntegralValue ∧ vf = fi.IntegralValue ∧
        eval env r = some (if cv ≠ 0 then vt else vf)) := by
  constructor
  · intro hr hm
    unfold TryTransformSelectToOrdinaryOps
    simp only [hc1, hc2, Bool.and_self, if_true, hr]
    split_ifs <;> first | exact ⟨_, rfl⟩ | simp_all
  · intro r env cv vt vf h hcmp hcv hvt hvf
    obtain ⟨hc01, hrev⟩ := eval_compare env d.m_cond cv hcmp hcv
    have evt := eval_intConst env ti vt hc1 hvt
    have evf := eval_intConst env fi vf hc2 hvf
    refine ⟨evt, evf, ?_⟩
    subst evt evf
    unfold TryTransformSelectToOrdinaryOps at h
    simp only [hc1, hc2, Bool.and_self, if_true] at h
    by_cases hb1 : (ti.TypeIs TYP_INT && fi.TypeIs TYP_INT && ti.IntegralValue == 1 &&
        fi.IntegralValue == 0) = true
    · simp only [hb1, if_true, Option.some.injEq] at h
      subst h
      simp only [Bool.and_eq_true, beq_iff_eq] at hb1
      rw [hcv, hb1.1.2, hb1.2]
      rcases hc01 with hc | hc <;> subst hc <;> simp
    simp only [hb1, Bool.false_eq_true, if_false] at h
    by_cases hb2 : (ti.TypeIs TYP_INT && fi.TypeIs TYP_INT && ti.IntegralValue == 0 &&
        fi.IntegralValue == 1) = true
    · simp only [hb2, if_true, Option.some.injEq] at h
      subst h
      simp only [Bool.and_eq_true, beq_iff_eq] at hb2
      rw [hrev, hb2.1.2, hb2.2]
      rcases hc01 with hc | hc <;> subst hc <;> simp
    simp only [hb2, Bool.false_eq_true, if_false] at h
    by_cases hr : comp.TARGET_RISCV64 = true
    · simp only [hr, if_true] at h
      by_cases hm : (MatchIntConstSelectValues ti.IntegralValue fi.IntegralValue).isMatched = true
      · simp only [hm, Bool.not_true, Bool.false_eq_true, if_false, if_true] at h
        exact built_value env _ fi d.m_cond _ _ cv
          (match_value _ _ hf1 hf2 hm) hc2 hvf hcv hc01 r h
      · simp only [hm, Bool.not_false, if_true] at h
        by_cases hm2 :
            (MatchIntConstSelectValues fi.IntegralValue ti.IntegralValue).isMatched = true
        · simp only [hm2, if_true] at h
          have hc01r : (if cv = 0 then (1 : Int) else 0) = 0 ∨
              (if cv = 0 then (1 : Int) else 0) = 1 := by
            rcases hc01 with hc | hc <;> subst hc <;> simp
          have hv := built_value env _ ti (gtReverseCond d.m_cond) _ _ _
            (match_value _ _ ht1 ht2 hm2) hc1 hvt hrev hc01r r h
          rw [hv]
          rcases hc01 with hc | hc <;> subst hc <;> simp
        · simp [hm2] at h
    · simp [hr] at h

/-- C37 on the pair (6, 5) of the RISC-V 64 build: the match is a 64-bit `ADD`, and
`ADD(5, cond)` is 6 when the condition is 1 and 5 when it is 0. -/
theorem constPair_value_witness :
    TryTransformSelectToOrdinaryOps (exComp true) exDsc (some (exCns TYP_INT 6))
        (exCns TYP_INT 5)
      = some (some (.binary GT_ADD TYP_LONG 0 (exCns TYP_INT 5) exCond)) ∧
    eval (fun _ => 7) exCond = some 1 ∧
    eval (fun _ => 7) (.binary GT_ADD TYP_LONG 0 (exCns TYP_INT 5) exCond) = some 6 ∧
    eval (fun _ => 0) exCond = some 0 ∧
    eval (fun _ => 0) (.binary GT_ADD TYP_LONG 0 (exCns TYP_INT 5) exCond) = some 5 :=
  have h := (constPair_value (exComp true) exDsc (exCns TYP_INT 6) (exCns TYP_INT 5) rfl rfl
    (by decide) (by decide) (by decide) (by decide)).2
  ⟨by decide, by decide,
    by simpa using (h _ (fun _ => 7) 1 6 5 (by decide) (by decide) (by decide) rfl rfl).2.2,
    by decide,
    by simpa using (h _ (fun _ => 0) 0 6 5 (by decide) (by decide) (by decide) rfl rfl).2.2⟩

/-! ### The bit index of a match -/

/-- The shapes of a result of `MatchIntConstSelectValues`: one of the two
power-of-two patterns, with their bit index, or a result with bit index 0. -/
theorem match_cases (t f : Int) :
    (MatchIntConstSelectValues t f =
        { oper := GT_LSH, type := TYP_LONG, bitIndex := Log2 (t % 2 ^ 64) } ∧
      f = 0 ∧ t = wrap64 (2 ^ Log2 (t % 2 ^ 64)) ∧ t ≠ wrap64 (f + 1)) ∨
    (MatchIntConstSelectValues t f =
        { oper := GT_LSH, type := TYP_INT, bitIndex := Log2 (t % 2 ^ 32) } ∧
      f = 0 ∧ t = wrap32 (2 ^ Log2 (t % 2 ^ 32)) ∧ t ≠ wrap64 (f + 1)) ∨
    ((MatchIntConstSelectValues t f).bitIndex = 0 ∧
      (t = wrap64 (f + 1) ∨ t = wrap32 (wrap32 f + 1) ∨
        ¬ (f = 0 ∧ t = wrap64 (2 ^ Log2 (t % 2 ^ 64))) ∧
          ¬ (f = 0 ∧ t = wrap32 (2 ^ Log2 (t % 2 ^ 32))))) := by
  unfold MatchIntConstSelectValues
  by_cases h1 : t = wrap64 (f + 1)
  · rw [if_pos h1]
    exact Or.inr (Or.inr ⟨rfl, Or.inl h1⟩)
  rw [if_neg h1]
  by_cases h2 : t = wrap32 (wrap32 f + 1)
  · rw [if_pos h2]
    exact Or.inr (Or.inr ⟨rfl, Or.inr (Or.inl h2)⟩)
  rw [if_neg h2]
  by_cases h3 : f = 0 ∧ t = wrap64 (2 ^ Log2 (t % 2 ^ 64))
  · rw [if_pos h3]
    exact Or.inl ⟨rfl, h3.1, h3.2, h1⟩
  rw [if_neg h3]
  by_cases h4 : f = 0 ∧ t = wrap32 (2 ^ Log2 (t % 2 ^ 32))
  · rw [if_pos h4]
    exact Or.inr (Or.inl ⟨rfl, h4.1, h4.2, h1⟩)
  rw [if_neg h4]
  refine Or.inr (Or.inr ⟨?_, Or.inr (Or.inr ⟨h3, h4⟩)⟩)
  by_cases h5 : t = wrap64 (f * 2)
  · rw [if_pos h5]
  rw [if_neg h5]
  by_cases h6 : t = wrap32 (wrap32 f * 2)
  · rw [if_pos h6]
  rw [if_neg h6]
  by_cases h7 : t = f / 2
  · rw [if_pos h7]
  rw [if_neg h7]
  by_cases h8 : t = wrap32 f / 2
  · rw [if_pos h8]
  rw [if_neg h8]
  by_cases h9 : t = wrap64 (f % 2 ^ 64 / 2)
  · rw [if_pos h9]
  rw [if_neg h9]
  by_cases h10 : t = f % 2 ^ 32 / 2
  · rw [if_pos h10]
  rw [if_neg h10]

/-- The bit index of a power-of-two pattern is not 0 once the `ADD` pattern has failed. -/
theorem pow_index_pos (t : Int) (k : Nat) (h1 : t ≠ wrap64 (0 + 1))
    (h : t = wrap64 (2 ^ k) ∨ t = wrap32 (2 ^ k)) : k ≠ 0 := by
  intro h0
  subst h0
  apply h1
  rcases h with h | h <;> rw [h] <;> decide

/-- C39: whenever `MatchIntConstSelectValues` returns a non-zero `bitIndex`, the
operator is `GT_LSH`, `falseVal` is 0 and `trueVal` is `1 << bitIndex` at the
matched width; every match with another operator, and every match with a
non-zero `falseVal`, has `bitIndex` 0; and a match by one of the two power-of-two
patterns always has a non-zero `bitIndex`.  So the operator is `GT_LSH` wherever
`TryTransformSelectToOrdinaryOps` finds `bitIndex > 0`. -/
theorem bitIndex_discriminates (trueVal falseVal : Int) :
    ((MatchIntConstSelectValues trueVal falseVal).bitIndex ≠ 0 →
      (MatchIntConstSelectValues trueVal falseVal).oper = GT_LSH ∧ falseVal = 0 ∧
      (((MatchIntConstSelectValues trueVal falseVal).type = TYP_LONG ∧
          trueVal = wrap64 (2 ^ (MatchIntConstSelectValues trueVal falseVal).bitIndex)) ∨
        ((MatchIntConstSelectValues trueVal falseVal).type = TYP_INT ∧
          trueVal = wrap32 (2 ^ (MatchIntConstSelectValues trueVal falseVal).bitIndex)))) ∧
    ((MatchIntConstSelectValues trueVal falseVal).oper ≠ GT_LSH →
      (MatchIntConstSelectValues trueVal falseVal).bitIndex = 0) ∧
    (falseVal ≠ 0 → (MatchIntConstSelectValues trueVal falseVal).bitIndex = 0) ∧
    (trueVal ≠ wrap64 (falseVal + 1) → trueVal ≠ wrap32 (wrap32 falseVal + 1) →
      falseVal = 0 →
      (trueVal = wrap64 (2 ^ Log2 (trueVal % 2 ^ 64)) ∨
        trueVal = wrap32 (2 ^ Log2 (trueVal % 2 ^ 32))) →
      (MatchIntConstSelectValues trueVal falseVal).oper = GT_LSH ∧
        (MatchIntConstSelectValues trueVal falseVal).bitIndex ≠ 0) := by
  rcases match_cases trueVal falseVal with ⟨hm, hf, ht, h1⟩ | ⟨hm, hf, ht, h1⟩ | ⟨hb, hc⟩
  · rw [hf] at h1
    have hk := pow_index_pos trueVal _ h1 (Or.inl ht)
    rw [hm]
    exact ⟨fun _ => ⟨rfl, hf, Or.inl ⟨rfl, ht⟩⟩, fun h => absurd rfl h,
      fun h => absurd hf h, fun _ _ _ _ => ⟨rfl, hk⟩⟩
  · rw [hf] at h1
    have hk := pow_index_pos trueVal _ h1 (Or.inr ht)
    rw [hm]
    exact ⟨fun _ => ⟨rfl, hf, Or.inr ⟨rfl, ht⟩⟩, fun h => absurd rfl h,
      fun h => absurd hf h, fun _ _ _ _ => ⟨rfl, hk⟩⟩
  · refine ⟨fun h => absurd hb h, fun _ => hb, fun _ => hb, ?_⟩
    intro h1 h2 hf hp
    exfalso
    rcases hc with hc | hc | ⟨hc3, hc4⟩
    · exact h1 hc
    · exact h2 hc
    · rcases hp with hp | hp
      · exact hc3 ⟨hf, hp⟩
      · exact hc4 ⟨hf, hp⟩

/-- The pair (8, 0) is matched as `LSH` at 64 bits with bit index 3. -/
theorem match_eight_zero :
    MatchIntConstSelectValues 8 0 = { oper := GT_LSH, type := TYP_LONG, bitIndex := 3 } := by
  have h : Log2 ((8 : Int) % 2 ^ 64) = 3 := log2_eq_of_bounds _ 3 (by decide) (by decide)
  unfold MatchIntConstSelectValues
  simp only [h]
  decide

/-- C39 on the pair (8, 0): `bitIndex` is 3 and 8 is `1 << 3`. -/
theorem bitIndex_discriminates_witness :
    (MatchIntConstSelectValues 8 0).bitIndex = 3 ∧
    (MatchIntConstSelectValues 8 0).oper = GT_LSH ∧ (0 : Int) = 0 ∧
    (((MatchIntConstSelectValues 8 0).type = TYP_LONG ∧
        (8 : Int) = wrap64 (2 ^ (MatchIntConstSelectValues 8 0).bitIndex)) ∨
      ((MatchIntConstSelectValues 8 0).type = TYP_INT ∧
        (8 : Int) = wrap32 (2 ^ (MatchIntConstSelectValues 8 0).bitIndex))) :=
  ⟨by rw [match_eight_zero],
    (bitIndex_discriminates 8 0).1 (by rw [match_eight_zero]; decide)⟩

/-! ### The assertions of the power-of-two branch -/

/-- The pair (0, 0) is matched as `falseVal << condition` at 64 bits. -/
theorem match_zero_zero :
    MatchIntConstSelectValues 0 0 = { oper := GT_LSH, type := TYP_LONG } := by
  have h0 : Log2 ((0 : Int) % 2 ^ 64) = 0 := by simp [Log2, Nat.log2]
  have h1 : Log2 ((0 : Int) % 2 ^ 32) = 0 := by simp [Log2, Nat.log2]
  unfold MatchIntConstSelectValues
  simp only [h0, h1]
  decide

/-- C38, evaluated.  The pair (0, 0) passes both `ADD` tests and enters the
`falseVal == 0` branch, where `Log2` of `trueVal` is 0 and the first
`assert(bitIndex > 0)` does not hold; the pair (0x100000001, 0) passes the first
assertion (bit index 32), is not a power of two, and fails the second, the low
32 bits of `trueVal` being 1.  The first pair is what the RISC-V 64 build hands
to the matcher for two `int` constants 0, for which it returns `LSH(0, cond)`. -/
theorem c38_assert_fails :
    (0 : Int) ≠ wrap64 (0 + 1) ∧ (0 : Int) ≠ wrap32 (wrap32 0 + 1) ∧
    Log2 ((0 : Int) % 2 ^ 64) = 0 ∧
    MatchIntConstSelectValues.asserts 0 0 = false ∧
    (4294967297 : Int) ≠ wrap64 (0 + 1) ∧ (4294967297 : Int) ≠ wrap32 (wrap32 0 + 1) ∧
    Log2 ((4294967297 : Int) % 2 ^ 64) = 32 ∧ (4294967297 : Int) ≠ wrap64 (2 ^ 32) ∧
    Log2 ((4294967297 : Int) % 2 ^ 32) = 0 ∧
    MatchIntConstSelectValues.asserts 4294967297 0 = false ∧
    TryTransformSelectToOrdinaryOps (exComp true) exDsc (some (exCns TYP_INT 0))
        (exCns TYP_INT 0)
      = some (some (.binary GT_LSH TYP_LONG 0 (exCns TYP_INT 0) exCond)) := by
  have h0 : Log2 ((0 : Int) % 2 ^ 64) = 0 := by simp [Log2, Nat.log2]
  have h1 : Log2 ((4294967297 : Int) % 2 ^ 64) = 32 :=
    log2_eq_of_bounds _ 32 (by decide) (by decide)
  have h2 : Log2 ((4294967297 : Int) % 2 ^ 32) = 0 :=
    log2_eq_of_bounds _ 0 (by decide) (by decide)
  refine ⟨by decide, by decide, h0, ?_, by decide, by decide, h1, by decide, h2, ?_, ?_⟩
  · unfold MatchIntConstSelectValues.asserts
    simp only [h0]
    decide
  · unfold MatchIntConstSelectValues.asserts
    simp only [h1, h2]
    decide
  · unfold TryTransformSelectToOrdinaryOps
    simp only [exCns, GenTree.IntegralValue, match_zero_zero]
    decide


/-! ### The cost boundary -/

/-- A found flow has main operator `GT_STORE_LCL_VAR`, or `GT_RETURN` with the else
flag set. -/
theorem findFlow_mainOper_else (g : Graph) (d d1 : OptIfConversionDsc)
    (hlim : d.m_checkLimit = 4) (h : IfConvertFindFlow g d = some d1)
    (hf : d1.m_flowFound = true) :
    d1.m_mainOper = GT_STORE_LCL_VAR ∨
      (d1.m_mainOper = GT_RETURN ∧ d1.m_doElseConversion = true) := by
  obtain ⟨ts, tb, last, -, -, hl, -, h4, h5, -, -⟩ := findFlow_arms g d d1 hlim h hf
  obtain ⟨hin, hsucc⟩ := armChain_last g _ _ _ ts last h4 hl
  cases hk : (g last).KindIs BBJ_RETURN with
  | false =>
    rw [hk] at h5
    exact Or.inl (by simpa using h5)
  | true =>
    rw [hk] at h5
    refine Or.inr ⟨by simpa using h5, ?_⟩
    have hnone : (g last).GetUniqueSucc = none := succ_none_of_return g last hk
    simp only [innerFlowOk, hnone, hk] at hin
    have hin1 := hin
    simp only [bne_self_eq_false, Bool.false_or, Bool.and_true, Bool.and_eq_true] at hin1
    exact hin1.1.1

/-- After the checks the main operator is `GT_STORE_LCL_VAR`, or `GT_RETURN` with the
else flag set. -/
theorem checks_mainOper (comp : Compiler) (g : Graph) (s : Nat) (d : OptIfConversionDsc)
    (h : optIfConvert.checks comp g s = some (some d)) :
    d.m_mainOper = GT_STORE_LCL_VAR ∨
      (d.m_mainOper = GT_RETURN ∧ d.m_doElseConversion = true) := by
  obtain ⟨d0, hflow, hval⟩ := checks_flow comp g s d h
  obtain ⟨-, -, hff0, -, -, -, -, dI, -, hlimI, hfind⟩ := flow_spec g s d0 hflow
  obtain ⟨-, -, hmain, hde⟩ := validate_frame comp g d0 d hval
  rw [hmain, hde]
  exact findFlow_mainOper_else g dI d0 hlimI hfind hff0

/-- After the checks both operation records hold a node with a value operand, and
the inputs of the select are these values. -/
theorem checks_selectInputs (comp : Compiler) (g : Graph) (s : Nat) (d : OptIfConversionDsc)
    (h : optIfConvert.checks comp g s = some (some d)) :
    ∃ tn tv, d.m_thenOperation.node = some tn ∧ tn.gtGetOp1 = some tv ∧
      (d.m_doElseConversion = false →
        optIfConvert.selectInputs d = some (genActualType tn.TypeGet, none, tv)) ∧
      (d.m_doElseConversion = true →
        ∃ en ev, d.m_elseOperation.node = some en ∧ en.gtGetOp1 = some ev ∧
          optIfConvert.selectInputs d = some (genActualType tn.TypeGet, some ev, tv)) := by
  obtain ⟨-, -, T, i, tn, hT, -, helse⟩ := checks_spec comp g s d h
  obtain ⟨tv, htv⟩ := eligible_value comp d tn hT.2.2.1
  have hnode : d.m_thenOperation.node = some tn := by rw [hT.1]
  refine ⟨tn, tv, hnode, htv, ?_, ?_⟩
  · intro hde
    have hmain : d.m_mainOper = GT_STORE_LCL_VAR := by
      rcases checks_mainOper comp g s d h with hm | ⟨-, hm⟩
      · exact hm
      · rw [hde] at hm; exact absurd hm (by simp)
    unfold optIfConvert.selectInputs
    simp [hnode, IfConvertOperation.value, htv, hmain, hde]
  · intro hde
    obtain ⟨E, j, en, hE, -, -, -⟩ := helse hde
    obtain ⟨ev, hev⟩ := eligible_value comp d en hE.2.2.1
    exact ⟨en, ev, by rw [hE.1], hev,
      selectInputs_else d T i tn E j en tv ev hT.1 hE.1 htv hev hde⟩

/-- On a target other than RISC-V 64 the select synthesis yields an expression
whenever its inputs are there. -/
theorem select_some_of_inputs (comp : Compiler) (d : OptIfConversionDsc) (ty : var_types)
    (ti : Option GenTree) (fi tn : GenTree)
    (hin : optIfConvert.selectInputs d = some (ty, ti, fi))
    (hnode : d.m_thenOperation.node = some tn) (hr : comp.TARGET_RISCV64 = false) :
    ∃ sel, optIfConvert.select comp d = some (some sel) := by
  have ht := tryTransform_of_not_riscv comp d hr ti fi
  unfold optIfConvert.select
  by_cases h1 : isIntConstPair ti fi 1 0 = true
  · rw [if_pos h1] at ht
    simp only [hin, hnode, ht]
    exact ⟨_, rfl⟩
  · rw [if_neg h1] at ht
    by_cases h2 : isIntConstPair ti fi 0 1 = true
    · rw [if_pos h2] at ht
      simp only [hin, hnode, ht]
      exact ⟨_, rfl⟩
    · rw [if_neg h2] at ht
      simp only [hin, hnode, ht, hr, Bool.false_eq_true, if_false]
      exact ⟨_, rfl⟩

/-- On a target other than RISC-V 64 the select synthesis of a checked attempt
yields an expression. -/
theorem select_some_of_not_riscv (comp : Compiler) (g : Graph) (s : Nat)
    (d : OptIfConversionDsc) (h : optIfConvert.checks comp g s = some (some d))
    (hr : comp.TARGET_RISCV64 = false) :
    ∃ sel, optIfConvert.select comp d = some (some sel) := by
  obtain ⟨tn, tv, hnode, -, hno, helse⟩ := checks_selectInputs comp g s d h
  cases hde : d.m_doElseConversion with
  | false => exact select_some_of_inputs comp d _ _ _ tn (hno hde) hnode hr
  | true =>
    obtain ⟨en, ev, -, -, hin⟩ := helse hde
    exact select_some_of_inputs comp d _ _ _ tn hin hnode hr


/-- The costs the gate compares, for a checked attempt: the cost of each arm is the
`GetCostEx` of its value, plus 2 for a store whose local is not a likely
register candidate; without an Else arm the Else cost is 0. -/
theorem checks_costs (comp : Compiler) (g : Graph) (s : Nat) (d : OptIfConversionDsc)
    (h : optIfConvert.checks comp g s = some (some d)) :
    ∃ tn tv tc ec, d.m_thenOperation.node = some tn ∧ tn.gtGetOp1 = some tv ∧
      optIfConvert.costs comp d = some (tc, ec) ∧
      tc = comp.GetCostEx tv +
        (if d.m_mainOper = GT_STORE_LCL_VAR ∧ comp.gtIsLikelyRegVar tn = false then 2 else 0) ∧
      (d.m_doElseConversion = false → ec = 0) ∧
      (d.m_doElseConversion = true →
        ∃ en ev, d.m_elseOperation.node = some en ∧ en.gtGetOp1 = some ev ∧
          ec = comp.GetCostEx ev +
            (if d.m_mainOper = GT_STORE_LCL_VAR ∧ comp.gtIsLikelyRegVar en = false then 2
              else 0)) := by
  obtain ⟨tn, tv, hnode, htv, -, helse⟩ := checks_selectInputs comp g s d h
  have hval : d.m_thenOperation.value = some tv := by
    simp [IfConvertOperation.value, hnode, htv]
  have hform : ∀ (n v : GenTree),
      (if d.m_mainOper = GT_STORE_LCL_VAR then
          comp.GetCostEx v + (if comp.gtIsLikelyRegVar n then 0 else 2)
        else comp.GetCostEx v) =
      comp.GetCostEx v +
        (if d.m_mainOper = GT_STORE_LCL_VAR ∧ comp.gtIsLikelyRegVar n = false then 2 else 0) := by
    intro n v
    by_cases hm : d.m_mainOper = GT_STORE_LCL_VAR <;>
      cases hl : comp.gtIsLikelyRegVar n <;> simp [hm, hl]
  cases hde : d.m_doElseConversion with
  | false =>
    refine ⟨tn, tv, comp.GetCostEx tv +
        (if d.m_mainOper = GT_STORE_LCL_VAR ∧ comp.gtIsLikelyRegVar tn = false then 2 else 0),
      0, hnode, htv, ?_, rfl, fun _ => rfl, fun hx => absurd hx (by simp)⟩
    unfold optIfConvert.costs
    simp only [hnode, hval, hde, Bool.false_eq_true, if_false, hform]
  | true =>
    obtain ⟨en, ev, hen, hev, -⟩ := helse hde
    have hvalE : d.m_elseOperation.value = some ev := by
      simp [IfConvertOperation.value, hen, hev]
    refine ⟨tn, tv, comp.GetCostEx tv +
        (if d.m_mainOper = GT_STORE_LCL_VAR ∧ comp.gtIsLikelyRegVar tn = false then 2 else 0),
      comp.GetCostEx ev +
        (if d.m_mainOper = GT_STORE_LCL_VAR ∧ comp.gtIsLikelyRegVar en = false then 2 else 0),
      hnode, htv, ?_, rfl, fun hx => absurd hx (by simp), fun _ => ⟨en, ev, hen, hev, rfl⟩⟩
    unfold optIfConvert.costs
    simp only [hnode, hval, hde, if_true, hen, hvalE, hform]


/-- C10, amended: for an attempt that passes the flow and statement checks and the
loop-exposure veto (its two operations sitting in different blocks), the cost of
an arm is the `GetCostEx` of its value, plus 2 for a store whose local is not a
likely register candidate.  With the cost stress mode off, a cost of 8 or more
on either arm makes `optIfConvert` return false.  With both costs at most 7, or
with the stress mode on, the attempt converts on every target other than
RISC-V 64; on RISC-V 64 it converts when the select synthesis yields an
expression and returns false when no peephole identity applies. -/
theorem cost_boundary (comp : Compiler) (g : Graph) (s : Nat) (d : OptIfConversionDsc)
    (hchecks : optIfConvert.checks comp g s = some (some d))
    (hloop : optIfConvert.loopOk comp g d = true)
    (hTE : d.m_doElseConversion = true →
      d.m_elseOperation.block ≠ d.m_thenOperation.block) :
    ∃ tn tv tc ec, d.m_thenOperation.node = some tn ∧ tn.gtGetOp1 = some tv ∧
      optIfConvert.costs comp d = some (tc, ec) ∧
      tc = comp.GetCostEx tv +
        (if d.m_mainOper = GT_STORE_LCL_VAR ∧ comp.gtIsLikelyRegVar tn = false then 2 else 0) ∧
      (d.m_doElseConversion = false → ec = 0) ∧
      (d.m_doElseConversion = true →
        ∃ en ev, d.m_elseOperation.node = some en ∧ en.gtGetOp1 = some ev ∧
          ec = comp.GetCostEx ev +
            (if d.m_mainOper = GT_STORE_LCL_VAR ∧ comp.gtIsLikelyRegVar en = false then 2
              else 0)) ∧
      (comp.stressCost = false → (8 ≤ tc ∨ 8 ≤ ec) →
        optIfConvert comp g s = some (false, g)) ∧
      ((comp.stressCost = true ∨ (tc ≤ 7 ∧ ec ≤ 7)) →
        (comp.TARGET_RISCV64 = false → ∃ g1, optIfConvert comp g s = some (true, g1)) ∧
        (∀ sel, optIfConvert.select comp d = some (some sel) →
          ∃ g1, optIfConvert comp g s = some (true, g1)) ∧
        (optIfConvert.select comp d = some none → optIfConvert comp g s = some (false, g))) := by
  obtain ⟨tn, tv, tc, ec, h1, h2, hcosts, h4, h5, h6⟩ := checks_costs comp g s d hchecks
  refine ⟨tn, tv, tc, ec, h1, h2, hcosts, h4, h5, h6, ?_, ?_⟩
  · intro hs hbig
    have hcost : optIfConvert.costOk comp d = some false := by
      unfold optIfConvert.costOk
      simp only [hs, Bool.not_false, if_true, hcosts, Option.some.injEq, Bool.not_eq_false',
        Bool.or_eq_true, decide_eq_true_eq]
      rcases hbig with h | h
      · left; omega
      · right; omega
    unfold optIfConvert
    simp only [hchecks, optIfConvert.profitable, hcost]
  · intro hok
    have hcost : optIfConvert.costOk comp d = some true := by
      unfold optIfConvert.costOk
      rcases hok with h | ⟨h1, h2⟩
      · simp [h]
      · cases comp.stressCost with
        | true => simp
        | false =>
          simp only [Bool.not_false, if_true, hcosts, Option.some.injEq, Bool.not_eq_true',
            Bool.or_eq_false_iff, decide_eq_false_iff_not, not_lt]
          exact ⟨h1, h2⟩
    have hconv : ∀ sel, optIfConvert.select comp d = some (some sel) →
        ∃ g1, optIfConvert comp g s = some (true, g1) := by
      intro sel hsel
      obtain ⟨g1, hg1⟩ := commit_total comp g s d sel hchecks hTE
      exact ⟨g1, optIfConvert_of_gates comp g s d hchecks hcost hloop sel g1 hsel hg1⟩
    refine ⟨?_, hconv, ?_⟩
    · intro hr
      obtain ⟨sel, hsel⟩ := select_some_of_not_riscv comp g s d hchecks hr
      exact hconv sel hsel
    · intro hsel
      unfold optIfConvert
      simp only [hchecks, optIfConvert.profitable, hcost, hloop, hsel]

/-- C10, amended, on `exStoreDiamond` with unit costs on a target other than
RISC-V 64: both arm costs are 1 and the attempt converts. -/
theorem cost_boundary_witness :
    optIfConvert.checks (exComp false) exStoreDiamond 0 = some (some exDscChecked) ∧
    optIfConvert.loopOk (exComp false) exStoreDiamond exDscChecked = true ∧
    optIfConvert.costs (exComp false) exDscChecked = some (1, 1) ∧
    ∃ g1, optIfConvert (exComp false) exStoreDiamond 0 = some (true, g1) := by
  obtain ⟨tn, tv, tc, ec, -, -, hcosts, -, -, -, -, hpass⟩ :=
    cost_boundary (exComp false) exStoreDiamond 0 exDscChecked (by decide) (by decide)
      (fun _ => by decide)
  have hc : optIfConvert.costs (exComp false) exDscChecked = some (1, 1) := by decide
  rw [hc] at hcosts
  simp only [Option.some.injEq, Prod.mk.injEq] at hcosts
  obtain ⟨rfl, rfl⟩ := hcosts
  exact ⟨by decide, by decide, hc, (hpass (Or.inr ⟨by decide, by decide⟩)).1 rfl⟩


/-! ### An aborted attempt leaves the graph as it was -/

/-- A call of `TryTransformSelectOperOrLocal` that returns null has written nothing. -/
theorem inPlace_operOrLocal_null (g : Graph) (m_cond tr fr : InPlace.NodeRef) (g1 : Graph)
    (h : InPlace.TryTransformSelectOperOrLocal g m_cond tr fr = some (none, g1)) : g1 = g := by
  unfold InPlace.TryTransformSelectOperOrLocal at h
  split at h
  · rename_i ti fi cond h1 h2 h3
    dsimp only at h
    cases hrev : OperIsAnyLocal fi.OperGet <;>
      simp only [hrev, Bool.not_false, Bool.not_true, if_true, if_false,
        Bool.false_eq_true] at h
    · split at h
      · split at h
        · rename_i a b ha hb
          cases hsw : (OperIsCommutative fi.OperGet && !b.IsIntegralConst) <;>
            simp only [hsw, if_true, if_false, Bool.false_eq_true] at h <;>
            (repeat' split at h) <;>
            first | (simp at h; exact h.symm) | (simp at h)
        · simp at h
      · simp at h
        exact h.symm
    · split at h
      · split at h
        · rename_i a b ha hb
          cases hsw : (OperIsCommutative ti.OperGet && !b.IsIntegralConst) <;>
            simp only [hsw, if_true, if_false, Bool.false_eq_true] at h <;>
            (repeat' split at h) <;>
            first | (simp at h; exact h.symm) | (simp at h)
        · simp at h
      · simp at h
        exact h.symm
  · simp at h

/-- A call of `TryTransformSelectOperOrZero` that returns null has written nothing. -/
theorem inPlace_operOrZero_null (g : Graph) (m_cond tr fr : InPlace.NodeRef) (g1 : Graph)
    (h : InPlace.TryTransformSelectOperOrZero g m_cond tr fr = some (none, g1)) : g1 = g := by
  unfold InPlace.TryTransformSelectOperOrZero at h
  split at h
  · rename_i ti fi cond h1 h2 h3
    dsimp only at h
    cases hrev : fi.IsIntegralConst <;>
      simp only [hrev, Bool.not_false, Bool.not_true, if_true, if_false,
        Bool.false_eq_true] at h
    · split at h
      · split at h
        · rename_i a b ha hb
          cases hsw : (OperIsCommutative fi.OperGet && !a.IsIntegralConst) <;>
            simp only [hsw, if_true, if_false, Bool.false_eq_true] at h <;>
            (repeat' split at h) <;>
            first | (simp at h; exact h.symm) | (simp at h)
        · simp at h
      · simp at h
        exact h.symm
    · split at h
      · split at h
        · rename_i a b ha hb
          cases hsw : (OperIsCommutative ti.OperGet && !a.IsIntegralConst) <;>
            simp only [hsw, if_true, if_false, Bool.false_eq_true] at h <;>
            (repeat' split at h) <;>
            first | (simp at h; exact h.symm) | (simp at h)
        · simp at h
      · simp at h
        exact h.symm
  · simp at h

/-- The two operation rewrites, tried one after the other without a result, have
written nothing. -/
theorem inPlace_opers_null (g : Graph) (m_cond tr fr : InPlace.NodeRef) (g1 : Graph)
    (h : InPlace.TryTransformSelectToOrdinaryOps.opers g m_cond tr fr = some (none, g1)) : g1 = g := by
  unfold InPlace.TryTransformSelectToOrdinaryOps.opers at h
  split at h
  · simp at h
  · simp at h
  · rename_i g2 h1
    rw [inPlace_operOrZero_null g2 m_cond tr fr g1 h]
    exact inPlace_operOrLocal_null g m_cond tr fr g2 h1

/-- A call of `TryTransformSelectToOrdinaryOps` that returns null has written nothing. -/
theorem inPlace_tryTransform_null (comp : Compiler) (g : Graph) (m_cond thenNode : InPlace.NodeRef)
    (tr : Option InPlace.NodeRef) (fr : InPlace.NodeRef) (g1 : Graph)
    (h : InPlace.TryTransformSelectToOrdinaryOps comp g m_cond thenNode tr fr = some (none, g1)) :
    g1 = g := by
  unfold InPlace.TryTransformSelectToOrdinaryOps at h
  cases tr with
  | none =>
    simp only at h
    split at h
    · exact inPlace_opers_null g m_cond thenNode fr g1 h
    · simp at h
      exact h.symm
  | some r =>
    simp only at h
    split at h
    · rename_i ti fi cond h1 h2 h3
      by_cases hc : (ti.IsIntegralConst && fi.IsIntegralConst) = true
      · rw [if_pos hc] at h
        by_cases hb1 : (ti.TypeIs TYP_INT && fi.TypeIs TYP_INT && ti.IntegralValue == 1 &&
            fi.IntegralValue == 0) = true
        · rw [if_pos hb1] at h
          simp at h
        rw [if_neg hb1] at h
        by_cases hb2 : (ti.TypeIs TYP_INT && fi.TypeIs TYP_INT && ti.IntegralValue == 0 &&
            fi.IntegralValue == 1) = true
        · rw [if_pos hb2] at h
          split at h <;> simp at h
        rw [if_neg hb2] at h
        by_cases hr : comp.TARGET_RISCV64 = true
        · rw [if_pos hr] at h
          cases hm : (MatchIntConstSelectValues ti.IntegralValue fi.IntegralValue).isMatched <;>
            simp only [hm, Bool.not_false, Bool.not_true, if_true, if_false,
              Bool.false_eq_true] at h
          · by_cases hm2 :
                (MatchIntConstSelectValues fi.IntegralValue ti.IntegralValue).isMatched = true
            · rw [if_pos hm2] at h
              split at h
              · simp at h
              · split at h <;> simp at h
            · rw [if_neg hm2] at h
              simp at h
              exact h.symm
          · split at h <;> simp at h
        · rw [if_neg hr] at h
          simp at h
          exact h.symm
      · rw [if_neg hc] at h
        split at h
        · exact inPlace_opers_null g m_cond r fr g1 h
        · simp at h
          exact h.symm
    · simp at h

/-- A select synthesis that ends in `return false` has written nothing. -/
theorem inPlace_select_null (comp : Compiler) (g : Graph) (d : OptIfConversionDsc) (g1 : Graph)
    (h : InPlace.select comp g d = some (none, g1)) : g1 = g := by
  unfold InPlace.select at h
  split at h
  · dsimp only at h
    split at h
    · split at h
      · simp at h
      · simp at h
      · rename_i g2 h1
        have e := inPlace_tryTransform_null comp g _ _ _ _ g2 h1
        subst e
        split at h
        · simp at h
          exact h.symm
        · split at h <;> simp at h
    · simp at h
  · simp at h

/-- An attempt with the synthesis on the nodes that returns false returns the graph
it was given. -/
theorem inPlace_false_state (comp : Compiler) (g g1 : Graph) (startBlock : Nat)
    (h : InPlace.optIfConvert comp g startBlock = some (false, g1)) : g1 = g := by
  unfold InPlace.optIfConvert at h
  split at h
  · simp at h
  · simp at h
    exact h.symm
  · split at h
    · simp at h
    · simp at h
      exact h.symm
    · split at h
      · simp at h
      · rename_i g2 h1
        simp only [Option.some.injEq, Prod.mk.injEq, true_and] at h
        subst h
        exact inPlace_select_null comp g _ g2 h1
      · split at h <;> simp at h



/-! ### The synthesis on the nodes returns the expression of the synthesis on values -/

/-- `gtReverseCond` on a node returns the reversed condition. -/
theorem inPlace_gtReverseCond (g : Graph) (c : InPlace.NodeRef) (t : GenTree)
    (h : InPlace.load g c = some t) :
    ∃ g1, InPlace.gtReverseCond g c = some (gtReverseCond t, g1) := by
  unfold InPlace.gtReverseCond
  rw [h]
  dsimp only
  split
  · exact ⟨_, rfl⟩
  · exact ⟨_, rfl⟩

/-- `TryTransformSelectOperOrLocal` on the nodes returns what it returns on values. -/
theorem inPlace_operOrLocal_value (g : Graph) (d : OptIfConversionDsc)
    (c tr fr : InPlace.NodeRef) (ti fi : GenTree)
    (h1 : InPlace.load g tr = some ti) (h2 : InPlace.load g fr = some fi)
    (h3 : InPlace.load g c = some d.m_cond) :
    (InPlace.TryTransformSelectOperOrLocal g c tr fr).map Prod.fst =
      TryTransformSelectOperOrLocal d ti fi := by
  obtain ⟨gr, hrc⟩ := inPlace_gtReverseCond g c d.m_cond h3
  unfold InPlace.TryTransformSelectOperOrLocal TryTransformSelectOperOrLocal
  simp only [h1, h2, h3]
  cases hrev : OperIsAnyLocal fi.OperGet <;>
    simp only [hrev, Bool.not_false, Bool.not_true, if_true, if_false, Bool.false_eq_true, hrc]
  · split
    · cases ha : fi.gtGetOp1 <;> cases hb : fi.gtGetOp2 <;> simp only [Option.map_none']
      rename_i a b
      cases hsw : (OperIsCommutative fi.OperGet && !b.IsIntegralConst) <;>
        simp only [hsw, if_true, if_false, Bool.false_eq_true] <;>
        split_ifs <;> rfl
    · rfl
  · split
    · cases ha : ti.gtGetOp1 <;> cases hb : ti.gtGetOp2 <;> simp only [Option.map_none']
      rename_i a b
      cases hsw : (OperIsCommutative ti.OperGet && !b.IsIntegralConst) <;>
        simp only [hsw, if_true, if_false, Bool.false_eq_true] <;>
        split_ifs <;> rfl
    · rfl

/-- `TryTransformSelectOperOrZero` on the nodes returns what it returns on values. -/
theorem inPlace_operOrZero_value (g : Graph) (d : OptIfConversionDsc)
    (c tr fr : InPlace.NodeRef) (ti fi : GenTree)
    (h1 : InPlace.load g tr = some ti) (h2 : InPlace.load g fr = some fi)
    (h3 : InPlace.load g c = some d.m_cond) :
    (InPlace.TryTransformSelectOperOrZero g c tr fr).map Prod.fst =
      TryTransformSelectOperOrZero d ti fi := by
  obtain ⟨gr, hrc⟩ := inPlace_gtReverseCond g c d.m_cond h3
  unfold InPlace.TryTransformSelectOperOrZero TryTransformSelectOperOrZero
  simp only [h1, h2, h3]
  cases hrev : fi.IsIntegralConst <;>
    simp only [hrev, Bool.not_false, Bool.not_true, if_true, if_false, Bool.false_eq_true, hrc]
  · split
    · cases ha : fi.gtGetOp1 <;> cases hb : fi.gtGetOp2 <;> simp only [Option.map_none']
      rename_i a b
      cases hsw : (OperIsCommutative fi.OperGet && !a.IsIntegralConst) <;>
        simp only [hsw, if_true, if_false, Bool.false_eq_true] <;>
        split_ifs <;> rfl
    · rfl
  · split
    · cases ha : ti.gtGetOp1 <;> cases hb : ti.gtGetOp2 <;> simp only [Option.map_none']
      rename_i a b
      cases hsw : (OperIsCommutative ti.OperGet && !a.IsIntegralConst) <;>
        simp only [hsw, if_true, if_false, Bool.false_eq_true] <;>
        split_ifs <;> rfl
    · rfl

/-- The two operation rewrites on the nodes return what they return on values. -/
theorem inPlace_opers_value (g : Graph) (d : OptIfConversionDsc)
    (c tr fr : InPlace.NodeRef) (ti fi : GenTree)
    (h1 : InPlace.load g tr = some ti) (h2 : InPlace.load g fr = some fi)
    (h3 : InPlace.load g c = some d.m_cond) :
    (InPlace.TryTransformSelectToOrdinaryOps.opers g c tr fr).map Prod.fst =
      match TryTransformSelectOperOrLocal d ti fi with
      | none => none
      | some (some transformed) => some (some transformed)
      | some none => TryTransformSelectOperOrZero d ti fi := by
  have hv := inPlace_operOrLocal_value g d c tr fr ti fi h1 h2 h3
  unfold InPlace.TryTransformSelectToOrdinaryOps.opers
  cases hx : InPlace.TryTransformSelectOperOrLocal g c tr fr with
  | none =>
    rw [hx] at hv
    simp only [Option.map_none'] at hv
    rw [← hv]
    rfl
  | some r =>
    obtain ⟨res, g1⟩ := r
    rw [hx] at hv
    simp only [Option.map_some'] at hv
    rw [← hv]
    cases res with
    | some t => rfl
    | none =>
      have e := inPlace_operOrLocal_null g c tr fr g1 hx
      subst e
      exact inPlace_operOrZero_value g1 d c tr fr ti fi h1 h2 h3

/-- `TryTransformSelectToOrdinaryOps` on the nodes returns what it returns on values. -/
theorem inPlace_tryTransform_value (comp : Compiler) (g : Graph) (d : OptIfConversionDsc)
    (c thenNode fr : InPlace.NodeRef) (tr : Option InPlace.NodeRef) (ti : Option GenTree)
    (fi tn : GenTree) (h2 : InPlace.load g fr = some fi)
    (h3 : InPlace.load g c = some d.m_cond)
    (h4 : InPlace.load g thenNode = some tn) (h5 : d.m_thenOperation.node = some tn)
    (h1 : match tr, ti with
      | some r, some t => InPlace.load g r = some t
      | none, none => True
      | _, _ => False) :
    (InPlace.TryTransformSelectToOrdinaryOps comp g c thenNode tr fr).map Prod.fst =
      TryTransformSelectToOrdinaryOps comp d ti fi := by
  obtain ⟨gr, hrc⟩ := inPlace_gtReverseCond g c d.m_cond h3
  unfold InPlace.TryTransformSelectToOrdinaryOps TryTransformSelectToOrdinaryOps
  cases tr with
  | none =>
    cases ti with
    | some t => exact absurd h1 (by simp)
    | none =>
      simp only [h5]
      split
      · exact inPlace_opers_value g d c thenNode fr tn fi h4 h2 h3
      · rfl
  | some r =>
    cases ti with
    | none => exact absurd h1 (by simp)
    | some t =>
      simp only at h1
      simp only [h1, h2, h3, hrc]
      by_cases hc : (t.IsIntegralConst && fi.IsIntegralConst) = true
      · rw [if_pos hc, if_pos hc]
        by_cases hb1 : (t.TypeIs TYP_INT && fi.TypeIs TYP_INT && t.IntegralValue == 1 &&
            fi.IntegralValue == 0) = true
        · rw [if_pos hb1, if_pos hb1]
          rfl
        rw [if_neg hb1, if_neg hb1]
        by_cases hb2 : (t.TypeIs TYP_INT && fi.TypeIs TYP_INT && t.IntegralValue == 0 &&
            fi.IntegralValue == 1) = true
        · rw [if_pos hb2, if_pos hb2]
          rfl
        rw [if_neg hb2, if_neg hb2]
        by_cases hr : comp.TARGET_RISCV64 = true
        · rw [if_pos hr, if_pos hr]
          cases hm : (MatchIntConstSelectValues t.IntegralValue fi.IntegralValue).isMatched <;>
            simp only [hm, Bool.not_false, Bool.not_true, if_true, if_false,
              Bool.false_eq_true] <;>
            split_ifs <;> rfl
        · rw [if_neg hr, if_neg hr]
          rfl
      · rw [if_neg hc, if_neg hc]
        split
        · exact inPlace_opers_value g d c r fr t fi h1 h2 h3
        · rfl

/-- The root of a statement, read through a pointer. -/
theorem inPlace_load_root (g : Graph) (b i : Nat) (e : GenTree)
    (h : (g b).bbStmtList[i]? = some e) : InPlace.load g ⟨b, i, []⟩ = some e := by
  simp [InPlace.load, h, InPlace.subtree]

/-- The first operand of the root of a statement, read through a pointer. -/
theorem inPlace_load_op1 (g : Graph) (b i : Nat) (e : GenTree)
    (h : (g b).bbStmtList[i]? = some e) : InPlace.load g ⟨b, i, [0]⟩ = e.gtGetOp1 := by
  simp only [InPlace.load, h, InPlace.subtree]
  cases e.gtGetOp1 <;> rfl

/-- The select synthesis on the nodes returns the expression of the synthesis on
values, for a descriptor whose records name statements of the graph and whose
condition is the operand of the last statement of the start block. -/
theorem inPlace_select_value (comp : Compiler) (g : Graph) (d : OptIfConversionDsc)
    (T i : Nat) (tn tv last : GenTree)
    (hop : d.m_thenOperation = { block := some T, stmt := some i, node := some tn })
    (hst : (g T).bbStmtList[i]? = some tn) (htv : tn.gtGetOp1 = some tv)
    (hlast : (g d.m_startBlock).bbStmtList.getLast? = some last)
    (hcond : last.gtGetOp1 = some d.m_cond)
    (hno : d.m_doElseConversion = false →
      d.m_mainOper = GT_STORE_LCL_VAR ∧
        optIfConvert.selectInputs d = some (genActualType tn.TypeGet, none, tv))
    (helse : d.m_doElseConversion = true →
      ∃ E j en ev, d.m_elseOperation = { block := some E, stmt := some j, node := some en } ∧
        (g E).bbStmtList[j]? = some en ∧ en.gtGetOp1 = some ev ∧
        optIfConvert.selectInputs d = some (genActualType tn.TypeGet, some ev, tv)) :
    (InPlace.select comp g d).map Prod.fst = optIfConvert.select comp d := by
  have hnode : d.m_thenOperation.node = some tn := by rw [hop]
  have hl1 : InPlace.load g ⟨T, i, []⟩ = some tn := inPlace_load_root g T i tn hst
  have hl2 : InPlace.load g ⟨T, i, [0]⟩ = some tv := by
    rw [inPlace_load_op1 g T i tn hst, htv]
  have hl3 : InPlace.load g
      ⟨d.m_startBlock, (g d.m_startBlock).bbStmtList.length - 1, [0]⟩ = some d.m_cond := by
    rw [inPlace_load_op1 g _ _ last (by rw [← List.getLast?_eq_getElem?]; exact hlast), hcond]
  -- the two syntheses on the inputs of the attempt
  have key : ∀ (tr : Option InPlace.NodeRef) (ti : Option GenTree),
      (match tr, ti with
        | some r, some t => InPlace.load g r = some t
        | none, none => True
        | _, _ => False) →
      optIfConvert.selectInputs d = some (genActualType tn.TypeGet, ti, tv) →
      (match InPlace.TryTransformSelectToOrdinaryOps comp g
            ⟨d.m_startBlock, (g d.m_startBlock).bbStmtList.length - 1, [0]⟩ ⟨T, i, []⟩ tr
            ⟨T, i, [0]⟩ with
        | none => none
        | some (some select, g1) => some (some select, g1)
        | some (none, g1) =>
          if comp.TARGET_RISCV64 then some (none, g1)
          else
            match InPlace.load g1
                ⟨d.m_startBlock, (g d.m_startBlock).bbStmtList.length - 1, [0]⟩,
              (match tr with
                | some r => InPlace.load g1 r
                | none => some (gtNewLclVarNode tn.GetLclNum tn.TypeGet)),
              InPlace.load g1 ⟨T, i, [0]⟩ with
            | some cond, some t, some f =>
              some (some (gtNewConditionalNode GT_SELECT cond t f (genActualType tn.TypeGet)),
                g1)
            | _, _, _ => none).map Prod.fst = optIfConvert.select comp d := by
    intro tr ti hti hin
    have hv := inPlace_tryTransform_value comp g d _ ⟨T, i, []⟩ ⟨T, i, [0]⟩ tr ti tv tn hl2 hl3
      hl1 hnode hti
    unfold optIfConvert.select
    simp only [hin, hnode]
    rw [← hv]
    cases hx : InPlace.TryTransformSelectToOrdinaryOps comp g
        ⟨d.m_startBlock, (g d.m_startBlock).bbStmtList.length - 1, [0]⟩ ⟨T, i, []⟩ tr
        ⟨T, i, [0]⟩ with
    | none => rfl
    | some r =>
      obtain ⟨res, g1⟩ := r
      cases res with
      | some sel => rfl
      | none =>
        have e := inPlace_tryTransform_null comp g _ _ _ _ g1 hx
        subst e
        simp only [Option.map_some']
        split
        · rfl
        · simp only [hl3, hl2]
          cases tr with
          | none =>
            cases ti with
            | none => rfl
            | some t => exact absurd hti (by simp)
          | some r =>
            cases ti with
            | none => exact absurd hti (by simp)
            | some t =>
              simp only at hti
              simp only [hti]
              rfl
  unfold InPlace.select
  simp only [hop, InPlace.NodeRef.op1, List.nil_append, hl1]
  cases hde : d.m_doElseConversion with
  | false =>
    obtain ⟨hmain, hin⟩ := hno hde
    simp only [hmain, hde, and_self, if_true]
    exact key none none trivial hin
  | true =>
    obtain ⟨E, j, en, ev, hopE, hstE, hev, hin⟩ := helse hde
    simp only [hde, Bool.true_eq_false, and_false, if_false, hopE]
    exact key (some ⟨E, j, [0]⟩) (some ev)
      (by simp only; rw [inPlace_load_op1 g E j en hstE, hev]) hin

/-- After the checks the select synthesis on the nodes returns the expression of the
synthesis on values. -/
theorem inPlace_select_checked (comp : Compiler) (g : Graph) (s : Nat) (d : OptIfConversionDsc)
    (h : optIfConvert.checks comp g s = some (some d)) :
    (InPlace.select comp g d).map Prod.fst = optIfConvert.select comp d := by
  obtain ⟨hs, ⟨last, hlast, -, hcond⟩, T, i, tn, hT, -, helse⟩ := checks_spec comp g s d h
  obtain ⟨tn1, tv, hnode, htv, hno, helse1⟩ := checks_selectInputs comp g s d h
  have e1 : tn1 = tn := by
    rw [hT.1] at hnode
    exact (Option.some.inj hnode).symm
  subst e1
  rw [← hs] at hlast
  refine inPlace_select_value comp g d T i tn1 tv last hT.1 hT.2.1 htv hlast hcond ?_ ?_
  · intro hde
    refine ⟨?_, hno hde⟩
    rcases checks_mainOper comp g s d h with hm | ⟨-, hm⟩
    · exact hm
    · rw [hde] at hm
      exact absurd hm (by simp)
  · intro hde
    obtain ⟨E, j, en, hE, -, -, -⟩ := helse hde
    obtain ⟨en1, ev, hen, hev, hin⟩ := helse1 hde
    have e2 : en1 = en := by
      rw [hE.1] at hen
      exact (Option.some.inj hen).symm
    subst e2
    exact ⟨E, j, en1, ev, hE.1, hE.2.1, hev, hin⟩

/-- The attempt with the synthesis on the nodes returns false exactly when the
attempt on trees as values does. -/
theorem inPlace_false_iff (comp : Compiler) (g : Graph) (s : Nat) :
    InPlace.optIfConvert comp g s = some (false, g) ↔ optIfConvert comp g s = some (false, g) := by
  unfold InPlace.optIfConvert optIfConvert
  cases hc : optIfConvert.checks comp g s with
  | none => simp
  | some r =>
    cases r with
    | none => simp
    | some d =>
      simp only
      cases hp : optIfConvert.profitable comp g d with
      | none => simp
      | some b =>
        cases b with
        | false => simp
        | true =>
          simp only
          have hv := inPlace_select_checked comp g s d hc
          cases hx : InPlace.select comp g d with
          | none =>
            rw [hx] at hv
            simp only [Option.map_none'] at hv
            rw [← hv]
          | some r =>
            obtain ⟨res, g1⟩ := r
            rw [hx] at hv
            simp only [Option.map_some'] at hv
            rw [← hv]
            cases res with
            | none =>
              have e := inPlace_select_null comp g d g1 hx
              subst e
              simp
            | some sel =>
              simp only
              constructor
              · intro hh
                split at hh <;> simp at hh
              · intro hh
                split at hh <;> simp at hh

/-- C2: an attempt that returns false leaves the graph as it was.  The attempt is
`optIfConvert` with the select synthesis working on the nodes of the graph, so
that what `gtReverseCond`, the operation rewrites and `SetIntegralValue` write is
part of the graph the call returns: whenever the result is false, at the flow,
statement, kind and slot, cost or loop-exposure check or because no peephole
identity applies, every block of that graph, with its kind, its edges, its
statement list and the trees in it, the branch condition included, is what it
was before the call; and the attempt on trees as values returns false with the
same graph. -/
theorem aborted_attempt_unchanged (comp : Compiler) (g g1 : Graph) (startBlock : Nat)
    (h : InPlace.optIfConvert comp g startBlock = some (false, g1)) :
    g1 = g ∧ optIfConvert comp g startBlock = some (false, g) := by
  have e := inPlace_false_state comp g g1 startBlock h
  subst e
  exact ⟨rfl, (inPlace_false_iff comp g1 startBlock).mp h⟩

/-- The select synthesis on the nodes does write to the graph when it finds an
expression.  On scenario D of the RISC-V 64 build (`x = x + 1`)
`TryTransformSelectOperOrLocal` reverses the branch condition in its node and
overwrites the second operand of the addition, so the graph the synthesis
leaves differs from the one it was given in the statements of blocks 0 and 1;
the attempt then ends as the attempt on trees as values does. -/
theorem inPlace_scenarioD :
    (InPlace.select (exComp true) exScenarioD
        (exDscIfThen (exStore 1 TYP_INT (.binary GT_ADD TYP_INT 0 exLclX (exCns TYP_INT 1))))).map
        (fun r => ((r.2 0).bbStmtList, (r.2 1).bbStmtList))
      = some ([.unary GT_JTRUE TYP_VOID 0 0 (gtReverseCond exCond)],
          [exStore 1 TYP_INT (.binary GT_ADD TYP_INT 0 exLclX (gtReverseCond exCond))]) ∧
    (exScenarioD 0).bbStmtList = [.unary GT_JTRUE TYP_VOID 0 0 exCond] ∧
    (exScenarioD 1).bbStmtList =
      [exStore 1 TYP_INT (.binary GT_ADD TYP_INT 0 exLclX (exCns TYP_INT 1))] ∧
    gtReverseCond exCond ≠ exCond ∧
    (InPlace.optIfConvert (exComp true) exScenarioD 0).map
        (fun r => (r.1, (r.2 0).bbStmtList, (r.2 1).bbStmtList, (r.2 2).bbStmtList))
      = some (true,
          [exNop, exStore 1 TYP_INT (.binary GT_ADD TYP_INT 0 exLclX (gtReverseCond exCond))],
          [], []) ∧
    (optIfConvert (exComp true) exScenarioD 0).map
        (fun r => (r.1, (r.2 0).bbStmtList, (r.2 1).bbStmtList, (r.2 2).bbStmtList))
      = some (true,
          [exNop, exStore 1 TYP_INT (.binary GT_ADD TYP_INT 0 exLclX (gtReverseCond exCond))],
          [], []) := by
  refine ⟨by decide, by decide, by decide, by decide, by decide, by decide⟩

/-- C2 on scenario A of the RISC-V 64 build (`if (x < 7) a = 5;`): the attempt passes
the checks and the two vetoes, no peephole identity applies, the attempt returns
false, and the graph it leaves is scenario A. -/
theorem aborted_attempt_unchanged_witness :
    optIfConvert.checks (exComp true) exScenarioA 0 = some (some exDscA) ∧
    optIfConvert.profitable (exComp true) exScenarioA exDscA = some true ∧
    (InPlace.select (exComp true) exScenarioA exDscA).map Prod.fst = some none ∧
    InPlace.optIfConvert (exComp true) exScenarioA 0 = some (false, exScenarioA) := by
  have hb : (InPlace.optIfConvert (exComp true) exScenarioA 0).map Prod.fst = some false := by
    decide
  obtain ⟨g1, hg1⟩ : ∃ g1, InPlace.optIfConvert (exComp true) exScenarioA 0 = some (false, g1) := by
    cases hx : InPlace.optIfConvert (exComp true) exScenarioA 0 with
    | none => rw [hx] at hb; exact absurd hb (by simp)
    | some r =>
      obtain ⟨b, g1⟩ := r
      rw [hx] at hb
      simp only [Option.map_some', Option.some.injEq] at hb
      subst hb
      exact ⟨g1, rfl⟩
  have e := (aborted_attempt_unchanged (exComp true) exScenarioA g1 0 hg1).1
  rw [e] at hg1
  exact ⟨by decide, by decide, by decide, hg1⟩

end IfConversion
